import Mathlib

/-!
Unscented Kalman filter of Tudat: embedding and verified properties.

The embedding follows `Tudat/Mathematics/Filters/unscentedKalmanFilter.h`.

* `DependentVariableType` is a type parameter `D` (the class is a template over it).  The
  arithmetic it needs is taken from type classes, so the same definitions run over an exact
  field (where the algebraic identities of the filter are proved) and over a model of IEEE
  doubles that has a NaN (where the placeholder check of the constructor is evaluated).
* Eigen vectors and matrices are functions on `Fin k`; the run-time dimensions
  `stateDimension_` and `measurementDimension_` are the parameters `n` and `m`.
* `std::map` is a list of key/value pairs in ascending key order.
* A member function is a function from the members it reads to the members it writes; code
  that can throw returns the exception next to the state it leaves behind.
-/

namespace tudat

namespace filters

/-- Message carried by a thrown C++ exception. -/
abbrev Exception := String

/-! ## Containers -/

/-- Model of `std::map`: the entries in ascending key order. -/
abbrev StdMap (κ V : Type) := List (κ × V)

/-- Model of `map[ key ] = value`: an equal key is overwritten, a new key is inserted at its
ordered position. -/
def mapAssign {κ V : Type} [LinearOrder κ] : StdMap κ V → κ → V → StdMap κ V
  | [], k, v => [(k, v)]
  | (k', v') :: rest, k, v =>
    if k < k' then (k, v) :: (k', v') :: rest
    else if k = k' then (k, v) :: rest
    else (k', v') :: mapAssign rest k v

/-- Model of `map.find( key )`: the value stored under the key, if any. -/
def mapFind {κ V : Type} [DecidableEq κ] : StdMap κ V → κ → Option V
  | [], _ => none
  | (k', v') :: rest, k => if k = k' then some v' else mapFind rest k

/-- Keys of a map, in iteration order. -/
def mapKeys {κ V : Type} (mp : StdMap κ V) : List κ := mp.map Prod.fst

/-- Invariant of `std::map`: the keys are strictly ascending. -/
def mapOrdered {κ V : Type} [LinearOrder κ] (mp : StdMap κ V) : Prop :=
  (mapKeys mp).Pairwise (fun a b => a < b)

/-- Eigen column vector with `k` rows. -/
abbrev DependentVector (D : Type) (k : ℕ) := Fin k → D

/-- Eigen matrix with `r` rows and `c` columns. -/
abbrev DependentMatrix (D : Type) (r c : ℕ) := Matrix (Fin r) (Fin c) D

/-- Model of `v.segment( start, len )` read as a value. -/
def segment {D : Type} {k : ℕ} (v : DependentVector D k) (start len : ℕ) (h : start + len ≤ k) :
    DependentVector D len :=
  fun i => v ⟨start + i.val, by have := i.isLt; omega⟩

/-- Model of `v.segment( start, len ) = w`. -/
def setSegment {D : Type} {k : ℕ} (v : DependentVector D k) (start : ℕ) {len : ℕ}
    (w : DependentVector D len) : DependentVector D k :=
  fun i => if h : start ≤ i.val ∧ i.val < start + len then w ⟨i.val - start, by omega⟩ else v i

/-- Model of `M.block( r0, c0, r, c ) = B`. -/
def setBlock {D : Type} {k : ℕ} (M : DependentMatrix D k k) (r0 c0 : ℕ) {r c : ℕ}
    (B : DependentMatrix D r c) : DependentMatrix D k k :=
  fun i j =>
    if h : (r0 ≤ i.val ∧ i.val < r0 + r) ∧ (c0 ≤ j.val ∧ j.val < c0 + c) then
      B ⟨i.val - r0, by omega⟩ ⟨j.val - c0, by omega⟩
    else M i j

/-! ## Enumerations -/

/-- Enumeration for value of constant parameters. -/
inductive ConstantParameterIndices
  | alpha_index
  | beta_index
  | gamma_index
  | kappa_index
  | lambda_index
  deriving DecidableEq, Repr

/-- Enumeration for the reference the constant parameters are taken from. -/
inductive ConstantParameterReferences
  | reference_Wan_and_Van_der_Merwe
  | reference_Lisano_and_Born_and_Axelrad
  | reference_Challa_and_Moore_and_Rogers
  | custom_parameters
  deriving DecidableEq, Repr

open ConstantParameterIndices ConstantParameterReferences

/-! ## Dimensions -/

/-- Member `augmentedStateDimension_`, assigned once, in `setConstantParameterValues`:
`2 * stateDimension_ + measurementDimension_`. -/
def augmentedStateDimension (n m : ℕ) : ℕ := 2 * n + m

/-- Member `numberOfSigmaPoints_`, assigned once, in `setConstantParameterValues`:
`2.0 * augmentedStateDimension_ + 1.0`. -/
def numberOfSigmaPoints (n m : ℕ) : ℕ := 2 * augmentedStateDimension n m + 1

/-! ## Constant parameters and weights -/

section Parameters

variable {D : Type} [NatCast D] [Add D] [Sub D] [Mul D] [Div D] [BEq D]

/-- Member `constantParameters_` before the constructor body runs:
`std::vector< DependentVariableType >( 5, 0.0 )`, indexed by `ConstantParameterIndices`. -/
def initialConstantParameters : ConstantParameterIndices → D := fun _ => ((0 : ℕ) : D)

/-- The message of the `std::runtime_error` thrown by `setConstantParameterValues`. -/
def unsetParametersMessage : String :=
  "Error in unscented Kalman filter. The value of the alpha and kappa parameters " ++
  "have not been specified, but the selected method is custom_parameters."

/-- The `switch` of `setConstantParameterValues`: it assigns alpha and kappa, or throws.
`TUDAT_NAN` is the macro of the same name, whose definition is not in the repository. -/
def setAlphaAndKappa (stateDimension_ : ℕ) (TUDAT_NAN : D)
    (constantParameters_ : ConstantParameterIndices → D)
    (constantValueReference : ConstantParameterReferences)
    (customConstantParameters : D × D) : Except Exception (ConstantParameterIndices → D) :=
  match constantValueReference with
  | reference_Wan_and_Van_der_Merwe =>
    .ok (Function.update
      (Function.update constantParameters_ alpha_index (((3 : ℕ) : D) / ((1000 : ℕ) : D)))
      kappa_index ((0 : ℕ) : D))
  | reference_Lisano_and_Born_and_Axelrad =>
    .ok (Function.update
      (Function.update constantParameters_ alpha_index ((1 : ℕ) : D))
      kappa_index (((3 : ℕ) : D) - (stateDimension_ : D)))
  | reference_Challa_and_Moore_and_Rogers =>
    .ok (Function.update
      (Function.update constantParameters_ alpha_index (((1 : ℕ) : D) / ((1000 : ℕ) : D)))
      kappa_index ((1 : ℕ) : D))
  | custom_parameters =>
    if (customConstantParameters.1 == TUDAT_NAN || customConstantParameters.2 == TUDAT_NAN)
    then .error unsetParametersMessage
    else
      .ok (Function.update
        (Function.update constantParameters_ alpha_index customConstantParameters.1)
        kappa_index customConstantParameters.2)

/-- Function to set the values of the constant parameters.  `sqrt` is `std::sqrt`. -/
def setConstantParameterValues (stateDimension_ measurementDimension_ : ℕ) (TUDAT_NAN : D)
    (sqrt : D → D) (constantParameters_ : ConstantParameterIndices → D)
    (constantValueReference : ConstantParameterReferences)
    (customConstantParameters : D × D) : Except Exception (ConstantParameterIndices → D) :=
  match setAlphaAndKappa stateDimension_ TUDAT_NAN constantParameters_ constantValueReference
      customConstantParameters with
  | .error e => .error e
  | .ok p0 =>
    let augmentedStateDimension_ : D :=
      ((augmentedStateDimension stateDimension_ measurementDimension_ : ℕ) : D)
    let p1 := Function.update p0 beta_index ((2 : ℕ) : D)
    let p2 := Function.update p1 lambda_index
      (p1 alpha_index * p1 alpha_index * (augmentedStateDimension_ + p1 kappa_index)
        - augmentedStateDimension_)
    .ok (Function.update p2 gamma_index (sqrt (augmentedStateDimension_ + p2 lambda_index)))

/-- The loop `for ( i = 1; i < numberOfSigmaPoints_; i++ ) weights.push_back( w )`. -/
def pushBackLoop (w : D) (numberOfSigmaPoints_ : ℕ) (weights : List D) : List D :=
  (List.range' 1 (numberOfSigmaPoints_ - 1)).foldl (fun acc _ => acc ++ [w]) weights

/-- Function to generate the weights for state and covariance estimation.  It appends to the
member `stateEstimationWeights_` (empty when the constructor calls it) and returns the members
`stateEstimationWeights_` and `covarianceEstimationWeights_`. -/
def generateEstimationWeights (stateDimension_ measurementDimension_ : ℕ)
    (constantParameters_ : ConstantParameterIndices → D) (stateEstimationWeights_ : List D) :
    List D × List D :=
  let augmentedStateDimension_ : D :=
    ((augmentedStateDimension stateDimension_ measurementDimension_ : ℕ) : D)
  let w0 := stateEstimationWeights_ ++
    [constantParameters_ lambda_index / (augmentedStateDimension_ + constantParameters_ lambda_index)]
  let w := pushBackLoop
    (((1 : ℕ) : D) /
      (((2 : ℕ) : D) * (augmentedStateDimension_ + constantParameters_ lambda_index)))
    (numberOfSigmaPoints stateDimension_ measurementDimension_) w0
  (w, w.modifyHead (fun x => x + (((1 : ℕ) : D)
      - constantParameters_ alpha_index * constantParameters_ alpha_index
      + constantParameters_ beta_index)))

end Parameters

/-! ## The filter object -/

/-- Control vector: an Eigen vector whose dimension the filter does not fix; the filter only
hands it to the system function. -/
abbrev ControlVector (D : Type) := List D

/-- Type of the user system function `( time, state, control ) -> state`; it may throw. -/
abbrev SystemFunction (n : ℕ) (D T : Type) :=
  T → DependentVector D n → ControlVector D → Except Exception (DependentVector D n)

/-- Type of the user measurement function `( time, state ) -> measurement`; it may throw. -/
abbrev MeasurementFunction (n m : ℕ) (D T : Type) :=
  T → DependentVector D n → Except Exception (DependentVector D m)

/-- Modelled from the spec: the integrator of `KalmanFilterBase` (kalmanFilter.h is not in the
repository).  Given the model in differential form, the current time, the previous state and
the control input it returns the propagated state, synchronously and deterministically. -/
abbrev Integrator (n : ℕ) (D T : Type) :=
  SystemFunction n D T → T → DependentVector D n → ControlVector D →
    Except Exception (DependentVector D n)

/-- Members of an `UnscentedKalmanFilter` object.  The first block holds the members inherited
from `KalmanFilterBase` (of these the source names `aPosterioriStateEstimate_`,
`aPosterioriCovarianceEstimate_` and `estimatedCovarianceHistory_`), the second the members
declared in unscentedKalmanFilter.h.  The members `stateDimension_`, `measurementDimension_`,
`augmentedStateDimension_` and `numberOfSigmaPoints_` are `n`, `m`,
`augmentedStateDimension n m` and `numberOfSigmaPoints n m`. -/
structure UnscentedKalmanFilter (n m : ℕ) (D T : Type) where
  systemUncertainty_ : DependentMatrix D n n
  measurementUncertainty_ : DependentMatrix D m m
  integratorSettings_ : Option (Integrator n D T)
  aPosterioriStateEstimate_ : DependentVector D n
  aPosterioriCovarianceEstimate_ : DependentMatrix D n n
  estimatedStateHistory_ : StdMap T (DependentVector D n)
  estimatedCovarianceHistory_ : StdMap T (DependentMatrix D n n)
  inputSystemFunction_ : SystemFunction n D T
  inputMeasurementFunction_ : MeasurementFunction n m D T
  constantParameters_ : ConstantParameterIndices → D
  stateEstimationWeights_ : List D
  covarianceEstimationWeights_ : List D
  augmentedStateVector_ : DependentVector D (augmentedStateDimension n m)
  augmentedCovarianceMatrix_ :
    DependentMatrix D (augmentedStateDimension n m) (augmentedStateDimension n m)
  mapOfSigmaPoints_ : StdMap ℕ (DependentVector D (augmentedStateDimension n m))
  mapOfMapOfSigmaPoints_ : StdMap T (StdMap ℕ (DependentVector D (augmentedStateDimension n m)))
  currentSigmaPoint_ : ℕ

section Construction

variable {D T : Type} [NatCast D] [Add D] [Sub D] [Mul D] [Div D] [BEq D]

/-- The constructor `UnscentedKalmanFilter( ... )`.  The base-class part is modelled from the
spec: it stores the two noise covariances, the integrator settings and the initial state and
covariance, and starts with empty histories.  `currentSigmaPoint_` is not initialised by the
source; it is written before it is first read. -/
def UnscentedKalmanFilter.create {n m : ℕ} (TUDAT_NAN : D) (sqrt : D → D)
    (systemFunction : SystemFunction n D T)
    (measurementFunction : MeasurementFunction n m D T)
    (systemUncertainty : DependentMatrix D n n)
    (measurementUncertainty : DependentMatrix D m m)
    (initialTime : T) (initialStateVector : DependentVector D n)
    (initialCovarianceMatrix : DependentMatrix D n n)
    (integratorSettings : Option (Integrator n D T))
    (constantValueReference : ConstantParameterReferences)
    (customConstantParameters : D × D) :
    Except Exception (UnscentedKalmanFilter n m D T) :=
  let _ := initialTime
  match setConstantParameterValues n m TUDAT_NAN sqrt initialConstantParameters
      constantValueReference customConstantParameters with
  | .error e => .error e
  | .ok constantParameters =>
    let weights := generateEstimationWeights n m constantParameters []
    let zeroMatrix : DependentMatrix D (augmentedStateDimension n m)
      (augmentedStateDimension n m) := fun _ _ => ((0 : ℕ) : D)
    .ok
      { systemUncertainty_ := systemUncertainty
        measurementUncertainty_ := measurementUncertainty
        integratorSettings_ := integratorSettings
        aPosterioriStateEstimate_ := initialStateVector
        aPosterioriCovarianceEstimate_ := initialCovarianceMatrix
        estimatedStateHistory_ := []
        estimatedCovarianceHistory_ := []
        inputSystemFunction_ := systemFunction
        inputMeasurementFunction_ := measurementFunction
        constantParameters_ := constantParameters
        stateEstimationWeights_ := weights.1
        covarianceEstimationWeights_ := weights.2
        augmentedStateVector_ := fun _ => ((0 : ℕ) : D)
        augmentedCovarianceMatrix_ :=
          setBlock (setBlock zeroMatrix n n systemUncertainty) (2 * n) (2 * n)
            measurementUncertainty
        mapOfSigmaPoints_ := []
        mapOfMapOfSigmaPoints_ := []
        currentSigmaPoint_ := 0 }

end Construction

/-! ## Sigma points and the update step -/

section Update

variable {K T : Type} [Field K] [LinearOrder T] {n m : ℕ}

/-- The value assigned to `mapOfSigmaPoints_[ i ]` in the loop of `computeSigmaPoints`; the
matrix is `augmentedCovarianceMatrixSquareRoot`, whose `cols( )` is the augmented dimension. -/
def sigmaPoint (augmentedStateVector_ : DependentVector K (augmentedStateDimension n m))
    (gamma : K)
    (augmentedCovarianceMatrixSquareRoot :
      DependentMatrix K (augmentedStateDimension n m) (augmentedStateDimension n m))
    (i : Fin (numberOfSigmaPoints n m)) : DependentVector K (augmentedStateDimension n m) :=
  if _h0 : i.val = 0 then augmentedStateVector_
  else if _h1 : i.val < augmentedStateDimension n m + 1 then
    fun r => augmentedStateVector_ r +
      gamma * augmentedCovarianceMatrixSquareRoot r ⟨i.val - 1, by omega⟩
  else
    fun r => augmentedStateVector_ r -
      gamma * augmentedCovarianceMatrixSquareRoot r
        ⟨(i.val - 1) - augmentedStateDimension n m, by
          have h2 := i.isLt
          unfold numberOfSigmaPoints at h2
          omega⟩

/-- Function to compute the sigma points, based on the current state vector and covariance
matrix.  `matrixSqrt` is Eigen's `MatrixBase::sqrt( )`. -/
def computeSigmaPoints
    (matrixSqrt : DependentMatrix K (augmentedStateDimension n m) (augmentedStateDimension n m) →
      DependentMatrix K (augmentedStateDimension n m) (augmentedStateDimension n m))
    (f : UnscentedKalmanFilter n m K T)
    (currentStateEstimate : DependentVector K n)
    (currentCovarianceEstimate : DependentMatrix K n n) : UnscentedKalmanFilter n m K T :=
  let augmentedStateVector := setSegment f.augmentedStateVector_ 0 currentStateEstimate
  let augmentedCovarianceMatrix := setBlock f.augmentedCovarianceMatrix_ 0 0 currentCovarianceEstimate
  let augmentedCovarianceMatrixSquareRoot := matrixSqrt augmentedCovarianceMatrix
  { f with
    augmentedStateVector_ := augmentedStateVector
    augmentedCovarianceMatrix_ := augmentedCovarianceMatrix
    mapOfSigmaPoints_ :=
      (List.finRange (numberOfSigmaPoints n m)).foldl
        (fun mp i => mapAssign mp i.val
          (sigmaPoint augmentedStateVector (f.constantParameters_ gamma_index)
            augmentedCovarianceMatrixSquareRoot i))
        f.mapOfSigmaPoints_ }

/-- Message of the `std::out_of_range` thrown by `std::vector::at`. -/
def outOfRangeMessage : String := "vector::at: index out of range"

/-- Message for an access to a sigma-point index that is not in a map (the source would read a
default-constructed, empty vector there and Eigen aborts on its size). -/
def missingSigmaPointMessage : String := "sigma point index not in map"

/-- Function to compute the weighted average of the state and measurement vectors; the first
argument is the member `stateEstimationWeights_`. -/
def computeWeightedAverageFromSigmaPointEstimatesVector {k : ℕ} (stateEstimationWeights_ : List K) :
    StdMap ℕ (DependentVector K k) → DependentVector K k → Except Exception (DependentVector K k)
  | [], weightedAverageVector => .ok weightedAverageVector
  | (i, estimate) :: rest, weightedAverageVector =>
    match stateEstimationWeights_[i]? with
    | none => .error outOfRangeMessage
    | some w =>
      computeWeightedAverageFromSigmaPointEstimatesVector stateEstimationWeights_ rest
        (weightedAverageVector + w • estimate)

/-- Function to compute the weighted average of the covariance and innovation matrices; the
first argument is the member `covarianceEstimationWeights_`. -/
def computeWeightedAverageFromSigmaPointEstimatesMatrix {k : ℕ}
    (covarianceEstimationWeights_ : List K) (referenceVector : DependentVector K k) :
    StdMap ℕ (DependentVector K k) → DependentMatrix K k k → Except Exception (DependentMatrix K k k)
  | [], weightedAverageMatrix => .ok weightedAverageMatrix
  | (i, estimate) :: rest, weightedAverageMatrix =>
    match covarianceEstimationWeights_[i]? with
    | none => .error outOfRangeMessage
    | some w =>
      computeWeightedAverageFromSigmaPointEstimatesMatrix covarianceEstimationWeights_
        referenceVector rest
        (weightedAverageMatrix +
          Matrix.vecMulVec (w • (estimate - referenceVector)) (estimate - referenceVector))

/-- Function to create the function that defines the system model: the user function plus the
process-noise segment of the sigma point `currentSigmaPoint_`. -/
def createSystemFunction (f : UnscentedKalmanFilter n m K T) : SystemFunction n K T :=
  fun currentTime currentStateVector currentControlVector =>
    match f.inputSystemFunction_ currentTime currentStateVector currentControlVector with
    | .error e => .error e
    | .ok value =>
      match mapFind f.mapOfSigmaPoints_ f.currentSigmaPoint_ with
      | none => .error missingSigmaPointMessage
      | some point =>
        .ok (value + segment point n n (by unfold augmentedStateDimension; omega))

/-- Function to create the function that defines the measurement model: the user function plus
the measurement-noise segment of the sigma point `currentSigmaPoint_`. -/
def createMeasurementFunction (f : UnscentedKalmanFilter n m K T) : MeasurementFunction n m K T :=
  fun currentTime currentStateVector =>
    match f.inputMeasurementFunction_ currentTime currentStateVector with
    | .error e => .error e
    | .ok value =>
      match mapFind f.mapOfSigmaPoints_ f.currentSigmaPoint_ with
      | none => .error missingSigmaPointMessage
      | some point =>
        .ok (value + segment point (2 * n) m (by unfold augmentedStateDimension; omega))

/-- Modelled from the spec: `KalmanFilterBase::predictState` (kalmanFilter.h is not in the
repository).  It evaluates the system model directly or, if integrator settings were supplied,
integrates it.  The system model `systemFunction_` of the base class is bound to
`createSystemFunction`. -/
def predictState (f : UnscentedKalmanFilter n m K T) (currentTime : T)
    (currentStateVector : DependentVector K n) (currentControlVector : ControlVector K) :
    Except Exception (DependentVector K n) :=
  match f.integratorSettings_ with
  | none => createSystemFunction f currentTime currentStateVector currentControlVector
  | some integrator =>
    integrator (createSystemFunction f) currentTime currentStateVector currentControlVector

/-- Modelled from the spec: `KalmanFilterBase::correctState` (kalmanFilter.h is not in the
repository).  It computes `prior + gain * ( measurement - predicted measurement )`, stores it
as the new a-posteriori state and files it in the state history under the time. -/
def correctState (f : UnscentedKalmanFilter n m K T) (currentTime : T)
    (aPrioriStateEstimate : DependentVector K n) (currentMeasurementVector : DependentVector K m)
    (measurementEstimate : DependentVector K m) (gainMatrix : DependentMatrix K n m) :
    UnscentedKalmanFilter n m K T :=
  let aPosterioriStateEstimate :=
    aPrioriStateEstimate + gainMatrix.mulVec (currentMeasurementVector - measurementEstimate)
  { f with
    aPosterioriStateEstimate_ := aPosterioriStateEstimate
    estimatedStateHistory_ := mapAssign f.estimatedStateHistory_ currentTime aPosterioriStateEstimate }

/-- Function to correct the covariance for the next time step. -/
def correctCovariance (f : UnscentedKalmanFilter n m K T) (currentTime : T)
    (aPrioriCovarianceEstimate : DependentMatrix K n n) (innovationMatrix : DependentMatrix K m m)
    (kalmanGain : DependentMatrix K n m) : UnscentedKalmanFilter n m K T :=
  let aPosterioriCovarianceEstimate :=
    aPrioriCovarianceEstimate - kalmanGain * innovationMatrix * kalmanGain.transpose
  { f with
    aPosterioriCovarianceEstimate_ := aPosterioriCovarianceEstimate
    estimatedCovarianceHistory_ :=
      mapAssign f.estimatedCovarianceHistory_ currentTime aPosterioriCovarianceEstimate }

/-- Eigen's `inverse( )` of a square matrix over a field. -/
def inverse {k : ℕ} (A : DependentMatrix K k k) : DependentMatrix K k k :=
  (A.det)⁻¹ • A.adjugate

/-- The prediction loop of `updateFilter` over `mapOfSigmaPoints_`: it sets
`currentSigmaPoint_` and files `predictState` of the state segment of each sigma point in the
local map `sigmaPointsStateEstimates`.  A throwing model ends the loop. -/
def predictionLoop (currentTime : T) (currentControlVector : ControlVector K) :
    StdMap ℕ (DependentVector K (augmentedStateDimension n m)) → UnscentedKalmanFilter n m K T →
    StdMap ℕ (DependentVector K n) →
    Except Exception (StdMap ℕ (DependentVector K n)) × UnscentedKalmanFilter n m K T
  | [], f, sigmaPointsStateEstimates => (.ok sigmaPointsStateEstimates, f)
  | (i, point) :: rest, f, sigmaPointsStateEstimates =>
    match predictState { f with currentSigmaPoint_ := i } currentTime
        (segment point 0 n (by unfold augmentedStateDimension; omega)) currentControlVector with
    | .error e => (.error e, { f with currentSigmaPoint_ := i })
    | .ok value =>
      predictionLoop currentTime currentControlVector rest { f with currentSigmaPoint_ := i }
        (mapAssign sigmaPointsStateEstimates i value)

/-- The measurement loop of `updateFilter` over `mapOfSigmaPoints_`; the measurement model
`measurementFunction_` of the base class is bound to `createMeasurementFunction`. -/
def measurementLoop (currentTime : T) :
    StdMap ℕ (DependentVector K (augmentedStateDimension n m)) → UnscentedKalmanFilter n m K T →
    StdMap ℕ (DependentVector K m) →
    Except Exception (StdMap ℕ (DependentVector K m)) × UnscentedKalmanFilter n m K T
  | [], f, sigmaPointsMeasurementEstimates => (.ok sigmaPointsMeasurementEstimates, f)
  | (i, point) :: rest, f, sigmaPointsMeasurementEstimates =>
    match createMeasurementFunction { f with currentSigmaPoint_ := i } currentTime
        (segment point 0 n (by unfold augmentedStateDimension; omega)) with
    | .error e => (.error e, { f with currentSigmaPoint_ := i })
    | .ok value =>
      measurementLoop currentTime rest { f with currentSigmaPoint_ := i }
        (mapAssign sigmaPointsMeasurementEstimates i value)

/-- The cross-correlation loop of `updateFilter` over `sigmaPointsStateEstimates`. -/
def crossCorrelationLoop (covarianceEstimationWeights_ : List K)
    (aPrioriStateEstimate : DependentVector K n)
    (sigmaPointsMeasurementEstimates : StdMap ℕ (DependentVector K m))
    (measurmentEstimate : DependentVector K m) :
    StdMap ℕ (DependentVector K n) → DependentMatrix K n m → Except Exception (DependentMatrix K n m)
  | [], crossCorrelationMatrix => .ok crossCorrelationMatrix
  | (i, estimate) :: rest, crossCorrelationMatrix =>
    match covarianceEstimationWeights_[i]? with
    | none => .error outOfRangeMessage
    | some w =>
      match mapFind sigmaPointsMeasurementEstimates i with
      | none => .error missingSigmaPointMessage
      | some measurement =>
        crossCorrelationLoop covarianceEstimationWeights_ aPrioriStateEstimate
          sigmaPointsMeasurementEstimates measurmentEstimate rest
          (crossCorrelationMatrix +
            Matrix.vecMulVec (w • (estimate - aPrioriStateEstimate))
              (measurement - measurmentEstimate))

/-- Function to update the filter with the new step data.  The result is the exception thrown,
if any, and the members of the object when the call ends. -/
def updateFilter
    (matrixSqrt : DependentMatrix K (augmentedStateDimension n m) (augmentedStateDimension n m) →
      DependentMatrix K (augmentedStateDimension n m) (augmentedStateDimension n m))
    (f : UnscentedKalmanFilter n m K T) (currentTime : T)
    (currentControlVector : ControlVector K) (currentMeasurementVector : DependentVector K m) :
    Except Exception Unit × UnscentedKalmanFilter n m K T :=
  let f1 := computeSigmaPoints matrixSqrt f f.aPosterioriStateEstimate_
    f.aPosterioriCovarianceEstimate_
  let f2 := { f1 with
    mapOfMapOfSigmaPoints_ := mapAssign f1.mapOfMapOfSigmaPoints_ currentTime f1.mapOfSigmaPoints_ }
  match predictionLoop currentTime currentControlVector f2.mapOfSigmaPoints_ f2 [] with
  | (.error e, f3) => (.error e, f3)
  | (.ok sigmaPointsStateEstimates, f3) =>
  match computeWeightedAverageFromSigmaPointEstimatesVector f3.stateEstimationWeights_
      sigmaPointsStateEstimates 0 with
  | .error e => (.error e, f3)
  | .ok aPrioriStateEstimate =>
  match computeWeightedAverageFromSigmaPointEstimatesMatrix f3.covarianceEstimationWeights_
      aPrioriStateEstimate sigmaPointsStateEstimates 0 with
  | .error e => (.error e, f3)
  | .ok aPrioriCovarianceEstimate =>
  let f4 := computeSigmaPoints matrixSqrt f3 aPrioriStateEstimate aPrioriCovarianceEstimate
  match measurementLoop currentTime f4.mapOfSigmaPoints_ f4 [] with
  | (.error e, f5) => (.error e, f5)
  | (.ok sigmaPointsMeasurementEstimates, f5) =>
  match computeWeightedAverageFromSigmaPointEstimatesVector f5.stateEstimationWeights_
      sigmaPointsMeasurementEstimates 0 with
  | .error e => (.error e, f5)
  | .ok measurmentEstimate =>
  match computeWeightedAverageFromSigmaPointEstimatesMatrix f5.covarianceEstimationWeights_
      measurmentEstimate sigmaPointsMeasurementEstimates 0 with
  | .error e => (.error e, f5)
  | .ok innovationMatrix =>
  match crossCorrelationLoop f5.covarianceEstimationWeights_ aPrioriStateEstimate
      sigmaPointsMeasurementEstimates measurmentEstimate sigmaPointsStateEstimates 0 with
  | .error e => (.error e, f5)
  | .ok crossCorrelationMatrix =>
  let kalmanGain := crossCorrelationMatrix * inverse innovationMatrix
  let f6 := correctState f5 currentTime aPrioriStateEstimate currentMeasurementVector
    measurmentEstimate kalmanGain
  (.ok (), correctCovariance f6 currentTime aPrioriCovarianceEstimate innovationMatrix kalmanGain)

end Update

/-! ## A model of doubles with a NaN -/

/-- Model of an IEEE-754 double as far as NaN is concerned: a value is NaN or a number.
Rounding and infinities are left out (a division by zero gives NaN here); an operation with a
NaN operand gives NaN, and `==` with a NaN operand is false. -/
inductive IeeeDouble
  | nan
  | num (q : ℚ)
  deriving DecidableEq

/-- Lifting of a binary operation on numbers: NaN if an operand is NaN. -/
def IeeeDouble.lift (op : ℚ → ℚ → ℚ) : IeeeDouble → IeeeDouble → IeeeDouble
  | .num a, .num b => .num (op a b)
  | _, _ => .nan

/-- Division of doubles. -/
def IeeeDouble.divide : IeeeDouble → IeeeDouble → IeeeDouble
  | .num a, .num b => if b = 0 then .nan else .num (a / b)
  | _, _ => .nan

/-- The comparison `==` of doubles: false as soon as an operand is NaN. -/
def IeeeDouble.equals : IeeeDouble → IeeeDouble → Bool
  | .num a, .num b => decide (a = b)
  | _, _ => false

/-- A `std::sqrt` on the model of doubles: NaN for NaN and for negative numbers, exact on
squares of rationals (and an approximation from below elsewhere). -/
def IeeeDouble.sqrt : IeeeDouble → IeeeDouble
  | .num q => if q < 0 then .nan else .num (Rat.sqrt q)
  | .nan => .nan

instance : NatCast IeeeDouble := ⟨fun k => .num k⟩

instance : Add IeeeDouble := ⟨IeeeDouble.lift (fun a b => a + b)⟩

instance : Sub IeeeDouble := ⟨IeeeDouble.lift (fun a b => a - b)⟩

instance : Mul IeeeDouble := ⟨IeeeDouble.lift (fun a b => a * b)⟩

instance : Div IeeeDouble := ⟨IeeeDouble.divide⟩

instance : BEq IeeeDouble := ⟨IeeeDouble.equals⟩

/-! ## A one-dimensional scenario over the rationals -/

/-- The linear system model `x -> F x`; it ignores time and control and never throws. -/
def linearSystemFunction {K T : Type} [Field K] {n : ℕ} (F : DependentMatrix K n n) :
    SystemFunction n K T :=
  fun _ x _ => .ok (F.mulVec x)

/-- The linear measurement model `x -> H x`; it ignores time and never throws. -/
def linearMeasurementFunction {K T : Type} [Field K] {n m : ℕ} (H : DependentMatrix K m n) :
    MeasurementFunction n m K T :=
  fun _ x => .ok (H.mulVec x)

/-- A system model that throws on every call. -/
def throwingSystemFunction {K T : Type} {n : ℕ} : SystemFunction n K T :=
  fun _ _ _ => .error "system model failure"

/-- The principal square root of a diagonal matrix whose diagonal entries are squares of
rationals: the diagonal matrix of their roots. -/
def diagonalSqrt {k : ℕ} (M : DependentMatrix ℚ k k) : DependentMatrix ℚ k k :=
  Matrix.diagonal (fun i => Rat.sqrt (M i i))

/-- The constant parameters for `n = m = 1` (so `L = 3`) in custom mode with alpha = 1 and
kappa = 1: beta = 2, lambda = 1 * (3 + 1) - 3 = 1, gamma = sqrt (3 + 1) = 2. -/
def scenarioParameters : ConstantParameterIndices → ℚ
  | alpha_index => 1
  | beta_index => 2
  | gamma_index => 2
  | kappa_index => 1
  | lambda_index => 1

/-- The filter object constructed for the scalar system `x -> x` measured by `x -> x`, with
process noise 16, measurement noise 1, initial state 0, initial covariance 9 and the custom
parameters alpha = kappa = 1. -/
def scenarioFilter : UnscentedKalmanFilter 1 1 ℚ ℚ where
  systemUncertainty_ := !![16]
  measurementUncertainty_ := !![1]
  integratorSettings_ := none
  aPosterioriStateEstimate_ := ![0]
  aPosterioriCovarianceEstimate_ := !![9]
  estimatedStateHistory_ := []
  estimatedCovarianceHistory_ := []
  inputSystemFunction_ := linearSystemFunction !![1]
  inputMeasurementFunction_ := linearMeasurementFunction !![1]
  constantParameters_ := scenarioParameters
  stateEstimationWeights_ := [1 / 4, 1 / 8, 1 / 8, 1 / 8, 1 / 8, 1 / 8, 1 / 8]
  covarianceEstimationWeights_ := [9 / 4, 1 / 8, 1 / 8, 1 / 8, 1 / 8, 1 / 8, 1 / 8]
  augmentedStateVector_ := ![0, 0, 0]
  augmentedCovarianceMatrix_ := !![0, 0, 0; 0, 16, 0; 0, 0, 1]
  mapOfSigmaPoints_ := []
  mapOfMapOfSigmaPoints_ := []
  currentSigmaPoint_ := 0

/-- The scenario object with a system model that throws. -/
def throwingFilter : UnscentedKalmanFilter 1 1 ℚ ℚ :=
  { scenarioFilter with inputSystemFunction_ := throwingSystemFunction }

/-- The step of the standard linear Kalman filter in the words of the spec: with
`x- = F x`, `P- = F P F^T + Q`, `S = H P- H^T + R` and `K = P- H^T S^-1`, the a-posteriori
state `x- + K (z - H x-)` and the a-posteriori covariance `P- - K S K^T`. -/
def linearKalmanFilterUpdate {K : Type} [Field K] {n m : ℕ} (F : DependentMatrix K n n)
    (H : DependentMatrix K m n) (P Q : DependentMatrix K n n) (R : DependentMatrix K m m)
    (x : DependentVector K n) (z : DependentVector K m) :
    DependentVector K n × DependentMatrix K n n :=
  let xPrior := F.mulVec x
  let PPrior := F * P * F.transpose + Q
  let S := H * PPrior * H.transpose + R
  let gain := PPrior * H.transpose * inverse S
  (xPrior + gain.mulVec (z - H.mulVec xPrior), PPrior - gain * S * gain.transpose)

/-! ## Reachable objects -/

section Reachability

variable {K T : Type} [Field K] [LinearOrder T] {n m : ℕ}

/-- The arguments of the last `computeSigmaPoints` call made inside an `updateFilter` call:
the a-priori mean and covariance if the call gets as far as the regeneration of the sigma
points, the a-posteriori estimates held before the call (the arguments of the first
`computeSigmaPoints` call) if it throws before. -/
def lastComputeSigmaPointsArguments
    (matrixSqrt : DependentMatrix K (augmentedStateDimension n m) (augmentedStateDimension n m) →
      DependentMatrix K (augmentedStateDimension n m) (augmentedStateDimension n m))
    (f : UnscentedKalmanFilter n m K T) (currentTime : T)
    (currentControlVector : ControlVector K) : DependentVector K n × DependentMatrix K n n :=
  let f1 := computeSigmaPoints matrixSqrt f f.aPosterioriStateEstimate_
    f.aPosterioriCovarianceEstimate_
  let f2 := { f1 with
    mapOfMapOfSigmaPoints_ := mapAssign f1.mapOfMapOfSigmaPoints_ currentTime f1.mapOfSigmaPoints_ }
  match predictionLoop currentTime currentControlVector f2.mapOfSigmaPoints_ f2 [] with
  | (.error _, _) => (f.aPosterioriStateEstimate_, f.aPosterioriCovarianceEstimate_)
  | (.ok sigmaPointsStateEstimates, f3) =>
  match computeWeightedAverageFromSigmaPointEstimatesVector f3.stateEstimationWeights_
      sigmaPointsStateEstimates 0 with
  | .error _ => (f.aPosterioriStateEstimate_, f.aPosterioriCovarianceEstimate_)
  | .ok aPrioriStateEstimate =>
  match computeWeightedAverageFromSigmaPointEstimatesMatrix f3.covarianceEstimationWeights_
      aPrioriStateEstimate sigmaPointsStateEstimates 0 with
  | .error _ => (f.aPosterioriStateEstimate_, f.aPosterioriCovarianceEstimate_)
  | .ok aPrioriCovarianceEstimate => (aPrioriStateEstimate, aPrioriCovarianceEstimate)

/-- The filter states reachable by construction, with process-noise covariance
`systemUncertainty` and measurement-noise covariance `measurementUncertainty`, followed by any
number of `updateFilter` calls (returning or throwing), each paired with the arguments of the
last `computeSigmaPoints` call made on the object, if there was one. -/
inductive Reachable [BEq K] (TUDAT_NAN : K) (sqrt : K → K)
    (matrixSqrt : DependentMatrix K (augmentedStateDimension n m) (augmentedStateDimension n m) →
      DependentMatrix K (augmentedStateDimension n m) (augmentedStateDimension n m))
    (systemUncertainty : DependentMatrix K n n) (measurementUncertainty : DependentMatrix K m m) :
    UnscentedKalmanFilter n m K T → Option (DependentVector K n × DependentMatrix K n n) → Prop
  | constructed (systemFunction : SystemFunction n K T)
      (measurementFunction : MeasurementFunction n m K T) (initialTime : T)
      (initialStateVector : DependentVector K n) (initialCovarianceMatrix : DependentMatrix K n n)
      (integratorSettings : Option (Integrator n K T))
      (constantValueReference : ConstantParameterReferences) (customConstantParameters : K × K)
      (f : UnscentedKalmanFilter n m K T)
      (h : UnscentedKalmanFilter.create TUDAT_NAN sqrt systemFunction measurementFunction
        systemUncertainty measurementUncertainty initialTime initialStateVector
        initialCovarianceMatrix integratorSettings constantValueReference
        customConstantParameters = .ok f) :
      Reachable TUDAT_NAN sqrt matrixSqrt systemUncertainty measurementUncertainty f none
  | updated (f : UnscentedKalmanFilter n m K T)
      (last : Option (DependentVector K n × DependentMatrix K n n)) (currentTime : T)
      (currentControlVector : ControlVector K) (currentMeasurementVector : DependentVector K m)
      (h : Reachable TUDAT_NAN sqrt matrixSqrt systemUncertainty measurementUncertainty f last) :
      Reachable TUDAT_NAN sqrt matrixSqrt systemUncertainty measurementUncertainty
        (updateFilter matrixSqrt f currentTime currentControlVector currentMeasurementVector).2
        (some (lastComputeSigmaPointsArguments matrixSqrt f currentTime currentControlVector))

/-- The block of the augmented state an index belongs to: 0 for the `n` state entries, 1 for
the `n` process-noise entries, 2 for the measurement-noise entries. -/
def blockIndex (n i : ℕ) : ℕ := if i < n then 0 else if i < 2 * n then 1 else 2

end Reachability

/-! ## Degenerate scenarios -/

/-- A symmetric matrix whose quadratic form is nowhere negative. -/
def IsPositiveSemiDefinite {K : Type} [LinearOrderedField K] {k : ℕ} (M : DependentMatrix K k k) :
    Prop :=
  M.IsSymm ∧ ∀ v : DependentVector K k, 0 ≤ Matrix.dotProduct v (M.mulVec v)

/-- The filter object constructed like the scenario object, but with the measurement model
`x -> 0 * x` and the measurement noise 0: every innovation matrix it computes is zero. -/
def singularFilter : UnscentedKalmanFilter 1 1 ℚ ℚ :=
  { scenarioFilter with
    measurementUncertainty_ := !![0]
    inputMeasurementFunction_ := linearMeasurementFunction !![0]
    augmentedCovarianceMatrix_ := !![0, 0, 0; 0, 16, 0; 0, 0, 0] }

/-- The filter object constructed like the scenario object, but with the initial covariance
`-1`, which is not positive semi-definite. -/
def indefiniteFilter : UnscentedKalmanFilter 1 1 ℚ ℚ :=
  { scenarioFilter with aPosterioriCovarianceEstimate_ := !![-1] }

/-! ## The constant-velocity scenario over the reals -/

/-- The constant parameters for `n = 2`, `m = 1` (so `L = 5`) with the default reference
`reference_Wan_and_Van_der_Merwe`: alpha = 3/1000, beta = 2, kappa = 0,
lambda = alpha^2 * (5 + 0) - 5 and gamma = sqrt (5 + lambda). -/
noncomputable def constantVelocityParameters : ConstantParameterIndices → ℝ
  | alpha_index => 3 / 1000
  | beta_index => 2
  | gamma_index => Real.sqrt (45 / 1000000)
  | kappa_index => 0
  | lambda_index => 45 / 1000000 - 5

/-- The square root of the determinant `10301/10000` of the a-priori covariance
`[[201/100, 1], [1, 101/100]]` of the constant-velocity step. -/
noncomputable def constantVelocityDelta : ℝ := Real.sqrt (10301 / 10000)

/-- The square root of the trace `302/100` of that a-priori covariance plus twice the root of
its determinant. -/
noncomputable def constantVelocityTau : ℝ := Real.sqrt (302 / 100 + 2 * constantVelocityDelta)

/-- The principal square root of the first augmented covariance
`diag(1, 1, 1/100, 1/100, 1/10)` of the constant-velocity step. -/
noncomputable def constantVelocityFirstRoot : DependentMatrix ℝ 5 5 :=
  !![1, 0, 0, 0, 0; 0, 1, 0, 0, 0; 0, 0, 1 / 10, 0, 0; 0, 0, 0, 1 / 10, 0;
    0, 0, 0, 0, Real.sqrt (1 / 10)]

/-- The principal square root of the second augmented covariance
`diag([[201/100, 1], [1, 101/100]], 1/100, 1/100, 1/10)` of the constant-velocity step; the
root of the 2 x 2 block `M` is `(M + delta I) / tau`. -/
noncomputable def constantVelocitySecondRoot : DependentMatrix ℝ 5 5 :=
  !![(201 / 100 + constantVelocityDelta) / constantVelocityTau, 1 / constantVelocityTau, 0, 0, 0;
    1 / constantVelocityTau, (101 / 100 + constantVelocityDelta) / constantVelocityTau, 0, 0, 0;
    0, 0, 1 / 10, 0, 0; 0, 0, 0, 1 / 10, 0; 0, 0, 0, 0, Real.sqrt (1 / 10)]

/-- A matrix square root for the constant-velocity step: the principal root of the first
augmented covariance there, and the principal root of the second one elsewhere. -/
noncomputable def constantVelocitySqrt (M : DependentMatrix ℝ 5 5) : DependentMatrix ℝ 5 5 :=
  if M = !![1, 0, 0, 0, 0; 0, 1, 0, 0, 0; 0, 0, 1 / 100, 0, 0; 0, 0, 0, 1 / 100, 0;
    0, 0, 0, 0, 1 / 10] then constantVelocityFirstRoot
  else constantVelocitySecondRoot

/-! ## The history of sigma points -/

section History

variable {K T : Type} [Field K] [LinearOrder T] {n m : ℕ}

/-- Message for the read of a coefficient past the end of a buffer. -/
def bufferOverrunMessage : String := "read past the end of the buffer"

/-- Modelled from the spec: `utilities::createConcatenatedEigenMatrixFromMapValues`, whose
definition is not in the repository, stacks the values of the map, in key order, into one
column vector.  The result is given by the buffer of its coefficients, `data( )`. -/
def createConcatenatedEigenMatrixFromMapValues {k : ℕ}
    (inputMap : StdMap ℕ (DependentVector K k)) : List K :=
  (inputMap.map (fun e => List.ofFn e.2)).flatten

/-- Model of `Eigen::Map< Eigen::MatrixXd >( data, rows, cols )` read as a value: the
column-major view of the first `rows * cols` coefficients of the buffer. -/
def EigenMap (data : List K) (rows cols : ℕ) : Except Exception (DependentMatrix K rows cols) :=
  if rows * cols ≤ data.length then
    .ok (fun r c => data.getD (c.val * rows + r.val) 0)
  else .error bufferOverrunMessage

/-- The loop of `getSigmaPointsHistory` over `mapOfMapOfSigmaPoints_`, which files the matrix
of each archived time in the local map `mapOfSigmaPointsHistory`. -/
def sigmaPointsHistoryLoop :
    StdMap T (StdMap ℕ (DependentVector K (augmentedStateDimension n m))) →
    StdMap T (DependentMatrix K (augmentedStateDimension n m) (numberOfSigmaPoints n m)) →
    Except Exception
      (StdMap T (DependentMatrix K (augmentedStateDimension n m) (numberOfSigmaPoints n m)))
  | [], mapOfSigmaPointsHistory => .ok mapOfSigmaPointsHistory
  | (time, points) :: rest, mapOfSigmaPointsHistory =>
    match EigenMap (createConcatenatedEigenMatrixFromMapValues points)
        (augmentedStateDimension n m) (numberOfSigmaPoints n m) with
    | .error e => .error e
    | .ok matrixOfSigmaPoints =>
      sigmaPointsHistoryLoop rest (mapAssign mapOfSigmaPointsHistory time matrixOfSigmaPoints)

/-- Function to get the history of sigma points, with the members of the object when the call
ends: the function is not `const`, but assigns to no member. -/
def getSigmaPointsHistory (f : UnscentedKalmanFilter n m K T) :
    Except Exception
      (StdMap T (DependentMatrix K (augmentedStateDimension n m) (numberOfSigmaPoints n m))) ×
    UnscentedKalmanFilter n m K T :=
  (sigmaPointsHistoryLoop f.mapOfMapOfSigmaPoints_ [], f)

end History

/-! ## A scenario with custom parameters outside the usual range -/

/-- The system model `x -> 3 x + 3 - 3 x^2`. -/
def quadraticSystemFunction : SystemFunction 1 ℚ ℚ :=
  fun _ x _ => .ok ![3 * x 0 + 3 - 3 * (x 0 * x 0)]

/-- The measurement model `x -> x - 3 + (3/16) x^2`. -/
def quadraticMeasurementFunction : MeasurementFunction 1 1 ℚ ℚ :=
  fun _ x => .ok ![x 0 - 3 + 3 / 16 * (x 0 * x 0)]

/-- The constant parameters for `n = m = 1` (so `L = 3`) in custom mode with alpha = 2 and
kappa = -11/4: beta = 2, lambda = 4 * (3 - 11/4) - 3 = -2, gamma = sqrt (3 - 2) = 1. -/
def stretchedParameters : ConstantParameterIndices → ℚ
  | alpha_index => 2
  | beta_index => 2
  | gamma_index => 1
  | kappa_index => -11 / 4
  | lambda_index => -2

/-- The filter object constructed for the scalar system `x -> 3 x + 3 - 3 x^2` measured by
`x -> x - 3 + (3/16) x^2`, with process noise 16, measurement noise 1, initial state 0, initial
covariance 1 and the custom parameters alpha = 2, kappa = -11/4: the mean weights are
`-2, 1/2, ..., 1/2` and the covariance weights `-3, 1/2, ..., 1/2`. -/
def stretchedFilter : UnscentedKalmanFilter 1 1 ℚ ℚ where
  systemUncertainty_ := !![16]
  measurementUncertainty_ := !![1]
  integratorSettings_ := none
  aPosterioriStateEstimate_ := ![0]
  aPosterioriCovarianceEstimate_ := !![1]
  estimatedStateHistory_ := []
  estimatedCovarianceHistory_ := []
  inputSystemFunction_ := quadraticSystemFunction
  inputMeasurementFunction_ := quadraticMeasurementFunction
  constantParameters_ := stretchedParameters
  stateEstimationWeights_ := [-2, 1 / 2, 1 / 2, 1 / 2, 1 / 2, 1 / 2, 1 / 2]
  covarianceEstimationWeights_ := [-3, 1 / 2, 1 / 2, 1 / 2, 1 / 2, 1 / 2, 1 / 2]
  augmentedStateVector_ := ![0, 0, 0]
  augmentedCovarianceMatrix_ := !![0, 0, 0; 0, 16, 0; 0, 0, 1]
  mapOfSigmaPoints_ := []
  mapOfMapOfSigmaPoints_ := []
  currentSigmaPoint_ := 0

/-- The measurement estimates 0, 10, 0, 2, -10, 0, -2 of the call `updateFilter( 1, [], [26] )`
on the scenario object, by sigma index. -/
def scenarioMeasurements : Fin (numberOfSigmaPoints 1 1) → DependentVector ℚ 1 :=
  fun i => ![([0, 10, 0, 2, -10, 0, -2] : List ℚ).getD i.val 0]

end filters

/-! # Basic functions -/

namespace basic_functions

open filters

/-- The type `Vector` of the source, a column vector of `k` rows; its definition is not in
the repository. -/
abbrev Vector (D : Type) (k : ℕ) := Fin k → D

/-- The value of an `int` expression whose mathematical value is `z`: the 32-bit two's
complement representative. -/
def wrapInt (z : ℤ) : ℤ := (z + 2147483648) % 4294967296 - 2147483648

/-- Message for the read of a vector coefficient outside `[0, rows)`. -/
def indexOutOfRangeMessage : String := "vector index out of range"

/-- Message of the model when the iteration budget of a loop is used up. -/
def iterationBudgetMessage : String := "iteration budget used up"

/-- Model of `vectorOfSortedData[ i ]` for an `int` index: the coefficient, and an error for
an index outside `[0, rows)`. -/
def coefficient {D : Type} {k : ℕ} (vectorOfSortedData : Vector D k) (i : ℤ) :
    Except Exception D :=
  if h : 0 ≤ i ∧ i < (k : ℤ) then .ok (vectorOfSortedData ⟨i.toNat, by omega⟩)
  else .error indexOutOfRangeMessage

/-- The `while` loop of the vector overload of `computeNearestLeftNeighborUsingBinarySearch`,
run for at most the given number of iterations.  `ge` is the operator `>=` of `double`. -/
def binarySearchLoop {D : Type} {k : ℕ} (ge : D → D → Bool) (vectorOfSortedData : Vector D k)
    (targetValueInVectorOfSortedData : D) (isVectorOfSortedDataAscending : Bool) :
    ℕ → ℤ → ℤ → Except Exception ℤ
  | 0, leftLimitOfVectorOfSortedData, rightLimitOfVectorOfSortedData =>
    if wrapInt (rightLimitOfVectorOfSortedData - leftLimitOfVectorOfSortedData) > 1 then
      .error iterationBudgetMessage
    else .ok leftLimitOfVectorOfSortedData
  | budget + 1, leftLimitOfVectorOfSortedData, rightLimitOfVectorOfSortedData =>
    if wrapInt (rightLimitOfVectorOfSortedData - leftLimitOfVectorOfSortedData) > 1 then
      let currentPositionInVectorOfSortedData :=
        wrapInt (rightLimitOfVectorOfSortedData + leftLimitOfVectorOfSortedData) >>> (1 : ℕ)
      match coefficient vectorOfSortedData currentPositionInVectorOfSortedData with
      | .error e => .error e
      | .ok value =>
        if (ge targetValueInVectorOfSortedData value == isVectorOfSortedDataAscending) then
          binarySearchLoop ge vectorOfSortedData targetValueInVectorOfSortedData
            isVectorOfSortedDataAscending budget currentPositionInVectorOfSortedData
            rightLimitOfVectorOfSortedData
        else
          binarySearchLoop ge vectorOfSortedData targetValueInVectorOfSortedData
            isVectorOfSortedDataAscending budget leftLimitOfVectorOfSortedData
            currentPositionInVectorOfSortedData
    else .ok leftLimitOfVectorOfSortedData

/-- Nearest left neighbor binary search, vector overload.  The loop is given `rows( )`
iterations, more than it can use. -/
def computeNearestLeftNeighborUsingBinarySearch {D : Type} {k : ℕ} (ge : D → D → Bool)
    (vectorOfSortedData : Vector D k) (targetValueInVectorOfSortedData : D) :
    Except Exception ℤ :=
  let leftLimitOfVectorOfSortedData : ℤ := 0
  let rightLimitOfVectorOfSortedData : ℤ := wrapInt ((k : ℤ) - 1)
  match coefficient vectorOfSortedData rightLimitOfVectorOfSortedData with
  | .error e => .error e
  | .ok last =>
    match coefficient vectorOfSortedData leftLimitOfVectorOfSortedData with
    | .error e => .error e
    | .ok first =>
      binarySearchLoop ge vectorOfSortedData targetValueInVectorOfSortedData (ge last first) k
        leftLimitOfVectorOfSortedData rightLimitOfVectorOfSortedData

/-- Message for a map iterator advanced outside `[begin, end)` and dereferenced. -/
def iteratorOutOfRangeMessage : String := "map iterator out of range"

/-- Model of `mapIterator = map.begin( ); advance( mapIterator, i ); mapIterator->first` for an
`int` position: the key of entry `i` in key order, and an error for a position outside
`[0, size)`. -/
def keyAtPosition {D V : Type} (sortedIndepedentAndDependentVariables : StdMap D V) (i : ℤ) :
    Except Exception D :=
  if h : 0 ≤ i ∧ i < (sortedIndepedentAndDependentVariables.length : ℤ) then
    .ok (sortedIndepedentAndDependentVariables.get ⟨i.toNat, by omega⟩).1
  else .error iteratorOutOfRangeMessage

/-- The `while` loop of the map overload of `computeNearestLeftNeighborUsingBinarySearch`, run
for at most the given number of iterations.  `ge` is the operator `>=` of `double`. -/
def binarySearchLoopOverMap {D V : Type} (ge : D → D → Bool)
    (sortedIndepedentAndDependentVariables : StdMap D V) (targetValueInMapOfData : D) :
    ℕ → ℤ → ℤ → Except Exception ℤ
  | 0, leftLimitOfKeyOfMapOfData, rightLimitOfKeyOfMapOfData =>
    if wrapInt (rightLimitOfKeyOfMapOfData - leftLimitOfKeyOfMapOfData) > 1 then
      .error iterationBudgetMessage
    else .ok leftLimitOfKeyOfMapOfData
  | budget + 1, leftLimitOfKeyOfMapOfData, rightLimitOfKeyOfMapOfData =>
    if wrapInt (rightLimitOfKeyOfMapOfData - leftLimitOfKeyOfMapOfData) > 1 then
      let currentPositionInKeyOfMapOfData :=
        wrapInt (rightLimitOfKeyOfMapOfData + leftLimitOfKeyOfMapOfData) >>> (1 : ℕ)
      match keyAtPosition sortedIndepedentAndDependentVariables
          currentPositionInKeyOfMapOfData with
      | .error e => .error e
      | .ok key =>
        if ge targetValueInMapOfData key then
          binarySearchLoopOverMap ge sortedIndepedentAndDependentVariables targetValueInMapOfData
            budget currentPositionInKeyOfMapOfData rightLimitOfKeyOfMapOfData
        else
          binarySearchLoopOverMap ge sortedIndepedentAndDependentVariables targetValueInMapOfData
            budget leftLimitOfKeyOfMapOfData currentPositionInKeyOfMapOfData
    else .ok leftLimitOfKeyOfMapOfData

/-- Nearest left neighbor binary search, map overload.  The loop is given `size( )`
iterations, more than it can use. -/
def computeNearestLeftNeighborUsingBinarySearchOverMap {D V : Type} (ge : D → D → Bool)
    (sortedIndepedentAndDependentVariables : StdMap D V) (targetValueInMapOfData : D) :
    Except Exception ℤ :=
  let leftLimitOfKeyOfMapOfData : ℤ := 0
  let rightLimitOfKeyOfMapOfData : ℤ :=
    wrapInt ((sortedIndepedentAndDependentVariables.length : ℤ) - 1)
  binarySearchLoopOverMap ge sortedIndepedentAndDependentVariables targetValueInMapOfData
    sortedIndepedentAndDependentVariables.length leftLimitOfKeyOfMapOfData
    rightLimitOfKeyOfMapOfData

/-- The keys of a map listed in ascending order, as a vector. -/
def keysOfMap {D V : Type} (sortedIndepedentAndDependentVariables : StdMap D V) :
    Vector D sortedIndepedentAndDependentVariables.length :=
  fun i => (sortedIndepedentAndDependentVariables.get i).1

end basic_functions

/-! # Ephemerides -/

namespace ephemerides

/-- The members of the data container of a planet that the circular coplanar ephemeris
reads: mean longitude in degrees, its rate of change in degrees per century, and semi-major
axis in astronomical units. -/
structure ApproximatePlanetPositionsDataContainer (D : Type) where
  meanLongitude_ : D
  rateOfChangeOfMeanLongitude_ : D
  semiMajorAxis_ : D

/-- The members of `ApproximatePlanetPositionsCircularCoplanar` that
`getCartesianStateFromEphemeris` reads and writes. -/
structure ApproximatePlanetPositionsCircularCoplanar (D : Type) where
  approximatePlanetPositionsDataContainer_ : ApproximatePlanetPositionsDataContainer D
  julianDate_ : D
  numberOfCenturiesPastJ2000_ : D
  meanLongitudeAtGivenJulianDate_ : D
  constantOrbitalRadius_ : D

/-- Get state from ephemeris; circular, coplanar case.  The functions of `cmath`, the
constant `mathematics::PI`, the unit and coordinate conversions of the core library and the
gravitational parameter of the predefined Sun are parameters.  The result is the returned
state together with the object after the call. -/
def getCartesianStateFromEphemeris {D : Type} [Field D] (sin cos sqrt : D → D) (PI : D)
    (convertDegreesToRadians convertAstronomicalUnitsToMeters : D → D)
    (convertSphericalToCartesian : (Fin 3 → D) → (Fin 3 → D))
    (sunGravitationalParameter : D)
    (self : ApproximatePlanetPositionsCircularCoplanar D) (julianDate : D) :
    (Fin 6 → D) × ApproximatePlanetPositionsCircularCoplanar D :=
  let julianDate_ := julianDate
  let numberOfCenturiesPastJ2000_ := (julianDate_ - 2451545) / 36525
  let meanLongitudeInDegrees :=
    self.approximatePlanetPositionsDataContainer_.meanLongitude_ +
      (self.approximatePlanetPositionsDataContainer_.rateOfChangeOfMeanLongitude_ *
        numberOfCenturiesPastJ2000_)
  let meanLongitudeAtGivenJulianDate_ := convertDegreesToRadians meanLongitudeInDegrees
  let constantOrbitalRadius_ :=
    convertAstronomicalUnitsToMeters self.approximatePlanetPositionsDataContainer_.semiMajorAxis_
  let position := convertSphericalToCartesian
    ![constantOrbitalRadius_, 0.5 * PI, meanLongitudeAtGivenJulianDate_]
  let circularOrbitalVelocity := sqrt (sunGravitationalParameter / constantOrbitalRadius_)
  let planetCartesianStateAtGivenJulianDate : Fin 6 → D :=
    ![position 0, position 1, position 2,
      -sin meanLongitudeAtGivenJulianDate_ * circularOrbitalVelocity,
      cos meanLongitudeAtGivenJulianDate_ * circularOrbitalVelocity,
      0]
  (planetCartesianStateAtGivenJulianDate,
    { self with
      julianDate_ := julianDate_
      numberOfCenturiesPastJ2000_ := numberOfCenturiesPastJ2000_
      meanLongitudeAtGivenJulianDate_ := meanLongitudeAtGivenJulianDate_
      constantOrbitalRadius_ := constantOrbitalRadius_ })

/-- Spherical coordinates (radius, zenith angle, azimuth angle) to Cartesian coordinates,
the conversion of the core library over the reals. -/
noncomputable def sphericalToCartesianOverReals (sphericalCoordinates : Fin 3 → ℝ) :
    Fin 3 → ℝ :=
  ![sphericalCoordinates 0 * Real.cos (sphericalCoordinates 2) *
      Real.sin (sphericalCoordinates 1),
    sphericalCoordinates 0 * Real.sin (sphericalCoordinates 2) *
      Real.sin (sphericalCoordinates 1),
    sphericalCoordinates 0 * Real.cos (sphericalCoordinates 1)]

/-- A planet with mean longitude 100 degrees, rate 36000 degrees per century and semi-major
axis 1 astronomical unit; the other members are not read before they are written. -/
noncomputable def unitOrbitEphemeris : ApproximatePlanetPositionsCircularCoplanar ℝ :=
  { approximatePlanetPositionsDataContainer_ :=
      { meanLongitude_ := 100, rateOfChangeOfMeanLongitude_ := 36000, semiMajorAxis_ := 1 }
    julianDate_ := 0
    numberOfCenturiesPastJ2000_ := 0
    meanLongitudeAtGivenJulianDate_ := 0
    constantOrbitalRadius_ := 0 }

end ephemerides

namespace filters

open ConstantParameterIndices ConstantParameterReferences

/-! # Verified properties -/

section WeightTheorems

variable {K : Type} [Field K]

/-- Appending one weight per element of a list appends as many copies as the list is long. -/
theorem foldl_push_back_eq {D ι : Type} (w : D) (l : List ι) (weights : List D) :
    l.foldl (fun acc _ => acc ++ [w]) weights = weights ++ List.replicate l.length w := by
  induction l generalizing weights with
  | nil => simp
  | cons a l ih =>
    rw [List.foldl_cons, ih, List.length_cons, List.replicate_succ]
    simp

/-- The push-back loop appends `N - 1` copies of the weight. -/
theorem pushBackLoop_eq {D : Type} (w : D) (N : ℕ) (weights : List D) :
    pushBackLoop w N weights = weights ++ List.replicate (N - 1) w := by
  unfold pushBackLoop
  rw [foldl_push_back_eq, List.length_range']

/-- The mean weights after `generateEstimationWeights` on an empty weight vector. -/
theorem generateEstimationWeights_fst (n m : ℕ) (p : ConstantParameterIndices → K) :
    (generateEstimationWeights n m p []).1 =
      p lambda_index / ((augmentedStateDimension n m : K) + p lambda_index) ::
        List.replicate (2 * augmentedStateDimension n m)
          (1 / (2 * ((augmentedStateDimension n m : K) + p lambda_index))) := by
  simp [generateEstimationWeights, pushBackLoop_eq, numberOfSigmaPoints]

/-- C7: `generateEstimationWeights` (called, as in the constructor, on an empty weight vector)
produces a mean-weight vector of length exactly `N = 2L+1`, with first entry
`lambda / (L + lambda)` and every one of the `2L` further entries `1 / (2 (L + lambda))`. -/
theorem generateEstimationWeights_mean_weights (n m : ℕ) (p : ConstantParameterIndices → K) :
    (generateEstimationWeights n m p []).1.length = numberOfSigmaPoints n m ∧
    (generateEstimationWeights n m p []).1 =
      p lambda_index / ((augmentedStateDimension n m : K) + p lambda_index) ::
        List.replicate (2 * augmentedStateDimension n m)
          (1 / (2 * ((augmentedStateDimension n m : K) + p lambda_index))) := by
  refine ⟨?_, generateEstimationWeights_fst n m p⟩
  rw [generateEstimationWeights_fst]
  simp [numberOfSigmaPoints]

/-- C8: the covariance-weight vector has the length of the mean-weight vector, the same
entries after the first one, and as first entry the first mean weight plus
`1 - alpha^2 + beta`. -/
theorem generateEstimationWeights_covariance_weights (n m : ℕ)
    (p : ConstantParameterIndices → K) :
    (generateEstimationWeights n m p []).2.length = (generateEstimationWeights n m p []).1.length ∧
    (generateEstimationWeights n m p []).2.tail = (generateEstimationWeights n m p []).1.tail ∧
    ∃ w0, (generateEstimationWeights n m p []).1.head? = some w0 ∧
      (generateEstimationWeights n m p []).2.head? =
        some (w0 + (1 - p alpha_index * p alpha_index + p beta_index)) := by
  have h2 : (generateEstimationWeights n m p []).2 =
      (generateEstimationWeights n m p []).1.modifyHead
        (fun x => x + (1 - p alpha_index * p alpha_index + p beta_index)) := by
    simp [generateEstimationWeights]
  rw [h2, generateEstimationWeights_fst]
  simp

/-- C1: for all dimensions `n`, `m` and every parameter vector (so for every alpha and kappa)
with `L + lambda != 0`, the mean weights built by `generateEstimationWeights` sum to 1. -/
theorem generateEstimationWeights_sum_eq_one [CharZero K] (n m : ℕ)
    (p : ConstantParameterIndices → K)
    (h : (augmentedStateDimension n m : K) + p lambda_index ≠ 0) :
    (generateEstimationWeights n m p []).1.sum = 1 := by
  rw [generateEstimationWeights_fst]
  simp only [List.sum_cons, List.sum_replicate, nsmul_eq_mul, Nat.cast_mul, Nat.cast_ofNat]
  field_simp
  ring

end WeightTheorems

section ParameterTheorems

/-- C6: in every mode in which `setConstantParameterValues` gets past its check (each of the
three presets, and custom mode with a pair the check lets through), it returns normally and has
set `L = 2n+m`, `N = 2L+1`, `lambda = alpha^2 (L + kappa) - L` and `gamma = sqrt (L + lambda)`. -/
theorem setConstantParameterValues_sets_parameters {D : Type} [NatCast D] [Add D] [Sub D]
    [Mul D] [Div D] [BEq D] (n m : ℕ) (TUDAT_NAN : D) (sqrt : D → D)
    (constantParameters_ : ConstantParameterIndices → D)
    (constantValueReference : ConstantParameterReferences) (customConstantParameters : D × D)
    (hcheck : constantValueReference = custom_parameters →
      (customConstantParameters.1 == TUDAT_NAN || customConstantParameters.2 == TUDAT_NAN) = false) :
    ∃ p, setConstantParameterValues n m TUDAT_NAN sqrt constantParameters_
        constantValueReference customConstantParameters = .ok p ∧
      augmentedStateDimension n m = 2 * n + m ∧
      numberOfSigmaPoints n m = 2 * augmentedStateDimension n m + 1 ∧
      p lambda_index =
        p alpha_index * p alpha_index * ((augmentedStateDimension n m : D) + p kappa_index)
          - (augmentedStateDimension n m : D) ∧
      p gamma_index = sqrt ((augmentedStateDimension n m : D) + p lambda_index) := by
  cases constantValueReference
  case custom_parameters =>
    have h := hcheck rfl
    simp [setConstantParameterValues, setAlphaAndKappa, h, Function.update, augmentedStateDimension,
      numberOfSigmaPoints]
  all_goals
    simp [setConstantParameterValues, setAlphaAndKappa, Function.update, augmentedStateDimension,
      numberOfSigmaPoints]

/-- Witness for C6: custom mode with alpha = kappa = 1 on doubles, `n = m = 1`. -/
theorem setConstantParameterValues_sets_parameters_witness :
    (custom_parameters = custom_parameters →
      (((IeeeDouble.num 1, IeeeDouble.num 1) : IeeeDouble × IeeeDouble).1 == IeeeDouble.nan ||
        ((IeeeDouble.num 1, IeeeDouble.num 1) : IeeeDouble × IeeeDouble).2 == IeeeDouble.nan)
        = false) ∧
    ∃ p, setConstantParameterValues 1 1 IeeeDouble.nan IeeeDouble.sqrt initialConstantParameters
        custom_parameters (IeeeDouble.num 1, IeeeDouble.num 1) = .ok p ∧
      augmentedStateDimension 1 1 = 2 * 1 + 1 ∧
      numberOfSigmaPoints 1 1 = 2 * augmentedStateDimension 1 1 + 1 ∧
      p lambda_index =
        p alpha_index * p alpha_index *
            ((augmentedStateDimension 1 1 : IeeeDouble) + p kappa_index)
          - (augmentedStateDimension 1 1 : IeeeDouble) ∧
      p gamma_index =
        IeeeDouble.sqrt ((augmentedStateDimension 1 1 : IeeeDouble) + p lambda_index) :=
  ⟨fun _ => rfl,
    setConstantParameterValues_sets_parameters 1 1 IeeeDouble.nan IeeeDouble.sqrt
      initialConstantParameters
      custom_parameters (IeeeDouble.num 1, IeeeDouble.num 1) (fun _ => rfl)⟩

/-- Comparing any double with NaN by `==` gives false. -/
theorem IeeeDouble.beq_nan (x : IeeeDouble) : (x == IeeeDouble.nan) = false := by
  cases x <;> rfl

/-- An operation with NaN as its right operand gives NaN. -/
theorem IeeeDouble.lift_nan_right (op : ℚ → ℚ → ℚ) (x : IeeeDouble) :
    IeeeDouble.lift op x IeeeDouble.nan = IeeeDouble.nan := by
  cases x <;> rfl

/-- A division by NaN gives NaN. -/
theorem IeeeDouble.divide_nan_right (x : IeeeDouble) :
    IeeeDouble.divide x IeeeDouble.nan = IeeeDouble.nan := by
  cases x <;> rfl

/-- C9 (what the code does): on doubles, constructing the filter in `custom_parameters` mode
with the placeholder pair `( TUDAT_NAN, TUDAT_NAN )` does not throw: the comparison with NaN is
false, construction completes, alpha and kappa are NaN and every generated weight is NaN. -/
theorem create_custom_parameters_unset_returns {T : Type} (n m : ℕ)
    (sqrt : IeeeDouble → IeeeDouble) (systemFunction : SystemFunction n IeeeDouble T)
    (measurementFunction : MeasurementFunction n m IeeeDouble T)
    (systemUncertainty : DependentMatrix IeeeDouble n n)
    (measurementUncertainty : DependentMatrix IeeeDouble m m)
    (initialTime : T) (initialStateVector : DependentVector IeeeDouble n)
    (initialCovarianceMatrix : DependentMatrix IeeeDouble n n)
    (integratorSettings : Option (Integrator n IeeeDouble T)) :
    ∃ f, UnscentedKalmanFilter.create IeeeDouble.nan sqrt systemFunction measurementFunction
        systemUncertainty measurementUncertainty initialTime initialStateVector
        initialCovarianceMatrix integratorSettings custom_parameters
        (IeeeDouble.nan, IeeeDouble.nan) = .ok f ∧
      f.constantParameters_ alpha_index = IeeeDouble.nan ∧
      f.constantParameters_ kappa_index = IeeeDouble.nan ∧
      f.stateEstimationWeights_ = List.replicate (numberOfSigmaPoints n m) IeeeDouble.nan ∧
      f.covarianceEstimationWeights_ = List.replicate (numberOfSigmaPoints n m) IeeeDouble.nan := by
  have hmul : ∀ x y : IeeeDouble, x * y = IeeeDouble.lift (fun a b => a * b) x y := fun _ _ => rfl
  have hadd : ∀ x y : IeeeDouble, x + y = IeeeDouble.lift (fun a b => a + b) x y := fun _ _ => rfl
  have hsub : ∀ x y : IeeeDouble, x - y = IeeeDouble.lift (fun a b => a - b) x y := fun _ _ => rfl
  have hdiv : ∀ x y : IeeeDouble, x / y = IeeeDouble.divide x y := fun _ _ => rfl
  have hl : ∀ (op : ℚ → ℚ → ℚ) (y : IeeeDouble), IeeeDouble.lift op IeeeDouble.nan y
      = IeeeDouble.nan := fun _ _ => rfl
  have hd : ∀ y : IeeeDouble, IeeeDouble.divide IeeeDouble.nan y = IeeeDouble.nan :=
    fun _ => rfl
  simp [UnscentedKalmanFilter.create, setConstantParameterValues, setAlphaAndKappa,
    IeeeDouble.beq_nan, Function.update, generateEstimationWeights, pushBackLoop_eq, hmul, hadd,
    hsub, hdiv, hl, hd, IeeeDouble.lift_nan_right, IeeeDouble.divide_nan_right,
    numberOfSigmaPoints, List.replicate_succ]

end ParameterTheorems

section MapTheorems

variable {κ V : Type} [LinearOrder κ]

/-- Looking a key up after an assignment. -/
theorem mapFind_mapAssign (mp : StdMap κ V) (k : κ) (v : V) (k' : κ) :
    mapFind (mapAssign mp k v) k' = if k' = k then some v else mapFind mp k' := by
  induction mp with
  | nil => simp [mapAssign, mapFind]
  | cons a rest ih =>
    obtain ⟨ka, va⟩ := a
    by_cases h1 : k < ka
    · simp [mapAssign, mapFind, h1]
    · by_cases h2 : k = ka
      · subst h2
        by_cases h3 : k' = k <;> simp [mapAssign, mapFind, h3]
      · by_cases h3 : k' = k
        · subst h3
          simp [mapAssign, mapFind, h1, h2, ih]
        · simp [mapAssign, mapFind, h1, h2, h3, ih]

/-- The keys after an assignment are the assigned key and the keys before. -/
theorem mem_mapKeys_mapAssign (mp : StdMap κ V) (k : κ) (v : V) (k' : κ) :
    k' ∈ mapKeys (mapAssign mp k v) ↔ k' = k ∨ k' ∈ mapKeys mp := by
  induction mp with
  | nil => simp [mapAssign, mapKeys]
  | cons a rest ih =>
    obtain ⟨ka, va⟩ := a
    by_cases h1 : k < ka
    · simp [mapAssign, mapKeys, h1]
    · by_cases h2 : k = ka
      · subst h2
        simp [mapAssign, mapKeys]
      · simp only [mapKeys] at ih
        simp only [mapAssign, h1, h2, if_false, mapKeys, List.map_cons, List.mem_cons, ih]
        tauto

/-- An assignment keeps the keys strictly ascending. -/
theorem mapOrdered_mapAssign (mp : StdMap κ V) (k : κ) (v : V) (h : mapOrdered mp) :
    mapOrdered (mapAssign mp k v) := by
  induction mp with
  | nil => simp [mapAssign, mapOrdered, mapKeys]
  | cons a rest ih =>
    obtain ⟨ka, va⟩ := a
    have hrest : mapOrdered rest := by
      simp only [mapOrdered, mapKeys, List.map_cons, List.pairwise_cons] at h
      exact h.2
    have hka : ∀ x ∈ mapKeys rest, ka < x := by
      simp only [mapOrdered, mapKeys, List.map_cons, List.pairwise_cons] at h
      exact h.1
    by_cases h1 : k < ka
    · simp only [mapAssign, h1, if_true, mapOrdered, mapKeys, List.map_cons, List.pairwise_cons]
      refine ⟨?_, ?_, hrest⟩
      · intro x hx
        rcases List.mem_cons.1 hx with hx | hx
        · rw [hx]; exact h1
        · exact lt_trans h1 (hka x hx)
      · exact hka
    · by_cases h2 : k = ka
      · subst h2
        simp only [mapAssign, lt_irrefl, if_false, if_true, mapOrdered, mapKeys, List.map_cons,
          List.pairwise_cons]
        exact ⟨hka, hrest⟩
      · have h3 : ka < k := lt_of_le_of_ne (not_lt.1 h1) (Ne.symm h2)
        have ih' := ih hrest
        simp only [mapAssign, h1, h2, if_false]
        unfold mapOrdered at ih' ⊢
        show List.Pairwise (fun a b => a < b) (ka :: mapKeys (mapAssign rest k v))
        refine List.pairwise_cons.2 ⟨?_, ih'⟩
        intro x hx
        rcases (mem_mapKeys_mapAssign rest k v x).1 hx with hx | hx
        · rw [hx]; exact h3
        · exact hka x hx

/-- A key that is not in the map is not found. -/
theorem mapFind_eq_none (mp : StdMap κ V) (k : κ) (h : k ∉ mapKeys mp) : mapFind mp k = none := by
  induction mp with
  | nil => rfl
  | cons a rest ih =>
    obtain ⟨ka, va⟩ := a
    simp only [mapKeys, List.map_cons, List.mem_cons, not_or] at h
    simp only [mapFind, h.1, if_false]
    exact ih h.2

/-- Two maps with ascending keys and the same lookups are the same map. -/
theorem map_ext (l1 l2 : StdMap κ V) (h1 : mapOrdered l1) (h2 : mapOrdered l2)
    (h : ∀ k, mapFind l1 k = mapFind l2 k) : l1 = l2 := by
  induction l1 generalizing l2 with
  | nil =>
    cases l2 with
    | nil => rfl
    | cons b l2 =>
      have hb := h b.1
      simp [mapFind] at hb
  | cons a l1 ih =>
    cases l2 with
    | nil =>
      have ha := h a.1
      simp [mapFind] at ha
    | cons b l2 =>
      obtain ⟨ka, va⟩ := a
      obtain ⟨kb, vb⟩ := b
      simp only [mapOrdered, mapKeys, List.map_cons, List.pairwise_cons] at h1 h2
      have hna : ka ∉ mapKeys l1 := fun hx => lt_irrefl _ (h1.1 ka hx)
      have hnb : kb ∉ mapKeys l2 := fun hx => lt_irrefl _ (h2.1 kb hx)
      have hab : ka = kb := by
        rcases lt_trichotomy ka kb with hlt | heq | hgt
        · have hne : ka ∉ mapKeys l2 := fun hx => lt_asymm hlt (h2.1 ka hx)
          have := h ka
          simp [mapFind, ne_of_lt hlt, mapFind_eq_none l2 ka hne] at this
        · exact heq
        · have hne : kb ∉ mapKeys l1 := fun hx => lt_asymm hgt (h1.1 kb hx)
          have := h kb
          simp [mapFind, ne_of_lt hgt, mapFind_eq_none l1 kb hne] at this
      subst hab
      have hv : va = vb := by
        have := h ka
        simpa [mapFind] using this
      subst hv
      have htail : l1 = l2 := by
        apply ih l2 h1.2 h2.2
        intro k
        by_cases hk : k = ka
        · rw [hk, mapFind_eq_none l1 ka hna, mapFind_eq_none l2 ka hnb]
        · have := h k
          simpa [mapFind, hk] using this
      rw [htail]

end MapTheorems

section AssignLoopTheorems

variable {V : Type} {N : ℕ}

/-- A loop of assignments leaves the keys it does not assign as they were. -/
theorem mapFind_foldl_assign_of_not_mem (g : Fin N → V) (l : List (Fin N)) (mp : StdMap ℕ V)
    (k : ℕ) (hk : ∀ i ∈ l, i.val ≠ k) :
    mapFind (l.foldl (fun mp i => mapAssign mp i.val (g i)) mp) k = mapFind mp k := by
  induction l generalizing mp with
  | nil => rfl
  | cons a l ih =>
    rw [List.foldl_cons, ih _ (fun i hi => hk i (List.mem_cons_of_mem _ hi)), mapFind_mapAssign]
    have : k ≠ a.val := fun h => hk a (List.mem_cons_self _ _) h.symm
    simp [this]

/-- A loop of assignments over distinct indices stores each assigned value. -/
theorem mapFind_foldl_assign_of_mem (g : Fin N → V) (l : List (Fin N)) (hl : l.Nodup)
    (mp : StdMap ℕ V) (i : Fin N) (hi : i ∈ l) :
    mapFind (l.foldl (fun mp i => mapAssign mp i.val (g i)) mp) i.val = some (g i) := by
  induction l generalizing mp with
  | nil => cases hi
  | cons a l ih =>
    rw [List.foldl_cons]
    rcases List.mem_cons.1 hi with h | h
    · subst h
      have hnot : ∀ j ∈ l, j.val ≠ i.val := by
        intro j hj hji
        have : j = i := Fin.ext hji
        subst this
        exact (List.nodup_cons.1 hl).1 hj
      rw [mapFind_foldl_assign_of_not_mem g l _ i.val hnot, mapFind_mapAssign]
      simp
    · exact ih (List.nodup_cons.1 hl).2 _ h

/-- A loop of assignments keeps the keys strictly ascending. -/
theorem mapOrdered_foldl_assign (g : Fin N → V) (l : List (Fin N)) (mp : StdMap ℕ V)
    (h : mapOrdered mp) : mapOrdered (l.foldl (fun mp i => mapAssign mp i.val (g i)) mp) := by
  induction l generalizing mp with
  | nil => exact h
  | cons a l ih =>
    rw [List.foldl_cons]
    exact ih _ (mapOrdered_mapAssign mp a.val (g a) h)

/-- Lookup in the map that lists `g i` under each index `i`. -/
theorem mapFind_map_finRange (g : Fin N → V) (i : Fin N) :
    mapFind ((List.finRange N).map (fun i => (i.val, g i))) i.val = some (g i) := by
  have key : ∀ l : List (Fin N), l.Nodup → i ∈ l →
      mapFind (l.map (fun i => (i.val, g i))) i.val = some (g i) := by
    intro l
    induction l with
    | nil => intro _ hi; cases hi
    | cons a l ih =>
      intro hl hi
      rcases List.mem_cons.1 hi with h | h
      · subst h
        simp [mapFind]
      · have hne : i ≠ a := fun hia => (List.nodup_cons.1 hl).1 (hia ▸ h)
        have hne' : i.val ≠ a.val := fun hv => hne (Fin.ext hv)
        simp only [List.map_cons, mapFind, hne', if_false]
        exact ih (List.nodup_cons.1 hl).2 h
  exact key _ (List.nodup_finRange N) (List.mem_finRange i)

/-- The keys of the map that lists `g i` under each index `i` are `0, ..., N-1`. -/
theorem mapKeys_map_finRange (g : Fin N → V) :
    mapKeys ((List.finRange N).map (fun i => (i.val, g i))) = List.range N := by
  simp only [mapKeys, List.map_map]
  exact List.map_coe_finRange N

/-- The loop `for ( i = 0; i < N; i++ ) map[ i ] = g( i )`, run on a map whose keys are below
`N`, leaves exactly the entries `( i, g( i ) )`. -/
theorem foldl_assign_finRange (g : Fin N → V) (mp : StdMap ℕ V) (hord : mapOrdered mp)
    (hkeys : ∀ k ∈ mapKeys mp, k < N) :
    (List.finRange N).foldl (fun mp i => mapAssign mp i.val (g i)) mp =
      (List.finRange N).map (fun i => (i.val, g i)) := by
  apply map_ext
  · exact mapOrdered_foldl_assign g _ mp hord
  · unfold mapOrdered
    rw [mapKeys_map_finRange]
    exact List.pairwise_lt_range N
  · intro k
    by_cases hk : k < N
    · have h1 := mapFind_foldl_assign_of_mem g (List.finRange N) (List.nodup_finRange N) mp
        ⟨k, hk⟩ (List.mem_finRange _)
      have h2 := mapFind_map_finRange g ⟨k, hk⟩
      simp only at h1 h2
      rw [h1, h2]
    · have hnot : ∀ i ∈ List.finRange N, i.val ≠ k := fun i _ hik => hk (hik ▸ i.isLt)
      rw [mapFind_foldl_assign_of_not_mem g _ mp k hnot]
      rw [mapFind_eq_none mp k (fun hmem => hk (hkeys k hmem))]
      rw [mapFind_eq_none]
      rw [mapKeys_map_finRange]
      simpa using hk

end AssignLoopTheorems

section SigmaPointTheorems

variable {K T : Type} [Field K] {n m : ℕ}

omit [Field K] in
/-- The map of a fresh object is empty and `computeSigmaPoints` leaves the keys `0, ..., N-1`;
in both cases the keys are ascending and below `N`. -/
theorem sigma_map_ordered_and_bounded
    (mp : StdMap ℕ (DependentVector K (augmentedStateDimension n m)))
    (hmap : mp = [] ∨ mapKeys mp = List.range (numberOfSigmaPoints n m)) :
    mapOrdered mp ∧ ∀ k ∈ mapKeys mp, k < numberOfSigmaPoints n m := by
  rcases hmap with h | h
  · subst h
    simp [mapOrdered, mapKeys]
  · unfold mapOrdered
    rw [h]
    exact ⟨List.pairwise_lt_range _, fun k hk => List.mem_range.1 hk⟩

/-- The member `mapOfSigmaPoints_` after `computeSigmaPoints`: entry `i` is `sigmaPoint i`. -/
theorem computeSigmaPoints_mapOfSigmaPoints
    (matrixSqrt : DependentMatrix K (augmentedStateDimension n m) (augmentedStateDimension n m) →
      DependentMatrix K (augmentedStateDimension n m) (augmentedStateDimension n m))
    (f : UnscentedKalmanFilter n m K T) (x : DependentVector K n) (P : DependentMatrix K n n)
    (hmap : f.mapOfSigmaPoints_ = [] ∨
      mapKeys f.mapOfSigmaPoints_ = List.range (numberOfSigmaPoints n m)) :
    (computeSigmaPoints matrixSqrt f x P).mapOfSigmaPoints_ =
      (List.finRange (numberOfSigmaPoints n m)).map (fun i => (i.val,
        sigmaPoint (computeSigmaPoints matrixSqrt f x P).augmentedStateVector_
          (f.constantParameters_ gamma_index)
          (matrixSqrt (computeSigmaPoints matrixSqrt f x P).augmentedCovarianceMatrix_) i)) := by
  obtain ⟨hord, hkeys⟩ := sigma_map_ordered_and_bounded f.mapOfSigmaPoints_ hmap
  simp only [computeSigmaPoints]
  exact foldl_assign_finRange _ _ hord hkeys

/-- C2: called on an object whose sigma-point map is fresh (empty) or left by an earlier call,
`computeSigmaPoints` leaves exactly `N = 2L+1` points, keyed `0, ..., N-1`: point 0 is the
augmented mean, point `i` is the mean plus gamma times column `i-1` of the square root for
`1 <= i <= L`, and the mean minus gamma times column `i-1-L` for `L+1 <= i <= 2L`. -/
theorem computeSigmaPoints_sigma_points
    (matrixSqrt : DependentMatrix K (augmentedStateDimension n m) (augmentedStateDimension n m) →
      DependentMatrix K (augmentedStateDimension n m) (augmentedStateDimension n m))
    (f : UnscentedKalmanFilter n m K T) (x : DependentVector K n) (P : DependentMatrix K n n)
    (hmap : f.mapOfSigmaPoints_ = [] ∨
      mapKeys f.mapOfSigmaPoints_ = List.range (numberOfSigmaPoints n m)) :
    mapKeys (computeSigmaPoints matrixSqrt f x P).mapOfSigmaPoints_ =
      List.range (2 * augmentedStateDimension n m + 1) ∧
    (computeSigmaPoints matrixSqrt f x P).mapOfSigmaPoints_.length =
      2 * augmentedStateDimension n m + 1 ∧
    mapFind (computeSigmaPoints matrixSqrt f x P).mapOfSigmaPoints_ 0 =
      some (computeSigmaPoints matrixSqrt f x P).augmentedStateVector_ ∧
    (∀ (i : ℕ) (h1 : 1 ≤ i) (h2 : i ≤ augmentedStateDimension n m),
      mapFind (computeSigmaPoints matrixSqrt f x P).mapOfSigmaPoints_ i =
        some (fun r => (computeSigmaPoints matrixSqrt f x P).augmentedStateVector_ r +
          f.constantParameters_ gamma_index *
            matrixSqrt (computeSigmaPoints matrixSqrt f x P).augmentedCovarianceMatrix_ r
              ⟨i - 1, by omega⟩)) ∧
    (∀ (i : ℕ) (h1 : augmentedStateDimension n m + 1 ≤ i)
      (h2 : i ≤ 2 * augmentedStateDimension n m),
      mapFind (computeSigmaPoints matrixSqrt f x P).mapOfSigmaPoints_ i =
        some (fun r => (computeSigmaPoints matrixSqrt f x P).augmentedStateVector_ r -
          f.constantParameters_ gamma_index *
            matrixSqrt (computeSigmaPoints matrixSqrt f x P).augmentedCovarianceMatrix_ r
              ⟨i - 1 - augmentedStateDimension n m, by omega⟩)) := by
  rw [computeSigmaPoints_mapOfSigmaPoints matrixSqrt f x P hmap]
  refine ⟨mapKeys_map_finRange _, by simp [numberOfSigmaPoints], ?_, ?_, ?_⟩
  · have h := mapFind_map_finRange (fun i =>
      sigmaPoint (computeSigmaPoints matrixSqrt f x P).augmentedStateVector_
        (f.constantParameters_ gamma_index)
        (matrixSqrt (computeSigmaPoints matrixSqrt f x P).augmentedCovarianceMatrix_) i)
      ⟨0, by unfold numberOfSigmaPoints; omega⟩
    simp only at h
    rw [h]
    simp [sigmaPoint]
  · intro i h1 h2
    have h := mapFind_map_finRange (fun i =>
      sigmaPoint (computeSigmaPoints matrixSqrt f x P).augmentedStateVector_
        (f.constantParameters_ gamma_index)
        (matrixSqrt (computeSigmaPoints matrixSqrt f x P).augmentedCovarianceMatrix_) i)
      ⟨i, by unfold numberOfSigmaPoints; omega⟩
    simp only at h
    rw [h]
    have hi0 : i ≠ 0 := by omega
    have hi1 : i < augmentedStateDimension n m + 1 := by omega
    simp [sigmaPoint, hi0, hi1]
  · intro i h1 h2
    have h := mapFind_map_finRange (fun i =>
      sigmaPoint (computeSigmaPoints matrixSqrt f x P).augmentedStateVector_
        (f.constantParameters_ gamma_index)
        (matrixSqrt (computeSigmaPoints matrixSqrt f x P).augmentedCovarianceMatrix_) i)
      ⟨i, by unfold numberOfSigmaPoints; omega⟩
    simp only at h
    rw [h]
    have hi0 : i ≠ 0 := by omega
    have hi1 : ¬ i < augmentedStateDimension n m + 1 := by omega
    simp [sigmaPoint, hi0, hi1]

/-- The weighted average over a map whose keys all index a weight: the start value plus the
sum of the weighted entries. -/
theorem computeWeightedAverageVector_eq {k : ℕ} (w : List K)
    (l : StdMap ℕ (DependentVector K k)) (acc : DependentVector K k)
    (h : ∀ e ∈ l, e.1 < w.length) :
    computeWeightedAverageFromSigmaPointEstimatesVector w l acc =
      .ok (acc + (l.map (fun e => w.getD e.1 0 • e.2)).sum) := by
  induction l generalizing acc with
  | nil => simp [computeWeightedAverageFromSigmaPointEstimatesVector]
  | cons a l ih =>
    obtain ⟨i, p⟩ := a
    have hi : i < w.length := h (i, p) (List.mem_cons_self _ _)
    have hget : w[i]? = some (w.getD i 0) := by
      rw [List.getD_eq_getElem?_getD, List.getElem?_eq_getElem hi]
      rfl
    simp only [computeWeightedAverageFromSigmaPointEstimatesVector, hget]
    rw [ih _ (fun e he => h e (List.mem_cons_of_mem _ he))]
    simp [add_assoc]

end SigmaPointTheorems

section UpdateTheorems

variable {K T : Type} [Field K] [LinearOrder T] {n m : ℕ}

omit [LinearOrder T] in
/-- The prediction loop writes no member but `currentSigmaPoint_`. -/
theorem predictionLoop_snd (t : T) (u : ControlVector K)
    (l : StdMap ℕ (DependentVector K (augmentedStateDimension n m)))
    (f : UnscentedKalmanFilter n m K T) (est : StdMap ℕ (DependentVector K n)) :
    ∃ c, (predictionLoop t u l f est).2 = { f with currentSigmaPoint_ := c } := by
  induction l generalizing f est with
  | nil => exact ⟨f.currentSigmaPoint_, rfl⟩
  | cons a l ih =>
    obtain ⟨i, p⟩ := a
    unfold predictionLoop
    split
    · exact ⟨i, rfl⟩
    · obtain ⟨c, hc⟩ := ih { f with currentSigmaPoint_ := i } (mapAssign est i _)
      exact ⟨c, hc⟩

omit [LinearOrder T] in
/-- The measurement loop writes no member but `currentSigmaPoint_`. -/
theorem measurementLoop_snd (t : T)
    (l : StdMap ℕ (DependentVector K (augmentedStateDimension n m)))
    (f : UnscentedKalmanFilter n m K T) (est : StdMap ℕ (DependentVector K m)) :
    ∃ c, (measurementLoop t l f est).2 = { f with currentSigmaPoint_ := c } := by
  induction l generalizing f est with
  | nil => exact ⟨f.currentSigmaPoint_, rfl⟩
  | cons a l ih =>
    obtain ⟨i, p⟩ := a
    unfold measurementLoop
    split
    · exact ⟨i, rfl⟩
    · obtain ⟨c, hc⟩ := ih { f with currentSigmaPoint_ := i } (mapAssign est i _)
      exact ⟨c, hc⟩

/-- The three ways an `updateFilter` call ends.  With `f2` the object after the first
`computeSigmaPoints` and the archiving of its sigma points: the call throws before the
regeneration and leaves `f2` (up to `currentSigmaPoint_`); or it throws after the regeneration
around an a-priori estimate and leaves the regenerated object (up to `currentSigmaPoint_`); or
it returns, and the object is the regenerated one after `correctState` and
`correctCovariance` with a gain `crossCorrelation * inverse innovation`, where the a-priori
covariance and the innovation matrix are results of the matrix weighted average. -/
theorem updateFilter_trace
    (matrixSqrt : DependentMatrix K (augmentedStateDimension n m) (augmentedStateDimension n m) →
      DependentMatrix K (augmentedStateDimension n m) (augmentedStateDimension n m))
    (f : UnscentedKalmanFilter n m K T) (t : T) (u : ControlVector K)
    (z : DependentVector K m) :
    (∃ e c, updateFilter matrixSqrt f t u z = (.error e,
      { computeSigmaPoints matrixSqrt f f.aPosterioriStateEstimate_
          f.aPosterioriCovarianceEstimate_ with
        mapOfMapOfSigmaPoints_ := mapAssign f.mapOfMapOfSigmaPoints_ t
          (computeSigmaPoints matrixSqrt f f.aPosterioriStateEstimate_
            f.aPosterioriCovarianceEstimate_).mapOfSigmaPoints_
        currentSigmaPoint_ := c })) ∨
    (∃ e c c' xPrior PPrior, updateFilter matrixSqrt f t u z = (.error e,
      { computeSigmaPoints matrixSqrt
          { computeSigmaPoints matrixSqrt f f.aPosterioriStateEstimate_
              f.aPosterioriCovarianceEstimate_ with
            mapOfMapOfSigmaPoints_ := mapAssign f.mapOfMapOfSigmaPoints_ t
              (computeSigmaPoints matrixSqrt f f.aPosterioriStateEstimate_
                f.aPosterioriCovarianceEstimate_).mapOfSigmaPoints_
            currentSigmaPoint_ := c } xPrior PPrior with
        currentSigmaPoint_ := c' })) ∨
    (∃ c c' stateEstimates xPrior PPrior measurementEstimates zPredicted innovation
        crossCorrelation,
      (predictionLoop t u
        (computeSigmaPoints matrixSqrt f f.aPosterioriStateEstimate_
          f.aPosterioriCovarianceEstimate_).mapOfSigmaPoints_
        { computeSigmaPoints matrixSqrt f f.aPosterioriStateEstimate_
            f.aPosterioriCovarianceEstimate_ with
          mapOfMapOfSigmaPoints_ := mapAssign f.mapOfMapOfSigmaPoints_ t
            (computeSigmaPoints matrixSqrt f f.aPosterioriStateEstimate_
              f.aPosterioriCovarianceEstimate_).mapOfSigmaPoints_ } []).1 = .ok stateEstimates ∧
      computeWeightedAverageFromSigmaPointEstimatesVector f.stateEstimationWeights_
        stateEstimates 0 = .ok xPrior ∧
      computeWeightedAverageFromSigmaPointEstimatesMatrix f.covarianceEstimationWeights_
        xPrior stateEstimates 0 = .ok PPrior ∧
      (measurementLoop t
        (computeSigmaPoints matrixSqrt
          { computeSigmaPoints matrixSqrt f f.aPosterioriStateEstimate_
              f.aPosterioriCovarianceEstimate_ with
            mapOfMapOfSigmaPoints_ := mapAssign f.mapOfMapOfSigmaPoints_ t
              (computeSigmaPoints matrixSqrt f f.aPosterioriStateEstimate_
                f.aPosterioriCovarianceEstimate_).mapOfSigmaPoints_
            currentSigmaPoint_ := c } xPrior PPrior).mapOfSigmaPoints_
        (computeSigmaPoints matrixSqrt
          { computeSigmaPoints matrixSqrt f f.aPosterioriStateEstimate_
              f.aPosterioriCovarianceEstimate_ with
            mapOfMapOfSigmaPoints_ := mapAssign f.mapOfMapOfSigmaPoints_ t
              (computeSigmaPoints matrixSqrt f f.aPosterioriStateEstimate_
                f.aPosterioriCovarianceEstimate_).mapOfSigmaPoints_
            currentSigmaPoint_ := c } xPrior PPrior) []).1 = .ok measurementEstimates ∧
      computeWeightedAverageFromSigmaPointEstimatesVector f.stateEstimationWeights_
        measurementEstimates 0 = .ok zPredicted ∧
      computeWeightedAverageFromSigmaPointEstimatesMatrix f.covarianceEstimationWeights_
        zPredicted measurementEstimates 0 = .ok innovation ∧
      crossCorrelationLoop f.covarianceEstimationWeights_ xPrior measurementEstimates
        zPredicted stateEstimates 0 = .ok crossCorrelation ∧
      updateFilter matrixSqrt f t u z = (.ok (),
        correctCovariance
          (correctState
            { computeSigmaPoints matrixSqrt
                { computeSigmaPoints matrixSqrt f f.aPosterioriStateEstimate_
                    f.aPosterioriCovarianceEstimate_ with
                  mapOfMapOfSigmaPoints_ := mapAssign f.mapOfMapOfSigmaPoints_ t
                    (computeSigmaPoints matrixSqrt f f.aPosterioriStateEstimate_
                      f.aPosterioriCovarianceEstimate_).mapOfSigmaPoints_
                  currentSigmaPoint_ := c } xPrior PPrior with
              currentSigmaPoint_ := c' }
            t xPrior z zPredicted (crossCorrelation * inverse innovation))
          t PPrior innovation (crossCorrelation * inverse innovation))) := by
  unfold updateFilter
  simp only []
  split
  · rename_i e f3 hp
    obtain ⟨c, hc⟩ := predictionLoop_snd (K := K) (n := n) (m := m) t u _ _ _
    rw [hp] at hc
    simp only at hc
    left
    exact ⟨e, c, by rw [hc]; rfl⟩
  · rename_i est f3 hp
    obtain ⟨c, hc⟩ := predictionLoop_snd (K := K) (n := n) (m := m) t u _ _ _
    rw [hp] at hc
    simp only at hc
    subst hc
    split
    · rename_i e _
      left
      exact ⟨e, c, rfl⟩
    · rename_i xPrior hx
      split
      · rename_i e _
        left
        exact ⟨e, c, rfl⟩
      · rename_i PPrior hP
        split
        · rename_i e f5 hm
          obtain ⟨c', hc'⟩ := measurementLoop_snd (K := K) (n := n) (m := m) t _ _ _
          rw [hm] at hc'
          simp only at hc'
          right; left
          exact ⟨e, c, c', xPrior, PPrior, by rw [hc']; rfl⟩
        · rename_i mest f5 hm
          obtain ⟨c', hc'⟩ := measurementLoop_snd (K := K) (n := n) (m := m) t _ _ _
          rw [hm] at hc'
          simp only at hc'
          subst hc'
          split
          · rename_i e _
            right; left
            exact ⟨e, c, c', xPrior, PPrior, rfl⟩
          · rename_i zPred hz
            split
            · rename_i e _
              right; left
              exact ⟨e, c, c', xPrior, PPrior, rfl⟩
            · rename_i S hS
              split
              · rename_i e _
                right; left
                exact ⟨e, c, c', xPrior, PPrior, rfl⟩
              · rename_i C hC
                right; right
                exact ⟨c, c', est, xPrior, PPrior, mest, zPred, S, C, congrArg Prod.fst hp, hx, hP,
                  congrArg Prod.fst hm, hz, hS, hC, rfl⟩

omit [LinearOrder T] in
/-- The product `G * S * G^T` is symmetric when `S` is. -/
theorem isSymm_mul_mul_transpose {r k : ℕ} (G : DependentMatrix K r k) (S : DependentMatrix K k k)
    (hS : S.IsSymm) : (G * S * G.transpose).IsSymm := by
  unfold Matrix.IsSymm
  rw [Matrix.transpose_mul, Matrix.transpose_mul, Matrix.transpose_transpose, hS.eq,
    Matrix.mul_assoc]

/-- C10 (as amended): if an `updateFilter` call throws, the a-posteriori state, the
a-posteriori covariance, the state history and the covariance history are those held before the
call, and the sigma-point history is the one held before the call with the sigma-point set
generated at the start of the call filed under the current time. -/
theorem updateFilter_error_frame
    (matrixSqrt : DependentMatrix K (augmentedStateDimension n m) (augmentedStateDimension n m) →
      DependentMatrix K (augmentedStateDimension n m) (augmentedStateDimension n m))
    (f : UnscentedKalmanFilter n m K T) (t : T) (u : ControlVector K) (z : DependentVector K m)
    (e : Exception) (herr : (updateFilter matrixSqrt f t u z).1 = .error e) :
    (updateFilter matrixSqrt f t u z).2.aPosterioriStateEstimate_ = f.aPosterioriStateEstimate_ ∧
    (updateFilter matrixSqrt f t u z).2.aPosterioriCovarianceEstimate_ =
      f.aPosterioriCovarianceEstimate_ ∧
    (updateFilter matrixSqrt f t u z).2.estimatedStateHistory_ = f.estimatedStateHistory_ ∧
    (updateFilter matrixSqrt f t u z).2.estimatedCovarianceHistory_ =
      f.estimatedCovarianceHistory_ ∧
    (updateFilter matrixSqrt f t u z).2.mapOfMapOfSigmaPoints_ =
      mapAssign f.mapOfMapOfSigmaPoints_ t
        (computeSigmaPoints matrixSqrt f f.aPosterioriStateEstimate_
          f.aPosterioriCovarianceEstimate_).mapOfSigmaPoints_ := by
  rcases updateFilter_trace matrixSqrt f t u z with
    ⟨e', c, h⟩ | ⟨e', c, c', xPrior, PPrior, h⟩ |
    ⟨c, c', est, xPrior, PPrior, mest, zPred, S, C, _, _, _, _, _, _, _, h⟩
  · rw [h]
    exact ⟨rfl, rfl, rfl, rfl, rfl⟩
  · rw [h]
    exact ⟨rfl, rfl, rfl, rfl, rfl⟩
  · rw [h] at herr
    cases herr

omit [Field K] [LinearOrder T] in
/-- Every entry of a map with ascending keys is found under its key. -/
theorem mapFind_of_mem {κ V : Type} [LinearOrder κ] (l : StdMap κ V) (h : mapOrdered l)
    (e : κ × V) (he : e ∈ l) : mapFind l e.1 = some e.2 := by
  induction l with
  | nil => cases he
  | cons a l ih =>
    simp only [mapOrdered, mapKeys, List.map_cons, List.pairwise_cons] at h
    rcases List.mem_cons.1 he with h1 | h1
    · subst h1
      simp [mapFind]
    · have hlt : a.1 < e.1 := h.1 e.1 (List.mem_map_of_mem Prod.fst h1)
      have hne : e.1 ≠ a.1 := ne_of_gt hlt
      obtain ⟨ka, va⟩ := a
      simp only [mapFind, hne, if_false]
      exact ih h.2 h1

omit [LinearOrder T] in
/-- The prediction loop without integrator, for a user system function that returns
`phi state` at the given time and control: the estimate filed under each index is `phi` of
the state segment of the sigma point plus the process-noise segment of that sigma point. -/
theorem predictionLoop_eq_ok (t : T) (u : ControlVector K) (phi : DependentVector K n →
      DependentVector K n)
    (l : StdMap ℕ (DependentVector K (augmentedStateDimension n m)))
    (f : UnscentedKalmanFilter n m K T) (est : StdMap ℕ (DependentVector K n))
    (hint : f.integratorSettings_ = none)
    (hsys : ∀ x, f.inputSystemFunction_ t x u = .ok (phi x))
    (hl : ∀ e ∈ l, mapFind f.mapOfSigmaPoints_ e.1 = some e.2) :
    predictionLoop t u l f est =
      (.ok (l.foldl (fun acc e => mapAssign acc e.1
          (phi (segment e.2 0 n (by unfold augmentedStateDimension; omega)) +
            segment e.2 n n (by unfold augmentedStateDimension; omega))) est),
        { f with currentSigmaPoint_ := l.foldl (fun _ e => e.1) f.currentSigmaPoint_ }) := by
  induction l generalizing f est with
  | nil => rfl
  | cons a l ih =>
    obtain ⟨i, p⟩ := a
    have hfind := hl (i, p) (List.mem_cons_self _ _)
    simp only at hfind
    have hstep : predictState { f with currentSigmaPoint_ := i } t
        (segment p 0 n (by unfold augmentedStateDimension; omega)) u =
        .ok (phi (segment p 0 n (by unfold augmentedStateDimension; omega)) +
          segment p n n (by unfold augmentedStateDimension; omega)) := by
      simp only [predictState, hint, createSystemFunction, hsys, hfind]
    unfold predictionLoop
    simp only [hstep]
    rw [ih { f with currentSigmaPoint_ := i } _ hint hsys
      (fun e he => hl e (List.mem_cons_of_mem _ he))]
    rfl

omit [LinearOrder T] in
/-- The measurement loop, for a user measurement function that returns `psi state` at the
given time: the estimate filed under each index is `psi` of the state segment of the sigma
point plus the measurement-noise segment of that sigma point. -/
theorem measurementLoop_eq_ok (t : T) (psi : DependentVector K n → DependentVector K m)
    (l : StdMap ℕ (DependentVector K (augmentedStateDimension n m)))
    (f : UnscentedKalmanFilter n m K T) (est : StdMap ℕ (DependentVector K m))
    (hmeas : ∀ x, f.inputMeasurementFunction_ t x = .ok (psi x))
    (hl : ∀ e ∈ l, mapFind f.mapOfSigmaPoints_ e.1 = some e.2) :
    measurementLoop t l f est =
      (.ok (l.foldl (fun acc e => mapAssign acc e.1
          (psi (segment e.2 0 n (by unfold augmentedStateDimension; omega)) +
            segment e.2 (2 * n) m (by unfold augmentedStateDimension; omega))) est),
        { f with currentSigmaPoint_ := l.foldl (fun _ e => e.1) f.currentSigmaPoint_ }) := by
  induction l generalizing f est with
  | nil => rfl
  | cons a l ih =>
    obtain ⟨i, p⟩ := a
    have hfind := hl (i, p) (List.mem_cons_self _ _)
    simp only at hfind
    have hstep : createMeasurementFunction { f with currentSigmaPoint_ := i } t
        (segment p 0 n (by unfold augmentedStateDimension; omega)) =
        .ok (psi (segment p 0 n (by unfold augmentedStateDimension; omega)) +
          segment p (2 * n) m (by unfold augmentedStateDimension; omega)) := by
      simp only [createMeasurementFunction, hmeas, hfind]
    unfold measurementLoop
    simp only [hstep]
    rw [ih { f with currentSigmaPoint_ := i } _ hmeas
      (fun e he => hl e (List.mem_cons_of_mem _ he))]
    rfl

/-- The result of an `updateFilter` call all of whose steps return. -/
theorem updateFilter_eq_ok
    (matrixSqrt : DependentMatrix K (augmentedStateDimension n m) (augmentedStateDimension n m) →
      DependentMatrix K (augmentedStateDimension n m) (augmentedStateDimension n m))
    (f f3 f5 : UnscentedKalmanFilter n m K T) (t : T) (u : ControlVector K)
    (z : DependentVector K m) (stateEstimates : StdMap ℕ (DependentVector K n))
    (xPrior : DependentVector K n) (PPrior : DependentMatrix K n n)
    (measurementEstimates : StdMap ℕ (DependentVector K m)) (zPredicted : DependentVector K m)
    (innovation : DependentMatrix K m m) (crossCorrelation : DependentMatrix K n m)
    (hp : predictionLoop t u
      (computeSigmaPoints matrixSqrt f f.aPosterioriStateEstimate_
        f.aPosterioriCovarianceEstimate_).mapOfSigmaPoints_
      { computeSigmaPoints matrixSqrt f f.aPosterioriStateEstimate_
          f.aPosterioriCovarianceEstimate_ with
        mapOfMapOfSigmaPoints_ := mapAssign f.mapOfMapOfSigmaPoints_ t
          (computeSigmaPoints matrixSqrt f f.aPosterioriStateEstimate_
            f.aPosterioriCovarianceEstimate_).mapOfSigmaPoints_ } [] = (.ok stateEstimates, f3))
    (hx : computeWeightedAverageFromSigmaPointEstimatesVector f3.stateEstimationWeights_
      stateEstimates 0 = .ok xPrior)
    (hP : computeWeightedAverageFromSigmaPointEstimatesMatrix f3.covarianceEstimationWeights_
      xPrior stateEstimates 0 = .ok PPrior)
    (hm : measurementLoop t (computeSigmaPoints matrixSqrt f3 xPrior PPrior).mapOfSigmaPoints_
      (computeSigmaPoints matrixSqrt f3 xPrior PPrior) [] = (.ok measurementEstimates, f5))
    (hz : computeWeightedAverageFromSigmaPointEstimatesVector f5.stateEstimationWeights_
      measurementEstimates 0 = .ok zPredicted)
    (hS : computeWeightedAverageFromSigmaPointEstimatesMatrix f5.covarianceEstimationWeights_
      zPredicted measurementEstimates 0 = .ok innovation)
    (hC : crossCorrelationLoop f5.covarianceEstimationWeights_ xPrior measurementEstimates
      zPredicted stateEstimates 0 = .ok crossCorrelation) :
    updateFilter matrixSqrt f t u z = (.ok (),
      correctCovariance
        (correctState f5 t xPrior z zPredicted (crossCorrelation * inverse innovation))
        t PPrior innovation (crossCorrelation * inverse innovation)) := by
  unfold updateFilter
  simp only []
  have hp' := hp
  simp only [computeSigmaPoints] at hp' ⊢
  rw [hp']
  simp only [hx, hP]
  have hm' := hm
  simp only [computeSigmaPoints] at hm' ⊢
  rw [hm']
  simp only [hz, hS, hC]

end UpdateTheorems

section ScenarioTheorems

/-- The seven sigma-point indices for `n = m = 1`. -/
theorem finRange_numberOfSigmaPoints_one_one : List.finRange (numberOfSigmaPoints 1 1) =
    [⟨0, by decide⟩, ⟨1, by decide⟩, ⟨2, by decide⟩, ⟨3, by decide⟩, ⟨4, by decide⟩,
      ⟨5, by decide⟩, ⟨6, by decide⟩] := by
  decide

/-- The square root used in the scenario is the principal root of its diagonal matrices. -/
theorem diagonalSqrt_diagonal (a b c : ℚ) (ha : 0 ≤ a) (hb : 0 ≤ b) (hc : 0 ≤ c) :
    diagonalSqrt (!![a * a, 0, 0; 0, b * b, 0; 0, 0, c * c] : DependentMatrix ℚ 3 3) =
      !![a, 0, 0; 0, b, 0; 0, 0, c] := by
  ext i j
  fin_cases i <;> fin_cases j <;>
    simp [diagonalSqrt, Matrix.diagonal, Rat.sqrt_eq, abs_of_nonneg, ha, hb, hc] <;> rfl

/-- Vectors with three entries are equal when their entries are. -/
theorem vec3_ext (u v : Fin 3 → ℚ) (h0 : u 0 = v 0) (h1 : u 1 = v 1) (h2 : u 2 = v 2) :
    u = v := by
  funext i
  fin_cases i
  · exact h0
  · exact h1
  · exact h2

/-- The sigma points of the scenario around a state `x` with covariance `a * a`. -/
theorem scenario_sigma_points (x p a : ℚ) (ha : 0 ≤ a) (hp : p = a * a)
    (f : UnscentedKalmanFilter 1 1 ℚ ℚ)
    (hmap : f.mapOfSigmaPoints_ = [] ∨
      mapKeys f.mapOfSigmaPoints_ = List.range (numberOfSigmaPoints 1 1))
    (hvec : ∀ i : Fin 3, i ≠ 0 → f.augmentedStateVector_ i = 0)
    (hcov : ∀ i j : Fin 3, (i ≠ 0 ∨ j ≠ 0) →
      f.augmentedCovarianceMatrix_ i j = (!![0, 0, 0; 0, 16, 0; 0, 0, 1] : Matrix _ _ ℚ) i j)
    (hgamma : f.constantParameters_ gamma_index = 2) :
    (computeSigmaPoints diagonalSqrt f ![x] !![p]).mapOfSigmaPoints_ =
      [(0, ![x, 0, 0]), (1, ![x + 2 * a, 0, 0]), (2, ![x, 8, 0]), (3, ![x, 0, 2]),
        (4, ![x - 2 * a, 0, 0]), (5, ![x, -8, 0]), (6, ![x, 0, -2])] := by
  have haug : (computeSigmaPoints diagonalSqrt f ![x] !![p]).augmentedStateVector_
      = ![x, 0, 0] := by
    funext i
    fin_cases i
    · simp [computeSigmaPoints, setSegment]
    · simpa [computeSigmaPoints, setSegment] using hvec 1 (by decide)
    · simpa [computeSigmaPoints, setSegment] using hvec 2 (by decide)
  have hc : (computeSigmaPoints diagonalSqrt f ![x] !![p]).augmentedCovarianceMatrix_
      = !![a * a, 0, 0; 0, 4 * 4, 0; 0, 0, 1 * 1] := by
    ext i j
    fin_cases i <;> fin_cases j
    · simp [computeSigmaPoints, setBlock, hp]
    · simpa [computeSigmaPoints, setBlock] using hcov 0 1 (by decide)
    · simpa [computeSigmaPoints, setBlock] using hcov 0 2 (by decide)
    · simpa [computeSigmaPoints, setBlock] using hcov 1 0 (by decide)
    · have := hcov 1 1 (by decide)
      simp [computeSigmaPoints, setBlock] at this ⊢
      rw [this]; norm_num
    · simpa [computeSigmaPoints, setBlock] using hcov 1 2 (by decide)
    · simpa [computeSigmaPoints, setBlock] using hcov 2 0 (by decide)
    · simpa [computeSigmaPoints, setBlock] using hcov 2 1 (by decide)
    · simpa [computeSigmaPoints, setBlock] using hcov 2 2 (by decide)
  rw [computeSigmaPoints_mapOfSigmaPoints _ _ _ _ hmap, haug, hc,
    diagonalSqrt_diagonal a 4 1 ha (by norm_num) (by norm_num),
    finRange_numberOfSigmaPoints_one_one, hgamma]
  simp only [List.map_cons, List.map_nil]
  refine congrArg₂ _ (congrArg _ ?_) (congrArg₂ _ (congrArg _ ?_) (congrArg₂ _ (congrArg _ ?_)
    (congrArg₂ _ (congrArg _ ?_) (congrArg₂ _ (congrArg _ ?_) (congrArg₂ _ (congrArg _ ?_)
    (congrArg₂ _ (congrArg _ ?_) rfl))))))
  all_goals
    apply vec3_ext <;> simp [sigmaPoint, augmentedStateDimension] <;> first | rfl | norm_num

/-- Vectors with one entry are equal when their entries are. -/
theorem vec1_ext (u v : Fin 1 → ℚ) (h0 : u 0 = v 0) : u = v := by
  funext i
  fin_cases i
  exact h0

/-- Matrices with one entry are equal when their entries are. -/
theorem mat1_ext (A B : Matrix (Fin 1) (Fin 1) ℚ) (h0 : A 0 0 = B 0 0) : A = B := by
  ext i j
  fin_cases i
  fin_cases j
  exact h0

/-- The prediction loop of the call `updateFilter( 1, [], [26] )` on the scenario object. -/
theorem scenario_prediction :
    predictionLoop (1 : ℚ) []
      (computeSigmaPoints diagonalSqrt scenarioFilter scenarioFilter.aPosterioriStateEstimate_
        scenarioFilter.aPosterioriCovarianceEstimate_).mapOfSigmaPoints_
      { computeSigmaPoints diagonalSqrt scenarioFilter scenarioFilter.aPosterioriStateEstimate_
          scenarioFilter.aPosterioriCovarianceEstimate_ with
        mapOfMapOfSigmaPoints_ := mapAssign scenarioFilter.mapOfMapOfSigmaPoints_ 1
          (computeSigmaPoints diagonalSqrt scenarioFilter scenarioFilter.aPosterioriStateEstimate_
            scenarioFilter.aPosterioriCovarianceEstimate_).mapOfSigmaPoints_ } [] =
      (.ok [(0, ![0]), (1, ![6]), (2, ![8]), (3, ![0]), (4, ![-6]), (5, ![-8]), (6, ![0])],
        { computeSigmaPoints diagonalSqrt scenarioFilter scenarioFilter.aPosterioriStateEstimate_
            scenarioFilter.aPosterioriCovarianceEstimate_ with
          mapOfMapOfSigmaPoints_ := mapAssign scenarioFilter.mapOfMapOfSigmaPoints_ 1
            (computeSigmaPoints diagonalSqrt scenarioFilter
              scenarioFilter.aPosterioriStateEstimate_
              scenarioFilter.aPosterioriCovarianceEstimate_).mapOfSigmaPoints_
          currentSigmaPoint_ := 6 }) := by
  have hl1 : (computeSigmaPoints diagonalSqrt scenarioFilter
      scenarioFilter.aPosterioriStateEstimate_
      scenarioFilter.aPosterioriCovarianceEstimate_).mapOfSigmaPoints_ =
      [(0, ![0, 0, 0]), (1, ![0 + 2 * 3, 0, 0]), (2, ![0, 8, 0]), (3, ![0, 0, 2]),
        (4, ![0 - 2 * 3, 0, 0]), (5, ![0, -8, 0]), (6, ![0, 0, -2])] :=
    scenario_sigma_points 0 9 3 (by norm_num) (by norm_num) scenarioFilter (Or.inl rfl)
      (by intro i hi; fin_cases i <;> simp_all [scenarioFilter])
      (by intro i j _; rfl) rfl
  have h6 : ∀ c0 : ℕ, List.foldl (fun _ (e : ℕ × DependentVector ℚ (augmentedStateDimension 1 1))
      => e.1) c0 (computeSigmaPoints diagonalSqrt scenarioFilter
        scenarioFilter.aPosterioriStateEstimate_
        scenarioFilter.aPosterioriCovarianceEstimate_).mapOfSigmaPoints_ = 6 := by
    intro c0
    rw [hl1]
    rfl
  have hest : List.foldl (fun acc (e : ℕ × DependentVector ℚ (augmentedStateDimension 1 1)) =>
        mapAssign acc e.1
          ((!![1] : Matrix (Fin 1) (Fin 1) ℚ).mulVec
              (segment e.2 0 1 (by unfold augmentedStateDimension; omega)) +
            segment e.2 1 1 (by unfold augmentedStateDimension; omega))) []
      (computeSigmaPoints diagonalSqrt scenarioFilter scenarioFilter.aPosterioriStateEstimate_
        scenarioFilter.aPosterioriCovarianceEstimate_).mapOfSigmaPoints_ =
      [(0, ![0]), (1, ![6]), (2, ![8]), (3, ![0]), (4, ![-6]), (5, ![-8]), (6, ![0])] := by
    rw [hl1]
    simp only [List.foldl_cons, List.foldl_nil]
    simp [mapAssign]
    refine ⟨?_, ?_, ?_, ?_, ?_, ?_, ?_⟩ <;> apply vec1_ext <;>
      simp [segment, Matrix.mulVec, Matrix.dotProduct, Matrix.vecHead] <;> first | rfl | norm_num
  rw [predictionLoop_eq_ok (1 : ℚ) [] (fun x => (!![1] : Matrix (Fin 1) (Fin 1) ℚ).mulVec x)
    _ _ [] rfl (fun x => rfl)
    (by
      apply mapFind_of_mem
      show mapOrdered (computeSigmaPoints diagonalSqrt scenarioFilter
        scenarioFilter.aPosterioriStateEstimate_
        scenarioFilter.aPosterioriCovarianceEstimate_).mapOfSigmaPoints_
      rw [hl1]
      simp [mapOrdered, mapKeys])]
  refine Prod.ext ?_ ?_
  · exact congrArg Except.ok hest
  · simp only [h6]

/-- The mean-weighted average of seven scalar estimates with the weights of the scenario. -/
theorem scenario_weighted_average_vector (a0 a1 a2 a3 a4 a5 a6 : ℚ) :
    computeWeightedAverageFromSigmaPointEstimatesVector
      [(1 / 4 : ℚ), 1 / 8, 1 / 8, 1 / 8, 1 / 8, 1 / 8, 1 / 8]
      [(0, ![a0]), (1, ![a1]), (2, ![a2]), (3, ![a3]), (4, ![a4]), (5, ![a5]), (6, ![a6])] 0 =
      .ok ![1 / 4 * a0 + 1 / 8 * (a1 + a2 + a3 + a4 + a5 + a6)] := by
  simp only [computeWeightedAverageFromSigmaPointEstimatesVector]
  simp
  apply vec1_ext
  simp
  ring

/-- The covariance-weighted average of seven scalar estimates with the weights of the
scenario. -/
theorem scenario_weighted_average_matrix (r a0 a1 a2 a3 a4 a5 a6 : ℚ) :
    computeWeightedAverageFromSigmaPointEstimatesMatrix
      [(9 / 4 : ℚ), 1 / 8, 1 / 8, 1 / 8, 1 / 8, 1 / 8, 1 / 8] ![r]
      [(0, ![a0]), (1, ![a1]), (2, ![a2]), (3, ![a3]), (4, ![a4]), (5, ![a5]), (6, ![a6])] 0 =
      .ok !![9 / 4 * (a0 - r) * (a0 - r) + 1 / 8 * ((a1 - r) * (a1 - r) + (a2 - r) * (a2 - r) +
        (a3 - r) * (a3 - r) + (a4 - r) * (a4 - r) + (a5 - r) * (a5 - r) +
        (a6 - r) * (a6 - r))] := by
  simp only [computeWeightedAverageFromSigmaPointEstimatesMatrix]
  simp
  apply mat1_ext
  simp [Matrix.vecMulVec_apply]
  ring

/-- The cross-correlation of seven scalar state and measurement estimates with the weights of
the scenario. -/
theorem scenario_cross_correlation (r s a0 a1 a2 a3 a4 a5 a6 b0 b1 b2 b3 b4 b5 b6 : ℚ) :
    crossCorrelationLoop
      [(9 / 4 : ℚ), 1 / 8, 1 / 8, 1 / 8, 1 / 8, 1 / 8, 1 / 8] ![r]
      [(0, ![b0]), (1, ![b1]), (2, ![b2]), (3, ![b3]), (4, ![b4]), (5, ![b5]), (6, ![b6])] ![s]
      [(0, ![a0]), (1, ![a1]), (2, ![a2]), (3, ![a3]), (4, ![a4]), (5, ![a5]), (6, ![a6])] 0 =
      .ok !![9 / 4 * (a0 - r) * (b0 - s) + 1 / 8 * ((a1 - r) * (b1 - s) + (a2 - r) * (b2 - s) +
        (a3 - r) * (b3 - s) + (a4 - r) * (b4 - s) + (a5 - r) * (b5 - s) +
        (a6 - r) * (b6 - s))] := by
  simp only [crossCorrelationLoop]
  simp [mapFind]
  apply mat1_ext
  simp [Matrix.vecMulVec_apply]
  ring

/-- The measurement loop of the call `updateFilter( 1, [], [26] )` on the scenario object. -/
theorem scenario_measurement :
    measurementLoop (1 : ℚ)
      (computeSigmaPoints diagonalSqrt
        { computeSigmaPoints diagonalSqrt scenarioFilter scenarioFilter.aPosterioriStateEstimate_
            scenarioFilter.aPosterioriCovarianceEstimate_ with
          mapOfMapOfSigmaPoints_ := mapAssign scenarioFilter.mapOfMapOfSigmaPoints_ 1
            (computeSigmaPoints diagonalSqrt scenarioFilter
              scenarioFilter.aPosterioriStateEstimate_
              scenarioFilter.aPosterioriCovarianceEstimate_).mapOfSigmaPoints_
          currentSigmaPoint_ := 6 } ![0] !![25]).mapOfSigmaPoints_
      (computeSigmaPoints diagonalSqrt
        { computeSigmaPoints diagonalSqrt scenarioFilter scenarioFilter.aPosterioriStateEstimate_
            scenarioFilter.aPosterioriCovarianceEstimate_ with
          mapOfMapOfSigmaPoints_ := mapAssign scenarioFilter.mapOfMapOfSigmaPoints_ 1
            (computeSigmaPoints diagonalSqrt scenarioFilter
              scenarioFilter.aPosterioriStateEstimate_
              scenarioFilter.aPosterioriCovarianceEstimate_).mapOfSigmaPoints_
          currentSigmaPoint_ := 6 } ![0] !![25]) [] =
      (.ok [(0, ![0]), (1, ![10]), (2, ![0]), (3, ![2]), (4, ![-10]), (5, ![0]), (6, ![-2])],
        { computeSigmaPoints diagonalSqrt
            { computeSigmaPoints diagonalSqrt scenarioFilter
                scenarioFilter.aPosterioriStateEstimate_
                scenarioFilter.aPosterioriCovarianceEstimate_ with
              mapOfMapOfSigmaPoints_ := mapAssign scenarioFilter.mapOfMapOfSigmaPoints_ 1
                (computeSigmaPoints diagonalSqrt scenarioFilter
                  scenarioFilter.aPosterioriStateEstimate_
                  scenarioFilter.aPosterioriCovarianceEstimate_).mapOfSigmaPoints_
              currentSigmaPoint_ := 6 } ![0] !![25] with
          currentSigmaPoint_ := 6 }) := by
  have hl1 : (computeSigmaPoints diagonalSqrt scenarioFilter
      scenarioFilter.aPosterioriStateEstimate_
      scenarioFilter.aPosterioriCovarianceEstimate_).mapOfSigmaPoints_ =
      [(0, ![0, 0, 0]), (1, ![0 + 2 * 3, 0, 0]), (2, ![0, 8, 0]), (3, ![0, 0, 2]),
        (4, ![0 - 2 * 3, 0, 0]), (5, ![0, -8, 0]), (6, ![0, 0, -2])] :=
    scenario_sigma_points 0 9 3 (by norm_num) (by norm_num) scenarioFilter (Or.inl rfl)
      (by intro i hi; fin_cases i <;> simp_all [scenarioFilter])
      (by intro i j _; rfl) rfl
  have hl2 := scenario_sigma_points 0 25 5 (by norm_num) (by norm_num)
    { computeSigmaPoints diagonalSqrt scenarioFilter scenarioFilter.aPosterioriStateEstimate_
        scenarioFilter.aPosterioriCovarianceEstimate_ with
      mapOfMapOfSigmaPoints_ := mapAssign scenarioFilter.mapOfMapOfSigmaPoints_ 1
        (computeSigmaPoints diagonalSqrt scenarioFilter
          scenarioFilter.aPosterioriStateEstimate_
          scenarioFilter.aPosterioriCovarianceEstimate_).mapOfSigmaPoints_
      currentSigmaPoint_ := 6 }
    (Or.inr (by
      show mapKeys (computeSigmaPoints diagonalSqrt scenarioFilter
        scenarioFilter.aPosterioriStateEstimate_
        scenarioFilter.aPosterioriCovarianceEstimate_).mapOfSigmaPoints_ = _
      rw [hl1]
      decide))
    (by
      intro i hi
      fin_cases i <;> simp_all [computeSigmaPoints, setSegment, scenarioFilter])
    (by
      intro i j hij
      fin_cases i <;> fin_cases j <;> simp_all [computeSigmaPoints, setBlock, scenarioFilter])
    rfl
  have h6 : ∀ c0 : ℕ, List.foldl (fun _ (e : ℕ × DependentVector ℚ (augmentedStateDimension 1 1))
      => e.1) c0 (computeSigmaPoints diagonalSqrt
        { computeSigmaPoints diagonalSqrt scenarioFilter scenarioFilter.aPosterioriStateEstimate_
            scenarioFilter.aPosterioriCovarianceEstimate_ with
          mapOfMapOfSigmaPoints_ := mapAssign scenarioFilter.mapOfMapOfSigmaPoints_ 1
            (computeSigmaPoints diagonalSqrt scenarioFilter
              scenarioFilter.aPosterioriStateEstimate_
              scenarioFilter.aPosterioriCovarianceEstimate_).mapOfSigmaPoints_
          currentSigmaPoint_ := 6 } ![0] !![25]).mapOfSigmaPoints_ = 6 := by
    intro c0
    rw [hl2]
    rfl
  have hest : List.foldl (fun acc (e : ℕ × DependentVector ℚ (augmentedStateDimension 1 1)) =>
        mapAssign acc e.1
          ((!![1] : Matrix (Fin 1) (Fin 1) ℚ).mulVec
              (segment e.2 0 1 (by unfold augmentedStateDimension; omega)) +
            segment e.2 (2 * 1) 1 (by unfold augmentedStateDimension; omega))) []
      (computeSigmaPoints diagonalSqrt
        { computeSigmaPoints diagonalSqrt scenarioFilter scenarioFilter.aPosterioriStateEstimate_
            scenarioFilter.aPosterioriCovarianceEstimate_ with
          mapOfMapOfSigmaPoints_ := mapAssign scenarioFilter.mapOfMapOfSigmaPoints_ 1
            (computeSigmaPoints diagonalSqrt scenarioFilter
              scenarioFilter.aPosterioriStateEstimate_
              scenarioFilter.aPosterioriCovarianceEstimate_).mapOfSigmaPoints_
          currentSigmaPoint_ := 6 } ![0] !![25]).mapOfSigmaPoints_ =
      [(0, ![0]), (1, ![10]), (2, ![0]), (3, ![2]), (4, ![-10]), (5, ![0]), (6, ![-2])] := by
    rw [hl2]
    simp only [List.foldl_cons, List.foldl_nil]
    simp [mapAssign]
    refine ⟨?_, ?_, ?_, ?_, ?_, ?_, ?_⟩ <;> apply vec1_ext <;>
      simp [segment, Matrix.mulVec, Matrix.dotProduct, Matrix.vecHead] <;> first | rfl | norm_num
  rw [measurementLoop_eq_ok (1 : ℚ) (fun x => (!![1] : Matrix (Fin 1) (Fin 1) ℚ).mulVec x)
    _ _ [] (fun x => rfl)
    (by
      apply mapFind_of_mem
      rw [hl2]
      simp [mapOrdered, mapKeys])]
  refine Prod.ext ?_ ?_
  · exact congrArg Except.ok hest
  · simp only [h6]

/-- The call `updateFilter( 1, [], [26] )` on the scenario object returns, with a-priori state
0, a-priori covariance 25, predicted measurement 0, innovation 26 and cross-correlation 15. -/
theorem scenario_updateFilter :
    ∃ f5 : UnscentedKalmanFilter 1 1 ℚ ℚ,
      updateFilter diagonalSqrt scenarioFilter 1 [] ![26] = (.ok (),
        correctCovariance
          (correctState f5 1 ![0] ![26] ![0] (!![15] * inverse !![26]))
          1 !![25] !![26] (!![15] * inverse !![26])) := by
  refine ⟨_, updateFilter_eq_ok diagonalSqrt scenarioFilter _ _ 1 [] ![26] _ ![0] !![25] _ ![0]
    !![26] !![15] scenario_prediction ?_ ?_ scenario_measurement ?_ ?_ ?_⟩
  · refine (scenario_weighted_average_vector 0 6 8 0 (-6) (-8) 0).trans ?_
    norm_num
  · refine (scenario_weighted_average_matrix 0 0 6 8 0 (-6) (-8) 0).trans ?_
    norm_num
  · refine (scenario_weighted_average_vector 0 10 0 2 (-10) 0 (-2)).trans ?_
    norm_num
  · refine (scenario_weighted_average_matrix 0 0 10 0 2 (-10) 0 (-2)).trans ?_
    norm_num
  · refine (scenario_cross_correlation 0 0 0 6 8 0 (-6) (-8) 0 0 10 0 2 (-10) 0 (-2)).trans ?_
    norm_num

/-- The inverse of a matrix with one entry. -/
theorem inverse_one_by_one (a : ℚ) : inverse (!![a] : Matrix (Fin 1) (Fin 1) ℚ) = !![a⁻¹] := by
  apply mat1_ext
  simp [inverse, Matrix.det_fin_one, Matrix.adjugate_fin_one]

/-- The product of matrices with one entry. -/
theorem mul_one_by_one (a b : ℚ) :
    (!![a] : Matrix (Fin 1) (Fin 1) ℚ) * !![b] = !![a * b] := by
  apply mat1_ext
  simp [Matrix.mul_apply]

/-- The transpose of a matrix with one entry. -/
theorem transpose_one_by_one (a : ℚ) :
    (!![a] : Matrix (Fin 1) (Fin 1) ℚ).transpose = !![a] := by
  apply mat1_ext
  simp

/-- The sum of matrices with one entry. -/
theorem add_one_by_one (a b : ℚ) :
    (!![a] : Matrix (Fin 1) (Fin 1) ℚ) + !![b] = !![a + b] := by
  apply mat1_ext
  simp

/-- The difference of matrices with one entry. -/
theorem sub_one_by_one (a b : ℚ) :
    (!![a] : Matrix (Fin 1) (Fin 1) ℚ) - !![b] = !![a - b] := by
  apply mat1_ext
  simp

/-- The product of a matrix and a vector with one entry. -/
theorem mulVec_one_by_one (a b : ℚ) :
    (!![a] : Matrix (Fin 1) (Fin 1) ℚ).mulVec ![b] = ![a * b] := by
  apply vec1_ext
  simp [Matrix.mulVec, Matrix.dotProduct]

/-- The sum of vectors with one entry. -/
theorem add_vec_one (a b : ℚ) : (![a] : Fin 1 → ℚ) + ![b] = ![a + b] := by
  apply vec1_ext
  simp

/-- The difference of vectors with one entry. -/
theorem sub_vec_one (a b : ℚ) : (![a] : Fin 1 → ℚ) - ![b] = ![a - b] := by
  apply vec1_ext
  simp

/-- C4 (what the code does): on the scalar linear system `x -> x` measured by `x -> x`, with
`P = 9`, `Q = 16`, `R = 1`, state 0 and measurement 26, the matrix square root returning the
principal roots, one `updateFilter` step returns the a-posteriori state 15 and covariance
425/26, whereas the linear Kalman filter step gives 25 and 25/26. -/
theorem updateFilter_linear_scenario_differs :
    (updateFilter diagonalSqrt scenarioFilter 1 [] ![26]).1 = .ok () ∧
    (updateFilter diagonalSqrt scenarioFilter 1 [] ![26]).2.aPosterioriStateEstimate_ = ![15] ∧
    (updateFilter diagonalSqrt scenarioFilter 1 [] ![26]).2.aPosterioriCovarianceEstimate_ =
      !![425 / 26] ∧
    linearKalmanFilterUpdate (!![1] : Matrix (Fin 1) (Fin 1) ℚ) (!![1] : Matrix (Fin 1) (Fin 1) ℚ)
      !![9] !![16] !![1] ![0] ![26] = (![25], !![25 / 26]) := by
  obtain ⟨f5, h⟩ := scenario_updateFilter
  rw [h]
  refine ⟨rfl, ?_, ?_, ?_⟩
  · simp only [correctCovariance, correctState, inverse_one_by_one, mul_one_by_one,
      mulVec_one_by_one, add_vec_one, sub_vec_one]
    norm_num
  · simp only [correctCovariance, correctState, inverse_one_by_one, mul_one_by_one,
      transpose_one_by_one, sub_one_by_one]
    norm_num
  · simp only [linearKalmanFilterUpdate, inverse_one_by_one, mul_one_by_one,
      transpose_one_by_one, sub_one_by_one, add_one_by_one, mulVec_one_by_one, add_vec_one,
      sub_vec_one]
    norm_num

/-- The constant parameters of the scenario are those set by `setConstantParameterValues`
in custom mode with alpha = kappa = 1, whatever value other than 1 the placeholder has. -/
theorem scenarioParameters_set (placeholder : ℚ) (h : placeholder ≠ 1) :
    setConstantParameterValues 1 1 placeholder Rat.sqrt initialConstantParameters
      custom_parameters (1, 1) = .ok scenarioParameters := by
  have h1 : ((1 : ℚ) == placeholder) = false := by
    simpa using fun h' => h h'.symm
  have h4 : Rat.sqrt 4 = 2 := by
    rw [show (4 : ℚ) = 2 * 2 by norm_num, Rat.sqrt_eq]
    norm_num
  simp only [setConstantParameterValues, setAlphaAndKappa, h1, Bool.or_self]
  simp only [Bool.false_eq_true, if_false]
  congr 1
  funext i
  cases i <;> simp [Function.update, scenarioParameters, augmentedStateDimension,
    initialConstantParameters] <;> norm_num [h4]

/-- The scenario object is the one the constructor returns. -/
theorem scenarioFilter_created (placeholder : ℚ) (h : placeholder ≠ 1) :
    UnscentedKalmanFilter.create placeholder Rat.sqrt (linearSystemFunction !![1])
      (linearMeasurementFunction !![1]) !![16] !![1] (0 : ℚ) ![0] !![9] none
      custom_parameters (1, 1) = .ok scenarioFilter := by
  unfold UnscentedKalmanFilter.create
  simp only [scenarioParameters_set placeholder h]
  unfold scenarioFilter
  congr 2
  · simp [generateEstimationWeights, pushBackLoop_eq, numberOfSigmaPoints,
      augmentedStateDimension, scenarioParameters, List.replicate]
    norm_num
  · simp [generateEstimationWeights, pushBackLoop_eq, numberOfSigmaPoints,
      augmentedStateDimension, scenarioParameters, List.replicate]
    norm_num
  · apply vec3_ext <;> simp
  · ext i j
    fin_cases i <;> fin_cases j <;> simp [setBlock]

/-- The matrix square root of the scenario is a square root of the two augmented covariances
of the call: its value `A` there is symmetric with `A * A^T` the augmented covariance. -/
theorem diagonalSqrt_scenario :
    diagonalSqrt (!![9, 0, 0; 0, 16, 0; 0, 0, 1] : DependentMatrix ℚ 3 3) *
        (diagonalSqrt (!![9, 0, 0; 0, 16, 0; 0, 0, 1] : DependentMatrix ℚ 3 3)).transpose =
      !![9, 0, 0; 0, 16, 0; 0, 0, 1] ∧
    diagonalSqrt (!![25, 0, 0; 0, 16, 0; 0, 0, 1] : DependentMatrix ℚ 3 3) *
        (diagonalSqrt (!![25, 0, 0; 0, 16, 0; 0, 0, 1] : DependentMatrix ℚ 3 3)).transpose =
      !![25, 0, 0; 0, 16, 0; 0, 0, 1] := by
  have h1 : (!![9, 0, 0; 0, 16, 0; 0, 0, 1] : DependentMatrix ℚ 3 3) =
      !![3 * 3, 0, 0; 0, 4 * 4, 0; 0, 0, 1 * 1] := by norm_num
  have h2 : (!![25, 0, 0; 0, 16, 0; 0, 0, 1] : DependentMatrix ℚ 3 3) =
      !![5 * 5, 0, 0; 0, 4 * 4, 0; 0, 0, 1 * 1] := by norm_num
  constructor
  · rw [h1, diagonalSqrt_diagonal 3 4 1 (by norm_num) (by norm_num) (by norm_num)]
    ext i j
    fin_cases i <;> fin_cases j <;> simp [Matrix.mul_apply, Fin.sum_univ_three] <;> rfl
  · rw [h2, diagonalSqrt_diagonal 5 4 1 (by norm_num) (by norm_num) (by norm_num)]
    ext i j
    fin_cases i <;> fin_cases j <;> simp [Matrix.mul_apply, Fin.sum_univ_three] <;> rfl

end ScenarioTheorems

section ThrowingModelTheorems

variable {K T : Type} [Field K] [LinearOrder T] {n m : ℕ}

omit [LinearOrder T] in
/-- The prediction loop with a throwing system model and no integrator stops at the first
sigma point. -/
theorem predictionLoop_throwing (t : T) (u : ControlVector K) (i : ℕ)
    (p : DependentVector K (augmentedStateDimension n m))
    (rest : StdMap ℕ (DependentVector K (augmentedStateDimension n m)))
    (f : UnscentedKalmanFilter n m K T) (est : StdMap ℕ (DependentVector K n))
    (hint : f.integratorSettings_ = none)
    (hsys : f.inputSystemFunction_ = throwingSystemFunction) :
    predictionLoop t u ((i, p) :: rest) f est =
      (.error "system model failure", { f with currentSigmaPoint_ := i }) := by
  have hstep : predictState { f with currentSigmaPoint_ := i } t
      (segment p 0 n (by unfold augmentedStateDimension; omega)) u =
      .error "system model failure" := by
    simp only [predictState, hint, createSystemFunction, hsys, throwingSystemFunction]
  unfold predictionLoop
  simp only [hstep]

/-- An `updateFilter` call on an object with a throwing system model and no integrator throws
the exception of the model. -/
theorem updateFilter_throwing
    (matrixSqrt : DependentMatrix K (augmentedStateDimension n m) (augmentedStateDimension n m) →
      DependentMatrix K (augmentedStateDimension n m) (augmentedStateDimension n m))
    (f : UnscentedKalmanFilter n m K T) (t : T) (u : ControlVector K) (z : DependentVector K m)
    (hint : f.integratorSettings_ = none)
    (hsys : f.inputSystemFunction_ = throwingSystemFunction)
    (hmap : f.mapOfSigmaPoints_ = [] ∨
      mapKeys f.mapOfSigmaPoints_ = List.range (numberOfSigmaPoints n m)) :
    (updateFilter matrixSqrt f t u z).1 = .error "system model failure" := by
  have hl := computeSigmaPoints_mapOfSigmaPoints matrixSqrt f f.aPosterioriStateEstimate_
    f.aPosterioriCovarianceEstimate_ hmap
  have hN : List.finRange (numberOfSigmaPoints n m) =
      0 :: (List.finRange (2 * augmentedStateDimension n m)).map Fin.succ :=
    List.finRange_succ _
  rw [hN, List.map_cons] at hl
  obtain ⟨⟨i, p⟩, rest, hcons⟩ : ∃ a rest, (computeSigmaPoints matrixSqrt f
      f.aPosterioriStateEstimate_ f.aPosterioriCovarianceEstimate_).mapOfSigmaPoints_ =
      a :: rest := ⟨_, _, hl⟩
  have hp := predictionLoop_throwing t u i p rest
    { computeSigmaPoints matrixSqrt f f.aPosterioriStateEstimate_
        f.aPosterioriCovarianceEstimate_ with
      mapOfMapOfSigmaPoints_ := mapAssign f.mapOfMapOfSigmaPoints_ t
        (computeSigmaPoints matrixSqrt f f.aPosterioriStateEstimate_
          f.aPosterioriCovarianceEstimate_).mapOfSigmaPoints_ } [] hint hsys
  rw [← hcons] at hp
  unfold updateFilter
  simp only []
  have hp' := hp
  simp only [computeSigmaPoints] at hp' ⊢
  rw [hp']

end ThrowingModelTheorems

section LoopMapTheorems

variable {κ V W : Type} [LinearOrder κ]

/-- Assigning a key above all keys of a map appends the entry. -/
theorem mapAssign_append (mp : StdMap κ V) (k : κ) (v : V) (h : ∀ x ∈ mapKeys mp, x < k) :
    mapAssign mp k v = mp ++ [(k, v)] := by
  induction mp with
  | nil => rfl
  | cons a rest ih =>
    obtain ⟨ka, va⟩ := a
    have hka : ka < k := h ka (by simp [mapKeys])
    have hrest : ∀ x ∈ mapKeys rest, x < k := fun x hx => h x (by
      simp only [mapKeys, List.map_cons, List.mem_cons]
      exact Or.inr hx)
    simp only [mapAssign, not_lt_of_gt hka, ne_of_gt hka, if_false, List.cons_append]
    rw [ih hrest]

/-- A loop that files a value under the key of each entry of a map with ascending keys, started
on a map whose keys lie below, appends one entry per key. -/
theorem foldl_mapAssign_append (g : κ × V → W) (l : StdMap κ V) (acc : StdMap κ W)
    (hl : mapOrdered l) (hacc : ∀ x ∈ mapKeys acc, ∀ e ∈ l, x < e.1) :
    l.foldl (fun acc e => mapAssign acc e.1 (g e)) acc = acc ++ l.map (fun e => (e.1, g e)) := by
  induction l generalizing acc with
  | nil => simp
  | cons a l ih =>
    simp only [mapOrdered, mapKeys, List.map_cons, List.pairwise_cons] at hl
    rw [List.foldl_cons, mapAssign_append acc a.1 (g a)
      (fun x hx => hacc x hx a (List.mem_cons_self _ _))]
    rw [ih _ hl.2]
    · simp
    · intro x hx e he
      simp only [mapKeys, List.map_append, List.map_cons, List.map_nil, List.mem_append,
        List.mem_singleton] at hx
      rcases hx with hx | hx
      · exact hacc x (by simpa [mapKeys] using hx) e (List.mem_cons_of_mem _ he)
      · rw [hx]
        exact hl.1 e.1 (List.mem_map_of_mem Prod.fst he)

/-- A loop that files a value under the key of each entry of a map with ascending keys, started
on the empty map, leaves one entry per key. -/
theorem foldl_mapAssign_eq_map (g : κ × V → W) (l : StdMap κ V) (hl : mapOrdered l) :
    l.foldl (fun acc e => mapAssign acc e.1 (g e)) [] = l.map (fun e => (e.1, g e)) := by
  rw [foldl_mapAssign_append g l [] hl (by simp [mapKeys])]
  simp

end LoopMapTheorems

section ClosedFormTheorems

variable {K T : Type} [Field K] {n m : ℕ}

/-- The matrix weighted average over a map whose keys all index a weight: the start value plus
the sum of the weighted outer products. -/
theorem computeWeightedAverageMatrix_eq {k : ℕ} (w : List K) (ref : DependentVector K k)
    (l : StdMap ℕ (DependentVector K k)) (acc : DependentMatrix K k k)
    (h : ∀ e ∈ l, e.1 < w.length) :
    computeWeightedAverageFromSigmaPointEstimatesMatrix w ref l acc =
      .ok (acc + (l.map (fun e =>
        Matrix.vecMulVec (w.getD e.1 0 • (e.2 - ref)) (e.2 - ref))).sum) := by
  induction l generalizing acc with
  | nil => simp [computeWeightedAverageFromSigmaPointEstimatesMatrix]
  | cons a l ih =>
    obtain ⟨i, p⟩ := a
    have hi : i < w.length := h (i, p) (List.mem_cons_self _ _)
    have hget : w[i]? = some (w.getD i 0) := by
      rw [List.getD_eq_getElem?_getD, List.getElem?_eq_getElem hi]
      rfl
    simp only [computeWeightedAverageFromSigmaPointEstimatesMatrix, hget]
    rw [ih _ (fun e he => h e (List.mem_cons_of_mem _ he))]
    simp [add_assoc]

/-- The cross-correlation loop over a map whose keys all index a weight and a measurement
estimate: the start value plus the sum of the weighted outer products. -/
theorem crossCorrelationLoop_eq {k r : ℕ} (w : List K) (x : DependentVector K k)
    (mest : StdMap ℕ (DependentVector K r)) (zp : DependentVector K r)
    (zval : ℕ → DependentVector K r)
    (l : StdMap ℕ (DependentVector K k)) (acc : DependentMatrix K k r)
    (h : ∀ e ∈ l, e.1 < w.length) (hz : ∀ e ∈ l, mapFind mest e.1 = some (zval e.1)) :
    crossCorrelationLoop w x mest zp l acc =
      .ok (acc + (l.map (fun e =>
        Matrix.vecMulVec (w.getD e.1 0 • (e.2 - x)) (zval e.1 - zp))).sum) := by
  induction l generalizing acc with
  | nil => simp [crossCorrelationLoop]
  | cons a l ih =>
    obtain ⟨i, p⟩ := a
    have hi : i < w.length := h (i, p) (List.mem_cons_self _ _)
    have hget : w[i]? = some (w.getD i 0) := by
      rw [List.getD_eq_getElem?_getD, List.getElem?_eq_getElem hi]
      rfl
    have hfind := hz (i, p) (List.mem_cons_self _ _)
    simp only at hfind
    simp only [crossCorrelationLoop, hget, hfind]
    rw [ih _ (fun e he => h e (List.mem_cons_of_mem _ he))
      (fun e he => hz e (List.mem_cons_of_mem _ he))]
    simp [add_assoc]

/-- The mean-weighted average of the estimates `y i` filed under the indices `i < N`. -/
theorem weightedAverageVector_finRange {k N : ℕ} (w : List K) (y : Fin N → DependentVector K k)
    (hw : w.length = N) :
    computeWeightedAverageFromSigmaPointEstimatesVector w
      ((List.finRange N).map (fun i => (i.val, y i))) 0 =
      .ok (∑ i : Fin N, w.getD i.val 0 • y i) := by
  rw [computeWeightedAverageVector_eq]
  · rw [zero_add, List.map_map, Fin.sum_univ_def]
    rfl
  · intro e he
    obtain ⟨i, _, rfl⟩ := List.mem_map.1 he
    rw [hw]
    exact i.isLt

/-- The covariance-weighted average of the estimates `y i` filed under the indices `i < N`. -/
theorem weightedAverageMatrix_finRange {k N : ℕ} (w : List K) (ref : DependentVector K k)
    (y : Fin N → DependentVector K k) (hw : w.length = N) :
    computeWeightedAverageFromSigmaPointEstimatesMatrix w ref
      ((List.finRange N).map (fun i => (i.val, y i))) 0 =
      .ok (∑ i : Fin N, Matrix.vecMulVec (w.getD i.val 0 • (y i - ref)) (y i - ref)) := by
  rw [computeWeightedAverageMatrix_eq]
  · rw [zero_add, List.map_map, Fin.sum_univ_def]
    rfl
  · intro e he
    obtain ⟨i, _, rfl⟩ := List.mem_map.1 he
    rw [hw]
    exact i.isLt

/-- The cross-correlation of the state estimates `y i` and the measurement estimates `z i`
filed under the indices `i < N`. -/
theorem crossCorrelationLoop_finRange {k r N : ℕ} (w : List K) (x : DependentVector K k)
    (zp : DependentVector K r) (y : Fin N → DependentVector K k)
    (z : Fin N → DependentVector K r) (hw : w.length = N) :
    crossCorrelationLoop w x ((List.finRange N).map (fun i => (i.val, z i))) zp
      ((List.finRange N).map (fun i => (i.val, y i))) 0 =
      .ok (∑ i : Fin N, Matrix.vecMulVec (w.getD i.val 0 • (y i - x)) (z i - zp)) := by
  rw [crossCorrelationLoop_eq w x _ zp (fun k => if h : k < N then z ⟨k, h⟩ else 0)]
  · rw [zero_add, List.map_map, Fin.sum_univ_def]
    have hfun : ∀ i ∈ List.finRange N,
        ((fun e : ℕ × DependentVector K k => Matrix.vecMulVec (w.getD e.1 0 • (e.2 - x))
          ((if h : e.1 < N then z ⟨e.1, h⟩ else 0) - zp)) ∘ fun i : Fin N => (i.val, y i)) i =
        Matrix.vecMulVec (w.getD i.val 0 • (y i - x)) (z i - zp) := by
      intro i _
      simp [Function.comp]
    rw [List.map_congr_left hfun]
  · intro e he
    obtain ⟨i, _, rfl⟩ := List.mem_map.1 he
    rw [hw]
    exact i.isLt
  · intro e he
    obtain ⟨i, _, rfl⟩ := List.mem_map.1 he
    have := mapFind_map_finRange z i
    simpa using this

end ClosedFormTheorems

section LoopTheorems

variable {K T : Type} [Field K] {n m : ℕ}

/-- A prediction loop (no integrator) that returns: every call of the user system function
returned, and the estimate filed under each index is the returned value plus the process-noise
segment of the sigma point. -/
theorem predictionLoop_ok_inv (t : T) (u : ControlVector K)
    (l : StdMap ℕ (DependentVector K (augmentedStateDimension n m)))
    (f f' : UnscentedKalmanFilter n m K T) (est0 est : StdMap ℕ (DependentVector K n))
    (hint : f.integratorSettings_ = none)
    (hl : ∀ e ∈ l, mapFind f.mapOfSigmaPoints_ e.1 = some e.2)
    (h : predictionLoop t u l f est0 = (.ok est, f')) :
    ∃ y : ℕ × DependentVector K (augmentedStateDimension n m) → DependentVector K n,
      (∀ e ∈ l, f.inputSystemFunction_ t
        (segment e.2 0 n (by unfold augmentedStateDimension; omega)) u = .ok (y e)) ∧
      est = l.foldl (fun acc e => mapAssign acc e.1
        (y e + segment e.2 n n (by unfold augmentedStateDimension; omega))) est0 := by
  refine ⟨fun e => match f.inputSystemFunction_ t
      (segment e.2 0 n (by unfold augmentedStateDimension; omega)) u with
    | .ok v => v
    | .error _ => 0, ?_⟩
  induction l generalizing f est0 with
  | nil =>
    simp only [predictionLoop, Prod.mk.injEq, Except.ok.injEq] at h
    exact ⟨fun e he => (by cases he), h.1.symm⟩
  | cons a l ih =>
    obtain ⟨i, p⟩ := a
    have hfind := hl (i, p) (List.mem_cons_self _ _)
    simp only at hfind
    cases hu : f.inputSystemFunction_ t
        (segment p 0 n (by unfold augmentedStateDimension; omega)) u with
    | error e =>
      have hstep : predictState { f with currentSigmaPoint_ := i } t
          (segment p 0 n (by unfold augmentedStateDimension; omega)) u = .error e := by
        simp only [predictState, hint, createSystemFunction, hu]
      unfold predictionLoop at h
      simp only [hstep] at h
      cases h
    | ok v =>
      have hstep : predictState { f with currentSigmaPoint_ := i } t
          (segment p 0 n (by unfold augmentedStateDimension; omega)) u =
          .ok (v + segment p n n (by unfold augmentedStateDimension; omega)) := by
        simp only [predictState, hint, createSystemFunction, hu, hfind]
      unfold predictionLoop at h
      simp only [hstep] at h
      obtain ⟨h1, h2⟩ := ih { f with currentSigmaPoint_ := i } _ hint
        (fun e he => hl e (List.mem_cons_of_mem _ he)) h
      refine ⟨?_, ?_⟩
      · intro e he
        rcases List.mem_cons.1 he with rfl | he
        · simp only [hu]
        · exact h1 e he
      · rw [h2, List.foldl_cons]
        simp only [hu]

/-- A measurement loop that returns: every call of the user measurement function returned, and
the estimate filed under each index is the returned value plus the measurement-noise segment of
the sigma point. -/
theorem measurementLoop_ok_inv (t : T)
    (l : StdMap ℕ (DependentVector K (augmentedStateDimension n m)))
    (f f' : UnscentedKalmanFilter n m K T) (est0 est : StdMap ℕ (DependentVector K m))
    (hl : ∀ e ∈ l, mapFind f.mapOfSigmaPoints_ e.1 = some e.2)
    (h : measurementLoop t l f est0 = (.ok est, f')) :
    ∃ y : ℕ × DependentVector K (augmentedStateDimension n m) → DependentVector K m,
      (∀ e ∈ l, f.inputMeasurementFunction_ t
        (segment e.2 0 n (by unfold augmentedStateDimension; omega)) = .ok (y e)) ∧
      est = l.foldl (fun acc e => mapAssign acc e.1
        (y e + segment e.2 (2 * n) m (by unfold augmentedStateDimension; omega))) est0 := by
  refine ⟨fun e => match f.inputMeasurementFunction_ t
      (segment e.2 0 n (by unfold augmentedStateDimension; omega)) with
    | .ok v => v
    | .error _ => 0, ?_⟩
  induction l generalizing f est0 with
  | nil =>
    simp only [measurementLoop, Prod.mk.injEq, Except.ok.injEq] at h
    exact ⟨fun e he => (by cases he), h.1.symm⟩
  | cons a l ih =>
    obtain ⟨i, p⟩ := a
    have hfind := hl (i, p) (List.mem_cons_self _ _)
    simp only at hfind
    cases hu : f.inputMeasurementFunction_ t
        (segment p 0 n (by unfold augmentedStateDimension; omega)) with
    | error e =>
      have hstep : createMeasurementFunction { f with currentSigmaPoint_ := i } t
          (segment p 0 n (by unfold augmentedStateDimension; omega)) = .error e := by
        simp only [createMeasurementFunction, hu]
      unfold measurementLoop at h
      simp only [hstep] at h
      cases h
    | ok v =>
      have hstep : createMeasurementFunction { f with currentSigmaPoint_ := i } t
          (segment p 0 n (by unfold augmentedStateDimension; omega)) =
          .ok (v + segment p (2 * n) m (by unfold augmentedStateDimension; omega)) := by
        simp only [createMeasurementFunction, hu, hfind]
      unfold measurementLoop at h
      simp only [hstep] at h
      obtain ⟨h1, h2⟩ := ih { f with currentSigmaPoint_ := i } _
        (fun e he => hl e (List.mem_cons_of_mem _ he)) h
      refine ⟨?_, ?_⟩
      · intro e he
        rcases List.mem_cons.1 he with rfl | he
        · simp only [hu]
        · exact h1 e he
      · rw [h2, List.foldl_cons]
        simp only [hu]

end LoopTheorems

section LoopEstimateTheorems

variable {K T : Type} [Field K] [LinearOrder T] {n m : ℕ}

omit [Field K] [LinearOrder T] in
/-- Filing a value under the key of each entry of a map keeps the keys. -/
theorem mapKeys_map_entry {κ V W : Type} (g : κ × V → W) (l : StdMap κ V) :
    mapKeys (l.map (fun e => (e.1, g e))) = mapKeys l := by
  simp [mapKeys, List.map_map, Function.comp]

omit [Field K] [LinearOrder T] in
/-- A map with the keys `0, ..., N-1` in this order has ascending keys. -/
theorem mapOrdered_of_keys_range {V : Type} (mp : StdMap ℕ V) (N : ℕ)
    (h : mapKeys mp = List.range N) : mapOrdered mp := by
  unfold mapOrdered
  rw [h]
  exact List.pairwise_lt_range _

omit [LinearOrder T] in
/-- The sigma-point map left by `computeSigmaPoints` has the keys `0, ..., N-1`, in ascending
order, and every entry is found under its key. -/
theorem computeSigmaPoints_map_facts
    (matrixSqrt : DependentMatrix K (augmentedStateDimension n m) (augmentedStateDimension n m) →
      DependentMatrix K (augmentedStateDimension n m) (augmentedStateDimension n m))
    (f : UnscentedKalmanFilter n m K T) (x : DependentVector K n) (P : DependentMatrix K n n)
    (hmap : f.mapOfSigmaPoints_ = [] ∨
      mapKeys f.mapOfSigmaPoints_ = List.range (numberOfSigmaPoints n m)) :
    mapKeys (computeSigmaPoints matrixSqrt f x P).mapOfSigmaPoints_ =
      List.range (numberOfSigmaPoints n m) ∧
    mapOrdered (computeSigmaPoints matrixSqrt f x P).mapOfSigmaPoints_ ∧
    (∀ e ∈ (computeSigmaPoints matrixSqrt f x P).mapOfSigmaPoints_,
      mapFind (computeSigmaPoints matrixSqrt f x P).mapOfSigmaPoints_ e.1 = some e.2) ∧
    (∀ i : Fin (numberOfSigmaPoints n m), ∃ point,
      (i.val, point) ∈ (computeSigmaPoints matrixSqrt f x P).mapOfSigmaPoints_) := by
  have hkeys : mapKeys (computeSigmaPoints matrixSqrt f x P).mapOfSigmaPoints_ =
      List.range (numberOfSigmaPoints n m) := by
    rw [computeSigmaPoints_mapOfSigmaPoints matrixSqrt f x P hmap]
    exact mapKeys_map_finRange _
  have hord := (sigma_map_ordered_and_bounded _ (Or.inr hkeys)).1
  refine ⟨hkeys, hord, fun e he => mapFind_of_mem _ hord e he, ?_⟩
  intro i
  rw [computeSigmaPoints_mapOfSigmaPoints matrixSqrt f x P hmap]
  exact ⟨_, List.mem_map.2 ⟨i, List.mem_finRange i, rfl⟩⟩

end LoopEstimateTheorems

section CorrectionTheorems

variable {K T : Type} [Field K] [LinearOrder T] {n m : ℕ}

/-- C13: if an `updateFilter` call returns, then with the locals of the call (the propagated
estimates, the a-priori mean and covariance averaged from them, the measurement estimates of
the regenerated set, the predicted measurement and the innovation matrix averaged from them,
and the cross-correlation matrix) the gain is `K = crossCorrelation * innovation^-1`, the
a-posteriori state held afterwards is `aPriori + K * (measurement - predictedMeasurement)` and
the a-posteriori covariance is `aPrioriCovariance - K * innovation * K^T`. -/
theorem updateFilter_correction
    (matrixSqrt : DependentMatrix K (augmentedStateDimension n m) (augmentedStateDimension n m) →
      DependentMatrix K (augmentedStateDimension n m) (augmentedStateDimension n m))
    (f : UnscentedKalmanFilter n m K T) (t : T) (u : ControlVector K) (z : DependentVector K m)
    (hok : (updateFilter matrixSqrt f t u z).1 = .ok ()) :
    ∃ (c : ℕ) (stateEstimates : StdMap ℕ (DependentVector K n))
      (aPrioriStateEstimate : DependentVector K n) (aPrioriCovarianceEstimate : DependentMatrix K n n)
      (measurementEstimates : StdMap ℕ (DependentVector K m))
      (measurmentEstimate : DependentVector K m) (innovationMatrix : DependentMatrix K m m)
      (crossCorrelationMatrix : DependentMatrix K n m) (kalmanGain : DependentMatrix K n m),
      (predictionLoop t u
        (computeSigmaPoints matrixSqrt f f.aPosterioriStateEstimate_
          f.aPosterioriCovarianceEstimate_).mapOfSigmaPoints_
        { computeSigmaPoints matrixSqrt f f.aPosterioriStateEstimate_
            f.aPosterioriCovarianceEstimate_ with
          mapOfMapOfSigmaPoints_ := mapAssign f.mapOfMapOfSigmaPoints_ t
            (computeSigmaPoints matrixSqrt f f.aPosterioriStateEstimate_
              f.aPosterioriCovarianceEstimate_).mapOfSigmaPoints_ } []).1 = .ok stateEstimates ∧
      computeWeightedAverageFromSigmaPointEstimatesVector f.stateEstimationWeights_
        stateEstimates 0 = .ok aPrioriStateEstimate ∧
      computeWeightedAverageFromSigmaPointEstimatesMatrix f.covarianceEstimationWeights_
        aPrioriStateEstimate stateEstimates 0 = .ok aPrioriCovarianceEstimate ∧
      (measurementLoop t
        (computeSigmaPoints matrixSqrt
          { computeSigmaPoints matrixSqrt f f.aPosterioriStateEstimate_
              f.aPosterioriCovarianceEstimate_ with
            mapOfMapOfSigmaPoints_ := mapAssign f.mapOfMapOfSigmaPoints_ t
              (computeSigmaPoints matrixSqrt f f.aPosterioriStateEstimate_
                f.aPosterioriCovarianceEstimate_).mapOfSigmaPoints_
            currentSigmaPoint_ := c } aPrioriStateEstimate
          aPrioriCovarianceEstimate).mapOfSigmaPoints_
        (computeSigmaPoints matrixSqrt
          { computeSigmaPoints matrixSqrt f f.aPosterioriStateEstimate_
              f.aPosterioriCovarianceEstimate_ with
            mapOfMapOfSigmaPoints_ := mapAssign f.mapOfMapOfSigmaPoints_ t
              (computeSigmaPoints matrixSqrt f f.aPosterioriStateEstimate_
                f.aPosterioriCovarianceEstimate_).mapOfSigmaPoints_
            currentSigmaPoint_ := c } aPrioriStateEstimate aPrioriCovarianceEstimate) []).1 =
        .ok measurementEstimates ∧
      computeWeightedAverageFromSigmaPointEstimatesVector f.stateEstimationWeights_
        measurementEstimates 0 = .ok measurmentEstimate ∧
      computeWeightedAverageFromSigmaPointEstimatesMatrix f.covarianceEstimationWeights_
        measurmentEstimate measurementEstimates 0 = .ok innovationMatrix ∧
      crossCorrelationLoop f.covarianceEstimationWeights_ aPrioriStateEstimate
        measurementEstimates measurmentEstimate stateEstimates 0 = .ok crossCorrelationMatrix ∧
      kalmanGain = crossCorrelationMatrix * inverse innovationMatrix ∧
      (updateFilter matrixSqrt f t u z).2.aPosterioriStateEstimate_ =
        aPrioriStateEstimate + kalmanGain.mulVec (z - measurmentEstimate) ∧
      (updateFilter matrixSqrt f t u z).2.aPosterioriCovarianceEstimate_ =
        aPrioriCovarianceEstimate - kalmanGain * innovationMatrix * kalmanGain.transpose := by
  rcases updateFilter_trace matrixSqrt f t u z with
    ⟨e, c, h⟩ | ⟨e, c, c', xPrior, PPrior, h⟩ |
    ⟨c, c', est, xPrior, PPrior, mest, zPred, S, C, hp, hx, hP, hm, hz, hS, hC, h⟩
  · rw [h] at hok
    cases hok
  · rw [h] at hok
    cases hok
  · refine ⟨c, est, xPrior, PPrior, mest, zPred, S, C, C * inverse S, hp, hx, hP, hm, hz, hS,
      hC, rfl, ?_, ?_⟩
    · rw [h]
      rfl
    · rw [h]
      rfl

/-- The call `updateFilter( 1, [], [26] )` on the scenario object returns. -/
theorem scenario_updateFilter_returns :
    (updateFilter diagonalSqrt scenarioFilter 1 [] ![26]).1 = .ok () := by
  obtain ⟨f5, h⟩ := scenario_updateFilter
  rw [h]

end CorrectionTheorems

section TotalModelTheorems

variable {K T : Type} [Field K] [LinearOrder T] {n m : ℕ}

/-- An `updateFilter` call on an object without integrator whose models return `phi state` and
`psi state` at the time and control of the call, whose sigma-point map is fresh or left by an
earlier call and whose weight vectors have `N` entries: every step of the call returns, its
locals are the weighted sums over the two sigma-point sets, and the call returns. -/
theorem updateFilter_total_models
    (matrixSqrt : DependentMatrix K (augmentedStateDimension n m) (augmentedStateDimension n m) →
      DependentMatrix K (augmentedStateDimension n m) (augmentedStateDimension n m))
    (f : UnscentedKalmanFilter n m K T) (t : T) (u : ControlVector K) (z : DependentVector K m)
    (phi : DependentVector K n → DependentVector K n)
    (psi : DependentVector K n → DependentVector K m)
    (hint : f.integratorSettings_ = none)
    (hsys : ∀ x, f.inputSystemFunction_ t x u = .ok (phi x))
    (hmeas : ∀ x, f.inputMeasurementFunction_ t x = .ok (psi x))
    (hmap : f.mapOfSigmaPoints_ = [] ∨
      mapKeys f.mapOfSigmaPoints_ = List.range (numberOfSigmaPoints n m))
    (hw : f.stateEstimationWeights_.length = numberOfSigmaPoints n m)
    (hwc : f.covarianceEstimationWeights_.length = numberOfSigmaPoints n m)
    (y : Fin (numberOfSigmaPoints n m) → DependentVector K n)
    (hy : y = fun i =>
      phi (segment (sigmaPoint (setSegment f.augmentedStateVector_ 0 f.aPosterioriStateEstimate_)
        (f.constantParameters_ gamma_index)
        (matrixSqrt (setBlock f.augmentedCovarianceMatrix_ 0 0 f.aPosterioriCovarianceEstimate_))
        i) 0 n (by unfold augmentedStateDimension; omega)) +
      segment (sigmaPoint (setSegment f.augmentedStateVector_ 0 f.aPosterioriStateEstimate_)
        (f.constantParameters_ gamma_index)
        (matrixSqrt (setBlock f.augmentedCovarianceMatrix_ 0 0 f.aPosterioriCovarianceEstimate_))
        i) n n (by unfold augmentedStateDimension; omega))
    (xPrior : DependentVector K n)
    (hx : xPrior = ∑ i, f.stateEstimationWeights_.getD i.val 0 • y i)
    (PPrior : DependentMatrix K n n)
    (hP : PPrior = ∑ i, Matrix.vecMulVec
      (f.covarianceEstimationWeights_.getD i.val 0 • (y i - xPrior)) (y i - xPrior))
    (ζ : Fin (numberOfSigmaPoints n m) → DependentVector K m)
    (hζ : ζ = fun i =>
      psi (segment (sigmaPoint
        (setSegment (setSegment f.augmentedStateVector_ 0 f.aPosterioriStateEstimate_) 0 xPrior)
        (f.constantParameters_ gamma_index)
        (matrixSqrt (setBlock
          (setBlock f.augmentedCovarianceMatrix_ 0 0 f.aPosterioriCovarianceEstimate_) 0 0 PPrior))
        i) 0 n (by unfold augmentedStateDimension; omega)) +
      segment (sigmaPoint
        (setSegment (setSegment f.augmentedStateVector_ 0 f.aPosterioriStateEstimate_) 0 xPrior)
        (f.constantParameters_ gamma_index)
        (matrixSqrt (setBlock
          (setBlock f.augmentedCovarianceMatrix_ 0 0 f.aPosterioriCovarianceEstimate_) 0 0 PPrior))
        i) (2 * n) m (by unfold augmentedStateDimension; omega))
    (zPredicted : DependentVector K m)
    (hz : zPredicted = ∑ i, f.stateEstimationWeights_.getD i.val 0 • ζ i)
    (innovation : DependentMatrix K m m)
    (hS : innovation = ∑ i, Matrix.vecMulVec
      (f.covarianceEstimationWeights_.getD i.val 0 • (ζ i - zPredicted)) (ζ i - zPredicted))
    (crossCorrelation : DependentMatrix K n m)
    (hC : crossCorrelation = ∑ i, Matrix.vecMulVec
      (f.covarianceEstimationWeights_.getD i.val 0 • (y i - xPrior)) (ζ i - zPredicted)) :
    ∃ c : ℕ,
      (predictionLoop t u
        (computeSigmaPoints matrixSqrt f f.aPosterioriStateEstimate_
          f.aPosterioriCovarianceEstimate_).mapOfSigmaPoints_
        { computeSigmaPoints matrixSqrt f f.aPosterioriStateEstimate_
            f.aPosterioriCovarianceEstimate_ with
          mapOfMapOfSigmaPoints_ := mapAssign f.mapOfMapOfSigmaPoints_ t
            (computeSigmaPoints matrixSqrt f f.aPosterioriStateEstimate_
              f.aPosterioriCovarianceEstimate_).mapOfSigmaPoints_ } []).1 =
        .ok ((List.finRange (numberOfSigmaPoints n m)).map (fun i => (i.val, y i))) ∧
      computeWeightedAverageFromSigmaPointEstimatesVector f.stateEstimationWeights_
        ((List.finRange (numberOfSigmaPoints n m)).map (fun i => (i.val, y i))) 0 = .ok xPrior ∧
      computeWeightedAverageFromSigmaPointEstimatesMatrix f.covarianceEstimationWeights_ xPrior
        ((List.finRange (numberOfSigmaPoints n m)).map (fun i => (i.val, y i))) 0 = .ok PPrior ∧
      (measurementLoop t
        (computeSigmaPoints matrixSqrt
          { computeSigmaPoints matrixSqrt f f.aPosterioriStateEstimate_
              f.aPosterioriCovarianceEstimate_ with
            mapOfMapOfSigmaPoints_ := mapAssign f.mapOfMapOfSigmaPoints_ t
              (computeSigmaPoints matrixSqrt f f.aPosterioriStateEstimate_
                f.aPosterioriCovarianceEstimate_).mapOfSigmaPoints_
            currentSigmaPoint_ := c } xPrior PPrior).mapOfSigmaPoints_
        (computeSigmaPoints matrixSqrt
          { computeSigmaPoints matrixSqrt f f.aPosterioriStateEstimate_
              f.aPosterioriCovarianceEstimate_ with
            mapOfMapOfSigmaPoints_ := mapAssign f.mapOfMapOfSigmaPoints_ t
              (computeSigmaPoints matrixSqrt f f.aPosterioriStateEstimate_
                f.aPosterioriCovarianceEstimate_).mapOfSigmaPoints_
            currentSigmaPoint_ := c } xPrior PPrior) []).1 =
        .ok ((List.finRange (numberOfSigmaPoints n m)).map (fun i => (i.val, ζ i))) ∧
      computeWeightedAverageFromSigmaPointEstimatesVector f.stateEstimationWeights_
        ((List.finRange (numberOfSigmaPoints n m)).map (fun i => (i.val, ζ i))) 0 =
        .ok zPredicted ∧
      computeWeightedAverageFromSigmaPointEstimatesMatrix f.covarianceEstimationWeights_
        zPredicted ((List.finRange (numberOfSigmaPoints n m)).map (fun i => (i.val, ζ i))) 0 =
        .ok innovation ∧
      crossCorrelationLoop f.covarianceEstimationWeights_ xPrior
        ((List.finRange (numberOfSigmaPoints n m)).map (fun i => (i.val, ζ i))) zPredicted
        ((List.finRange (numberOfSigmaPoints n m)).map (fun i => (i.val, y i))) 0 =
        .ok crossCorrelation ∧
      ∃ f5 : UnscentedKalmanFilter n m K T,
        updateFilter matrixSqrt f t u z = (.ok (),
          correctCovariance
            (correctState f5 t xPrior z zPredicted (crossCorrelation * inverse innovation))
            t PPrior innovation (crossCorrelation * inverse innovation)) := by
  obtain ⟨hkeys1, hord1, hfind1, _⟩ := computeSigmaPoints_map_facts matrixSqrt f
    f.aPosterioriStateEstimate_ f.aPosterioriCovarianceEstimate_ hmap
  have hl1 := computeSigmaPoints_mapOfSigmaPoints matrixSqrt f f.aPosterioriStateEstimate_
    f.aPosterioriCovarianceEstimate_ hmap
  have hp := predictionLoop_eq_ok t u phi
    (computeSigmaPoints matrixSqrt f f.aPosterioriStateEstimate_
      f.aPosterioriCovarianceEstimate_).mapOfSigmaPoints_
    { computeSigmaPoints matrixSqrt f f.aPosterioriStateEstimate_
        f.aPosterioriCovarianceEstimate_ with
      mapOfMapOfSigmaPoints_ := mapAssign f.mapOfMapOfSigmaPoints_ t
        (computeSigmaPoints matrixSqrt f f.aPosterioriStateEstimate_
          f.aPosterioriCovarianceEstimate_).mapOfSigmaPoints_ } [] hint hsys hfind1
  rw [foldl_mapAssign_eq_map _ _ hord1] at hp
  have hest : List.map (fun e : ℕ × DependentVector K (augmentedStateDimension n m) => (e.1,
      phi (segment e.2 0 n (by unfold augmentedStateDimension; omega)) +
        segment e.2 n n (by unfold augmentedStateDimension; omega)))
      (computeSigmaPoints matrixSqrt f f.aPosterioriStateEstimate_
        f.aPosterioriCovarianceEstimate_).mapOfSigmaPoints_ =
      (List.finRange (numberOfSigmaPoints n m)).map (fun i => (i.val, y i)) := by
    rw [hl1, List.map_map, hy]
    rfl
  rw [hest] at hp
  have hx' := weightedAverageVector_finRange f.stateEstimationWeights_ y hw
  rw [← hx] at hx'
  have hP' := weightedAverageMatrix_finRange f.covarianceEstimationWeights_ xPrior y hwc
  rw [← hP] at hP'
  obtain ⟨hkeys2, hord2, hfind2, _⟩ := computeSigmaPoints_map_facts matrixSqrt
    { computeSigmaPoints matrixSqrt f f.aPosterioriStateEstimate_
        f.aPosterioriCovarianceEstimate_ with
      mapOfMapOfSigmaPoints_ := mapAssign f.mapOfMapOfSigmaPoints_ t
        (computeSigmaPoints matrixSqrt f f.aPosterioriStateEstimate_
          f.aPosterioriCovarianceEstimate_).mapOfSigmaPoints_
      currentSigmaPoint_ := List.foldl (fun _ e => e.1) f.currentSigmaPoint_
        (computeSigmaPoints matrixSqrt f f.aPosterioriStateEstimate_
          f.aPosterioriCovarianceEstimate_).mapOfSigmaPoints_ }
    xPrior PPrior (Or.inr hkeys1)
  have hl2 := computeSigmaPoints_mapOfSigmaPoints matrixSqrt
    { computeSigmaPoints matrixSqrt f f.aPosterioriStateEstimate_
        f.aPosterioriCovarianceEstimate_ with
      mapOfMapOfSigmaPoints_ := mapAssign f.mapOfMapOfSigmaPoints_ t
        (computeSigmaPoints matrixSqrt f f.aPosterioriStateEstimate_
          f.aPosterioriCovarianceEstimate_).mapOfSigmaPoints_
      currentSigmaPoint_ := List.foldl (fun _ e => e.1) f.currentSigmaPoint_
        (computeSigmaPoints matrixSqrt f f.aPosterioriStateEstimate_
          f.aPosterioriCovarianceEstimate_).mapOfSigmaPoints_ }
    xPrior PPrior (Or.inr hkeys1)
  have hm := measurementLoop_eq_ok t psi
    (computeSigmaPoints matrixSqrt
      { computeSigmaPoints matrixSqrt f f.aPosterioriStateEstimate_
          f.aPosterioriCovarianceEstimate_ with
        mapOfMapOfSigmaPoints_ := mapAssign f.mapOfMapOfSigmaPoints_ t
          (computeSigmaPoints matrixSqrt f f.aPosterioriStateEstimate_
            f.aPosterioriCovarianceEstimate_).mapOfSigmaPoints_
        currentSigmaPoint_ := List.foldl (fun _ e => e.1) f.currentSigmaPoint_
          (computeSigmaPoints matrixSqrt f f.aPosterioriStateEstimate_
            f.aPosterioriCovarianceEstimate_).mapOfSigmaPoints_ }
      xPrior PPrior).mapOfSigmaPoints_
    (computeSigmaPoints matrixSqrt
      { computeSigmaPoints matrixSqrt f f.aPosterioriStateEstimate_
          f.aPosterioriCovarianceEstimate_ with
        mapOfMapOfSigmaPoints_ := mapAssign f.mapOfMapOfSigmaPoints_ t
          (computeSigmaPoints matrixSqrt f f.aPosterioriStateEstimate_
            f.aPosterioriCovarianceEstimate_).mapOfSigmaPoints_
        currentSigmaPoint_ := List.foldl (fun _ e => e.1) f.currentSigmaPoint_
          (computeSigmaPoints matrixSqrt f f.aPosterioriStateEstimate_
            f.aPosterioriCovarianceEstimate_).mapOfSigmaPoints_ }
      xPrior PPrior) [] hmeas hfind2
  rw [foldl_mapAssign_eq_map _ _ hord2] at hm
  have hmest : List.map (fun e : ℕ × DependentVector K (augmentedStateDimension n m) => (e.1,
      psi (segment e.2 0 n (by unfold augmentedStateDimension; omega)) +
        segment e.2 (2 * n) m (by unfold augmentedStateDimension; omega)))
      (computeSigmaPoints matrixSqrt
        { computeSigmaPoints matrixSqrt f f.aPosterioriStateEstimate_
            f.aPosterioriCovarianceEstimate_ with
          mapOfMapOfSigmaPoints_ := mapAssign f.mapOfMapOfSigmaPoints_ t
            (computeSigmaPoints matrixSqrt f f.aPosterioriStateEstimate_
              f.aPosterioriCovarianceEstimate_).mapOfSigmaPoints_
          currentSigmaPoint_ := List.foldl (fun _ e => e.1) f.currentSigmaPoint_
            (computeSigmaPoints matrixSqrt f f.aPosterioriStateEstimate_
              f.aPosterioriCovarianceEstimate_).mapOfSigmaPoints_ }
        xPrior PPrior).mapOfSigmaPoints_ =
      (List.finRange (numberOfSigmaPoints n m)).map (fun i => (i.val, ζ i)) := by
    rw [hl2, List.map_map, hζ]
    rfl
  rw [hmest] at hm
  have hz' := weightedAverageVector_finRange f.stateEstimationWeights_ ζ hw
  rw [← hz] at hz'
  have hS' := weightedAverageMatrix_finRange f.covarianceEstimationWeights_ zPredicted ζ hwc
  rw [← hS] at hS'
  have hC' := crossCorrelationLoop_finRange f.covarianceEstimationWeights_ xPrior zPredicted y ζ
    hwc
  rw [← hC] at hC'
  exact ⟨_, congrArg Prod.fst hp, hx', hP', congrArg Prod.fst hm, hz', hS', hC', _,
    updateFilter_eq_ok matrixSqrt f _ _ t u z _ xPrior PPrior _ zPredicted innovation
      crossCorrelation hp hx' hP' hm hz' hS' hC'⟩

end TotalModelTheorems

section FrameTheorems

variable {K T : Type} [Field K] [LinearOrder T] {n m : ℕ}

omit [Field K] [LinearOrder T] in
/-- Writing a segment twice at the same place keeps the second write. -/
theorem setSegment_setSegment {D : Type} {k len : ℕ} (v : DependentVector D k) (start : ℕ)
    (w1 w2 : DependentVector D len) :
    setSegment (setSegment v start w1) start w2 = setSegment v start w2 := by
  funext i
  unfold setSegment
  split <;> rfl

omit [Field K] [LinearOrder T] in
/-- Writing a block twice at the same place keeps the second write. -/
theorem setBlock_setBlock {D : Type} {k r c : ℕ} (M : DependentMatrix D k k) (r0 c0 : ℕ)
    (B1 B2 : DependentMatrix D r c) :
    setBlock (setBlock M r0 c0 B1) r0 c0 B2 = setBlock M r0 c0 B2 := by
  funext i j
  unfold setBlock
  split <;> rfl

/-- The members of the object after an `updateFilter` call, returning or throwing, that do not
depend on how far the call got: the augmented state vector and covariance matrix are those
held before with the arguments of the last `computeSigmaPoints` call written to their leading
part, the sigma-point map has the keys `0, ..., N-1`, the sigma-point history has the first
sigma-point set filed under the time, and the models, noise covariances, integrator settings,
parameters and weights are those held before. -/
theorem updateFilter_frame
    (matrixSqrt : DependentMatrix K (augmentedStateDimension n m) (augmentedStateDimension n m) →
      DependentMatrix K (augmentedStateDimension n m) (augmentedStateDimension n m))
    (f : UnscentedKalmanFilter n m K T) (t : T) (u : ControlVector K) (z : DependentVector K m)
    (hmap : f.mapOfSigmaPoints_ = [] ∨
      mapKeys f.mapOfSigmaPoints_ = List.range (numberOfSigmaPoints n m)) :
    (updateFilter matrixSqrt f t u z).2.augmentedStateVector_ =
      setSegment f.augmentedStateVector_ 0 (lastComputeSigmaPointsArguments matrixSqrt f t u).1 ∧
    (updateFilter matrixSqrt f t u z).2.augmentedCovarianceMatrix_ =
      setBlock f.augmentedCovarianceMatrix_ 0 0
        (lastComputeSigmaPointsArguments matrixSqrt f t u).2 ∧
    mapKeys (updateFilter matrixSqrt f t u z).2.mapOfSigmaPoints_ =
      List.range (numberOfSigmaPoints n m) ∧
    (updateFilter matrixSqrt f t u z).2.mapOfMapOfSigmaPoints_ =
      mapAssign f.mapOfMapOfSigmaPoints_ t
        (computeSigmaPoints matrixSqrt f f.aPosterioriStateEstimate_
          f.aPosterioriCovarianceEstimate_).mapOfSigmaPoints_ ∧
    (updateFilter matrixSqrt f t u z).2.systemUncertainty_ = f.systemUncertainty_ ∧
    (updateFilter matrixSqrt f t u z).2.measurementUncertainty_ = f.measurementUncertainty_ ∧
    (updateFilter matrixSqrt f t u z).2.integratorSettings_ = f.integratorSettings_ ∧
    (updateFilter matrixSqrt f t u z).2.inputSystemFunction_ = f.inputSystemFunction_ ∧
    (updateFilter matrixSqrt f t u z).2.inputMeasurementFunction_ =
      f.inputMeasurementFunction_ ∧
    (updateFilter matrixSqrt f t u z).2.constantParameters_ = f.constantParameters_ ∧
    (updateFilter matrixSqrt f t u z).2.stateEstimationWeights_ = f.stateEstimationWeights_ ∧
    (updateFilter matrixSqrt f t u z).2.covarianceEstimationWeights_ =
      f.covarianceEstimationWeights_ := by
  have hk1 := (computeSigmaPoints_map_facts matrixSqrt f f.aPosterioriStateEstimate_
    f.aPosterioriCovarianceEstimate_ hmap).1
  have hk2 : ∀ (c : ℕ) (x : DependentVector K n) (P : DependentMatrix K n n),
      mapKeys (computeSigmaPoints matrixSqrt
        { computeSigmaPoints matrixSqrt f f.aPosterioriStateEstimate_
            f.aPosterioriCovarianceEstimate_ with
          mapOfMapOfSigmaPoints_ := mapAssign f.mapOfMapOfSigmaPoints_ t
            (computeSigmaPoints matrixSqrt f f.aPosterioriStateEstimate_
              f.aPosterioriCovarianceEstimate_).mapOfSigmaPoints_
          currentSigmaPoint_ := c } x P).mapOfSigmaPoints_ =
        List.range (numberOfSigmaPoints n m) := fun c x P =>
    (computeSigmaPoints_map_facts matrixSqrt _ x P (Or.inr hk1)).1
  unfold updateFilter lastComputeSigmaPointsArguments
  simp only []
  split
  · rename_i e f3 hp
    obtain ⟨c, hc⟩ := predictionLoop_snd (K := K) (n := n) (m := m) t u _ _ _
    rw [hp] at hc
    simp only at hc
    subst hc
    try simp only [hp]
    exact ⟨rfl, rfl, hk1, rfl, rfl, rfl, rfl, rfl, rfl, rfl, rfl, rfl⟩
  · rename_i est f3 hp
    obtain ⟨c, hc⟩ := predictionLoop_snd (K := K) (n := n) (m := m) t u _ _ _
    rw [hp] at hc
    simp only at hc
    subst hc
    try simp only [hp]
    split
    · rename_i e hx
      try simp only [hx]
      exact ⟨rfl, rfl, hk1, rfl, rfl, rfl, rfl, rfl, rfl, rfl, rfl, rfl⟩
    · rename_i xPrior hx
      try simp only [hx]
      split
      · rename_i e hP
        try simp only [hP]
        exact ⟨rfl, rfl, hk1, rfl, rfl, rfl, rfl, rfl, rfl, rfl, rfl, rfl⟩
      · rename_i PPrior hP
        try simp only [hP]
        have hfin : ∀ g : UnscentedKalmanFilter n m K T,
            (∃ c', g = { computeSigmaPoints matrixSqrt
              { computeSigmaPoints matrixSqrt f f.aPosterioriStateEstimate_
                  f.aPosterioriCovarianceEstimate_ with
                mapOfMapOfSigmaPoints_ := mapAssign f.mapOfMapOfSigmaPoints_ t
                  (computeSigmaPoints matrixSqrt f f.aPosterioriStateEstimate_
                    f.aPosterioriCovarianceEstimate_).mapOfSigmaPoints_
                currentSigmaPoint_ := c } xPrior PPrior with currentSigmaPoint_ := c' }) →
            g.augmentedStateVector_ = setSegment f.augmentedStateVector_ 0 xPrior ∧
            g.augmentedCovarianceMatrix_ = setBlock f.augmentedCovarianceMatrix_ 0 0 PPrior ∧
            mapKeys g.mapOfSigmaPoints_ = List.range (numberOfSigmaPoints n m) ∧
            g.mapOfMapOfSigmaPoints_ = mapAssign f.mapOfMapOfSigmaPoints_ t
              (computeSigmaPoints matrixSqrt f f.aPosterioriStateEstimate_
                f.aPosterioriCovarianceEstimate_).mapOfSigmaPoints_ ∧
            g.systemUncertainty_ = f.systemUncertainty_ ∧
            g.measurementUncertainty_ = f.measurementUncertainty_ ∧
            g.integratorSettings_ = f.integratorSettings_ ∧
            g.inputSystemFunction_ = f.inputSystemFunction_ ∧
            g.inputMeasurementFunction_ = f.inputMeasurementFunction_ ∧
            g.constantParameters_ = f.constantParameters_ ∧
            g.stateEstimationWeights_ = f.stateEstimationWeights_ ∧
            g.covarianceEstimationWeights_ = f.covarianceEstimationWeights_ := by
          rintro g ⟨c', rfl⟩
          exact ⟨setSegment_setSegment _ _ _ _, setBlock_setBlock _ _ _ _ _, hk2 c xPrior PPrior,
            rfl, rfl, rfl, rfl, rfl, rfl, rfl, rfl, rfl⟩
        split
        · rename_i e f5 hm
          obtain ⟨c', hc'⟩ := measurementLoop_snd (K := K) (n := n) (m := m) t _ _ _
          rw [hm] at hc'
          simp only at hc'
          exact hfin _ ⟨c', hc'⟩
        · rename_i mest f5 hm
          obtain ⟨c', hc'⟩ := measurementLoop_snd (K := K) (n := n) (m := m) t _ _ _
          rw [hm] at hc'
          simp only at hc'
          split
          · exact hfin f5 ⟨c', hc'⟩
          · split
            · exact hfin f5 ⟨c', hc'⟩
            · split
              · exact hfin f5 ⟨c', hc'⟩
              · exact hfin f5 ⟨c', hc'⟩

end FrameTheorems

section ReachableTheorems

variable {K T : Type} [Field K] [LinearOrder T] {n m : ℕ}

omit [LinearOrder T] in
/-- Both weight vectors built by `generateEstimationWeights` have `N` entries. -/
theorem generateEstimationWeights_lengths (p : ConstantParameterIndices → K) :
    (generateEstimationWeights n m p []).1.length = numberOfSigmaPoints n m ∧
    (generateEstimationWeights n m p []).2.length = numberOfSigmaPoints n m := by
  have h2 : (generateEstimationWeights n m p []).2 =
      (generateEstimationWeights n m p []).1.modifyHead
        (fun x => x + (1 - p alpha_index * p alpha_index + p beta_index)) := by
    simp [generateEstimationWeights]
  rw [h2, generateEstimationWeights_fst]
  simp [numberOfSigmaPoints]

omit [LinearOrder T] in
/-- The members of a constructed object. -/
theorem create_members [BEq K] (TUDAT_NAN : K) (sqrt : K → K)
    (systemFunction : SystemFunction n K T) (measurementFunction : MeasurementFunction n m K T)
    (Q : DependentMatrix K n n) (R : DependentMatrix K m m) (initialTime : T)
    (x0 : DependentVector K n) (P0 : DependentMatrix K n n)
    (integratorSettings : Option (Integrator n K T))
    (constantValueReference : ConstantParameterReferences) (customConstantParameters : K × K)
    (f : UnscentedKalmanFilter n m K T)
    (h : UnscentedKalmanFilter.create TUDAT_NAN sqrt systemFunction measurementFunction Q R
      initialTime x0 P0 integratorSettings constantValueReference customConstantParameters =
        .ok f) :
    f.systemUncertainty_ = Q ∧ f.measurementUncertainty_ = R ∧
    f.integratorSettings_ = integratorSettings ∧
    f.aPosterioriStateEstimate_ = x0 ∧ f.aPosterioriCovarianceEstimate_ = P0 ∧
    f.estimatedStateHistory_ = [] ∧ f.estimatedCovarianceHistory_ = [] ∧
    f.inputSystemFunction_ = systemFunction ∧ f.inputMeasurementFunction_ = measurementFunction ∧
    setConstantParameterValues n m TUDAT_NAN sqrt initialConstantParameters
      constantValueReference customConstantParameters = .ok f.constantParameters_ ∧
    f.stateEstimationWeights_ = (generateEstimationWeights n m f.constantParameters_ []).1 ∧
    f.covarianceEstimationWeights_ = (generateEstimationWeights n m f.constantParameters_ []).2 ∧
    f.augmentedStateVector_ = 0 ∧
    f.augmentedCovarianceMatrix_ = setBlock (setBlock 0 n n Q) (2 * n) (2 * n) R ∧
    f.mapOfSigmaPoints_ = [] ∧ f.mapOfMapOfSigmaPoints_ = [] := by
  unfold UnscentedKalmanFilter.create at h
  simp only [] at h
  split at h
  · cases h
  · rename_i cp hcp
    simp only [Except.ok.injEq] at h
    subst h
    refine ⟨rfl, rfl, rfl, rfl, rfl, rfl, rfl, rfl, rfl, hcp, rfl, rfl, ?_, ?_, rfl, rfl⟩
    · funext r
      simp
    · have hz : (fun _ _ => ((0 : ℕ) : K) : DependentMatrix K (augmentedStateDimension n m)
          (augmentedStateDimension n m)) = 0 := by
        funext r c
        simp
      simp only [hz]

/-- What an `updateFilter` call does to the covariance history: nothing if it throws, and the
new a-posteriori covariance is filed under the time if it returns. -/
theorem updateFilter_covariance_history
    (matrixSqrt : DependentMatrix K (augmentedStateDimension n m) (augmentedStateDimension n m) →
      DependentMatrix K (augmentedStateDimension n m) (augmentedStateDimension n m))
    (f : UnscentedKalmanFilter n m K T) (t : T) (u : ControlVector K) (z : DependentVector K m) :
    ((updateFilter matrixSqrt f t u z).1 = .ok () →
      (updateFilter matrixSqrt f t u z).2.estimatedCovarianceHistory_ =
        mapAssign f.estimatedCovarianceHistory_ t
          (updateFilter matrixSqrt f t u z).2.aPosterioriCovarianceEstimate_) ∧
    ((updateFilter matrixSqrt f t u z).1 ≠ .ok () →
      (updateFilter matrixSqrt f t u z).2.estimatedCovarianceHistory_ =
        f.estimatedCovarianceHistory_) := by
  rcases updateFilter_trace matrixSqrt f t u z with
    ⟨e, c, h⟩ | ⟨e, c, c', xPrior, PPrior, h⟩ |
    ⟨c, c', est, xPrior, PPrior, mest, zPred, S, C, _, _, _, _, _, _, _, h⟩
  · rw [h]
    exact ⟨fun hok => (by cases hok), fun _ => rfl⟩
  · rw [h]
    exact ⟨fun hok => (by cases hok), fun _ => rfl⟩
  · rw [h]
    exact ⟨fun _ => rfl, fun hne => absurd rfl hne⟩

/-- Invariants of the reachable filter states: the noise entries of the augmented state vector
are zero and its leading entries are the state last passed to `computeSigmaPoints`; outside
its leading block the augmented covariance matrix is the one the constructor built, and its
leading block is the covariance last passed to `computeSigmaPoints`; the sigma-point map is
empty or has the keys `0, ..., N-1`; the weights are those of `generateEstimationWeights`; the
covariance and sigma-point histories have ascending keys. -/
theorem reachable_invariants [BEq K] (TUDAT_NAN : K) (sqrt : K → K)
    (matrixSqrt : DependentMatrix K (augmentedStateDimension n m) (augmentedStateDimension n m) →
      DependentMatrix K (augmentedStateDimension n m) (augmentedStateDimension n m))
    (Q : DependentMatrix K n n) (R : DependentMatrix K m m)
    (f : UnscentedKalmanFilter n m K T)
    (last : Option (DependentVector K n × DependentMatrix K n n))
    (h : Reachable TUDAT_NAN sqrt matrixSqrt Q R f last) :
    (∀ r : Fin (augmentedStateDimension n m), n ≤ r.val → f.augmentedStateVector_ r = 0) ∧
    (∀ r c : Fin (augmentedStateDimension n m), n ≤ r.val ∨ n ≤ c.val →
      f.augmentedCovarianceMatrix_ r c = setBlock (setBlock 0 n n Q) (2 * n) (2 * n) R r c) ∧
    (∀ x P, last = some (x, P) →
      f.augmentedStateVector_ = setSegment f.augmentedStateVector_ 0 x ∧
      f.augmentedCovarianceMatrix_ = setBlock f.augmentedCovarianceMatrix_ 0 0 P) ∧
    (f.mapOfSigmaPoints_ = [] ∨
      mapKeys f.mapOfSigmaPoints_ = List.range (numberOfSigmaPoints n m)) ∧
    f.stateEstimationWeights_ = (generateEstimationWeights n m f.constantParameters_ []).1 ∧
    f.covarianceEstimationWeights_ = (generateEstimationWeights n m f.constantParameters_ []).2 ∧
    mapOrdered f.estimatedCovarianceHistory_ ∧ mapOrdered f.mapOfMapOfSigmaPoints_ ∧
    f.systemUncertainty_ = Q ∧ f.measurementUncertainty_ = R := by
  induction h with
  | constructed sys meas t0 x0 P0 integ ref custom f hc =>
    obtain ⟨hQ, hR, _, _, _, _, hcov, _, _, _, hw, hwc, hv, hM, hmap, hhist⟩ :=
      create_members TUDAT_NAN sqrt sys meas Q R t0 x0 P0 integ ref custom f hc
    refine ⟨?_, ?_, ?_, Or.inl hmap, hw, hwc, ?_, ?_, hQ, hR⟩
    · intro r _
      rw [hv]
      rfl
    · intro r c _
      rw [hM]
    · intro x P hlast
      cases hlast
    · rw [hcov]
      simp [mapOrdered, mapKeys]
    · rw [hhist]
      simp [mapOrdered, mapKeys]
  | updated f last t u z _ ih =>
    obtain ⟨i1, i2, _, i4, i5, i6, i7, i8, i9, i10⟩ := ih
    obtain ⟨hv, hM, hk, hh, hQ, hR, _, _, _, hp, hw, hwc⟩ :=
      updateFilter_frame matrixSqrt f t u z i4
    refine ⟨?_, ?_, ?_, Or.inr hk, ?_, ?_, ?_, ?_, hQ.trans i9, hR.trans i10⟩
    · intro r hr
      rw [hv]
      have hn : ¬ (0 ≤ r.val ∧ r.val < 0 + n) := by omega
      simp only [setSegment, hn, dif_neg, not_false_eq_true]
      exact i1 r hr
    · intro r c hrc
      rw [hM]
      have hn : ¬ ((0 ≤ r.val ∧ r.val < 0 + n) ∧ (0 ≤ c.val ∧ c.val < 0 + n)) := by omega
      simp only [setBlock, hn, dif_neg, not_false_eq_true]
      exact i2 r c hrc
    · intro x P hlast
      simp only [Option.some.injEq] at hlast
      rw [hv, hM, hlast]
      exact ⟨(setSegment_setSegment _ _ _ _).symm, (setBlock_setBlock _ _ _ _ _).symm⟩
    · rw [hw, hp]
      exact i5
    · rw [hwc, hp]
      exact i6
    · by_cases hok : (updateFilter matrixSqrt f t u z).1 = .ok ()
      · rw [(updateFilter_covariance_history matrixSqrt f t u z).1 hok]
        exact mapOrdered_mapAssign _ _ _ i7
      · rw [(updateFilter_covariance_history matrixSqrt f t u z).2 hok]
        exact i7
    · rw [hh]
      exact mapOrdered_mapAssign _ _ _ i8

end ReachableTheorems

section AugmentedStateTheorems

variable {K T : Type} [Field K] [LinearOrder T] {n m : ℕ}

/-- C17: in every filter state reachable by construction followed by any number of
`updateFilter` calls, the middle `n x n` block of the augmented covariance is the process-noise
covariance `Q` given at construction, the bottom-right `m x m` block is the measurement-noise
covariance `R`, the top-left `n x n` block is the covariance last passed to
`computeSigmaPoints` (once there was such a call), and every entry whose row and column lie in
different blocks is zero. -/
theorem reachable_augmented_covariance_blocks [BEq K] (TUDAT_NAN : K) (sqrt : K → K)
    (matrixSqrt : DependentMatrix K (augmentedStateDimension n m) (augmentedStateDimension n m) →
      DependentMatrix K (augmentedStateDimension n m) (augmentedStateDimension n m))
    (Q : DependentMatrix K n n) (R : DependentMatrix K m m)
    (f : UnscentedKalmanFilter n m K T)
    (last : Option (DependentVector K n × DependentMatrix K n n))
    (h : Reachable TUDAT_NAN sqrt matrixSqrt Q R f last) :
    (∀ i j : Fin n,
      f.augmentedCovarianceMatrix_
        ⟨n + i.val, by have := i.isLt; unfold augmentedStateDimension; omega⟩
        ⟨n + j.val, by have := j.isLt; unfold augmentedStateDimension; omega⟩ = Q i j) ∧
    (∀ i j : Fin m,
      f.augmentedCovarianceMatrix_
        ⟨2 * n + i.val, by have := i.isLt; unfold augmentedStateDimension; omega⟩
        ⟨2 * n + j.val, by have := j.isLt; unfold augmentedStateDimension; omega⟩ = R i j) ∧
    (∀ x P, last = some (x, P) → ∀ i j : Fin n,
      f.augmentedCovarianceMatrix_
        ⟨i.val, by have := i.isLt; unfold augmentedStateDimension; omega⟩
        ⟨j.val, by have := j.isLt; unfold augmentedStateDimension; omega⟩ = P i j) ∧
    (∀ r c : Fin (augmentedStateDimension n m), blockIndex n r.val ≠ blockIndex n c.val →
      f.augmentedCovarianceMatrix_ r c = 0) := by
  obtain ⟨_, i2, i3, _⟩ := reachable_invariants TUDAT_NAN sqrt matrixSqrt Q R f last h
  refine ⟨?_, ?_, ?_, ?_⟩
  · intro i j
    have hi := i.isLt
    have hj := j.isLt
    rw [i2 _ _ (Or.inl (by simp))]
    have h1 : ¬ ((2 * n ≤ n + i.val ∧ n + i.val < 2 * n + m) ∧
        (2 * n ≤ n + j.val ∧ n + j.val < 2 * n + m)) := by omega
    have h2 : (n ≤ n + i.val ∧ n + i.val < n + n) ∧ (n ≤ n + j.val ∧ n + j.val < n + n) := by
      omega
    simp only [setBlock, h1, h2, dif_neg, dif_pos, not_false_eq_true, and_self,
      Nat.add_sub_cancel_left, Fin.eta]
  · intro i j
    have hi := i.isLt
    have hj := j.isLt
    rw [i2 _ _ (Or.inl (by simp; omega))]
    have h1 : (2 * n ≤ 2 * n + i.val ∧ 2 * n + i.val < 2 * n + m) ∧
        (2 * n ≤ 2 * n + j.val ∧ 2 * n + j.val < 2 * n + m) := by omega
    simp only [setBlock, h1, dif_pos, and_self, Nat.add_sub_cancel_left, Fin.eta]
  · intro x P hlast i j
    have hi := i.isLt
    have hj := j.isLt
    rw [(i3 x P hlast).2]
    have h1 : (0 ≤ i.val ∧ i.val < 0 + n) ∧ (0 ≤ j.val ∧ j.val < 0 + n) := by omega
    simp only [setBlock, h1, dif_pos, and_self, Nat.sub_zero, Fin.eta]
  · intro r c hrc
    have hr := r.isLt
    have hc := c.isLt
    unfold augmentedStateDimension at hr hc
    have hor : n ≤ r.val ∨ n ≤ c.val := by
      by_contra hcon
      have h1 : r.val < n := by omega
      have h2 : c.val < n := by omega
      simp [blockIndex, h1, h2] at hrc
    rw [i2 r c hor]
    have h1 : ¬ ((2 * n ≤ r.val ∧ r.val < 2 * n + m) ∧ (2 * n ≤ c.val ∧ c.val < 2 * n + m)) := by
      intro hcon
      have h1 : ¬ r.val < n := by omega
      have h2 : ¬ r.val < 2 * n := by omega
      have h3 : ¬ c.val < n := by omega
      have h4 : ¬ c.val < 2 * n := by omega
      simp [blockIndex, h1, h2, h3, h4] at hrc
    have h2 : ¬ ((n ≤ r.val ∧ r.val < n + n) ∧ (n ≤ c.val ∧ c.val < n + n)) := by
      intro hcon
      have h1 : ¬ r.val < n := by omega
      have h2 : r.val < 2 * n := by omega
      have h3 : ¬ c.val < n := by omega
      have h4 : c.val < 2 * n := by omega
      simp [blockIndex, h1, h2, h3, h4] at hrc
    simp only [setBlock, h1, h2, dif_neg, not_false_eq_true]
    rfl

/-- C18: in every reachable filter state the augmented state vector has `L = 2n + m` entries,
its first `n` entries are the state last passed to `computeSigmaPoints` (once there was such a
call), and its remaining `n + m` noise entries are zero. -/
theorem reachable_augmented_state_vector [BEq K] (TUDAT_NAN : K) (sqrt : K → K)
    (matrixSqrt : DependentMatrix K (augmentedStateDimension n m) (augmentedStateDimension n m) →
      DependentMatrix K (augmentedStateDimension n m) (augmentedStateDimension n m))
    (Q : DependentMatrix K n n) (R : DependentMatrix K m m)
    (f : UnscentedKalmanFilter n m K T)
    (last : Option (DependentVector K n × DependentMatrix K n n))
    (h : Reachable TUDAT_NAN sqrt matrixSqrt Q R f last) :
    (List.ofFn f.augmentedStateVector_).length = 2 * n + m ∧
    (∀ x P, last = some (x, P) → ∀ i : Fin n,
      f.augmentedStateVector_
        ⟨i.val, by have := i.isLt; unfold augmentedStateDimension; omega⟩ = x i) ∧
    (∀ r : Fin (augmentedStateDimension n m), n ≤ r.val → f.augmentedStateVector_ r = 0) := by
  obtain ⟨i1, _, i3, _⟩ := reachable_invariants TUDAT_NAN sqrt matrixSqrt Q R f last h
  refine ⟨by simp [augmentedStateDimension], ?_, i1⟩
  intro x P hlast i
  have hi := i.isLt
  rw [(i3 x P hlast).1]
  have h1 : 0 ≤ i.val ∧ i.val < 0 + n := by omega
  simp only [setSegment, h1, dif_pos, and_self, Nat.sub_zero, Fin.eta]

/-- C15: `computeSigmaPoints` is a function of its two arguments: on two reachable filter
states with the same noise covariances `Q`, `R` and the same scaling parameter gamma, calls
with the same mean and covariance leave identical sigma-point sets, and a second call with the
same arguments right after the first leaves the sigma-point set of the first. -/
theorem computeSigmaPoints_function_of_arguments [BEq K] (TUDAT_NAN : K) (sqrt : K → K)
    (matrixSqrt : DependentMatrix K (augmentedStateDimension n m) (augmentedStateDimension n m) →
      DependentMatrix K (augmentedStateDimension n m) (augmentedStateDimension n m))
    (Q : DependentMatrix K n n) (R : DependentMatrix K m m)
    (f g : UnscentedKalmanFilter n m K T)
    (lastf lastg : Option (DependentVector K n × DependentMatrix K n n))
    (hf : Reachable TUDAT_NAN sqrt matrixSqrt Q R f lastf)
    (hg : Reachable TUDAT_NAN sqrt matrixSqrt Q R g lastg)
    (hgamma : f.constantParameters_ gamma_index = g.constantParameters_ gamma_index)
    (x : DependentVector K n) (P : DependentMatrix K n n) :
    (computeSigmaPoints matrixSqrt f x P).mapOfSigmaPoints_ =
      (computeSigmaPoints matrixSqrt g x P).mapOfSigmaPoints_ ∧
    (computeSigmaPoints matrixSqrt (computeSigmaPoints matrixSqrt f x P) x P).mapOfSigmaPoints_ =
      (computeSigmaPoints matrixSqrt f x P).mapOfSigmaPoints_ := by
  obtain ⟨f1, f2, _, f4, _⟩ := reachable_invariants TUDAT_NAN sqrt matrixSqrt Q R f lastf hf
  obtain ⟨g1, g2, _, g4, _⟩ := reachable_invariants TUDAT_NAN sqrt matrixSqrt Q R g lastg hg
  have hv : setSegment f.augmentedStateVector_ 0 x = setSegment g.augmentedStateVector_ 0 x := by
    funext r
    unfold setSegment
    split
    · rfl
    · rename_i hr
      have hn : n ≤ r.val := by omega
      rw [f1 r hn, g1 r hn]
  have hM : setBlock f.augmentedCovarianceMatrix_ 0 0 P =
      setBlock g.augmentedCovarianceMatrix_ 0 0 P := by
    funext r c
    unfold setBlock
    split
    · rfl
    · rename_i hr
      have hn : n ≤ r.val ∨ n ≤ c.val := by omega
      rw [f2 r c hn, g2 r c hn]
  constructor
  · rw [computeSigmaPoints_mapOfSigmaPoints matrixSqrt f x P f4,
      computeSigmaPoints_mapOfSigmaPoints matrixSqrt g x P g4]
    show List.map (fun i => (i.val, sigmaPoint (setSegment f.augmentedStateVector_ 0 x)
        (f.constantParameters_ gamma_index)
        (matrixSqrt (setBlock f.augmentedCovarianceMatrix_ 0 0 P)) i)) _ =
      List.map (fun i => (i.val, sigmaPoint (setSegment g.augmentedStateVector_ 0 x)
        (g.constantParameters_ gamma_index)
        (matrixSqrt (setBlock g.augmentedCovarianceMatrix_ 0 0 P)) i)) _
    rw [hv, hM, hgamma]
  · have hk := (computeSigmaPoints_map_facts matrixSqrt f x P f4).1
    rw [computeSigmaPoints_mapOfSigmaPoints matrixSqrt _ x P (Or.inr hk),
      computeSigmaPoints_mapOfSigmaPoints matrixSqrt f x P f4]
    show List.map (fun i => (i.val, sigmaPoint
        (setSegment (setSegment f.augmentedStateVector_ 0 x) 0 x)
        (f.constantParameters_ gamma_index)
        (matrixSqrt (setBlock (setBlock f.augmentedCovarianceMatrix_ 0 0 P) 0 0 P)) i)) _ =
      List.map (fun i => (i.val, sigmaPoint (setSegment f.augmentedStateVector_ 0 x)
        (f.constantParameters_ gamma_index)
        (matrixSqrt (setBlock f.augmentedCovarianceMatrix_ 0 0 P)) i)) _
    rw [setSegment_setSegment, setBlock_setBlock]

end AugmentedStateTheorems

section ScenarioReachableTheorems

/-- The scenario object is reachable: it is the one the constructor returns. -/
theorem scenario_reachable :
    Reachable (0 : ℚ) Rat.sqrt diagonalSqrt !![16] !![1] scenarioFilter none :=
  Reachable.constructed _ _ _ _ _ _ _ _ _ (scenarioFilter_created 0 (by norm_num))

/-- The scenario object after the call `updateFilter( 1, [], [26] )` is reachable. -/
theorem scenario_updated_reachable :
    Reachable (0 : ℚ) Rat.sqrt diagonalSqrt !![16] !![1]
      (updateFilter diagonalSqrt scenarioFilter 1 [] ![26]).2
      (some (lastComputeSigmaPointsArguments diagonalSqrt scenarioFilter 1 [])) :=
  Reachable.updated _ _ _ _ _ scenario_reachable

end ScenarioReachableTheorems

section ReturnTheorems

variable {K T : Type} [Field K] [LinearOrder T] {n m : ℕ}

omit [Field K] [LinearOrder T] in
/-- The size of a map after an assignment: one more if the key is new, the same if the key
was there. -/
theorem mapAssign_length {κ V : Type} [LinearOrder κ] (mp : StdMap κ V) (k : κ) (v : V)
    (h : mapOrdered mp) :
    (mapAssign mp k v).length = if k ∈ mapKeys mp then mp.length else mp.length + 1 := by
  induction mp with
  | nil => simp [mapAssign, mapKeys]
  | cons a rest ih =>
    obtain ⟨ka, va⟩ := a
    simp only [mapOrdered, mapKeys, List.map_cons, List.pairwise_cons] at h
    by_cases h1 : k < ka
    · have hne : k ≠ ka := ne_of_lt h1
      have hnot : k ∉ List.map Prod.fst rest := fun hmem => lt_asymm h1 (h.1 k hmem)
      simp [mapAssign, mapKeys, h1, hne, hnot]
    · by_cases h2 : k = ka
      · simp [mapAssign, mapKeys, h1, h2]
      · have ih' := ih h.2
        simp only [mapKeys] at ih'
        simp only [mapAssign, mapKeys, h1, h2, if_false, List.length_cons, List.map_cons,
          List.mem_cons, false_or, ih']
        split <;> rfl

/-- An `updateFilter` call on an object without integrator, with a sigma-point map that is
fresh or left by an earlier call and weight vectors of `N` entries, returns whenever the user
models return at the time and control of the call. -/
theorem updateFilter_returns
    (matrixSqrt : DependentMatrix K (augmentedStateDimension n m) (augmentedStateDimension n m) →
      DependentMatrix K (augmentedStateDimension n m) (augmentedStateDimension n m))
    (f : UnscentedKalmanFilter n m K T) (t : T) (u : ControlVector K) (z : DependentVector K m)
    (hint : f.integratorSettings_ = none)
    (hsys : ∀ x, ∃ value, f.inputSystemFunction_ t x u = .ok value)
    (hmeas : ∀ x, ∃ value, f.inputMeasurementFunction_ t x = .ok value)
    (hmap : f.mapOfSigmaPoints_ = [] ∨
      mapKeys f.mapOfSigmaPoints_ = List.range (numberOfSigmaPoints n m))
    (hw : f.stateEstimationWeights_.length = numberOfSigmaPoints n m)
    (hwc : f.covarianceEstimationWeights_.length = numberOfSigmaPoints n m) :
    (updateFilter matrixSqrt f t u z).1 = .ok () := by
  choose phi hphi using hsys
  choose psi hpsi using hmeas
  obtain ⟨_, _, _, _, _, _, _, _, _, h⟩ := updateFilter_total_models matrixSqrt f t u z phi psi
    hint hphi hpsi hmap hw hwc _ rfl _ rfl _ rfl _ rfl _ rfl _ rfl _ rfl
  rw [h]

/-- What a returning `updateFilter` call does to the two histories of the claim: the new
a-posteriori covariance and the sigma-point set generated at the start of the call are filed
under the time, other keys are untouched, and a history grows by one entry exactly if the time
was not a key of it. -/
theorem updateFilter_histories
    (matrixSqrt : DependentMatrix K (augmentedStateDimension n m) (augmentedStateDimension n m) →
      DependentMatrix K (augmentedStateDimension n m) (augmentedStateDimension n m))
    (f : UnscentedKalmanFilter n m K T) (t : T) (u : ControlVector K) (z : DependentVector K m)
    (hmap : f.mapOfSigmaPoints_ = [] ∨
      mapKeys f.mapOfSigmaPoints_ = List.range (numberOfSigmaPoints n m))
    (hord : mapOrdered f.estimatedCovarianceHistory_)
    (hords : mapOrdered f.mapOfMapOfSigmaPoints_)
    (hok : (updateFilter matrixSqrt f t u z).1 = .ok ()) :
    mapFind (updateFilter matrixSqrt f t u z).2.estimatedCovarianceHistory_ t =
      some (updateFilter matrixSqrt f t u z).2.aPosterioriCovarianceEstimate_ ∧
    mapFind (updateFilter matrixSqrt f t u z).2.mapOfMapOfSigmaPoints_ t =
      some (computeSigmaPoints matrixSqrt f f.aPosterioriStateEstimate_
        f.aPosterioriCovarianceEstimate_).mapOfSigmaPoints_ ∧
    (∀ k, k ≠ t →
      mapFind (updateFilter matrixSqrt f t u z).2.estimatedCovarianceHistory_ k =
        mapFind f.estimatedCovarianceHistory_ k) ∧
    (∀ k, k ≠ t →
      mapFind (updateFilter matrixSqrt f t u z).2.mapOfMapOfSigmaPoints_ k =
        mapFind f.mapOfMapOfSigmaPoints_ k) ∧
    (updateFilter matrixSqrt f t u z).2.estimatedCovarianceHistory_.length =
      (if t ∈ mapKeys f.estimatedCovarianceHistory_ then f.estimatedCovarianceHistory_.length
        else f.estimatedCovarianceHistory_.length + 1) ∧
    (updateFilter matrixSqrt f t u z).2.mapOfMapOfSigmaPoints_.length =
      (if t ∈ mapKeys f.mapOfMapOfSigmaPoints_ then f.mapOfMapOfSigmaPoints_.length
        else f.mapOfMapOfSigmaPoints_.length + 1) := by
  have hc := (updateFilter_covariance_history matrixSqrt f t u z).1 hok
  have hs := (updateFilter_frame matrixSqrt f t u z hmap).2.2.2.1
  refine ⟨?_, ?_, ?_, ?_, ?_, ?_⟩
  · rw [hc, mapFind_mapAssign]
    simp
  · rw [hs, mapFind_mapAssign]
    simp
  · intro k hk
    rw [hc, mapFind_mapAssign]
    simp [hk]
  · intro k hk
    rw [hs, mapFind_mapAssign]
    simp [hk]
  · rw [hc]
    exact mapAssign_length _ _ _ hord
  · rw [hs]
    exact mapAssign_length _ _ _ hords

end ReturnTheorems

section HistoryTheorems

variable {K T : Type} [Field K] [LinearOrder T] {n m : ℕ}

/-- C16 (as amended): after a returning `updateFilter(t, u, z)` call on a reachable object,
the covariance history holds the new a-posteriori covariance under `t` and the sigma-point
history holds the sigma-point set generated at the start of the call under `t`, every entry
under another key is unchanged, and each of the two histories has one more entry than before
if `t` was not one of its keys and as many entries as before if it was (the entry under `t` is
then overwritten). -/
theorem updateFilter_history_entries [BEq K] (TUDAT_NAN : K) (sqrt : K → K)
    (matrixSqrt : DependentMatrix K (augmentedStateDimension n m) (augmentedStateDimension n m) →
      DependentMatrix K (augmentedStateDimension n m) (augmentedStateDimension n m))
    (Q : DependentMatrix K n n) (R : DependentMatrix K m m)
    (f : UnscentedKalmanFilter n m K T)
    (last : Option (DependentVector K n × DependentMatrix K n n))
    (t : T) (u : ControlVector K) (z : DependentVector K m)
    (h : Reachable TUDAT_NAN sqrt matrixSqrt Q R f last)
    (hok : (updateFilter matrixSqrt f t u z).1 = .ok ()) :
    mapFind (updateFilter matrixSqrt f t u z).2.estimatedCovarianceHistory_ t =
      some (updateFilter matrixSqrt f t u z).2.aPosterioriCovarianceEstimate_ ∧
    mapFind (updateFilter matrixSqrt f t u z).2.mapOfMapOfSigmaPoints_ t =
      some (computeSigmaPoints matrixSqrt f f.aPosterioriStateEstimate_
        f.aPosterioriCovarianceEstimate_).mapOfSigmaPoints_ ∧
    (∀ k, k ≠ t →
      mapFind (updateFilter matrixSqrt f t u z).2.estimatedCovarianceHistory_ k =
        mapFind f.estimatedCovarianceHistory_ k) ∧
    (∀ k, k ≠ t →
      mapFind (updateFilter matrixSqrt f t u z).2.mapOfMapOfSigmaPoints_ k =
        mapFind f.mapOfMapOfSigmaPoints_ k) ∧
    (updateFilter matrixSqrt f t u z).2.estimatedCovarianceHistory_.length =
      (if t ∈ mapKeys f.estimatedCovarianceHistory_ then f.estimatedCovarianceHistory_.length
        else f.estimatedCovarianceHistory_.length + 1) ∧
    (updateFilter matrixSqrt f t u z).2.mapOfMapOfSigmaPoints_.length =
      (if t ∈ mapKeys f.mapOfMapOfSigmaPoints_ then f.mapOfMapOfSigmaPoints_.length
        else f.mapOfMapOfSigmaPoints_.length + 1) := by
  obtain ⟨_, _, _, i4, _, _, i7, i8, _⟩ :=
    reachable_invariants TUDAT_NAN sqrt matrixSqrt Q R f last h
  exact updateFilter_histories matrixSqrt f t u z i4 i7 i8 hok

/-- C11 (as amended): `updateFilter` has no check of the innovation covariance: on a reachable
object without integrator the call returns whenever the user models return at the time and
control of the call, whatever the innovation covariance is. -/
theorem updateFilter_returns_when_models_return [BEq K] (TUDAT_NAN : K) (sqrt : K → K)
    (matrixSqrt : DependentMatrix K (augmentedStateDimension n m) (augmentedStateDimension n m) →
      DependentMatrix K (augmentedStateDimension n m) (augmentedStateDimension n m))
    (Q : DependentMatrix K n n) (R : DependentMatrix K m m)
    (f : UnscentedKalmanFilter n m K T)
    (last : Option (DependentVector K n × DependentMatrix K n n))
    (t : T) (u : ControlVector K) (z : DependentVector K m)
    (h : Reachable TUDAT_NAN sqrt matrixSqrt Q R f last)
    (hint : f.integratorSettings_ = none)
    (hsys : ∀ x, ∃ value, f.inputSystemFunction_ t x u = .ok value)
    (hmeas : ∀ x, ∃ value, f.inputMeasurementFunction_ t x = .ok value) :
    (updateFilter matrixSqrt f t u z).1 = .ok () := by
  obtain ⟨_, _, _, i4, i5, i6, _⟩ := reachable_invariants TUDAT_NAN sqrt matrixSqrt Q R f last h
  refine updateFilter_returns matrixSqrt f t u z hint hsys hmeas i4 ?_ ?_
  · rw [i5]
    exact (generateEstimationWeights_lengths _).1
  · rw [i6]
    exact (generateEstimationWeights_lengths _).2

end HistoryTheorems

section DegenerateScenarioTheorems

/-- The object with the zero measurement model is the one the constructor returns. -/
theorem singularFilter_created (placeholder : ℚ) (h : placeholder ≠ 1) :
    UnscentedKalmanFilter.create placeholder Rat.sqrt (linearSystemFunction !![1])
      (linearMeasurementFunction !![0]) !![16] !![0] (0 : ℚ) ![0] !![9] none
      custom_parameters (1, 1) = .ok singularFilter := by
  unfold UnscentedKalmanFilter.create
  simp only [scenarioParameters_set placeholder h]
  unfold singularFilter scenarioFilter
  congr 2
  · simp [generateEstimationWeights, pushBackLoop_eq, numberOfSigmaPoints,
      augmentedStateDimension, scenarioParameters, List.replicate]
    norm_num
  · simp [generateEstimationWeights, pushBackLoop_eq, numberOfSigmaPoints,
      augmentedStateDimension, scenarioParameters, List.replicate]
    norm_num
  · apply vec3_ext <;> simp
  · ext i j
    fin_cases i <;> fin_cases j <;> simp [setBlock]

/-- The object with the initial covariance `-1` is the one the constructor returns. -/
theorem indefiniteFilter_created (placeholder : ℚ) (h : placeholder ≠ 1) :
    UnscentedKalmanFilter.create placeholder Rat.sqrt (linearSystemFunction !![1])
      (linearMeasurementFunction !![1]) !![16] !![1] (0 : ℚ) ![0] !![-1] none
      custom_parameters (1, 1) = .ok indefiniteFilter := by
  unfold UnscentedKalmanFilter.create
  simp only [scenarioParameters_set placeholder h]
  unfold indefiniteFilter scenarioFilter
  congr 2
  · simp [generateEstimationWeights, pushBackLoop_eq, numberOfSigmaPoints,
      augmentedStateDimension, scenarioParameters, List.replicate]
    norm_num
  · simp [generateEstimationWeights, pushBackLoop_eq, numberOfSigmaPoints,
      augmentedStateDimension, scenarioParameters, List.replicate]
    norm_num
  · apply vec3_ext <;> simp
  · ext i j
    fin_cases i <;> fin_cases j <;> simp [setBlock]

/-- With an augmented mean and an augmented covariance whose measurement-noise entry is zero,
the measurement-noise segment of every sigma point built with the diagonal square root is
zero. -/
theorem singular_noise_segment (a : DependentVector ℚ (augmentedStateDimension 1 1)) (γ : ℚ)
    (M : DependentMatrix ℚ (augmentedStateDimension 1 1) (augmentedStateDimension 1 1))
    (i : Fin (numberOfSigmaPoints 1 1)) (ha : a (2 : Fin 3) = 0) (hM : M (2 : Fin 3) (2 : Fin 3) = 0) :
    segment (sigmaPoint a γ (diagonalSqrt M) i) (2 * 1) 1
      (by unfold augmentedStateDimension; omega) = 0 := by
  have hA : ∀ c : Fin 3, diagonalSqrt M (2 : Fin 3) c = 0 := by
    intro c
    fin_cases c
    · simp [diagonalSqrt, Matrix.diagonal]
    · simp [diagonalSqrt, Matrix.diagonal]
    · simp [diagonalSqrt, Matrix.diagonal, hM]
  funext j
  fin_cases j
  show sigmaPoint a γ (diagonalSqrt M) i (2 : Fin 3) = 0
  unfold sigmaPoint
  split
  · exact ha
  · split
    · show a (2 : Fin 3) + γ * diagonalSqrt M (2 : Fin 3) _ = 0
      rw [ha, hA]
      norm_num
    · show a (2 : Fin 3) - γ * diagonalSqrt M (2 : Fin 3) _ = 0
      rw [ha, hA]
      norm_num

end DegenerateScenarioTheorems

section DefinitenessTheorems

/-- A matrix with a negative leading entry is not positive semi-definite. -/
theorem not_positive_semi_definite_of_negative_entry (M : DependentMatrix ℚ 3 3)
    (h : M 0 0 < 0) : ¬ IsPositiveSemiDefinite M := by
  rintro ⟨_, hpos⟩
  have h1 := hpos ![1, 0, 0]
  have hval : Matrix.dotProduct (![1, 0, 0] : Fin 3 → ℚ) (M.mulVec ![1, 0, 0]) = M 0 0 := by
    simp [Matrix.mulVec, Matrix.dotProduct, Fin.sum_univ_three]
  rw [hval] at h1
  exact absurd h (not_lt.2 h1)

end DefinitenessTheorems

section SymmetricSumTheorems

variable {K : Type} [Field K] {n m : ℕ}

/-- The covariance weights after `generateEstimationWeights` on an empty weight vector. -/
theorem generateEstimationWeights_snd (p : ConstantParameterIndices → K) :
    (generateEstimationWeights n m p []).2 =
      (p lambda_index / ((augmentedStateDimension n m : K) + p lambda_index) +
          (1 - p alpha_index * p alpha_index + p beta_index)) ::
        List.replicate (2 * augmentedStateDimension n m)
          (1 / (2 * ((augmentedStateDimension n m : K) + p lambda_index))) := by
  have h2 : (generateEstimationWeights n m p []).2 =
      (generateEstimationWeights n m p []).1.modifyHead
        (fun x => x + (1 - p alpha_index * p alpha_index + p beta_index)) := by
    simp [generateEstimationWeights]
  rw [h2, generateEstimationWeights_fst]
  rfl

omit [Field K] in
/-- Entry `i` of a weight vector with first entry `w0` followed by `2L` entries `c`. -/
theorem getD_weights [Zero K] (L : ℕ) (w0 c : K) (i : ℕ) (hi : i < 2 * L + 1) :
    (w0 :: List.replicate (2 * L) c).getD i 0 = if i = 0 then w0 else c := by
  cases i with
  | zero => simp
  | succ j =>
    have hj : j < 2 * L := by omega
    simp [List.getD_eq_getElem?_getD, List.getElem?_replicate, hj]

omit [Field K] in
/-- A sum over the sigma indices `0, ..., 2L` splits into the centre term, the terms `j + 1`
and the terms `L + j + 1`, for `j < L`. -/
theorem sum_sigma_indices {V : Type} [AddCommMonoid V]
    (Φ : Fin (numberOfSigmaPoints n m) → V) :
    ∑ i, Φ i =
      Φ ⟨0, by unfold numberOfSigmaPoints; omega⟩ +
      ∑ j : Fin (augmentedStateDimension n m),
        Φ ⟨j.val + 1, by have := j.isLt; unfold numberOfSigmaPoints; omega⟩ +
      ∑ j : Fin (augmentedStateDimension n m),
        Φ ⟨augmentedStateDimension n m + j.val + 1, by
          have := j.isLt; unfold numberOfSigmaPoints; omega⟩ := by
  have h1 : ∑ i, Φ i = ∑ i in Finset.range (numberOfSigmaPoints n m),
      (if h : i < numberOfSigmaPoints n m then Φ ⟨i, h⟩ else 0) := by
    rw [← Fin.sum_univ_eq_sum_range (fun i : ℕ =>
      if h : i < numberOfSigmaPoints n m then Φ ⟨i, h⟩ else 0) (numberOfSigmaPoints n m)]
    apply Finset.sum_congr rfl
    intro i _
    simp
  have hN : numberOfSigmaPoints n m =
      augmentedStateDimension n m + augmentedStateDimension n m + 1 := by
    unfold numberOfSigmaPoints
    omega
  rw [h1]
  have h2 : ∑ i in Finset.range (numberOfSigmaPoints n m),
      (if h : i < numberOfSigmaPoints n m then Φ ⟨i, h⟩ else 0) =
      ∑ i in Finset.range (augmentedStateDimension n m + augmentedStateDimension n m + 1),
        (if h : i < numberOfSigmaPoints n m then Φ ⟨i, h⟩ else 0) := by
    rw [← hN]
  rw [h2, Finset.sum_range_succ', Finset.sum_range_add, ← Fin.sum_univ_eq_sum_range,
    ← Fin.sum_univ_eq_sum_range]
  have e0 : (0 : ℕ) < numberOfSigmaPoints n m := by unfold numberOfSigmaPoints; omega
  have e1 : ∀ j : Fin (augmentedStateDimension n m), j.val + 1 < numberOfSigmaPoints n m := by
    intro j
    have := j.isLt
    unfold numberOfSigmaPoints
    omega
  have e2 : ∀ j : Fin (augmentedStateDimension n m),
      augmentedStateDimension n m + j.val + 1 < numberOfSigmaPoints n m := by
    intro j
    have := j.isLt
    unfold numberOfSigmaPoints
    omega
  simp only [e0, e1, e2, dif_pos]
  abel

/-- The sigma points as the centre and the centre plus and minus `gamma` times a column of the
square root. -/
theorem sigmaPoint_cases (a : DependentVector K (augmentedStateDimension n m)) (γ : K)
    (A : DependentMatrix K (augmentedStateDimension n m) (augmentedStateDimension n m)) :
    sigmaPoint a γ A ⟨0, by unfold numberOfSigmaPoints; omega⟩ = a ∧
    (∀ j : Fin (augmentedStateDimension n m),
      sigmaPoint a γ A ⟨j.val + 1, by have := j.isLt; unfold numberOfSigmaPoints; omega⟩ =
        a + γ • (fun r => A r j)) ∧
    (∀ j : Fin (augmentedStateDimension n m),
      sigmaPoint a γ A ⟨augmentedStateDimension n m + j.val + 1, by
          have := j.isLt; unfold numberOfSigmaPoints; omega⟩ =
        a - γ • (fun r => A r j)) := by
  refine ⟨by simp [sigmaPoint], ?_, ?_⟩
  · intro j
    have hj := j.isLt
    funext r
    simp [sigmaPoint, hj]
  · intro j
    have hj := j.isLt
    have h1 : ¬ augmentedStateDimension n m + j.val + 1 < augmentedStateDimension n m + 1 := by
      omega
    have h2 : augmentedStateDimension n m + j.val + 1 - 1 - augmentedStateDimension n m =
        j.val := by omega
    funext r
    simp [sigmaPoint, h1, h2]

end SymmetricSumTheorems

section LinearImageTheorems

variable {K : Type} [Field K] {n m : ℕ}

/-- The mean-weighted sum of a linear image of the sigma points: `(w0 + 2 L c)` times the
image of the centre. -/
theorem sum_linear_image_of_sigma_points {p : ℕ} (w0 c γ : K) (wl : List K)
    (hwl : wl = w0 :: List.replicate (2 * augmentedStateDimension n m) c)
    (a : DependentVector K (augmentedStateDimension n m))
    (A : DependentMatrix K (augmentedStateDimension n m) (augmentedStateDimension n m))
    (g : DependentVector K (augmentedStateDimension n m) → DependentVector K p)
    (hadd : ∀ u v, g (u + v) = g u + g v) (hsmul : ∀ (k : K) v, g (k • v) = k • g v) :
    ∑ i : Fin (numberOfSigmaPoints n m), wl.getD i.val 0 • g (sigmaPoint a γ A i) =
      (w0 + 2 * (augmentedStateDimension n m : K) * c) • g a := by
  obtain ⟨s0, s1, s2⟩ := sigmaPoint_cases a γ A
  have hg1 : ∀ j : Fin (augmentedStateDimension n m),
      wl.getD (j.val + 1) 0 • g (a + γ • (fun r => A r j)) =
        c • g a + (c * γ) • g (fun r => A r j) := by
    intro j
    have hj := j.isLt
    rw [hwl, getD_weights _ _ _ _ (by omega), hadd, hsmul, smul_add, smul_smul]
    simp
  have hg2 : ∀ j : Fin (augmentedStateDimension n m),
      wl.getD (augmentedStateDimension n m + j.val + 1) 0 • g (a - γ • (fun r => A r j)) =
        c • g a - (c * γ) • g (fun r => A r j) := by
    intro j
    have hj := j.isLt
    rw [hwl, getD_weights _ _ _ _ (by omega), sub_eq_add_neg, ← neg_smul, hadd, hsmul, smul_add,
      smul_smul]
    simp [sub_eq_add_neg]
  rw [sum_sigma_indices]
  simp only [s0, s1, s2, hg1, hg2]
  rw [hwl, add_assoc, ← Finset.sum_add_distrib]
  have hpair : ∀ j : Fin (augmentedStateDimension n m),
      c • g a + (c * γ) • g (fun r => A r j) + (c • g a - (c * γ) • g (fun r => A r j)) =
        (2 * c) • g a := by
    intro j
    rw [two_mul, add_smul]
    abel
  simp only [hpair, Finset.sum_const, Finset.card_univ, Fintype.card_fin, List.getD_cons_zero]
  rw [add_smul, ← Nat.cast_smul_eq_nsmul K, smul_smul]
  congr 2
  ring

/-- The covariance-weighted sum of the outer products of the deviations of two linear images
of two sigma-point sets with the same scaling: `2 c gamma^2` times the sum over the columns
of the outer products of the images of the columns of the two square roots. -/
theorem sum_outer_products_of_sigma_points {p q : ℕ} (wc0 c γ : K) (wcl : List K)
    (hwcl : wcl = wc0 :: List.replicate (2 * augmentedStateDimension n m) c)
    (a a' : DependentVector K (augmentedStateDimension n m))
    (A A' : DependentMatrix K (augmentedStateDimension n m) (augmentedStateDimension n m))
    (g : DependentVector K (augmentedStateDimension n m) → DependentVector K p)
    (g' : DependentVector K (augmentedStateDimension n m) → DependentVector K q)
    (hadd : ∀ u v, g (u + v) = g u + g v) (hsmul : ∀ (k : K) v, g (k • v) = k • g v)
    (hadd' : ∀ u v, g' (u + v) = g' u + g' v) (hsmul' : ∀ (k : K) v, g' (k • v) = k • g' v) :
    ∑ i : Fin (numberOfSigmaPoints n m),
      Matrix.vecMulVec (wcl.getD i.val 0 • (g (sigmaPoint a γ A i) - g a))
        (g' (sigmaPoint a' γ A' i) - g' a') =
      (2 * c * (γ * γ)) • ∑ j : Fin (augmentedStateDimension n m),
        Matrix.vecMulVec (g (fun r => A r j)) (g' (fun r => A' r j)) := by
  obtain ⟨s0, s1, s2⟩ := sigmaPoint_cases a γ A
  obtain ⟨s0', s1', s2'⟩ := sigmaPoint_cases a' γ A'
  have h1 : ∀ j : Fin (augmentedStateDimension n m),
      Matrix.vecMulVec (wcl.getD (j.val + 1) 0 • (g (a + γ • (fun r => A r j)) - g a))
        (g' (a' + γ • (fun r => A' r j)) - g' a') =
      (c * (γ * γ)) • Matrix.vecMulVec (g (fun r => A r j)) (g' (fun r => A' r j)) := by
    intro j
    have hj := j.isLt
    rw [hwcl, getD_weights _ _ _ _ (by omega), hadd, hsmul, hadd', hsmul']
    ext r s
    simp [Matrix.vecMulVec_apply]
    ring
  have h2 : ∀ j : Fin (augmentedStateDimension n m),
      Matrix.vecMulVec (wcl.getD (augmentedStateDimension n m + j.val + 1) 0 •
          (g (a - γ • (fun r => A r j)) - g a))
        (g' (a' - γ • (fun r => A' r j)) - g' a') =
      (c * (γ * γ)) • Matrix.vecMulVec (g (fun r => A r j)) (g' (fun r => A' r j)) := by
    intro j
    have hj := j.isLt
    rw [hwcl, getD_weights _ _ _ _ (by omega), sub_eq_add_neg a, sub_eq_add_neg a', ← neg_smul,
      ← neg_smul, hadd, hsmul, hadd', hsmul']
    ext r s
    simp [Matrix.vecMulVec_apply]
    ring
  have h0 : Matrix.vecMulVec (wcl.getD 0 0 • (g a - g a)) (g' a' - g' a') = 0 := by
    ext r s
    simp [Matrix.vecMulVec_apply]
  rw [sum_sigma_indices]
  simp only [s0, s1, s2, s0', s1', s2', h0, h1, h2, zero_add]
  rw [← Finset.sum_add_distrib, Finset.smul_sum]
  apply Finset.sum_congr rfl
  intro j _
  rw [← add_smul]
  congr 1
  ring

end LinearImageTheorems

section LinearModelTheorems

variable {K T : Type} [Field K] [LinearOrder T] {n m : ℕ}

omit [Field K] [LinearOrder T] in
/-- A segment of a sum is the sum of the segments. -/
theorem segment_add {D : Type} [Add D] {k : ℕ} (a b : DependentVector D k) (start len : ℕ)
    (h : start + len ≤ k) :
    segment (a + b) start len h = segment a start len h + segment b start len h :=
  rfl

omit [LinearOrder T] in
/-- A segment of a multiple is the multiple of the segment. -/
theorem segment_smul {k : ℕ} (c : K) (a : DependentVector K k) (start len : ℕ)
    (h : start + len ≤ k) :
    segment (c • a) start len h = c • segment a start len h :=
  rfl

omit [LinearOrder T] in
/-- The state segment and the noise segments of an augmented vector whose noise entries are
zero, after the state has been written to it. -/
theorem segments_of_setSegment (v : DependentVector K (augmentedStateDimension n m))
    (x : DependentVector K n)
    (hv : ∀ r : Fin (augmentedStateDimension n m), n ≤ r.val → v r = 0) :
    segment (setSegment v 0 x) 0 n (by unfold augmentedStateDimension; omega) = x ∧
    segment (setSegment v 0 x) n n (by unfold augmentedStateDimension; omega) = 0 ∧
    segment (setSegment v 0 x) (2 * n) m (by unfold augmentedStateDimension; omega) = 0 := by
  refine ⟨?_, ?_, ?_⟩
  · funext i
    have hi := i.isLt
    have h1 : 0 ≤ 0 + i.val ∧ 0 + i.val < 0 + n := by omega
    simp only [segment, setSegment, h1, and_self, dif_pos]
    congr 1
    ext
    simp
  · funext i
    have hi := i.isLt
    have h1 : ¬ (0 ≤ n + i.val ∧ n + i.val < 0 + n) := by omega
    simp only [segment, setSegment, h1, dif_neg, not_false_eq_true]
    exact hv _ (by simp)
  · funext i
    have hi := i.isLt
    have h1 : ¬ (0 ≤ 2 * n + i.val ∧ 2 * n + i.val < 0 + n) := by omega
    simp only [segment, setSegment, h1, dif_neg, not_false_eq_true]
    exact hv _ (by simp; omega)

/-- An `updateFilter` call with the linear models `x -> F x` and `x -> H x` on an object
without integrator whose weights are those of `generateEstimationWeights`, with
`gamma^2 = L + lambda != 0` and zero noise entries in the augmented state vector.  With `A1`
and `A2` the square roots of the two augmented covariances of the call, `g` the map
`v -> F v[0,n) + v[n,2n)` and `g'` the map `v -> H v[0,n) + v[2n,2n+m)`: the call returns with
the a-priori mean `F x`, the a-priori covariance `sum_j g(A1_j) g(A1_j)^T`, the predicted
measurement `H F x`, the innovation `sum_j g'(A2_j) g'(A2_j)^T` and the cross-correlation
`sum_j g(A1_j) g'(A2_j)^T`, the sums running over the columns. -/
theorem updateFilter_linear_models [CharZero K]
    (matrixSqrt : DependentMatrix K (augmentedStateDimension n m) (augmentedStateDimension n m) →
      DependentMatrix K (augmentedStateDimension n m) (augmentedStateDimension n m))
    (f : UnscentedKalmanFilter n m K T) (t : T) (u : ControlVector K) (z : DependentVector K m)
    (F : DependentMatrix K n n) (H : DependentMatrix K m n)
    (hint : f.integratorSettings_ = none)
    (hsys : f.inputSystemFunction_ = linearSystemFunction F)
    (hmeas : f.inputMeasurementFunction_ = linearMeasurementFunction H)
    (hmap : f.mapOfSigmaPoints_ = [] ∨
      mapKeys f.mapOfSigmaPoints_ = List.range (numberOfSigmaPoints n m))
    (hw : f.stateEstimationWeights_ = (generateEstimationWeights n m f.constantParameters_ []).1)
    (hwc : f.covarianceEstimationWeights_ =
      (generateEstimationWeights n m f.constantParameters_ []).2)
    (hne : (augmentedStateDimension n m : K) + f.constantParameters_ lambda_index ≠ 0)
    (hgamma : f.constantParameters_ gamma_index * f.constantParameters_ gamma_index =
      (augmentedStateDimension n m : K) + f.constantParameters_ lambda_index)
    (hv : ∀ r : Fin (augmentedStateDimension n m), n ≤ r.val → f.augmentedStateVector_ r = 0)
    (g : DependentVector K (augmentedStateDimension n m) → DependentVector K n)
    (hg : g = fun v => F.mulVec (segment v 0 n (by unfold augmentedStateDimension; omega)) +
      segment v n n (by unfold augmentedStateDimension; omega))
    (g' : DependentVector K (augmentedStateDimension n m) → DependentVector K m)
    (hg' : g' = fun v => H.mulVec (segment v 0 n (by unfold augmentedStateDimension; omega)) +
      segment v (2 * n) m (by unfold augmentedStateDimension; omega))
    (A1 : DependentMatrix K (augmentedStateDimension n m) (augmentedStateDimension n m))
    (hA1 : A1 = matrixSqrt
      (setBlock f.augmentedCovarianceMatrix_ 0 0 f.aPosterioriCovarianceEstimate_))
    (xPrior : DependentVector K n) (hx : xPrior = F.mulVec f.aPosterioriStateEstimate_)
    (PPrior : DependentMatrix K n n)
    (hP : PPrior = ∑ j, Matrix.vecMulVec (g (fun r => A1 r j)) (g (fun r => A1 r j)))
    (A2 : DependentMatrix K (augmentedStateDimension n m) (augmentedStateDimension n m))
    (hA2 : A2 = matrixSqrt (setBlock
      (setBlock f.augmentedCovarianceMatrix_ 0 0 f.aPosterioriCovarianceEstimate_) 0 0 PPrior))
    (zPredicted : DependentVector K m) (hz : zPredicted = H.mulVec xPrior)
    (innovation : DependentMatrix K m m)
    (hS : innovation = ∑ j, Matrix.vecMulVec (g' (fun r => A2 r j)) (g' (fun r => A2 r j)))
    (crossCorrelation : DependentMatrix K n m)
    (hC : crossCorrelation =
      ∑ j, Matrix.vecMulVec (g (fun r => A1 r j)) (g' (fun r => A2 r j))) :
    ∃ stateEstimates : StdMap ℕ (DependentVector K n),
      (predictionLoop t u
        (computeSigmaPoints matrixSqrt f f.aPosterioriStateEstimate_
          f.aPosterioriCovarianceEstimate_).mapOfSigmaPoints_
        { computeSigmaPoints matrixSqrt f f.aPosterioriStateEstimate_
            f.aPosterioriCovarianceEstimate_ with
          mapOfMapOfSigmaPoints_ := mapAssign f.mapOfMapOfSigmaPoints_ t
            (computeSigmaPoints matrixSqrt f f.aPosterioriStateEstimate_
              f.aPosterioriCovarianceEstimate_).mapOfSigmaPoints_ } []).1 = .ok stateEstimates ∧
      computeWeightedAverageFromSigmaPointEstimatesVector f.stateEstimationWeights_
        stateEstimates 0 = .ok xPrior ∧
      computeWeightedAverageFromSigmaPointEstimatesMatrix f.covarianceEstimationWeights_ xPrior
        stateEstimates 0 = .ok PPrior ∧
      ∃ f5 : UnscentedKalmanFilter n m K T,
        updateFilter matrixSqrt f t u z = (.ok (),
          correctCovariance
            (correctState f5 t xPrior z zPredicted (crossCorrelation * inverse innovation))
            t PPrior innovation (crossCorrelation * inverse innovation)) := by
  have hgadd : ∀ a b, g (a + b) = g a + g b := by
    intro a b
    simp only [hg, segment_add, Matrix.mulVec_add]
    abel
  have hgsmul : ∀ (k : K) a, g (k • a) = k • g a := by
    intro k a
    simp only [hg, segment_smul, Matrix.mulVec_smul, smul_add]
  have hgadd' : ∀ a b, g' (a + b) = g' a + g' b := by
    intro a b
    simp only [hg', segment_add, Matrix.mulVec_add]
    abel
  have hgsmul' : ∀ (k : K) a, g' (k • a) = k • g' a := by
    intro k a
    simp only [hg', segment_smul, Matrix.mulVec_smul, smul_add]
  have hone : f.constantParameters_ lambda_index /
        ((augmentedStateDimension n m : K) + f.constantParameters_ lambda_index) +
      2 * (augmentedStateDimension n m : K) *
        (1 / (2 * ((augmentedStateDimension n m : K) + f.constantParameters_ lambda_index))) =
      1 := by
    have h2 : (2 : K) ≠ 0 := two_ne_zero
    field_simp
    ring
  have htwo : 2 * (1 / (2 * ((augmentedStateDimension n m : K) +
        f.constantParameters_ lambda_index))) *
      (f.constantParameters_ gamma_index * f.constantParameters_ gamma_index) = 1 := by
    rw [hgamma]
    have h2 : (2 : K) ≠ 0 := two_ne_zero
    field_simp
  obtain ⟨v1, v2, _⟩ := segments_of_setSegment f.augmentedStateVector_
    f.aPosterioriStateEstimate_ hv
  have hga : g (setSegment f.augmentedStateVector_ 0 f.aPosterioriStateEstimate_) = xPrior := by
    rw [hg, hx]
    simp only [v1, v2, add_zero]
  have hv' : ∀ r : Fin (augmentedStateDimension n m), n ≤ r.val →
      setSegment f.augmentedStateVector_ 0 f.aPosterioriStateEstimate_ r = 0 := by
    intro r hr
    have h1 : ¬ (0 ≤ r.val ∧ r.val < 0 + n) := by omega
    simp only [setSegment, h1, dif_neg, not_false_eq_true]
    exact hv r hr
  obtain ⟨u1, _, u3⟩ := segments_of_setSegment
    (setSegment f.augmentedStateVector_ 0 f.aPosterioriStateEstimate_) xPrior hv'
  have hga' : g' (setSegment (setSegment f.augmentedStateVector_ 0
      f.aPosterioriStateEstimate_) 0 xPrior) = zPredicted := by
    rw [hg', hz]
    simp only [u1, u3, add_zero]
  have hsysx : ∀ x, f.inputSystemFunction_ t x u = .ok (F.mulVec x) := by
    intro x
    rw [hsys]
    rfl
  have hmeasx : ∀ x, f.inputMeasurementFunction_ t x = .ok (H.mulVec x) := by
    intro x
    rw [hmeas]
    rfl
  have hlw : f.stateEstimationWeights_.length = numberOfSigmaPoints n m := by
    rw [hw]
    exact (generateEstimationWeights_lengths _).1
  have hlwc : f.covarianceEstimationWeights_.length = numberOfSigmaPoints n m := by
    rw [hwc]
    exact (generateEstimationWeights_lengths _).2
  have hw' := hw
  rw [generateEstimationWeights_fst] at hw'
  have hwc' := hwc
  rw [generateEstimationWeights_snd] at hwc'
  obtain ⟨c, hp, hxa, hPa, _, _, _, _, f5, h⟩ := updateFilter_total_models matrixSqrt f t u z
    (fun x => F.mulVec x) (fun x => H.mulVec x) hint hsysx hmeasx hmap hlw hlwc
    (fun i => g (sigmaPoint (setSegment f.augmentedStateVector_ 0 f.aPosterioriStateEstimate_)
      (f.constantParameters_ gamma_index) A1 i))
    (by rw [hg, hA1])
    xPrior
    (by
      rw [sum_linear_image_of_sigma_points _ _ _ _ hw' _ _ g hgadd hgsmul, hone, one_smul, hga])
    PPrior
    (by
      rw [← hga, sum_outer_products_of_sigma_points _ _ _ _ hwc' _ _ _ _ g g hgadd hgsmul hgadd
        hgsmul, htwo, one_smul, hP])
    (fun i => g' (sigmaPoint (setSegment (setSegment f.augmentedStateVector_ 0
        f.aPosterioriStateEstimate_) 0 xPrior)
      (f.constantParameters_ gamma_index) A2 i))
    (by rw [hg', hA2])
    zPredicted
    (by
      rw [sum_linear_image_of_sigma_points _ _ _ _ hw' _ _ g' hgadd' hgsmul', hone, one_smul,
        hga'])
    innovation
    (by
      rw [← hga', sum_outer_products_of_sigma_points _ _ _ _ hwc' _ _ _ _ g' g' hgadd' hgsmul'
        hgadd' hgsmul', htwo, one_smul, hS])
    crossCorrelation
    (by
      rw [← hga', ← hga, sum_outer_products_of_sigma_points _ _ _ _ hwc' _ _ _ _ g g' hgadd
        hgsmul hgadd' hgsmul', htwo, one_smul, hC])
  exact ⟨_, hp, hxa, hPa, f5, h⟩

end LinearModelTheorems

section ConstantVelocityTheorems

variable {K : Type} [Field K] [CharZero K]

/-- The sums over the columns of the two square roots of the constant-velocity step: with the
first root `diag(1, 1, 1/10, 1/10, r)` and the second root made of a symmetric 2 x 2 block
`s`, `1/10`, `1/10` and `r`, where `s * s = [[201/100, 1], [1, 101/100]]` and `r * r = 1/10`,
the a-priori covariance is `[[201/100, 1], [1, 101/100]]`, the innovation is `211/100` and the
cross-correlation is `[s00 + s01, s01]`. -/
theorem constant_velocity_sums (r s00 s01 s11 : K) (hr : r * r = 1 / 10)
    (hs0 : s00 * s00 + s01 * s01 = 201 / 100)
    (g : DependentVector K 5 → DependentVector K 2)
    (hg : g = fun v => (!![1, 1; 0, 1] : Matrix (Fin 2) (Fin 2) K).mulVec
      (segment v 0 2 (by omega)) + segment v 2 2 (by omega))
    (g' : DependentVector K 5 → DependentVector K 1)
    (hg' : g' = fun v => (!![1, 0] : Matrix (Fin 1) (Fin 2) K).mulVec
      (segment v 0 2 (by omega)) + segment v (2 * 2) 1 (by omega))
    (A1 A2 : DependentMatrix K 5 5)
    (hA1 : A1 = !![1, 0, 0, 0, 0; 0, 1, 0, 0, 0; 0, 0, 1 / 10, 0, 0; 0, 0, 0, 1 / 10, 0;
      0, 0, 0, 0, r])
    (hA2 : A2 = !![s00, s01, 0, 0, 0; s01, s11, 0, 0, 0; 0, 0, 1 / 10, 0, 0;
      0, 0, 0, 1 / 10, 0; 0, 0, 0, 0, r]) :
    ∑ j : Fin 5, Matrix.vecMulVec (g (fun i => A1 i j)) (g (fun i => A1 i j)) =
      !![201 / 100, 1; 1, 101 / 100] ∧
    ∑ j : Fin 5, Matrix.vecMulVec (g' (fun i => A2 i j)) (g' (fun i => A2 i j)) =
      !![211 / 100] ∧
    ∑ j : Fin 5, Matrix.vecMulVec (g (fun i => A1 i j)) (g' (fun i => A2 i j)) =
      !![s00 + s01; s01] := by
  subst hg hg' hA1 hA2
  refine ⟨?_, ?_, ?_⟩
  · ext a b
    fin_cases a <;> fin_cases b <;>
      simp [Fin.sum_univ_five, Matrix.vecMulVec_apply, segment, Matrix.mulVec, Matrix.vecHead, Matrix.vecTail,
        Matrix.dotProduct, Fin.sum_univ_two] <;> norm_num
  · ext a b
    fin_cases a
    fin_cases b
    simp [Fin.sum_univ_five, Matrix.vecMulVec_apply, segment, Matrix.mulVec, Matrix.vecHead, Matrix.vecTail,
      Matrix.dotProduct, Fin.sum_univ_two]
    norm_num
    linear_combination hs0 + hr
  · ext a b
    fin_cases b
    fin_cases a <;>
      simp [Fin.sum_univ_five, Matrix.vecMulVec_apply, segment, Matrix.mulVec, Matrix.vecHead, Matrix.vecTail,
        Matrix.dotProduct, Fin.sum_univ_two]

end ConstantVelocityTheorems

section ConstantVelocityScenarioTheorems

variable {K T : Type} [LinearOrderedField K] [LinearOrder T]

omit [LinearOrder T] in
/-- The two augmented covariances of the constant-velocity step. -/
theorem constant_velocity_augmented_covariances :
    setBlock (setBlock (setBlock (0 : DependentMatrix K (augmentedStateDimension 2 1)
        (augmentedStateDimension 2 1)) 2 2
          (!![1 / 100, 0; 0, 1 / 100] : DependentMatrix K 2 2)) (2 * 2) (2 * 2)
          (!![1 / 10] : DependentMatrix K 1 1)) 0 0 (1 : DependentMatrix K 2 2) =
      (!![1, 0, 0, 0, 0; 0, 1, 0, 0, 0; 0, 0, 1 / 100, 0, 0; 0, 0, 0, 1 / 100, 0;
        0, 0, 0, 0, 1 / 10] : DependentMatrix K 5 5) ∧
    setBlock (setBlock (setBlock (setBlock (0 : DependentMatrix K (augmentedStateDimension 2 1)
        (augmentedStateDimension 2 1)) 2 2
          (!![1 / 100, 0; 0, 1 / 100] : DependentMatrix K 2 2)) (2 * 2) (2 * 2)
          (!![1 / 10] : DependentMatrix K 1 1)) 0 0 (1 : DependentMatrix K 2 2)) 0 0
          (!![201 / 100, 1; 1, 101 / 100] : DependentMatrix K 2 2) =
      (!![201 / 100, 1, 0, 0, 0; 1, 101 / 100, 0, 0, 0; 0, 0, 1 / 100, 0, 0;
        0, 0, 0, 1 / 100, 0; 0, 0, 0, 0, 1 / 10] : DependentMatrix K 5 5) := by
  constructor
  · ext i j
    fin_cases i <;> fin_cases j <;> simp [setBlock] <;> rfl
  · ext i j
    fin_cases i <;> fin_cases j <;> simp [setBlock] <;> rfl

omit [LinearOrder T] in
/-- Eigen's `inverse( )` of a matrix with one entry. -/
theorem inverse_fin_one (a : K) : inverse (!![a] : DependentMatrix K 1 1) = !![a⁻¹] := by
  ext i j
  fin_cases i
  fin_cases j
  simp [inverse, Matrix.det_fin_one, Matrix.adjugate_fin_one]

end ConstantVelocityScenarioTheorems

section ConstantVelocityCorrectionTheorems

variable {K T : Type} [LinearOrderedField K] [LinearOrder T]

/-- The correction of the constant-velocity step: with the a-priori mean `[1, 1]`, the a-priori
covariance `[[201/100, 1], [1, 101/100]]`, the predicted measurement 1, the innovation
`211/100`, the cross-correlation `[a, b]` and the measurement `105/100`, the a-posteriori
position is `1 + a * 5/211` and the trace of the a-posteriori covariance is
`302/100 - (a^2 + b^2) * 100/211`. -/
theorem constant_velocity_correction (f5 : UnscentedKalmanFilter 2 1 K T) (t : T) (a b : K) :
    (correctCovariance
      (correctState f5 t ![1, 1] ![105 / 100] ![1]
        ((!![a; b] : DependentMatrix K 2 1) * inverse (!![211 / 100] : DependentMatrix K 1 1)))
      t !![201 / 100, 1; 1, 101 / 100] !![211 / 100]
      ((!![a; b] : DependentMatrix K 2 1) *
        inverse (!![211 / 100] : DependentMatrix K 1 1))).aPosterioriStateEstimate_ 0 =
      1 + a * (5 / 211) ∧
    Matrix.trace (correctCovariance
      (correctState f5 t ![1, 1] ![105 / 100] ![1]
        ((!![a; b] : DependentMatrix K 2 1) * inverse (!![211 / 100] : DependentMatrix K 1 1)))
      t !![201 / 100, 1; 1, 101 / 100] !![211 / 100]
      ((!![a; b] : DependentMatrix K 2 1) *
        inverse (!![211 / 100] : DependentMatrix K 1 1))).aPosterioriCovarianceEstimate_ =
      302 / 100 - (a * a + b * b) * (100 / 211) := by
  have hG : ∀ i : Fin 2, ((!![a; b] : DependentMatrix K 2 1) *
      inverse (!![211 / 100] : DependentMatrix K 1 1)) i 0 = ![a, b] i * (100 / 211) := by
    intro i
    rw [inverse_fin_one]
    fin_cases i <;> simp [Matrix.mul_apply]
  have hstate : ∀ (x : DependentVector K 2) (G : DependentMatrix K 2 1) (d : DependentVector K 1),
      (x + G.mulVec d) 0 = x 0 + G 0 0 * d 0 := by
    intro x G d
    simp [Matrix.mulVec, Matrix.dotProduct]
  have htrace : ∀ (P : DependentMatrix K 2 2) (G : DependentMatrix K 2 1)
      (S : DependentMatrix K 1 1),
      Matrix.trace (P - G * S * G.transpose) =
        P 0 0 + P 1 1 - (G 0 0 * S 0 0 * G 0 0 + G 1 0 * S 0 0 * G 1 0) := by
    intro P G S
    simp [Matrix.trace_fin_two, Matrix.mul_apply]
  constructor
  · show ((![1, 1] : DependentVector K 2) + ((!![a; b] : DependentMatrix K 2 1) *
      inverse (!![211 / 100] : DependentMatrix K 1 1)).mulVec (![105 / 100] - ![1])) 0 = _
    rw [hstate, hG]
    simp
    ring
  · show Matrix.trace ((!![201 / 100, 1; 1, 101 / 100] : DependentMatrix K 2 2) -
      ((!![a; b] : DependentMatrix K 2 1) * inverse (!![211 / 100] : DependentMatrix K 1 1)) *
        !![211 / 100] *
        ((!![a; b] : DependentMatrix K 2 1) *
          inverse (!![211 / 100] : DependentMatrix K 1 1)).transpose) = _
    rw [htrace, hG, hG]
    simp
    ring

end ConstantVelocityCorrectionTheorems

section ConstantVelocityStepTheorems

variable {K T : Type} [LinearOrderedField K] [LinearOrder T]

set_option maxHeartbeats 1000000 in
/-- C14: the constant-velocity scenario in exact arithmetic.  The filter is constructed for
the system `f(x) = [x0 + x1, x1]` with measurement `h(x) = x0`, initial state `[0, 1]`, initial
covariance the identity, `Q = diag(1/100, 1/100)` and `R = [1/10]`, with any parameter
reference for which `std::sqrt` returns a `gamma` with `gamma^2 = L + lambda != 0` (`L = 5`),
and the matrix square root returns, at the two augmented covariances of the step, the
symmetric block-diagonal roots `diag(1, 1, 1/10, 1/10, r)` and
`diag([[s00, s01], [s01, s11]], 1/10, 1/10, r)` with `r^2 = 1/10` and
`s00^2 + s01^2 = 201/100` (the leading entry of the a-priori covariance).  Then the
construction returns an object, one `updateFilter` step with the measurement `105/100`
returns, the a-posteriori position lies strictly between 0 and `105/100`, and the trace of
the a-posteriori covariance is strictly less than the trace of the a-priori covariance
computed in the step. -/
theorem updateFilter_constant_velocity_step (TUDAT_NAN : K) (sqrt : K → K)
    (matrixSqrt : DependentMatrix K (augmentedStateDimension 2 1) (augmentedStateDimension 2 1) →
      DependentMatrix K (augmentedStateDimension 2 1) (augmentedStateDimension 2 1))
    (initialTime currentTime : T) (currentControlVector : ControlVector K)
    (constantValueReference : ConstantParameterReferences) (customConstantParameters : K × K)
    (constantParameters : ConstantParameterIndices → K)
    (hcp : setConstantParameterValues 2 1 TUDAT_NAN sqrt initialConstantParameters
      constantValueReference customConstantParameters = .ok constantParameters)
    (hgamma : constantParameters gamma_index * constantParameters gamma_index =
      5 + constantParameters lambda_index)
    (hne : 5 + constantParameters lambda_index ≠ 0)
    (r s00 s01 s11 : K) (hr : r * r = 1 / 10) (hs0 : s00 * s00 + s01 * s01 = 201 / 100)
    (hA1 : matrixSqrt (!![1, 0, 0, 0, 0; 0, 1, 0, 0, 0; 0, 0, 1 / 100, 0, 0;
        0, 0, 0, 1 / 100, 0; 0, 0, 0, 0, 1 / 10] : DependentMatrix K 5 5) =
      (!![1, 0, 0, 0, 0; 0, 1, 0, 0, 0; 0, 0, 1 / 10, 0, 0; 0, 0, 0, 1 / 10, 0;
        0, 0, 0, 0, r] : DependentMatrix K 5 5))
    (hA2 : matrixSqrt (!![201 / 100, 1, 0, 0, 0; 1, 101 / 100, 0, 0, 0; 0, 0, 1 / 100, 0, 0;
        0, 0, 0, 1 / 100, 0; 0, 0, 0, 0, 1 / 10] : DependentMatrix K 5 5) =
      (!![s00, s01, 0, 0, 0; s01, s11, 0, 0, 0; 0, 0, 1 / 10, 0, 0; 0, 0, 0, 1 / 10, 0;
        0, 0, 0, 0, r] : DependentMatrix K 5 5)) :
    ∃ f : UnscentedKalmanFilter 2 1 K T,
      UnscentedKalmanFilter.create TUDAT_NAN sqrt (linearSystemFunction !![1, 1; 0, 1])
        (linearMeasurementFunction !![1, 0]) !![1 / 100, 0; 0, 1 / 100] !![1 / 10] initialTime
        ![0, 1] 1 none constantValueReference customConstantParameters = .ok f ∧
      (updateFilter matrixSqrt f currentTime currentControlVector ![105 / 100]).1 = .ok () ∧
      0 < (updateFilter matrixSqrt f currentTime currentControlVector
        ![105 / 100]).2.aPosterioriStateEstimate_ 0 ∧
      (updateFilter matrixSqrt f currentTime currentControlVector
        ![105 / 100]).2.aPosterioriStateEstimate_ 0 < 105 / 100 ∧
      ∃ (stateEstimates : StdMap ℕ (DependentVector K 2))
        (aPrioriStateEstimate : DependentVector K 2)
        (aPrioriCovarianceEstimate : DependentMatrix K 2 2),
        (predictionLoop currentTime currentControlVector
          (computeSigmaPoints matrixSqrt f f.aPosterioriStateEstimate_
            f.aPosterioriCovarianceEstimate_).mapOfSigmaPoints_
          { computeSigmaPoints matrixSqrt f f.aPosterioriStateEstimate_
              f.aPosterioriCovarianceEstimate_ with
            mapOfMapOfSigmaPoints_ := mapAssign f.mapOfMapOfSigmaPoints_ currentTime
              (computeSigmaPoints matrixSqrt f f.aPosterioriStateEstimate_
                f.aPosterioriCovarianceEstimate_).mapOfSigmaPoints_ } []).1 =
          .ok stateEstimates ∧
        computeWeightedAverageFromSigmaPointEstimatesVector f.stateEstimationWeights_
          stateEstimates 0 = .ok aPrioriStateEstimate ∧
        computeWeightedAverageFromSigmaPointEstimatesMatrix f.covarianceEstimationWeights_
          aPrioriStateEstimate stateEstimates 0 = .ok aPrioriCovarianceEstimate ∧
        Matrix.trace (updateFilter matrixSqrt f currentTime currentControlVector
          ![105 / 100]).2.aPosterioriCovarianceEstimate_ <
          Matrix.trace aPrioriCovarianceEstimate := by
  obtain ⟨f, hf⟩ : ∃ f : UnscentedKalmanFilter 2 1 K T,
      UnscentedKalmanFilter.create TUDAT_NAN sqrt (linearSystemFunction !![1, 1; 0, 1])
        (linearMeasurementFunction !![1, 0]) !![1 / 100, 0; 0, 1 / 100] !![1 / 10] initialTime
        ![0, 1] 1 none constantValueReference customConstantParameters = .ok f := by
    unfold UnscentedKalmanFilter.create
    simp only [hcp]
    exact ⟨_, rfl⟩
  obtain ⟨_, _, hint, hx0, hP0, _, _, hsys, hmeas, hcp', hw, hwc, hv, hM, hmap, _⟩ :=
    create_members TUDAT_NAN sqrt _ _ _ _ initialTime _ _ _ _ _ f hf
  have hcpf : f.constantParameters_ = constantParameters :=
    Except.ok.inj (hcp'.symm.trans hcp)
  have hL : ((augmentedStateDimension 2 1 : ℕ) : K) = 5 := by
    norm_num [augmentedStateDimension]
  obtain ⟨hM1, hM2⟩ := constant_velocity_augmented_covariances (K := K)
  have hroot1 : (!![1, 0, 0, 0, 0; 0, 1, 0, 0, 0; 0, 0, 1 / 10, 0, 0; 0, 0, 0, 1 / 10, 0;
        0, 0, 0, 0, r] : DependentMatrix K 5 5) =
      matrixSqrt (setBlock f.augmentedCovarianceMatrix_ 0 0 f.aPosterioriCovarianceEstimate_) := by
    rw [hM, hP0, hM1, hA1]
  have hroot2 : (!![s00, s01, 0, 0, 0; s01, s11, 0, 0, 0; 0, 0, 1 / 10, 0, 0;
        0, 0, 0, 1 / 10, 0; 0, 0, 0, 0, r] : DependentMatrix K 5 5) =
      matrixSqrt (setBlock (setBlock f.augmentedCovarianceMatrix_ 0 0
        f.aPosterioriCovarianceEstimate_) 0 0
          (!![201 / 100, 1; 1, 101 / 100] : DependentMatrix K 2 2)) := by
    rw [hM, hP0, hM2, hA2]
  obtain ⟨hsumP, hsumS, hsumC⟩ := constant_velocity_sums r s00 s01 s11 hr hs0 _ rfl _ rfl _ _
    rfl rfl
  obtain ⟨est, hp, hxa, hPa, f5, h⟩ := updateFilter_linear_models matrixSqrt f currentTime
    currentControlVector ![105 / 100] !![1, 1; 0, 1] !![1, 0] hint hsys hmeas (Or.inl hmap) hw
    hwc (by rw [hL, hcpf]; exact hne) (by rw [hL, hcpf]; exact hgamma)
    (by intro r _; rw [hv]; rfl)
    _ rfl _ rfl _ hroot1
    ![1, 1]
    (by
      rw [hx0]
      funext i
      fin_cases i <;> simp [Matrix.mulVec, Matrix.dotProduct, Fin.sum_univ_two])
    !![201 / 100, 1; 1, 101 / 100] hsumP.symm _ hroot2
    ![1]
    (by
      funext i
      fin_cases i
      simp [Matrix.mulVec, Matrix.dotProduct, Fin.sum_univ_two])
    !![211 / 100] hsumS.symm !![s00 + s01; s01] hsumC.symm
  have hq : (s00 + s01) * (s00 + s01) ≤ 402 / 100 := by nlinarith [sq_nonneg (s00 - s01)]
  have hq1 : s00 + s01 < 211 / 100 := by
    by_contra hcon
    push_neg at hcon
    nlinarith
  have hq2 : -(211 / 100) < s00 + s01 := by
    by_contra hcon
    push_neg at hcon
    nlinarith
  have hq3 : 0 < (s00 + s01) * (s00 + s01) + s01 * s01 := by
    nlinarith [sq_nonneg (s00 + s01), sq_nonneg (s00 + s01 + s01)]
  obtain ⟨hstate, htrace⟩ := constant_velocity_correction f5 currentTime (s00 + s01) s01
  refine ⟨f, hf, by rw [h], ?_, ?_, est, _, _, hp, hxa, hPa, ?_⟩
  · rw [h]
    refine lt_of_lt_of_eq ?_ hstate.symm
    linarith
  · rw [h]
    refine lt_of_eq_of_lt hstate ?_
    linarith
  · rw [h]
    refine lt_of_eq_of_lt htrace ?_
    have htr : Matrix.trace (!![201 / 100, 1; 1, 101 / 100] : DependentMatrix K 2 2) =
        302 / 100 := by
      simp [Matrix.trace_fin_two]
      norm_num
    rw [htr]
    have hpos : 0 < ((s00 + s01) * (s00 + s01) + s01 * s01) * (100 / 211) :=
      mul_pos hq3 (by norm_num)
    linarith

end ConstantVelocityStepTheorems

section Witnesses

/-- Witness for C1: the parameters of the scenario, `n = m = 1`. -/
theorem generateEstimationWeights_sum_eq_one_witness :
    ((augmentedStateDimension 1 1 : ℚ) + scenarioParameters lambda_index ≠ 0) ∧
    (generateEstimationWeights 1 1 scenarioParameters []).1.sum = 1 :=
  ⟨by simp [augmentedStateDimension, scenarioParameters]; norm_num,
    generateEstimationWeights_sum_eq_one 1 1 scenarioParameters
      (by simp [augmentedStateDimension, scenarioParameters]; norm_num)⟩

/-- Witness for C2: the first `computeSigmaPoints` call on the scenario object. -/
theorem computeSigmaPoints_sigma_points_witness :
    (scenarioFilter.mapOfSigmaPoints_ = [] ∨
      mapKeys scenarioFilter.mapOfSigmaPoints_ = List.range (numberOfSigmaPoints 1 1)) ∧
    mapKeys (computeSigmaPoints diagonalSqrt scenarioFilter ![0] !![9]).mapOfSigmaPoints_ =
      List.range (2 * augmentedStateDimension 1 1 + 1) ∧
    (computeSigmaPoints diagonalSqrt scenarioFilter ![0] !![9]).mapOfSigmaPoints_.length =
      2 * augmentedStateDimension 1 1 + 1 ∧
    mapFind (computeSigmaPoints diagonalSqrt scenarioFilter ![0] !![9]).mapOfSigmaPoints_ 0 =
      some (computeSigmaPoints diagonalSqrt scenarioFilter ![0] !![9]).augmentedStateVector_ :=
  ⟨Or.inl rfl,
    (computeSigmaPoints_sigma_points diagonalSqrt scenarioFilter ![0] !![9] (Or.inl rfl)).1,
    (computeSigmaPoints_sigma_points diagonalSqrt scenarioFilter ![0] !![9] (Or.inl rfl)).2.1,
    (computeSigmaPoints_sigma_points diagonalSqrt scenarioFilter ![0] !![9] (Or.inl rfl)).2.2.1⟩

/-- For the scenario object `L + lambda` is not zero. -/
theorem scenarioFilter_scaling :
    (augmentedStateDimension 1 1 : ℚ) + scenarioFilter.constantParameters_ lambda_index ≠ 0 := by
  simp [augmentedStateDimension, scenarioParameters, scenarioFilter]
  norm_num

/-- C10 (counterexample): the call `updateFilter( 1, [], [26] )` on the scenario object with a
throwing system model throws, and the sigma-point history after the call is not the one held
before the call. -/
theorem updateFilter_throwing_changes_sigma_history :
    (updateFilter diagonalSqrt throwingFilter 1 [] ![26]).1 = .error "system model failure" ∧
    (updateFilter diagonalSqrt throwingFilter 1 [] ![26]).2.mapOfMapOfSigmaPoints_ ≠
      throwingFilter.mapOfMapOfSigmaPoints_ := by
  have herr := updateFilter_throwing diagonalSqrt throwingFilter 1 [] ![26] rfl rfl (Or.inl rfl)
  refine ⟨herr, ?_⟩
  rcases updateFilter_trace diagonalSqrt throwingFilter 1 [] ![26] with
    ⟨e', c, h⟩ | ⟨e', c, c', xPrior, PPrior, h⟩ |
    ⟨c, c', est, xPrior, PPrior, mest, zPred, S, C, _, _, _, _, _, _, _, h⟩
  · rw [h]
    exact List.cons_ne_nil _ _
  · rw [h]
    exact List.cons_ne_nil _ _
  · rw [h] at herr
    cases herr

/-- Witness for C10 as amended: the throwing call on the scenario object. -/
theorem updateFilter_error_frame_witness :
    (updateFilter diagonalSqrt throwingFilter 1 [] ![26]).1 = .error "system model failure" ∧
    (updateFilter diagonalSqrt throwingFilter 1 [] ![26]).2.aPosterioriStateEstimate_ =
      throwingFilter.aPosterioriStateEstimate_ ∧
    (updateFilter diagonalSqrt throwingFilter 1 [] ![26]).2.aPosterioriCovarianceEstimate_ =
      throwingFilter.aPosterioriCovarianceEstimate_ ∧
    (updateFilter diagonalSqrt throwingFilter 1 [] ![26]).2.estimatedStateHistory_ =
      throwingFilter.estimatedStateHistory_ ∧
    (updateFilter diagonalSqrt throwingFilter 1 [] ![26]).2.estimatedCovarianceHistory_ =
      throwingFilter.estimatedCovarianceHistory_ ∧
    (updateFilter diagonalSqrt throwingFilter 1 [] ![26]).2.mapOfMapOfSigmaPoints_ =
      mapAssign throwingFilter.mapOfMapOfSigmaPoints_ 1
        (computeSigmaPoints diagonalSqrt throwingFilter throwingFilter.aPosterioriStateEstimate_
          throwingFilter.aPosterioriCovarianceEstimate_).mapOfSigmaPoints_ :=
  ⟨updateFilter_throwing diagonalSqrt throwingFilter 1 [] ![26] rfl rfl (Or.inl rfl),
    updateFilter_error_frame diagonalSqrt throwingFilter 1 [] ![26] "system model failure"
      (updateFilter_throwing diagonalSqrt throwingFilter 1 [] ![26] rfl rfl (Or.inl rfl))⟩

end Witnesses

section CorrectionWitnesses

/-- Witness for C13: the call `updateFilter( 1, [], [26] )` on the scenario object. -/
theorem updateFilter_correction_witness :
    (updateFilter diagonalSqrt scenarioFilter 1 [] ![26]).1 = .ok () ∧
    ∃ (aPrioriStateEstimate : DependentVector ℚ 1) (aPrioriCovarianceEstimate : DependentMatrix ℚ 1 1)
      (measurmentEstimate : DependentVector ℚ 1) (innovationMatrix : DependentMatrix ℚ 1 1)
      (crossCorrelationMatrix kalmanGain : DependentMatrix ℚ 1 1),
      kalmanGain = crossCorrelationMatrix * inverse innovationMatrix ∧
      (updateFilter diagonalSqrt scenarioFilter 1 [] ![26]).2.aPosterioriStateEstimate_ =
        aPrioriStateEstimate + kalmanGain.mulVec (![26] - measurmentEstimate) ∧
      (updateFilter diagonalSqrt scenarioFilter 1 [] ![26]).2.aPosterioriCovarianceEstimate_ =
        aPrioriCovarianceEstimate - kalmanGain * innovationMatrix * kalmanGain.transpose :=
  ⟨scenario_updateFilter_returns,
    match updateFilter_correction diagonalSqrt scenarioFilter 1 [] ![26]
      scenario_updateFilter_returns with
    | ⟨_, _, xPrior, PPrior, _, zPred, S, C, G, _, _, _, _, _, _, _, hG, hx, hP⟩ =>
      ⟨xPrior, PPrior, zPred, S, C, G, hG, hx, hP⟩⟩

end CorrectionWitnesses

section ReachableWitnesses

/-- Witness for C17: the scenario object after the call `updateFilter( 1, [], [26] )`. -/
theorem reachable_augmented_covariance_blocks_witness :
    Reachable (0 : ℚ) Rat.sqrt diagonalSqrt !![16] !![1]
      (updateFilter diagonalSqrt scenarioFilter 1 [] ![26]).2
      (some (lastComputeSigmaPointsArguments diagonalSqrt scenarioFilter 1 [])) ∧
    (updateFilter diagonalSqrt scenarioFilter 1 [] ![26]).2.augmentedCovarianceMatrix_
      (1 : Fin 3) (1 : Fin 3) = 16 ∧
    (updateFilter diagonalSqrt scenarioFilter 1 [] ![26]).2.augmentedCovarianceMatrix_
      (2 : Fin 3) (2 : Fin 3) = 1 ∧
    (updateFilter diagonalSqrt scenarioFilter 1 [] ![26]).2.augmentedCovarianceMatrix_
      (0 : Fin 3) (0 : Fin 3) =
      (lastComputeSigmaPointsArguments diagonalSqrt scenarioFilter 1 []).2 0 0 ∧
    (updateFilter diagonalSqrt scenarioFilter 1 [] ![26]).2.augmentedCovarianceMatrix_
      (0 : Fin 3) (2 : Fin 3) = 0 :=
  ⟨scenario_updated_reachable,
    (reachable_augmented_covariance_blocks 0 Rat.sqrt diagonalSqrt !![16] !![1] _ _
      scenario_updated_reachable).1 0 0,
    (reachable_augmented_covariance_blocks 0 Rat.sqrt diagonalSqrt !![16] !![1] _ _
      scenario_updated_reachable).2.1 0 0,
    (reachable_augmented_covariance_blocks 0 Rat.sqrt diagonalSqrt !![16] !![1] _ _
      scenario_updated_reachable).2.2.1 _ _ rfl 0 0,
    (reachable_augmented_covariance_blocks 0 Rat.sqrt diagonalSqrt !![16] !![1] _ _
      scenario_updated_reachable).2.2.2 (0 : Fin 3) (2 : Fin 3) (by decide)⟩

/-- Witness for C18: the scenario object after the call `updateFilter( 1, [], [26] )`. -/
theorem reachable_augmented_state_vector_witness :
    Reachable (0 : ℚ) Rat.sqrt diagonalSqrt !![16] !![1]
      (updateFilter diagonalSqrt scenarioFilter 1 [] ![26]).2
      (some (lastComputeSigmaPointsArguments diagonalSqrt scenarioFilter 1 [])) ∧
    (updateFilter diagonalSqrt scenarioFilter 1 [] ![26]).2.augmentedStateVector_ (0 : Fin 3) =
      (lastComputeSigmaPointsArguments diagonalSqrt scenarioFilter 1 []).1 0 ∧
    (updateFilter diagonalSqrt scenarioFilter 1 [] ![26]).2.augmentedStateVector_ (1 : Fin 3) = 0 ∧
    (updateFilter diagonalSqrt scenarioFilter 1 [] ![26]).2.augmentedStateVector_ (2 : Fin 3) = 0 :=
  ⟨scenario_updated_reachable,
    (reachable_augmented_state_vector 0 Rat.sqrt diagonalSqrt !![16] !![1] _ _
      scenario_updated_reachable).2.1 _ _ rfl 0,
    (reachable_augmented_state_vector 0 Rat.sqrt diagonalSqrt !![16] !![1] _ _
      scenario_updated_reachable).2.2 (1 : Fin 3) (by decide),
    (reachable_augmented_state_vector 0 Rat.sqrt diagonalSqrt !![16] !![1] _ _
      scenario_updated_reachable).2.2 (2 : Fin 3) (by decide)⟩

/-- Witness for C15: the scenario object before and after the call
`updateFilter( 1, [], [26] )`, with the mean 0 and the covariance 25. -/
theorem computeSigmaPoints_function_of_arguments_witness :
    Reachable (0 : ℚ) Rat.sqrt diagonalSqrt !![16] !![1] scenarioFilter none ∧
    Reachable (0 : ℚ) Rat.sqrt diagonalSqrt !![16] !![1]
      (updateFilter diagonalSqrt scenarioFilter 1 [] ![26]).2
      (some (lastComputeSigmaPointsArguments diagonalSqrt scenarioFilter 1 [])) ∧
    scenarioFilter.constantParameters_ gamma_index =
      (updateFilter diagonalSqrt scenarioFilter 1 [] ![26]).2.constantParameters_ gamma_index ∧
    (computeSigmaPoints diagonalSqrt scenarioFilter ![0] !![25]).mapOfSigmaPoints_ =
      (computeSigmaPoints diagonalSqrt (updateFilter diagonalSqrt scenarioFilter 1 [] ![26]).2
        ![0] !![25]).mapOfSigmaPoints_ :=
  ⟨scenario_reachable, scenario_updated_reachable,
    (congrFun (updateFilter_frame diagonalSqrt scenarioFilter 1 [] ![26]
      (Or.inl rfl)).2.2.2.2.2.2.2.2.2.1 gamma_index).symm,
    (computeSigmaPoints_function_of_arguments 0 Rat.sqrt diagonalSqrt !![16] !![1] _ _ _ _
      scenario_reachable scenario_updated_reachable
      (congrFun (updateFilter_frame diagonalSqrt scenarioFilter 1 [] ![26]
        (Or.inl rfl)).2.2.2.2.2.2.2.2.2.1 gamma_index).symm ![0] !![25]).1⟩

end ReachableWitnesses

section DegenerateScenarioWitnesses

/-- C16 (counterexample): on the scenario object the call `updateFilter( 1, [], [26] )`
returns, a second call `updateFilter( 1, [], [26] )` with the same time on the object it
leaves returns too, and after the second call the covariance history and the sigma-point
history have as many entries as before it, not one more. -/
theorem updateFilter_repeated_time_keeps_history_size :
    (updateFilter diagonalSqrt scenarioFilter 1 [] ![26]).1 = .ok () ∧
    (updateFilter diagonalSqrt (updateFilter diagonalSqrt scenarioFilter 1 [] ![26]).2 1 []
      ![26]).1 = .ok () ∧
    (updateFilter diagonalSqrt (updateFilter diagonalSqrt scenarioFilter 1 [] ![26]).2 1 []
      ![26]).2.estimatedCovarianceHistory_.length =
      (updateFilter diagonalSqrt scenarioFilter 1 [] ![26]).2.estimatedCovarianceHistory_.length ∧
    (updateFilter diagonalSqrt (updateFilter diagonalSqrt scenarioFilter 1 [] ![26]).2 1 []
      ![26]).2.mapOfMapOfSigmaPoints_.length =
      (updateFilter diagonalSqrt scenarioFilter 1 [] ![26]).2.mapOfMapOfSigmaPoints_.length := by
  obtain ⟨_, _, hk, hh, _, _, hint, hsys, hmeas, _, hw, hwc⟩ :=
    updateFilter_frame diagonalSqrt scenarioFilter 1 [] ![26] (Or.inl rfl)
  obtain ⟨_, _, _, _, _, _, i7, i8, _⟩ := reachable_invariants 0 Rat.sqrt diagonalSqrt
    !![16] !![1] _ _ scenario_updated_reachable
  have hc := (updateFilter_covariance_history diagonalSqrt scenarioFilter 1 [] ![26]).1
    scenario_updateFilter_returns
  have hok : (updateFilter diagonalSqrt (updateFilter diagonalSqrt scenarioFilter 1 [] ![26]).2 1
      [] ![26]).1 = .ok () := by
    refine updateFilter_returns diagonalSqrt _ 1 [] ![26] hint ?_ ?_ (Or.inr hk) ?_ ?_
    · intro x
      rw [hsys]
      exact ⟨_, rfl⟩
    · intro x
      rw [hmeas]
      exact ⟨_, rfl⟩
    · rw [hw]
      rfl
    · rw [hwc]
      rfl
  obtain ⟨_, _, _, _, h5, h6⟩ := updateFilter_histories diagonalSqrt
    (updateFilter diagonalSqrt scenarioFilter 1 [] ![26]).2 1 [] ![26] (Or.inr hk) i7 i8 hok
  refine ⟨scenario_updateFilter_returns, hok, ?_, ?_⟩
  · rw [h5, if_pos]
    rw [hc]
    simp [mapKeys, mapAssign, scenarioFilter]
  · rw [h6, if_pos]
    rw [hh]
    simp [mapKeys, mapAssign, scenarioFilter]

/-- Witness for C16 as amended: the call `updateFilter( 1, [], [26] )` on the scenario
object, whose histories are empty. -/
theorem updateFilter_history_entries_witness :
    Reachable (0 : ℚ) Rat.sqrt diagonalSqrt !![16] !![1] scenarioFilter none ∧
    (updateFilter diagonalSqrt scenarioFilter 1 [] ![26]).1 = .ok () ∧
    mapFind (updateFilter diagonalSqrt scenarioFilter 1 [] ![26]).2.estimatedCovarianceHistory_ 1 =
      some (updateFilter diagonalSqrt scenarioFilter 1 [] ![26]).2.aPosterioriCovarianceEstimate_ ∧
    (updateFilter diagonalSqrt scenarioFilter 1 [] ![26]).2.estimatedCovarianceHistory_.length =
      (if (1 : ℚ) ∈ mapKeys scenarioFilter.estimatedCovarianceHistory_ then
        scenarioFilter.estimatedCovarianceHistory_.length
        else scenarioFilter.estimatedCovarianceHistory_.length + 1) :=
  ⟨scenario_reachable, scenario_updateFilter_returns,
    (updateFilter_history_entries 0 Rat.sqrt diagonalSqrt !![16] !![1] scenarioFilter none 1 []
      ![26] scenario_reachable scenario_updateFilter_returns).1,
    (updateFilter_history_entries 0 Rat.sqrt diagonalSqrt !![16] !![1] scenarioFilter none 1 []
      ![26] scenario_reachable scenario_updateFilter_returns).2.2.2.2.1⟩

/-- C11 (counterexample): on the constructed object with the measurement model `x -> 0 * x`
and the measurement noise 0, the call `updateFilter( 1, [], [26] )` returns although the
innovation matrix it computes, the covariance-weighted average of the measurement estimates
around the predicted measurement, is the zero matrix, which is singular. -/
theorem updateFilter_singular_innovation_returns :
    (updateFilter diagonalSqrt singularFilter 1 [] ![26]).1 = .ok () ∧
    ∃ (c : ℕ) (stateEstimates : StdMap ℕ (DependentVector ℚ 1))
      (aPrioriStateEstimate : DependentVector ℚ 1) (aPrioriCovarianceEstimate : DependentMatrix ℚ 1 1)
      (measurementEstimates : StdMap ℕ (DependentVector ℚ 1))
      (measurmentEstimate : DependentVector ℚ 1) (innovationMatrix : DependentMatrix ℚ 1 1),
      (predictionLoop (1 : ℚ) []
        (computeSigmaPoints diagonalSqrt singularFilter singularFilter.aPosterioriStateEstimate_
          singularFilter.aPosterioriCovarianceEstimate_).mapOfSigmaPoints_
        { computeSigmaPoints diagonalSqrt singularFilter singularFilter.aPosterioriStateEstimate_
            singularFilter.aPosterioriCovarianceEstimate_ with
          mapOfMapOfSigmaPoints_ := mapAssign singularFilter.mapOfMapOfSigmaPoints_ 1
            (computeSigmaPoints diagonalSqrt singularFilter
              singularFilter.aPosterioriStateEstimate_
              singularFilter.aPosterioriCovarianceEstimate_).mapOfSigmaPoints_ } []).1 =
        .ok stateEstimates ∧
      computeWeightedAverageFromSigmaPointEstimatesVector singularFilter.stateEstimationWeights_
        stateEstimates 0 = .ok aPrioriStateEstimate ∧
      computeWeightedAverageFromSigmaPointEstimatesMatrix
        singularFilter.covarianceEstimationWeights_ aPrioriStateEstimate stateEstimates 0 =
        .ok aPrioriCovarianceEstimate ∧
      (measurementLoop (1 : ℚ)
        (computeSigmaPoints diagonalSqrt
          { computeSigmaPoints diagonalSqrt singularFilter
              singularFilter.aPosterioriStateEstimate_
              singularFilter.aPosterioriCovarianceEstimate_ with
            mapOfMapOfSigmaPoints_ := mapAssign singularFilter.mapOfMapOfSigmaPoints_ 1
              (computeSigmaPoints diagonalSqrt singularFilter
                singularFilter.aPosterioriStateEstimate_
                singularFilter.aPosterioriCovarianceEstimate_).mapOfSigmaPoints_
            currentSigmaPoint_ := c } aPrioriStateEstimate
          aPrioriCovarianceEstimate).mapOfSigmaPoints_
        (computeSigmaPoints diagonalSqrt
          { computeSigmaPoints diagonalSqrt singularFilter
              singularFilter.aPosterioriStateEstimate_
              singularFilter.aPosterioriCovarianceEstimate_ with
            mapOfMapOfSigmaPoints_ := mapAssign singularFilter.mapOfMapOfSigmaPoints_ 1
              (computeSigmaPoints diagonalSqrt singularFilter
                singularFilter.aPosterioriStateEstimate_
                singularFilter.aPosterioriCovarianceEstimate_).mapOfSigmaPoints_
            currentSigmaPoint_ := c } aPrioriStateEstimate aPrioriCovarianceEstimate) []).1 =
        .ok measurementEstimates ∧
      computeWeightedAverageFromSigmaPointEstimatesVector singularFilter.stateEstimationWeights_
        measurementEstimates 0 = .ok measurmentEstimate ∧
      computeWeightedAverageFromSigmaPointEstimatesMatrix
        singularFilter.covarianceEstimationWeights_ measurmentEstimate measurementEstimates 0 =
        .ok innovationMatrix ∧
      innovationMatrix = 0 ∧ innovationMatrix.det = 0 := by
  obtain ⟨c, hp, hx, hP, hm, hz, hS, _, f5, h⟩ := updateFilter_total_models diagonalSqrt
    singularFilter 1 [] ![26] (fun x => (!![1] : Matrix (Fin 1) (Fin 1) ℚ).mulVec x)
    (fun x => (!![0] : Matrix (Fin 1) (Fin 1) ℚ).mulVec x) rfl (fun _ => rfl) (fun _ => rfl)
    (Or.inl rfl) rfl rfl _ rfl _ rfl _ rfl (fun _ => 0)
    (by
      funext i
      rw [singular_noise_segment _ _ _ i rfl rfl]
      funext j
      simp [Matrix.mulVec, Matrix.dotProduct])
    0 (by simp)
    0 (by
      have hvm : Matrix.vecMulVec (0 : Fin 1 → ℚ) (0 : Fin 1 → ℚ) = 0 := by
        ext r c
        simp [Matrix.vecMulVec_apply]
      simp [hvm])
    _ rfl
  refine ⟨by rw [h], c, _, _, _, _, 0, 0, hp, hx, hP, hm, hz, hS, rfl, ?_⟩
  simp [Matrix.det_fin_one]

/-- Witness for C11 as amended: the constructed object with the zero measurement model. -/
theorem updateFilter_returns_when_models_return_witness :
    Reachable (0 : ℚ) Rat.sqrt diagonalSqrt !![16] !![0] singularFilter none ∧
    singularFilter.integratorSettings_ = none ∧
    (∀ x, ∃ value, singularFilter.inputSystemFunction_ (1 : ℚ) x [] = .ok value) ∧
    (∀ x, ∃ value, singularFilter.inputMeasurementFunction_ (1 : ℚ) x = .ok value) ∧
    (updateFilter diagonalSqrt singularFilter 1 [] ![26]).1 = .ok () :=
  ⟨Reachable.constructed _ _ _ _ _ _ _ _ _ (singularFilter_created 0 (by norm_num)), rfl,
    fun _ => ⟨_, rfl⟩, fun _ => ⟨_, rfl⟩,
    updateFilter_returns_when_models_return 0 Rat.sqrt diagonalSqrt !![16] !![0] singularFilter
      none 1 [] ![26]
      (Reachable.constructed _ _ _ _ _ _ _ _ _ (singularFilter_created 0 (by norm_num))) rfl
      (fun _ => ⟨_, rfl⟩) (fun _ => ⟨_, rfl⟩)⟩

/-- The augmented covariance of the first `computeSigmaPoints` call on the scenario object and
its diagonal square root. -/
theorem scenario_first_square_root :
    (computeSigmaPoints diagonalSqrt scenarioFilter ![0] !![9]).augmentedCovarianceMatrix_ =
      !![3 * 3, 0, 0; 0, 4 * 4, 0; 0, 0, 1 * 1] ∧
    diagonalSqrt (computeSigmaPoints diagonalSqrt scenarioFilter ![0]
      !![9]).augmentedCovarianceMatrix_ = !![3, 0, 0; 0, 4, 0; 0, 0, 1] := by
  have hM : (computeSigmaPoints diagonalSqrt scenarioFilter ![0]
      !![9]).augmentedCovarianceMatrix_ = !![3 * 3, 0, 0; 0, 4 * 4, 0; 0, 0, 1 * 1] := by
    ext i j
    fin_cases i <;> fin_cases j <;>
      simp [computeSigmaPoints, scenarioFilter, setBlock] <;> norm_num
  refine ⟨hM, ?_⟩
  rw [hM]
  exact diagonalSqrt_diagonal 3 4 1 (by norm_num) (by norm_num) (by norm_num)

end DegenerateScenarioWitnesses

section ConstantVelocityWitnesses

/-- The constant parameters of the constant-velocity scenario are those set by
`setConstantParameterValues` with the default reference. -/
theorem constantVelocityParameters_set (placeholder : ℝ) (custom : ℝ × ℝ) :
    setConstantParameterValues 2 1 placeholder Real.sqrt initialConstantParameters
      reference_Wan_and_Van_der_Merwe custom = .ok constantVelocityParameters := by
  simp only [setConstantParameterValues, setAlphaAndKappa]
  congr 1
  funext i
  cases i with
  | gamma_index =>
    simp only [Function.update_same]
    show Real.sqrt _ = Real.sqrt (45 / 1000000)
    congr 1
    simp [Function.update, augmentedStateDimension, initialConstantParameters]
    norm_num
  | alpha_index =>
    simp [Function.update, constantVelocityParameters, initialConstantParameters]
  | beta_index =>
    simp [Function.update, constantVelocityParameters, initialConstantParameters]
  | kappa_index =>
    simp [Function.update, constantVelocityParameters, initialConstantParameters]
  | lambda_index =>
    simp [Function.update, constantVelocityParameters, augmentedStateDimension,
      initialConstantParameters]
    norm_num

/-- The numbers of the principal roots: `r^2 = 1/10` and, for the first row of the root of the
a-priori covariance, `s00^2 + s01^2 = 201/100`. -/
theorem constantVelocity_root_entries :
    Real.sqrt (1 / 10) * Real.sqrt (1 / 10) = 1 / 10 ∧
    (201 / 100 + constantVelocityDelta) / constantVelocityTau *
        ((201 / 100 + constantVelocityDelta) / constantVelocityTau) +
      1 / constantVelocityTau * (1 / constantVelocityTau) = 201 / 100 := by
  have hδ : constantVelocityDelta * constantVelocityDelta = 10301 / 10000 :=
    Real.mul_self_sqrt (by norm_num)
  have hδ0 : 0 ≤ constantVelocityDelta := Real.sqrt_nonneg _
  have hτ : constantVelocityTau * constantVelocityTau = 302 / 100 + 2 * constantVelocityDelta :=
    Real.mul_self_sqrt (by linarith)
  have hτ0 : constantVelocityTau ≠ 0 := by
    intro h0
    rw [h0] at hτ
    linarith
  refine ⟨Real.mul_self_sqrt (by norm_num), ?_⟩
  rw [div_mul_div_comm, div_mul_div_comm, ← add_div, hτ, div_eq_iff (by linarith)]
  linear_combination hδ

/-- The scaling of the constant-velocity scenario: `gamma^2 = L + lambda`, which is not zero. -/
theorem constantVelocityParameters_scaling :
    constantVelocityParameters gamma_index * constantVelocityParameters gamma_index =
      5 + constantVelocityParameters lambda_index ∧
    5 + constantVelocityParameters lambda_index ≠ 0 := by
  simp only [constantVelocityParameters]
  rw [Real.mul_self_sqrt (by norm_num)]
  constructor <;> norm_num

/-- The matrix square root of the constant-velocity scenario at the two augmented covariances
of the step. -/
theorem constantVelocitySqrt_values :
    constantVelocitySqrt (!![1, 0, 0, 0, 0; 0, 1, 0, 0, 0; 0, 0, 1 / 100, 0, 0;
        0, 0, 0, 1 / 100, 0; 0, 0, 0, 0, 1 / 10] : DependentMatrix ℝ 5 5) =
      constantVelocityFirstRoot ∧
    constantVelocitySqrt (!![201 / 100, 1, 0, 0, 0; 1, 101 / 100, 0, 0, 0; 0, 0, 1 / 100, 0, 0;
        0, 0, 0, 1 / 100, 0; 0, 0, 0, 0, 1 / 10] : DependentMatrix ℝ 5 5) =
      constantVelocitySecondRoot := by
  constructor
  · unfold constantVelocitySqrt
    rw [if_pos rfl]
  · unfold constantVelocitySqrt
    rw [if_neg]
    intro h
    have h00 := congrFun (congrFun h 0) 0
    simp at h00
    norm_num at h00

/-- Witness for C14: the constant-velocity scenario over the reals, with the default parameter
reference, `std::sqrt` the real square root and the matrix square root returning the principal
roots of the two augmented covariances of the step. -/
theorem updateFilter_constant_velocity_step_witness :
    setConstantParameterValues 2 1 (0 : ℝ) Real.sqrt initialConstantParameters
      reference_Wan_and_Van_der_Merwe (0, 0) = .ok constantVelocityParameters ∧
    constantVelocityParameters gamma_index * constantVelocityParameters gamma_index =
      5 + constantVelocityParameters lambda_index ∧
    5 + constantVelocityParameters lambda_index ≠ 0 ∧
    Real.sqrt (1 / 10) * Real.sqrt (1 / 10) = 1 / 10 ∧
    (201 / 100 + constantVelocityDelta) / constantVelocityTau *
        ((201 / 100 + constantVelocityDelta) / constantVelocityTau) +
      1 / constantVelocityTau * (1 / constantVelocityTau) = 201 / 100 ∧
    constantVelocitySqrt (!![1, 0, 0, 0, 0; 0, 1, 0, 0, 0; 0, 0, 1 / 100, 0, 0;
        0, 0, 0, 1 / 100, 0; 0, 0, 0, 0, 1 / 10] : DependentMatrix ℝ 5 5) =
      constantVelocityFirstRoot ∧
    constantVelocitySqrt (!![201 / 100, 1, 0, 0, 0; 1, 101 / 100, 0, 0, 0; 0, 0, 1 / 100, 0, 0;
        0, 0, 0, 1 / 100, 0; 0, 0, 0, 0, 1 / 10] : DependentMatrix ℝ 5 5) =
      constantVelocitySecondRoot ∧
    ∃ f : UnscentedKalmanFilter 2 1 ℝ ℝ,
      UnscentedKalmanFilter.create (0 : ℝ) Real.sqrt (linearSystemFunction !![1, 1; 0, 1])
        (linearMeasurementFunction !![1, 0]) !![1 / 100, 0; 0, 1 / 100] !![1 / 10] (0 : ℝ)
        ![0, 1] 1 none reference_Wan_and_Van_der_Merwe (0, 0) = .ok f ∧
      (updateFilter constantVelocitySqrt f 1 [] ![105 / 100]).1 = .ok () ∧
      0 < (updateFilter constantVelocitySqrt f 1 [] ![105 / 100]).2.aPosterioriStateEstimate_ 0 ∧
      (updateFilter constantVelocitySqrt f 1 [] ![105 / 100]).2.aPosterioriStateEstimate_ 0 <
        105 / 100 :=
  ⟨constantVelocityParameters_set 0 (0, 0), constantVelocityParameters_scaling.1,
    constantVelocityParameters_scaling.2, constantVelocity_root_entries.1,
    constantVelocity_root_entries.2, constantVelocitySqrt_values.1,
    constantVelocitySqrt_values.2,
    match updateFilter_constant_velocity_step (0 : ℝ) Real.sqrt constantVelocitySqrt (0 : ℝ) 1
      [] reference_Wan_and_Van_der_Merwe (0, 0) constantVelocityParameters
      (constantVelocityParameters_set 0 (0, 0)) constantVelocityParameters_scaling.1
      constantVelocityParameters_scaling.2 (Real.sqrt (1 / 10))
      ((201 / 100 + constantVelocityDelta) / constantVelocityTau) (1 / constantVelocityTau)
      ((101 / 100 + constantVelocityDelta) / constantVelocityTau)
      constantVelocity_root_entries.1 constantVelocity_root_entries.2
      constantVelocitySqrt_values.1 constantVelocitySqrt_values.2 with
    | ⟨f, hf, hok, h0, h1, _⟩ => ⟨f, hf, hok, h0, h1⟩⟩

end ConstantVelocityWitnesses

section PresetTheorems

variable {K : Type} [LinearOrderedField K]

/-- C25: each of the three literature presets fixes alpha and kappa (Wan and Van der Merwe:
0.003 and 0; Lisano, Born and Axelrad: 1 and `3 - n` computed in the scalar type, negative for
`n > 3`; Challa, Moore and Rogers: 0.001 and 1), custom mode stores the supplied pair unchanged
whenever its check against `TUDAT_NAN` lets it pass, and beta is 2 in all four modes. -/
theorem setConstantParameterValues_presets (n m : ℕ) (TUDAT_NAN : K) (sqrt : K → K)
    (constantParameters_ : ConstantParameterIndices → K) (customConstantParameters : K × K) :
    (∃ p, setConstantParameterValues n m TUDAT_NAN sqrt constantParameters_
        reference_Wan_and_Van_der_Merwe customConstantParameters = .ok p ∧
      p alpha_index = 3 / 1000 ∧ p kappa_index = 0 ∧ p beta_index = 2) ∧
    (∃ p, setConstantParameterValues n m TUDAT_NAN sqrt constantParameters_
        reference_Lisano_and_Born_and_Axelrad customConstantParameters = .ok p ∧
      p alpha_index = 1 ∧ p kappa_index = 3 - (n : K) ∧ (3 < n → p kappa_index < 0) ∧
      p beta_index = 2) ∧
    (∃ p, setConstantParameterValues n m TUDAT_NAN sqrt constantParameters_
        reference_Challa_and_Moore_and_Rogers customConstantParameters = .ok p ∧
      p alpha_index = 1 / 1000 ∧ p kappa_index = 1 ∧ p beta_index = 2) ∧
    ((customConstantParameters.1 == TUDAT_NAN || customConstantParameters.2 == TUDAT_NAN) = false →
      ∃ p, setConstantParameterValues n m TUDAT_NAN sqrt constantParameters_
          custom_parameters customConstantParameters = .ok p ∧
        p alpha_index = customConstantParameters.1 ∧ p kappa_index = customConstantParameters.2 ∧
        p beta_index = 2) := by
  refine ⟨⟨_, rfl, ?_, ?_, ?_⟩, ⟨_, rfl, ?_, ?_, ?_, ?_⟩, ⟨_, rfl, ?_, ?_, ?_⟩, ?_⟩
  · simp [Function.update]
  · simp [Function.update]
  · simp [Function.update]
  · simp [Function.update]
  · simp [Function.update]
  · intro h
    have h' : ((3 : ℕ) : K) < (n : K) := by exact_mod_cast h
    simp only [Function.update, ne_eq, reduceCtorEq, not_false_eq_true, dite_false, dite_true,
      eq_rec_constant]
    simp only [Nat.cast_ofNat] at h' ⊢
    linarith
  · simp [Function.update]
  · simp [Function.update]
  · simp [Function.update]
  · simp [Function.update]
  · intro h
    simp [setConstantParameterValues, setAlphaAndKappa, h, Function.update]

/-- Witness for C25: custom mode with the pair `(1, 1)` over the rationals, where the
placeholder value is `-1`. -/
theorem setConstantParameterValues_presets_witness :
    ((((1 : ℚ), (1 : ℚ)).1 == (-1 : ℚ) || ((1 : ℚ), (1 : ℚ)).2 == (-1 : ℚ)) = false) ∧
    ∃ p, setConstantParameterValues 1 1 (-1 : ℚ) Rat.sqrt initialConstantParameters
        custom_parameters ((1 : ℚ), (1 : ℚ)) = .ok p ∧
      p alpha_index = 1 ∧ p kappa_index = 1 ∧ p beta_index = 2 :=
  ⟨by decide, (setConstantParameterValues_presets 1 1 (-1 : ℚ) Rat.sqrt
    initialConstantParameters ((1 : ℚ), (1 : ℚ))).2.2.2 (by decide)⟩

/-- C28: for each of the three literature presets and all dimensions `n >= 1`, `m >= 1` the
quantity `L + lambda` equals `alpha^2 * (L + kappa)` and is strictly positive, with
`lambda = 3 - n` and `L + lambda = n + m + 3` for the Lisano preset; gamma is the square root
of that positive number and the two denominators of `generateEstimationWeights`,
`L + lambda` and `2 * (L + lambda)`, are not zero. -/
theorem setConstantParameterValues_preset_scaling_positive (n m : ℕ) (hn : 1 ≤ n) (hm : 1 ≤ m)
    (TUDAT_NAN : K) (sqrt : K → K) (constantParameters_ : ConstantParameterIndices → K)
    (customConstantParameters : K × K) (constantValueReference : ConstantParameterReferences)
    (hpreset : constantValueReference ≠ custom_parameters) :
    ∃ p, setConstantParameterValues n m TUDAT_NAN sqrt constantParameters_
        constantValueReference customConstantParameters = .ok p ∧
      (augmentedStateDimension n m : K) + p lambda_index =
        p alpha_index * p alpha_index * ((augmentedStateDimension n m : K) + p kappa_index) ∧
      0 < (augmentedStateDimension n m : K) + p lambda_index ∧
      p gamma_index = sqrt ((augmentedStateDimension n m : K) + p lambda_index) ∧
      (augmentedStateDimension n m : K) + p lambda_index ≠ 0 ∧
      2 * ((augmentedStateDimension n m : K) + p lambda_index) ≠ 0 ∧
      (constantValueReference = reference_Lisano_and_Born_and_Axelrad →
        p lambda_index = 3 - (n : K) ∧
        (augmentedStateDimension n m : K) + p lambda_index = (n : K) + (m : K) + 3) := by
  have hn' : (1 : K) ≤ (n : K) := by exact_mod_cast hn
  have hm' : (1 : K) ≤ (m : K) := by exact_mod_cast hm
  have hL : (augmentedStateDimension n m : K) = 2 * (n : K) + (m : K) := by
    simp [augmentedStateDimension]
  cases constantValueReference
  case custom_parameters => exact absurd rfl hpreset
  case reference_Wan_and_Van_der_Merwe =>
    refine ⟨_, rfl, ?_⟩
    have hpos : 0 < (augmentedStateDimension n m : K) +
        ((3 : K) / 1000 * (3 / 1000) * ((augmentedStateDimension n m : K) + 0)
          - (augmentedStateDimension n m : K)) := by
      rw [hL]; nlinarith
    simp only [Function.update, ne_eq, reduceCtorEq, not_false_eq_true, dite_false, dite_true,
      eq_rec_constant, Nat.cast_ofNat, Nat.cast_zero, Nat.cast_one]
    refine ⟨by ring, hpos, trivial, hpos.ne', mul_ne_zero two_ne_zero hpos.ne', ?_⟩
    intro h; cases h
  case reference_Lisano_and_Born_and_Axelrad =>
    refine ⟨_, rfl, ?_⟩
    have hpos : 0 < (augmentedStateDimension n m : K) +
        ((1 : K) * 1 * ((augmentedStateDimension n m : K) + (3 - (n : K)))
          - (augmentedStateDimension n m : K)) := by
      rw [hL]; nlinarith
    simp only [Function.update, ne_eq, reduceCtorEq, not_false_eq_true, dite_false, dite_true,
      eq_rec_constant, Nat.cast_ofNat, Nat.cast_zero, Nat.cast_one]
    refine ⟨by ring, hpos, trivial, hpos.ne', mul_ne_zero two_ne_zero hpos.ne', ?_⟩
    intro _
    refine ⟨by ring, ?_⟩
    rw [hL]; ring
  case reference_Challa_and_Moore_and_Rogers =>
    refine ⟨_, rfl, ?_⟩
    have hpos : 0 < (augmentedStateDimension n m : K) +
        ((1 : K) / 1000 * (1 / 1000) * ((augmentedStateDimension n m : K) + 1)
          - (augmentedStateDimension n m : K)) := by
      rw [hL]; nlinarith
    simp only [Function.update, ne_eq, reduceCtorEq, not_false_eq_true, dite_false, dite_true,
      eq_rec_constant, Nat.cast_ofNat, Nat.cast_zero, Nat.cast_one]
    refine ⟨by ring, hpos, trivial, hpos.ne', mul_ne_zero two_ne_zero hpos.ne', ?_⟩
    intro h; cases h

/-- Witness for C28: the default preset with `n = m = 1` over the rationals. -/
theorem setConstantParameterValues_preset_scaling_positive_witness :
    1 ≤ 1 ∧ reference_Wan_and_Van_der_Merwe ≠ custom_parameters ∧
    ∃ p, setConstantParameterValues 1 1 (-1 : ℚ) Rat.sqrt initialConstantParameters
        reference_Wan_and_Van_der_Merwe ((0 : ℚ), (0 : ℚ)) = .ok p ∧
      (augmentedStateDimension 1 1 : ℚ) + p lambda_index =
        p alpha_index * p alpha_index * ((augmentedStateDimension 1 1 : ℚ) + p kappa_index) ∧
      0 < (augmentedStateDimension 1 1 : ℚ) + p lambda_index ∧
      p gamma_index = Rat.sqrt ((augmentedStateDimension 1 1 : ℚ) + p lambda_index) ∧
      (augmentedStateDimension 1 1 : ℚ) + p lambda_index ≠ 0 ∧
      2 * ((augmentedStateDimension 1 1 : ℚ) + p lambda_index) ≠ 0 ∧
      (reference_Wan_and_Van_der_Merwe = reference_Lisano_and_Born_and_Axelrad →
        p lambda_index = 3 - ((1 : ℕ) : ℚ) ∧
        (augmentedStateDimension 1 1 : ℚ) + p lambda_index = ((1 : ℕ) : ℚ) + ((1 : ℕ) : ℚ) + 3) :=
  ⟨le_refl 1, by decide,
    setConstantParameterValues_preset_scaling_positive 1 1 (le_refl 1) (le_refl 1) (-1 : ℚ)
      Rat.sqrt initialConstantParameters ((0 : ℚ), (0 : ℚ)) reference_Wan_and_Van_der_Merwe
      (by decide)⟩

end PresetTheorems

section SigmaCovarianceTheorems

variable {K T : Type} [Field K] {n m : ℕ}

/-- The sum over the columns of `A` of the outer product of a column with itself is `A * Aᵀ`. -/
theorem sum_column_outer_products {k : ℕ} (A : DependentMatrix K k k) :
    ∑ j : Fin k, Matrix.vecMulVec (fun r => A r j) (fun r => A r j) = A * A.transpose := by
  ext r c
  simp [Matrix.sum_apply, Matrix.vecMulVec_apply, Matrix.mul_apply]

/-- C27: for every mean and every augmented covariance, whose matrix square root is `A`, the
covariance-weighted sum of the outer products `(x_i - mean)(x_i - mean)^T` over the freshly
generated sigma-point set is `A * A^T`, hence the augmented covariance itself when `A` is a
square root of it, whatever alpha, beta and kappa are, provided `L + lambda` is not zero and
gamma squares to it. -/
theorem covariance_average_of_fresh_sigma_points [CharZero K]
    (matrixSqrt : DependentMatrix K (augmentedStateDimension n m) (augmentedStateDimension n m) →
      DependentMatrix K (augmentedStateDimension n m) (augmentedStateDimension n m))
    (f : UnscentedKalmanFilter n m K T) (x : DependentVector K n) (P : DependentMatrix K n n)
    (hmap : f.mapOfSigmaPoints_ = [] ∨
      mapKeys f.mapOfSigmaPoints_ = List.range (numberOfSigmaPoints n m))
    (hwc : f.covarianceEstimationWeights_ =
      (generateEstimationWeights n m f.constantParameters_ []).2)
    (hL : (augmentedStateDimension n m : K) + f.constantParameters_ lambda_index ≠ 0)
    (hgamma : f.constantParameters_ gamma_index * f.constantParameters_ gamma_index =
      (augmentedStateDimension n m : K) + f.constantParameters_ lambda_index) :
    computeWeightedAverageFromSigmaPointEstimatesMatrix
        (computeSigmaPoints matrixSqrt f x P).covarianceEstimationWeights_
        (computeSigmaPoints matrixSqrt f x P).augmentedStateVector_
        (computeSigmaPoints matrixSqrt f x P).mapOfSigmaPoints_ 0 =
      .ok (matrixSqrt (computeSigmaPoints matrixSqrt f x P).augmentedCovarianceMatrix_ *
        (matrixSqrt (computeSigmaPoints matrixSqrt f x P).augmentedCovarianceMatrix_).transpose) ∧
    (matrixSqrt (computeSigmaPoints matrixSqrt f x P).augmentedCovarianceMatrix_ *
        (matrixSqrt (computeSigmaPoints matrixSqrt f x P).augmentedCovarianceMatrix_).transpose =
        (computeSigmaPoints matrixSqrt f x P).augmentedCovarianceMatrix_ →
      computeWeightedAverageFromSigmaPointEstimatesMatrix
          (computeSigmaPoints matrixSqrt f x P).covarianceEstimationWeights_
          (computeSigmaPoints matrixSqrt f x P).augmentedStateVector_
          (computeSigmaPoints matrixSqrt f x P).mapOfSigmaPoints_ 0 =
        .ok (computeSigmaPoints matrixSqrt f x P).augmentedCovarianceMatrix_) := by
  have hw' : (computeSigmaPoints matrixSqrt f x P).covarianceEstimationWeights_ =
      f.covarianceEstimationWeights_ := rfl
  have hmain : computeWeightedAverageFromSigmaPointEstimatesMatrix
        (computeSigmaPoints matrixSqrt f x P).covarianceEstimationWeights_
        (computeSigmaPoints matrixSqrt f x P).augmentedStateVector_
        (computeSigmaPoints matrixSqrt f x P).mapOfSigmaPoints_ 0 =
      .ok (matrixSqrt (computeSigmaPoints matrixSqrt f x P).augmentedCovarianceMatrix_ *
        (matrixSqrt (computeSigmaPoints matrixSqrt f x P).augmentedCovarianceMatrix_).transpose) := by
    rw [computeSigmaPoints_mapOfSigmaPoints matrixSqrt f x P hmap, hw', hwc]
    generalize (computeSigmaPoints matrixSqrt f x P).augmentedStateVector_ = a
    generalize matrixSqrt (computeSigmaPoints matrixSqrt f x P).augmentedCovarianceMatrix_ = A
    rw [weightedAverageMatrix_finRange _ _ _ (generateEstimationWeights_lengths _).2,
      generateEstimationWeights_snd]
    congr 1
    have h := sum_outer_products_of_sigma_points
      (f.constantParameters_ lambda_index /
          ((augmentedStateDimension n m : K) + f.constantParameters_ lambda_index) +
        (1 - f.constantParameters_ alpha_index * f.constantParameters_ alpha_index +
          f.constantParameters_ beta_index))
      (1 / (2 * ((augmentedStateDimension n m : K) + f.constantParameters_ lambda_index)))
      (f.constantParameters_ gamma_index) _ rfl a a A A id id
      (fun _ _ => rfl) (fun _ _ => rfl) (fun _ _ => rfl) (fun _ _ => rfl)
    simp only [id] at h
    rw [h, sum_column_outer_products, hgamma]
    have hone : 2 * (1 / (2 * ((augmentedStateDimension n m : K) +
        f.constantParameters_ lambda_index))) *
        ((augmentedStateDimension n m : K) + f.constantParameters_ lambda_index) = 1 := by
      field_simp
    rw [hone, one_smul]
  exact ⟨hmain, fun h => by rw [hmain, h]⟩

end SigmaCovarianceTheorems

section PriorEstimateTheorems

variable {K T : Type} [Field K] [LinearOrder T] {n m : ℕ}

omit [Field K] [LinearOrder T] in
/-- A map with the keys `0, ..., N-1` is the list of its values paired with their indices. -/
theorem map_of_keys_range {V : Type} (mp : StdMap ℕ V) (N : ℕ)
    (hmp : mapKeys mp = List.range N) :
    ∃ g : Fin N → V, mp = (List.finRange N).map (fun i => (i.val, g i)) := by
  have hlen : mp.length = N := by
    have := congrArg List.length hmp
    simpa [mapKeys] using this
  subst hlen
  refine ⟨fun i => (mp.get i).2, ?_⟩
  apply List.ext_get
  · simp
  · intro i h1 h2
    have hk : (mapKeys mp)[i]? = (List.range mp.length)[i]? := by rw [hmp]
    have h1' : i < mp.length := h1
    simp only [mapKeys, List.getElem?_map, List.getElem?_eq_getElem h1', Option.map_some',
      List.getElem?_range h1', Option.some.injEq] at hk
    simp only [List.get_eq_getElem, List.getElem_map, List.getElem_finRange]
    exact Prod.ext hk rfl

omit [LinearOrder T] in
/-- A prediction loop that returns, with or without integrator: the estimates are the start map
with one value filed under the index of each sigma point, in the order of the loop. -/
theorem predictionLoop_ok_values (t : T) (u : ControlVector K)
    (l : StdMap ℕ (DependentVector K (augmentedStateDimension n m)))
    (f f' : UnscentedKalmanFilter n m K T) (est0 est : StdMap ℕ (DependentVector K n))
    (h : predictionLoop t u l f est0 = (.ok est, f')) :
    ∃ y : ℕ × DependentVector K (augmentedStateDimension n m) → DependentVector K n,
      est = l.foldl (fun acc e => mapAssign acc e.1 (y e)) est0 := by
  refine ⟨fun e => match predictState { f with currentSigmaPoint_ := e.1 } t
      (segment e.2 0 n (by unfold augmentedStateDimension; omega)) u with
    | .ok v => v
    | .error _ => 0, ?_⟩
  induction l generalizing f est0 with
  | nil =>
    simp only [predictionLoop, Prod.mk.injEq, Except.ok.injEq] at h
    exact h.1.symm
  | cons a l ih =>
    obtain ⟨i, p⟩ := a
    cases hstep : predictState { f with currentSigmaPoint_ := i } t
        (segment p 0 n (by unfold augmentedStateDimension; omega)) u with
    | error e =>
      unfold predictionLoop at h
      simp only [hstep] at h
      cases h
    | ok v =>
      unfold predictionLoop at h
      simp only [hstep] at h
      have h2 := ih { f with currentSigmaPoint_ := i } _ h
      rw [h2, List.foldl_cons]
      simp only [hstep]

omit [LinearOrder T] in
/-- The two weighted averages over the propagated estimates of a prediction loop that
returned, run over a map with the keys `0, ..., N-1`: the estimates are keyed `0, ..., N-1`,
both averages return, and they are the weighted sums over all `N` indices. -/
theorem prediction_averages (t : T) (u : ControlVector K)
    (l : StdMap ℕ (DependentVector K (augmentedStateDimension n m)))
    (hl : mapKeys l = List.range (numberOfSigmaPoints n m))
    (f f' : UnscentedKalmanFilter n m K T) (w wc : List K)
    (hw : w.length = numberOfSigmaPoints n m) (hwc : wc.length = numberOfSigmaPoints n m)
    (est : StdMap ℕ (DependentVector K n))
    (h : predictionLoop t u l f [] = (.ok est, f')) :
    ∃ y : Fin (numberOfSigmaPoints n m) → DependentVector K n,
      est = (List.finRange (numberOfSigmaPoints n m)).map (fun i => (i.val, y i)) ∧
      computeWeightedAverageFromSigmaPointEstimatesVector w est 0 =
        .ok (∑ i, w.getD i.val 0 • y i) ∧
      computeWeightedAverageFromSigmaPointEstimatesMatrix wc (∑ i, w.getD i.val 0 • y i) est 0 =
        .ok (∑ i, Matrix.vecMulVec (wc.getD i.val 0 • (y i - ∑ i, w.getD i.val 0 • y i))
          (y i - ∑ i, w.getD i.val 0 • y i)) := by
  obtain ⟨Y, hY⟩ := predictionLoop_ok_values t u l f f' [] est h
  have hord := mapOrdered_of_keys_range l _ hl
  rw [foldl_mapAssign_eq_map _ _ hord] at hY
  have hkeys : mapKeys est = List.range (numberOfSigmaPoints n m) := by
    rw [hY, mapKeys_map_entry, hl]
  obtain ⟨y, hy⟩ := map_of_keys_range est _ hkeys
  refine ⟨y, hy, ?_, ?_⟩
  · rw [hy]
    exact weightedAverageVector_finRange w y hw
  · rw [hy]
    exact weightedAverageMatrix_finRange wc _ y hwc

end PriorEstimateTheorems

section PriorEstimateClaim

variable {K T : Type} [Field K] [LinearOrder T] {n m : ℕ}

omit [LinearOrder T] in
/-- Scaling the left factor of an outer product scales the outer product. -/
theorem vecMulVec_smul_left {p q : ℕ} (k : K) (a : DependentVector K p)
    (b : DependentVector K q) : Matrix.vecMulVec (k • a) b = k • Matrix.vecMulVec a b := by
  ext r c
  simp [Matrix.vecMulVec_apply, mul_assoc]

/-- The arguments of the regeneration of the sigma points, when the prediction loop and the two
weighted averages of `updateFilter` return. -/
theorem lastComputeSigmaPointsArguments_eq
    (matrixSqrt : DependentMatrix K (augmentedStateDimension n m) (augmentedStateDimension n m) →
      DependentMatrix K (augmentedStateDimension n m) (augmentedStateDimension n m))
    (f f3 : UnscentedKalmanFilter n m K T) (t : T) (u : ControlVector K)
    (stateEstimates : StdMap ℕ (DependentVector K n))
    (xPrior : DependentVector K n) (PPrior : DependentMatrix K n n)
    (hp : predictionLoop t u
      (computeSigmaPoints matrixSqrt f f.aPosterioriStateEstimate_
        f.aPosterioriCovarianceEstimate_).mapOfSigmaPoints_
      { computeSigmaPoints matrixSqrt f f.aPosterioriStateEstimate_
          f.aPosterioriCovarianceEstimate_ with
        mapOfMapOfSigmaPoints_ := mapAssign f.mapOfMapOfSigmaPoints_ t
          (computeSigmaPoints matrixSqrt f f.aPosterioriStateEstimate_
            f.aPosterioriCovarianceEstimate_).mapOfSigmaPoints_ } [] = (.ok stateEstimates, f3))
    (hx : computeWeightedAverageFromSigmaPointEstimatesVector f3.stateEstimationWeights_
      stateEstimates 0 = .ok xPrior)
    (hP : computeWeightedAverageFromSigmaPointEstimatesMatrix f3.covarianceEstimationWeights_
      xPrior stateEstimates 0 = .ok PPrior) :
    lastComputeSigmaPointsArguments matrixSqrt f t u = (xPrior, PPrior) := by
  unfold lastComputeSigmaPointsArguments
  simp only []
  split
  · rename_i e g hp'
    have h := hp'.symm.trans hp
    cases h
  · rename_i est g hp'
    have h := hp'.symm.trans hp
    simp only [Prod.mk.injEq, Except.ok.injEq] at h
    obtain ⟨rfl, rfl⟩ := h
    split
    · rename_i e hx'
      rw [hx] at hx'
      cases hx'
    · rename_i x hx'
      rw [hx] at hx'
      cases hx'
      split
      · rename_i e hP'
        rw [hP] at hP'
        cases hP'
      · rename_i P hP'
        rw [hP] at hP'
        cases hP'
        rfl

end PriorEstimateClaim

section ArchiveTheorems

variable {K T : Type} [Field K] [LinearOrder T] {n m : ℕ}

/-- C23: after a successful `updateFilter( t, u, z )` the sigma-point set archived under `t`
is exactly the set generated from the a-posteriori mean and covariance held before the call,
point `i` being built from that mean and the square root of the augmented covariance with
that covariance in its leading block; the regeneration of the sigma points around the
a-priori estimate later in the same call replaces the working set `mapOfSigmaPoints_`, not
the archived copy. -/
theorem updateFilter_archived_sigma_points
    (matrixSqrt : DependentMatrix K (augmentedStateDimension n m) (augmentedStateDimension n m) →
      DependentMatrix K (augmentedStateDimension n m) (augmentedStateDimension n m))
    (f : UnscentedKalmanFilter n m K T) (t : T) (u : ControlVector K) (z : DependentVector K m)
    (hmap : f.mapOfSigmaPoints_ = [] ∨
      mapKeys f.mapOfSigmaPoints_ = List.range (numberOfSigmaPoints n m))
    (hok : (updateFilter matrixSqrt f t u z).1 = .ok ()) :
    mapFind (updateFilter matrixSqrt f t u z).2.mapOfMapOfSigmaPoints_ t =
      some (computeSigmaPoints matrixSqrt f f.aPosterioriStateEstimate_
        f.aPosterioriCovarianceEstimate_).mapOfSigmaPoints_ ∧
    (computeSigmaPoints matrixSqrt f f.aPosterioriStateEstimate_
        f.aPosterioriCovarianceEstimate_).mapOfSigmaPoints_ =
      (List.finRange (numberOfSigmaPoints n m)).map (fun i => (i.val,
        sigmaPoint (setSegment f.augmentedStateVector_ 0 f.aPosterioriStateEstimate_)
          (f.constantParameters_ gamma_index)
          (matrixSqrt (setBlock f.augmentedCovarianceMatrix_ 0 0
            f.aPosterioriCovarianceEstimate_)) i)) ∧
    (updateFilter matrixSqrt f t u z).2.mapOfSigmaPoints_ =
      (List.finRange (numberOfSigmaPoints n m)).map (fun i => (i.val,
        sigmaPoint
          (setSegment f.augmentedStateVector_ 0
            (lastComputeSigmaPointsArguments matrixSqrt f t u).1)
          (f.constantParameters_ gamma_index)
          (matrixSqrt (setBlock f.augmentedCovarianceMatrix_ 0 0
            (lastComputeSigmaPointsArguments matrixSqrt f t u).2)) i)) := by
  have hframe := (updateFilter_frame matrixSqrt f t u z hmap).2.2.2.1
  have hfirst := computeSigmaPoints_mapOfSigmaPoints matrixSqrt f f.aPosterioriStateEstimate_
    f.aPosterioriCovarianceEstimate_ hmap
  have hk1 := (computeSigmaPoints_map_facts matrixSqrt f f.aPosterioriStateEstimate_
    f.aPosterioriCovarianceEstimate_ hmap).1
  refine ⟨?_, hfirst, ?_⟩
  · rw [hframe, mapFind_mapAssign, if_pos rfl]
  · rcases updateFilter_trace matrixSqrt f t u z with
      ⟨e, c, h⟩ | ⟨e, c, c', xPrior, PPrior, h⟩ |
      ⟨c, c', est, xPrior, PPrior, mest, zPredicted, innovation, crossCorrelation,
        hp, hx, hP, -, -, -, -, h⟩
    · rw [h] at hok
      cases hok
    · rw [h] at hok
      cases hok
    · obtain ⟨c0, hc0⟩ := predictionLoop_snd (K := K) (n := n) (m := m) t u
        (computeSigmaPoints matrixSqrt f f.aPosterioriStateEstimate_
          f.aPosterioriCovarianceEstimate_).mapOfSigmaPoints_
        { computeSigmaPoints matrixSqrt f f.aPosterioriStateEstimate_
            f.aPosterioriCovarianceEstimate_ with
          mapOfMapOfSigmaPoints_ := mapAssign f.mapOfMapOfSigmaPoints_ t
            (computeSigmaPoints matrixSqrt f f.aPosterioriStateEstimate_
              f.aPosterioriCovarianceEstimate_).mapOfSigmaPoints_ } []
      have hlast := lastComputeSigmaPointsArguments_eq matrixSqrt f _ t u est xPrior PPrior
        (Prod.ext hp hc0) hx hP
      rw [hlast, h]
      have hreg := computeSigmaPoints_mapOfSigmaPoints matrixSqrt
        { computeSigmaPoints matrixSqrt f f.aPosterioriStateEstimate_
            f.aPosterioriCovarianceEstimate_ with
          mapOfMapOfSigmaPoints_ := mapAssign f.mapOfMapOfSigmaPoints_ t
            (computeSigmaPoints matrixSqrt f f.aPosterioriStateEstimate_
              f.aPosterioriCovarianceEstimate_).mapOfSigmaPoints_
          currentSigmaPoint_ := c } xPrior PPrior (Or.inr hk1)
      refine Eq.trans hreg ?_
      have hvec : setSegment (setSegment f.augmentedStateVector_ 0 f.aPosterioriStateEstimate_) 0
          xPrior = setSegment f.augmentedStateVector_ 0 xPrior := setSegment_setSegment _ _ _ _
      have hcov : setBlock (setBlock f.augmentedCovarianceMatrix_ 0 0
          f.aPosterioriCovarianceEstimate_) 0 0 PPrior =
          setBlock f.augmentedCovarianceMatrix_ 0 0 PPrior := setBlock_setBlock _ _ _ _ _
      show (List.finRange (numberOfSigmaPoints n m)).map (fun i => (i.val,
        sigmaPoint
          (setSegment (setSegment f.augmentedStateVector_ 0 f.aPosterioriStateEstimate_) 0 xPrior)
          (f.constantParameters_ gamma_index)
          (matrixSqrt (setBlock (setBlock f.augmentedCovarianceMatrix_ 0 0
            f.aPosterioriCovarianceEstimate_) 0 0 PPrior)) i)) = _
      rw [hvec, hcov]

end ArchiveTheorems

section CrossCorrelationTheorems

/-- The sigma points regenerated around the a-priori estimate `x = 0`, `P = 25` in the call
`updateFilter( 1, [], [26] )` on the scenario object. -/
theorem scenario_regenerated_sigma_points :
    (computeSigmaPoints diagonalSqrt
      { computeSigmaPoints diagonalSqrt scenarioFilter scenarioFilter.aPosterioriStateEstimate_
          scenarioFilter.aPosterioriCovarianceEstimate_ with
        mapOfMapOfSigmaPoints_ := mapAssign scenarioFilter.mapOfMapOfSigmaPoints_ 1
          (computeSigmaPoints diagonalSqrt scenarioFilter
            scenarioFilter.aPosterioriStateEstimate_
            scenarioFilter.aPosterioriCovarianceEstimate_).mapOfSigmaPoints_
        currentSigmaPoint_ := 6 } ![0] !![25]).mapOfSigmaPoints_ =
      [(0, ![0, 0, 0]), (1, ![10, 0, 0]), (2, ![0, 8, 0]), (3, ![0, 0, 2]),
        (4, ![-10, 0, 0]), (5, ![0, -8, 0]), (6, ![0, 0, -2])] := by
  have hl1 : (computeSigmaPoints diagonalSqrt scenarioFilter
      scenarioFilter.aPosterioriStateEstimate_
      scenarioFilter.aPosterioriCovarianceEstimate_).mapOfSigmaPoints_ =
      [(0, ![0, 0, 0]), (1, ![0 + 2 * 3, 0, 0]), (2, ![0, 8, 0]), (3, ![0, 0, 2]),
        (4, ![0 - 2 * 3, 0, 0]), (5, ![0, -8, 0]), (6, ![0, 0, -2])] :=
    scenario_sigma_points 0 9 3 (by norm_num) (by norm_num) scenarioFilter (Or.inl rfl)
      (by intro i hi; fin_cases i <;> simp_all [scenarioFilter])
      (by intro i j _; rfl) rfl
  have hl2 := scenario_sigma_points 0 25 5 (by norm_num) (by norm_num)
    { computeSigmaPoints diagonalSqrt scenarioFilter scenarioFilter.aPosterioriStateEstimate_
        scenarioFilter.aPosterioriCovarianceEstimate_ with
      mapOfMapOfSigmaPoints_ := mapAssign scenarioFilter.mapOfMapOfSigmaPoints_ 1
        (computeSigmaPoints diagonalSqrt scenarioFilter
          scenarioFilter.aPosterioriStateEstimate_
          scenarioFilter.aPosterioriCovarianceEstimate_).mapOfSigmaPoints_
      currentSigmaPoint_ := 6 }
    (Or.inr (by
      show mapKeys (computeSigmaPoints diagonalSqrt scenarioFilter
        scenarioFilter.aPosterioriStateEstimate_
        scenarioFilter.aPosterioriCovarianceEstimate_).mapOfSigmaPoints_ = _
      rw [hl1]
      decide))
    (by
      intro i hi
      fin_cases i <;> simp_all [computeSigmaPoints, setSegment, scenarioFilter])
    (by
      intro i j hij
      fin_cases i <;> fin_cases j <;> simp_all [computeSigmaPoints, setBlock, scenarioFilter])
    rfl
  rw [hl2]
  norm_num

/-- C22 (what the code does): in the call `updateFilter( 1, [], [26] )` on the scalar scenario
the cross-correlation loop pairs, index by index, the estimates propagated from the first
sigma-point set (generated from the a-posteriori estimate) with the measurement points of the
regenerated set (generated from the a-priori estimate) and returns 15; paired with the state
entries of the regenerated set, to which the measurement points belong, the same loop returns
25. -/
theorem updateFilter_cross_correlation_pairs_two_sets :
    (predictionLoop (1 : ℚ) []
      (computeSigmaPoints diagonalSqrt scenarioFilter scenarioFilter.aPosterioriStateEstimate_
        scenarioFilter.aPosterioriCovarianceEstimate_).mapOfSigmaPoints_
      { computeSigmaPoints diagonalSqrt scenarioFilter scenarioFilter.aPosterioriStateEstimate_
          scenarioFilter.aPosterioriCovarianceEstimate_ with
        mapOfMapOfSigmaPoints_ := mapAssign scenarioFilter.mapOfMapOfSigmaPoints_ 1
          (computeSigmaPoints diagonalSqrt scenarioFilter scenarioFilter.aPosterioriStateEstimate_
            scenarioFilter.aPosterioriCovarianceEstimate_).mapOfSigmaPoints_ } []).1 =
      .ok [(0, ![0]), (1, ![6]), (2, ![8]), (3, ![0]), (4, ![-6]), (5, ![-8]), (6, ![0])] ∧
    (measurementLoop (1 : ℚ)
      (computeSigmaPoints diagonalSqrt
        { computeSigmaPoints diagonalSqrt scenarioFilter scenarioFilter.aPosterioriStateEstimate_
            scenarioFilter.aPosterioriCovarianceEstimate_ with
          mapOfMapOfSigmaPoints_ := mapAssign scenarioFilter.mapOfMapOfSigmaPoints_ 1
            (computeSigmaPoints diagonalSqrt scenarioFilter
              scenarioFilter.aPosterioriStateEstimate_
              scenarioFilter.aPosterioriCovarianceEstimate_).mapOfSigmaPoints_
          currentSigmaPoint_ := 6 } ![0] !![25]).mapOfSigmaPoints_
      (computeSigmaPoints diagonalSqrt
        { computeSigmaPoints diagonalSqrt scenarioFilter scenarioFilter.aPosterioriStateEstimate_
            scenarioFilter.aPosterioriCovarianceEstimate_ with
          mapOfMapOfSigmaPoints_ := mapAssign scenarioFilter.mapOfMapOfSigmaPoints_ 1
            (computeSigmaPoints diagonalSqrt scenarioFilter
              scenarioFilter.aPosterioriStateEstimate_
              scenarioFilter.aPosterioriCovarianceEstimate_).mapOfSigmaPoints_
          currentSigmaPoint_ := 6 } ![0] !![25]) []).1 =
      .ok [(0, ![0]), (1, ![10]), (2, ![0]), (3, ![2]), (4, ![-10]), (5, ![0]), (6, ![-2])] ∧
    (computeSigmaPoints diagonalSqrt
      { computeSigmaPoints diagonalSqrt scenarioFilter scenarioFilter.aPosterioriStateEstimate_
          scenarioFilter.aPosterioriCovarianceEstimate_ with
        mapOfMapOfSigmaPoints_ := mapAssign scenarioFilter.mapOfMapOfSigmaPoints_ 1
          (computeSigmaPoints diagonalSqrt scenarioFilter
            scenarioFilter.aPosterioriStateEstimate_
            scenarioFilter.aPosterioriCovarianceEstimate_).mapOfSigmaPoints_
        currentSigmaPoint_ := 6 } ![0] !![25]).mapOfSigmaPoints_.map
        (fun e => (e.1, segment e.2 0 1 (by unfold augmentedStateDimension; omega))) =
      [(0, ![0]), (1, ![10]), (2, ![0]), (3, ![0]), (4, ![-10]), (5, ![0]), (6, ![0])] ∧
    crossCorrelationLoop scenarioFilter.covarianceEstimationWeights_ ![0]
      [(0, ![0]), (1, ![10]), (2, ![0]), (3, ![2]), (4, ![-10]), (5, ![0]), (6, ![-2])] ![0]
      [(0, ![0]), (1, ![6]), (2, ![8]), (3, ![0]), (4, ![-6]), (5, ![-8]), (6, ![0])] 0 =
      .ok !![15] ∧
    crossCorrelationLoop scenarioFilter.covarianceEstimationWeights_ ![0]
      [(0, ![0]), (1, ![10]), (2, ![0]), (3, ![2]), (4, ![-10]), (5, ![0]), (6, ![-2])] ![0]
      [(0, ![0]), (1, ![10]), (2, ![0]), (3, ![0]), (4, ![-10]), (5, ![0]), (6, ![0])] 0 =
      .ok !![25] ∧
    ∃ f5 : UnscentedKalmanFilter 1 1 ℚ ℚ,
      updateFilter diagonalSqrt scenarioFilter 1 [] ![26] = (.ok (),
        correctCovariance
          (correctState f5 1 ![0] ![26] ![0] (!![15] * inverse !![26]))
          1 !![25] !![26] (!![15] * inverse !![26])) := by
  refine ⟨congrArg Prod.fst scenario_prediction, congrArg Prod.fst scenario_measurement, ?_, ?_,
    ?_, scenario_updateFilter⟩
  · rw [scenario_regenerated_sigma_points]
    simp only [List.map_cons, List.map_nil]
    refine congrArg₂ _ (congrArg _ ?_) (congrArg₂ _ (congrArg _ ?_) (congrArg₂ _ (congrArg _ ?_)
      (congrArg₂ _ (congrArg _ ?_) (congrArg₂ _ (congrArg _ ?_) (congrArg₂ _ (congrArg _ ?_)
      (congrArg₂ _ (congrArg _ ?_) rfl))))))
    all_goals
      apply vec1_ext
      simp [segment, Matrix.vecHead]
  · refine (scenario_cross_correlation 0 0 0 6 8 0 (-6) (-8) 0 0 10 0 2 (-10) 0 (-2)).trans ?_
    norm_num
  · refine (scenario_cross_correlation 0 0 0 10 0 0 (-10) 0 0 0 10 0 2 (-10) 0 (-2)).trans ?_
    norm_num

end CrossCorrelationTheorems

section SigmaPointsHistoryTheorems

variable {K T : Type} [Field K] [LinearOrder T] {n m : ℕ}

omit [Field K] [LinearOrder T] in
/-- An entry found under a key is an entry of the map. -/
theorem mem_of_mapFind {κ V : Type} [DecidableEq κ] (mp : StdMap κ V) (k : κ) (v : V)
    (h : mapFind mp k = some v) : (k, v) ∈ mp := by
  induction mp with
  | nil => simp [mapFind] at h
  | cons a rest ih =>
    obtain ⟨k', v'⟩ := a
    unfold mapFind at h
    split_ifs at h with hk
    · simp only [Option.some.injEq] at h
      subst hk
      subst h
      exact List.mem_cons_self _ _
    · exact List.mem_cons_of_mem _ (ih h)

omit [Field K] [LinearOrder T] in
/-- An entry of a map after an assignment is the assigned one or an entry of the map before. -/
theorem mem_mapAssign {κ V : Type} [LinearOrder κ] (mp : StdMap κ V) (k : κ) (v : V)
    (e : κ × V) (h : e ∈ mapAssign mp k v) : e = (k, v) ∨ e ∈ mp := by
  induction mp with
  | nil =>
    simp only [mapAssign, List.mem_singleton] at h
    exact Or.inl h
  | cons a rest ih =>
    obtain ⟨k', v'⟩ := a
    unfold mapAssign at h
    split_ifs at h with h1 h2
    · rcases List.mem_cons.1 h with h | h
      · exact Or.inl h
      · exact Or.inr h
    · rcases List.mem_cons.1 h with h | h
      · exact Or.inl h
      · exact Or.inr (List.mem_cons_of_mem _ h)
    · rcases List.mem_cons.1 h with h | h
      · exact Or.inr (h ▸ List.mem_cons_self _ _)
      · rcases ih h with h | h
        · exact Or.inl h
        · exact Or.inr (List.mem_cons_of_mem _ h)

omit [Field K] [LinearOrder T] in
/-- Coefficient `j * k + r` of the buffer of stacked vectors of length `k` is coefficient `r`
of vector `j`. -/
theorem flatten_ofFn_getElem {D : Type} {k : ℕ} (l : List (DependentVector D k)) (j : ℕ)
    (hj : j < l.length) (r : Fin k) :
    (l.map (fun v => List.ofFn v)).flatten[j * k + r.val]? = some (l[j] r) := by
  induction l generalizing j with
  | nil => simp at hj
  | cons v rest ih =>
    rw [List.map_cons, List.flatten_cons]
    cases j with
    | zero =>
      have hr : 0 * k + r.val < (List.ofFn v).length := by simp
      rw [List.getElem?_append_left hr]
      simp
    | succ j =>
      have hge : (List.ofFn v).length ≤ (j + 1) * k + r.val := by
        simp only [List.length_ofFn]
        nlinarith
      rw [List.getElem?_append_right hge]
      have hidx : (j + 1) * k + r.val - (List.ofFn v).length = j * k + r.val := by
        simp only [List.length_ofFn]
        rw [Nat.add_mul, Nat.one_mul]
        omega
      rw [hidx]
      simpa using ih j (by simpa using hj)

omit [Field K] [LinearOrder T] in
/-- The buffer of `l.length` stacked vectors of length `k` has `l.length * k` coefficients. -/
theorem flatten_ofFn_length {D : Type} {k : ℕ} (l : List (DependentVector D k)) :
    (l.map (fun v => List.ofFn v)).flatten.length = l.length * k := by
  induction l with
  | nil => simp
  | cons v rest ih =>
    rw [List.map_cons, List.flatten_cons, List.length_append, ih, List.length_ofFn,
      List.length_cons, Nat.add_mul, Nat.one_mul, Nat.add_comm]

omit [LinearOrder T] in
/-- The matrix built by `getSigmaPointsHistory` from a sigma-point set keyed `0, ..., N-1`:
the view is within the buffer, and entry `(r, j)` is component `r` of the point under `j`. -/
theorem EigenMap_of_sigma_points
    (g : Fin (numberOfSigmaPoints n m) → DependentVector K (augmentedStateDimension n m)) :
    EigenMap (createConcatenatedEigenMatrixFromMapValues
        ((List.finRange (numberOfSigmaPoints n m)).map (fun i => (i.val, g i))))
      (augmentedStateDimension n m) (numberOfSigmaPoints n m) = .ok (fun r j => g j r) := by
  have hmap : ((List.finRange (numberOfSigmaPoints n m)).map (fun i => (i.val, g i))).map
      (fun e => List.ofFn e.2) =
      ((List.finRange (numberOfSigmaPoints n m)).map g).map (fun v => List.ofFn v) := by
    simp [List.map_map, Function.comp]
  unfold EigenMap createConcatenatedEigenMatrixFromMapValues
  rw [hmap, flatten_ofFn_length, List.length_map, List.length_finRange,
    if_pos (le_of_eq (Nat.mul_comm _ _))]
  congr 1
  funext r j
  have hj : j.val < ((List.finRange (numberOfSigmaPoints n m)).map g).length := by simp
  have h := flatten_ofFn_getElem ((List.finRange (numberOfSigmaPoints n m)).map g) j.val hj r
  rw [List.getD_eq_getElem?_getD, h]
  simp

/-- The loop of `getSigmaPointsHistory` when every archived set yields a matrix. -/
theorem sigmaPointsHistoryLoop_eq
    (G : T × StdMap ℕ (DependentVector K (augmentedStateDimension n m)) →
      DependentMatrix K (augmentedStateDimension n m) (numberOfSigmaPoints n m))
    (l : StdMap T (StdMap ℕ (DependentVector K (augmentedStateDimension n m))))
    (acc : StdMap T (DependentMatrix K (augmentedStateDimension n m) (numberOfSigmaPoints n m)))
    (h : ∀ e ∈ l, EigenMap (createConcatenatedEigenMatrixFromMapValues e.2)
      (augmentedStateDimension n m) (numberOfSigmaPoints n m) = .ok (G e)) :
    sigmaPointsHistoryLoop l acc = .ok (l.foldl (fun acc e => mapAssign acc e.1 (G e)) acc) := by
  induction l generalizing acc with
  | nil => rfl
  | cons a rest ih =>
    obtain ⟨t, points⟩ := a
    have ha := h (t, points) (List.mem_cons_self _ _)
    simp only at ha
    unfold sigmaPointsHistoryLoop
    simp only [ha, List.foldl_cons]
    exact ih _ (fun e he => h e (List.mem_cons_of_mem _ he))

/-- The archived sigma-point sets of a reachable object are keyed `0, ..., N-1`. -/
theorem reachable_archive_keys [BEq K] (TUDAT_NAN : K) (sqrt : K → K)
    (matrixSqrt : DependentMatrix K (augmentedStateDimension n m) (augmentedStateDimension n m) →
      DependentMatrix K (augmentedStateDimension n m) (augmentedStateDimension n m))
    (Q : DependentMatrix K n n) (R : DependentMatrix K m m)
    (f : UnscentedKalmanFilter n m K T)
    (last : Option (DependentVector K n × DependentMatrix K n n))
    (h : Reachable TUDAT_NAN sqrt matrixSqrt Q R f last) :
    ∀ e ∈ f.mapOfMapOfSigmaPoints_, mapKeys e.2 = List.range (numberOfSigmaPoints n m) := by
  induction h with
  | constructed systemFunction measurementFunction initialTime x0 P0 integratorSettings
      constantValueReference customConstantParameters f h =>
    have hm := create_members TUDAT_NAN sqrt systemFunction measurementFunction Q R initialTime
      x0 P0 integratorSettings constantValueReference customConstantParameters f h
    rw [hm.2.2.2.2.2.2.2.2.2.2.2.2.2.2.2]
    intro e he
    cases he
  | updated f last t u z h ih =>
    have hinv := reachable_invariants TUDAT_NAN sqrt matrixSqrt Q R f last h
    have hmap := hinv.2.2.2.1
    rw [(updateFilter_frame matrixSqrt f t u z hmap).2.2.2.1]
    intro e he
    rcases mem_mapAssign _ _ _ _ he with rfl | he
    · exact (computeSigmaPoints_map_facts matrixSqrt f f.aPosterioriStateEstimate_
        f.aPosterioriCovarianceEstimate_ hmap).1
    · exact ih e he

/-- C24: on an object reached by construction and any number of `updateFilter` calls,
`getSigmaPointsHistory` returns, with exactly one matrix per archived time: its keys are the
archived times, and for every archived time `t` the matrix, of `L` rows and `N` columns, has
entry `(r, j)` equal to component `r` of the sigma point stored under index `j` at time `t`;
the call leaves the archive and all other members of the object unchanged. -/
theorem getSigmaPointsHistory_matrices [BEq K] (TUDAT_NAN : K) (sqrt : K → K)
    (matrixSqrt : DependentMatrix K (augmentedStateDimension n m) (augmentedStateDimension n m) →
      DependentMatrix K (augmentedStateDimension n m) (augmentedStateDimension n m))
    (Q : DependentMatrix K n n) (R : DependentMatrix K m m)
    (f : UnscentedKalmanFilter n m K T)
    (last : Option (DependentVector K n × DependentMatrix K n n))
    (h : Reachable TUDAT_NAN sqrt matrixSqrt Q R f last) :
    ∃ history : StdMap T
        (DependentMatrix K (augmentedStateDimension n m) (numberOfSigmaPoints n m)),
      getSigmaPointsHistory f = (.ok history, f) ∧
      mapKeys history = mapKeys f.mapOfMapOfSigmaPoints_ ∧
      ∀ (t : T) (points : StdMap ℕ (DependentVector K (augmentedStateDimension n m))),
        mapFind f.mapOfMapOfSigmaPoints_ t = some points →
        ∃ matrixOfSigmaPoints, mapFind history t = some matrixOfSigmaPoints ∧
          ∀ (r : Fin (augmentedStateDimension n m)) (j : Fin (numberOfSigmaPoints n m)),
            ∃ point, mapFind points j.val = some point ∧ matrixOfSigmaPoints r j = point r := by
  have hkeys := reachable_archive_keys TUDAT_NAN sqrt matrixSqrt Q R f last h
  have hord := (reachable_invariants TUDAT_NAN sqrt matrixSqrt Q R f last h).2.2.2.2.2.2.2.1
  choose! g hg using fun e he => map_of_keys_range _ _ (hkeys e he)
  have hloop := sigmaPointsHistoryLoop_eq (fun e => fun r j => g e j r)
    f.mapOfMapOfSigmaPoints_ [] (by
      intro e he
      have h1 := hg e he
      have h2 := EigenMap_of_sigma_points (K := K) (n := n) (m := m) (g e)
      rw [← h1] at h2
      exact h2)
  rw [foldl_mapAssign_eq_map _ _ hord] at hloop
  refine ⟨_, Prod.ext hloop rfl, mapKeys_map_entry _ _, ?_⟩
  intro t points hfind
  have hmem := mem_of_mapFind _ _ _ hfind
  have hord' : mapOrdered (f.mapOfMapOfSigmaPoints_.map
      (fun e => (e.1, (fun r j => g e j r :
        DependentMatrix K (augmentedStateDimension n m) (numberOfSigmaPoints n m))))) := by
    unfold mapOrdered
    rw [mapKeys_map_entry]
    exact hord
  refine ⟨_, mapFind_of_mem _ hord' (t, _) (List.mem_map.2 ⟨(t, points), hmem, rfl⟩), ?_⟩
  intro r j
  refine ⟨g (t, points) j, ?_, rfl⟩
  have h1 := hg (t, points) hmem
  simp only at h1
  exact (congrArg (fun p => mapFind p j.val) h1).trans (mapFind_map_finRange _ j)

end SigmaPointsHistoryTheorems

section ReturnedUpdateTheorems

variable {K T : Type} [Field K] [LinearOrder T] {n m : ℕ}

omit [LinearOrder T] in
/-- A measurement loop that returns: the estimates are the start map with one value filed
under the index of each sigma point, in the order of the loop. -/
theorem measurementLoop_ok_values (t : T)
    (l : StdMap ℕ (DependentVector K (augmentedStateDimension n m)))
    (f f' : UnscentedKalmanFilter n m K T) (est0 est : StdMap ℕ (DependentVector K m))
    (h : measurementLoop t l f est0 = (.ok est, f')) :
    ∃ y : ℕ × DependentVector K (augmentedStateDimension n m) → DependentVector K m,
      est = l.foldl (fun acc e => mapAssign acc e.1 (y e)) est0 := by
  refine ⟨fun e => match createMeasurementFunction { f with currentSigmaPoint_ := e.1 } t
      (segment e.2 0 n (by unfold augmentedStateDimension; omega)) with
    | .ok v => v
    | .error _ => 0, ?_⟩
  induction l generalizing f est0 with
  | nil =>
    simp only [measurementLoop, Prod.mk.injEq, Except.ok.injEq] at h
    exact h.1.symm
  | cons a l ih =>
    obtain ⟨i, p⟩ := a
    cases hstep : createMeasurementFunction { f with currentSigmaPoint_ := i } t
        (segment p 0 n (by unfold augmentedStateDimension; omega)) with
    | error e =>
      unfold measurementLoop at h
      simp only [hstep] at h
      cases h
    | ok v =>
      unfold measurementLoop at h
      simp only [hstep] at h
      have h2 := ih { f with currentSigmaPoint_ := i } _ h
      rw [h2, List.foldl_cons]
      simp only [hstep]

end ReturnedUpdateTheorems

section ReturningCallTheorems

variable {K T : Type} [Field K] [LinearOrder T] {n m : ℕ}

omit [LinearOrder T] in
/-- A completed prediction loop of `updateFilter` on an object without integrator files, for
each sigma point of the list it ran over, the value the user system function returned for
entries `[0, n)` of the point plus entries `[n, 2n)` of the same point. -/
theorem predictionLoop_point_values (t : T) (u : ControlVector K)
    (l : StdMap ℕ (DependentVector K (augmentedStateDimension n m)))
    (g g' : UnscentedKalmanFilter n m K T) (est : StdMap ℕ (DependentVector K n))
    (hint : g.integratorSettings_ = none) (hord : mapOrdered l)
    (hfind : ∀ e ∈ l, mapFind g.mapOfSigmaPoints_ e.1 = some e.2)
    (h : predictionLoop t u l g [] = (.ok est, g')) :
    ∀ e ∈ l, ∃ value,
      g.inputSystemFunction_ t
        (segment e.2 0 n (by unfold augmentedStateDimension; omega)) u = .ok value ∧
      (e.1, value + segment e.2 n n (by unfold augmentedStateDimension; omega)) ∈ est := by
  obtain ⟨y, hy, hest⟩ := predictionLoop_ok_inv t u l g g' [] est hint hfind h
  rw [foldl_mapAssign_eq_map _ _ hord] at hest
  intro e he
  refine ⟨y e, hy e he, ?_⟩
  rw [hest]
  exact List.mem_map.2 ⟨e, he, rfl⟩

omit [LinearOrder T] in
/-- A completed measurement loop of `updateFilter` files, for each sigma point of the list it
ran over, the value the user measurement function returned for entries `[0, n)` of the point
plus entries `[2n, 2n+m)` of the same point. -/
theorem measurementLoop_point_values (t : T)
    (l : StdMap ℕ (DependentVector K (augmentedStateDimension n m)))
    (g g' : UnscentedKalmanFilter n m K T) (est : StdMap ℕ (DependentVector K m))
    (hord : mapOrdered l)
    (hfind : ∀ e ∈ l, mapFind g.mapOfSigmaPoints_ e.1 = some e.2)
    (h : measurementLoop t l g [] = (.ok est, g')) :
    ∀ e ∈ l, ∃ value,
      g.inputMeasurementFunction_ t
        (segment e.2 0 n (by unfold augmentedStateDimension; omega)) = .ok value ∧
      (e.1, value + segment e.2 (2 * n) m (by unfold augmentedStateDimension; omega)) ∈ est := by
  obtain ⟨y, hy, hest⟩ := measurementLoop_ok_inv t l g g' [] est hfind h
  rw [foldl_mapAssign_eq_map _ _ hord] at hest
  intro e he
  refine ⟨y e, hy e he, ?_⟩
  rw [hest]
  exact List.mem_map.2 ⟨e, he, rfl⟩

omit [Field K] [LinearOrder T] in
/-- An entry of a map listed by sigma index is the value of its index. -/
theorem mem_map_finRange {V : Type} {N : ℕ} (g : Fin N → V) (i : Fin N) (v : V)
    (h : (i.val, v) ∈ (List.finRange N).map (fun j => (j.val, g j))) : v = g i := by
  obtain ⟨j, -, hj⟩ := List.mem_map.1 h
  have h1 : j.val = i.val := congrArg Prod.fst hj
  have h2 : g j = v := congrArg Prod.snd hj
  have h3 : j = i := Fin.ext h1
  rw [← h2, h3]

/-- An `updateFilter` call that returns, in terms of the object it leaves.  With `y i` the
propagated estimate and `ζ i` the measurement estimate of sigma index `i`: the prediction loop
ran over the sigma-point set generated from the a-posteriori estimate held before the call,
which is the set archived under the time of the call; the a-priori mean and covariance are
the weighted averages of the `y i` and are held, after the call, in the leading entries of
`augmentedStateVector_` and the leading block of `augmentedCovarianceMatrix_`; the working
set `mapOfSigmaPoints_` after the call is the set regenerated around them, and the `ζ i` are
the measurements of its points; the predicted measurement, the innovation and the
cross-correlation are weighted sums and the a-posteriori estimates the corrections made with
them. -/
theorem updateFilter_returning_call
    (matrixSqrt : DependentMatrix K (augmentedStateDimension n m) (augmentedStateDimension n m) →
      DependentMatrix K (augmentedStateDimension n m) (augmentedStateDimension n m))
    (f : UnscentedKalmanFilter n m K T) (t : T) (u : ControlVector K) (z : DependentVector K m)
    (hmap : f.mapOfSigmaPoints_ = [] ∨
      mapKeys f.mapOfSigmaPoints_ = List.range (numberOfSigmaPoints n m))
    (hw : f.stateEstimationWeights_.length = numberOfSigmaPoints n m)
    (hwc : f.covarianceEstimationWeights_.length = numberOfSigmaPoints n m)
    (hok : (updateFilter matrixSqrt f t u z).1 = .ok ()) :
    ∃ (stateEstimates : StdMap ℕ (DependentVector K n))
      (y : Fin (numberOfSigmaPoints n m) → DependentVector K n)
      (ζ : Fin (numberOfSigmaPoints n m) → DependentVector K m)
      (xPrior : DependentVector K n) (PPrior : DependentMatrix K n n)
      (zPredicted : DependentVector K m) (innovation : DependentMatrix K m m)
      (crossCorrelation : DependentMatrix K n m),
      mapFind (updateFilter matrixSqrt f t u z).2.mapOfMapOfSigmaPoints_ t =
        some (computeSigmaPoints matrixSqrt f f.aPosterioriStateEstimate_
          f.aPosterioriCovarianceEstimate_).mapOfSigmaPoints_ ∧
      (predictionLoop t u
        (computeSigmaPoints matrixSqrt f f.aPosterioriStateEstimate_
          f.aPosterioriCovarianceEstimate_).mapOfSigmaPoints_
        { computeSigmaPoints matrixSqrt f f.aPosterioriStateEstimate_
            f.aPosterioriCovarianceEstimate_ with
          mapOfMapOfSigmaPoints_ := mapAssign f.mapOfMapOfSigmaPoints_ t
            (computeSigmaPoints matrixSqrt f f.aPosterioriStateEstimate_
              f.aPosterioriCovarianceEstimate_).mapOfSigmaPoints_ } []).1 = .ok stateEstimates ∧
      stateEstimates = (List.finRange (numberOfSigmaPoints n m)).map (fun i => (i.val, y i)) ∧
      (f.integratorSettings_ = none →
        ∀ i : Fin (numberOfSigmaPoints n m), ∃ point value,
          mapFind (computeSigmaPoints matrixSqrt f f.aPosterioriStateEstimate_
            f.aPosterioriCovarianceEstimate_).mapOfSigmaPoints_ i.val = some point ∧
          f.inputSystemFunction_ t
            (segment point 0 n (by unfold augmentedStateDimension; omega)) u = .ok value ∧
          y i = value + segment point n n (by unfold augmentedStateDimension; omega)) ∧
      computeWeightedAverageFromSigmaPointEstimatesVector f.stateEstimationWeights_
        stateEstimates 0 = .ok xPrior ∧
      xPrior = ∑ i, f.stateEstimationWeights_.getD i.val 0 • y i ∧
      computeWeightedAverageFromSigmaPointEstimatesMatrix f.covarianceEstimationWeights_
        xPrior stateEstimates 0 = .ok PPrior ∧
      PPrior = ∑ i, Matrix.vecMulVec
        (f.covarianceEstimationWeights_.getD i.val 0 • (y i - xPrior)) (y i - xPrior) ∧
      (updateFilter matrixSqrt f t u z).2.augmentedStateVector_ =
        setSegment f.augmentedStateVector_ 0 xPrior ∧
      (updateFilter matrixSqrt f t u z).2.augmentedCovarianceMatrix_ =
        setBlock f.augmentedCovarianceMatrix_ 0 0 PPrior ∧
      (updateFilter matrixSqrt f t u z).2.mapOfSigmaPoints_ =
        (List.finRange (numberOfSigmaPoints n m)).map (fun i => (i.val,
          sigmaPoint (setSegment f.augmentedStateVector_ 0 xPrior)
            (f.constantParameters_ gamma_index)
            (matrixSqrt (setBlock f.augmentedCovarianceMatrix_ 0 0 PPrior)) i)) ∧
      (∀ i : Fin (numberOfSigmaPoints n m), ∃ point value,
        mapFind (updateFilter matrixSqrt f t u z).2.mapOfSigmaPoints_ i.val = some point ∧
        f.inputMeasurementFunction_ t
          (segment point 0 n (by unfold augmentedStateDimension; omega)) = .ok value ∧
        ζ i = value + segment point (2 * n) m (by unfold augmentedStateDimension; omega)) ∧
      zPredicted = ∑ i, f.stateEstimationWeights_.getD i.val 0 • ζ i ∧
      innovation = ∑ i, Matrix.vecMulVec
        (f.covarianceEstimationWeights_.getD i.val 0 • (ζ i - zPredicted)) (ζ i - zPredicted) ∧
      crossCorrelation = ∑ i, Matrix.vecMulVec
        (f.covarianceEstimationWeights_.getD i.val 0 • (y i - xPrior)) (ζ i - zPredicted) ∧
      (updateFilter matrixSqrt f t u z).2.aPosterioriStateEstimate_ =
        xPrior + (crossCorrelation * inverse innovation).mulVec (z - zPredicted) ∧
      (updateFilter matrixSqrt f t u z).2.aPosterioriCovarianceEstimate_ =
        PPrior - crossCorrelation * inverse innovation * innovation *
          (crossCorrelation * inverse innovation).transpose := by
  obtain ⟨hk1, hord1, hfind1, hmem1⟩ := computeSigmaPoints_map_facts matrixSqrt f
    f.aPosterioriStateEstimate_ f.aPosterioriCovarianceEstimate_ hmap
  have hframe := (updateFilter_frame matrixSqrt f t u z hmap).2.2.2.1
  rcases updateFilter_trace matrixSqrt f t u z with
    ⟨e, c, h⟩ | ⟨e, c, c', xPrior, PPrior, h⟩ |
    ⟨c, c', est, xPrior, PPrior, mest, zPredicted, innovation, crossCorrelation,
      hp, hx, hP, hm, hz, hS, hC, h⟩
  · rw [h] at hok
    cases hok
  · rw [h] at hok
    cases hok
  · obtain ⟨y, hy, hx', hP'⟩ := prediction_averages t u _ hk1 _ _ f.stateEstimationWeights_
      f.covarianceEstimationWeights_ hw hwc est (Prod.ext hp rfl)
    have hxe : xPrior = ∑ i, f.stateEstimationWeights_.getD i.val 0 • y i := by
      rw [hx] at hx'
      exact Except.ok.inj hx'
    rw [← hxe] at hP'
    have hPe := Except.ok.inj (hP.symm.trans hP')
    obtain ⟨hk2, hord2, hfind2, hmem2⟩ := computeSigmaPoints_map_facts matrixSqrt
      { computeSigmaPoints matrixSqrt f f.aPosterioriStateEstimate_
          f.aPosterioriCovarianceEstimate_ with
        mapOfMapOfSigmaPoints_ := mapAssign f.mapOfMapOfSigmaPoints_ t
          (computeSigmaPoints matrixSqrt f f.aPosterioriStateEstimate_
            f.aPosterioriCovarianceEstimate_).mapOfSigmaPoints_
        currentSigmaPoint_ := c } xPrior PPrior (Or.inr hk1)
    obtain ⟨Z, hZ⟩ := measurementLoop_ok_values t _ _ _ [] mest (Prod.ext hm rfl)
    rw [foldl_mapAssign_eq_map _ _ hord2] at hZ
    have hkm : mapKeys mest = List.range (numberOfSigmaPoints n m) := by
      rw [hZ, mapKeys_map_entry, hk2]
    obtain ⟨ζ, hζ⟩ := map_of_keys_range mest _ hkm
    have hze : zPredicted = ∑ i, f.stateEstimationWeights_.getD i.val 0 • ζ i := by
      have h1 := weightedAverageVector_finRange f.stateEstimationWeights_ ζ hw
      rw [← hζ, hz] at h1
      exact Except.ok.inj h1
    have hSe : innovation = ∑ i, Matrix.vecMulVec
        (f.covarianceEstimationWeights_.getD i.val 0 • (ζ i - zPredicted))
        (ζ i - zPredicted) := by
      have h1 := weightedAverageMatrix_finRange f.covarianceEstimationWeights_ zPredicted ζ hwc
      rw [← hζ, hS] at h1
      exact Except.ok.inj h1
    have hCe : crossCorrelation = ∑ i, Matrix.vecMulVec
        (f.covarianceEstimationWeights_.getD i.val 0 • (y i - xPrior)) (ζ i - zPredicted) := by
      have h1 := crossCorrelationLoop_finRange f.covarianceEstimationWeights_ xPrior zPredicted
        y ζ hwc
      rw [← hζ, ← hy, hC] at h1
      exact Except.ok.inj h1
    have hvec : setSegment (setSegment f.augmentedStateVector_ 0 f.aPosterioriStateEstimate_) 0
        xPrior = setSegment f.augmentedStateVector_ 0 xPrior := setSegment_setSegment _ _ _ _
    have hcov : setBlock (setBlock f.augmentedCovarianceMatrix_ 0 0
        f.aPosterioriCovarianceEstimate_) 0 0 PPrior =
        setBlock f.augmentedCovarianceMatrix_ 0 0 PPrior := setBlock_setBlock _ _ _ _ _
    have hreg := computeSigmaPoints_mapOfSigmaPoints matrixSqrt
      { computeSigmaPoints matrixSqrt f f.aPosterioriStateEstimate_
          f.aPosterioriCovarianceEstimate_ with
        mapOfMapOfSigmaPoints_ := mapAssign f.mapOfMapOfSigmaPoints_ t
          (computeSigmaPoints matrixSqrt f f.aPosterioriStateEstimate_
            f.aPosterioriCovarianceEstimate_).mapOfSigmaPoints_
        currentSigmaPoint_ := c } xPrior PPrior (Or.inr hk1)
    have hout : (updateFilter matrixSqrt f t u z).2.mapOfSigmaPoints_ =
        (computeSigmaPoints matrixSqrt
          { computeSigmaPoints matrixSqrt f f.aPosterioriStateEstimate_
              f.aPosterioriCovarianceEstimate_ with
            mapOfMapOfSigmaPoints_ := mapAssign f.mapOfMapOfSigmaPoints_ t
              (computeSigmaPoints matrixSqrt f f.aPosterioriStateEstimate_
                f.aPosterioriCovarianceEstimate_).mapOfSigmaPoints_
            currentSigmaPoint_ := c } xPrior PPrior).mapOfSigmaPoints_ := by
      rw [h]
      rfl
    refine ⟨est, y, ζ, xPrior, PPrior, zPredicted, innovation, crossCorrelation, ?_, hp, hy, ?_,
      hx, hxe, hP, hPe, ?_, ?_, ?_, ?_, hze, hSe, hCe, ?_, ?_⟩
    · rw [hframe, mapFind_mapAssign, if_pos rfl]
    · intro hint i
      obtain ⟨point, hpoint⟩ := hmem1 i
      obtain ⟨value, hvalue, hin⟩ := predictionLoop_point_values t u _
        { computeSigmaPoints matrixSqrt f f.aPosterioriStateEstimate_
            f.aPosterioriCovarianceEstimate_ with
          mapOfMapOfSigmaPoints_ := mapAssign f.mapOfMapOfSigmaPoints_ t
            (computeSigmaPoints matrixSqrt f f.aPosterioriStateEstimate_
              f.aPosterioriCovarianceEstimate_).mapOfSigmaPoints_ } _ est hint hord1 hfind1
        (Prod.ext hp rfl) (i.val, point) hpoint
      refine ⟨point, value, hfind1 _ hpoint, hvalue, ?_⟩
      rw [hy] at hin
      exact (mem_map_finRange y i _ hin).symm
    · rw [h]
      exact hvec
    · rw [h]
      exact hcov
    · rw [hout]
      refine Eq.trans hreg ?_
      show (List.finRange (numberOfSigmaPoints n m)).map (fun i => (i.val,
        sigmaPoint
          (setSegment (setSegment f.augmentedStateVector_ 0 f.aPosterioriStateEstimate_) 0 xPrior)
          (f.constantParameters_ gamma_index)
          (matrixSqrt (setBlock (setBlock f.augmentedCovarianceMatrix_ 0 0
            f.aPosterioriCovarianceEstimate_) 0 0 PPrior)) i)) = _
      rw [hvec, hcov]
    · intro i
      rw [hout]
      obtain ⟨point, hpoint⟩ := hmem2 i
      obtain ⟨value, hvalue, hin⟩ := measurementLoop_point_values t _
        (computeSigmaPoints matrixSqrt
          { computeSigmaPoints matrixSqrt f f.aPosterioriStateEstimate_
              f.aPosterioriCovarianceEstimate_ with
            mapOfMapOfSigmaPoints_ := mapAssign f.mapOfMapOfSigmaPoints_ t
              (computeSigmaPoints matrixSqrt f f.aPosterioriStateEstimate_
                f.aPosterioriCovarianceEstimate_).mapOfSigmaPoints_
            currentSigmaPoint_ := c } xPrior PPrior) _ mest hord2 hfind2
        (Prod.ext hm rfl) (i.val, point) hpoint
      refine ⟨point, value, hfind2 _ hpoint, hvalue, ?_⟩
      rw [hζ] at hin
      exact (mem_map_finRange ζ i _ hin).symm
    · rw [h]
      rfl
    · rw [h]
      rfl

end ReturningCallTheorems

section PositiveSemiDefiniteTheorems

variable {K T : Type} [LinearOrderedField K] [LinearOrder T] {n m : ℕ}

omit [LinearOrder T] in
/-- The quadratic form of an outer product. -/
theorem dotProduct_vecMulVec_mulVec {p q : ℕ} (v a : DependentVector K p)
    (b x : DependentVector K q) :
    Matrix.dotProduct v ((Matrix.vecMulVec a b).mulVec x) =
      Matrix.dotProduct v a * Matrix.dotProduct b x := by
  simp only [Matrix.dotProduct, Matrix.mulVec, Matrix.vecMulVec_apply]
  rw [Finset.sum_mul_sum]
  apply Finset.sum_congr rfl
  intro r _
  rw [Finset.mul_sum]
  apply Finset.sum_congr rfl
  intro c _
  ring

omit [LinearOrder T] in
/-- The bilinear form of a sum of matrices is the sum of the bilinear forms. -/
theorem dotProduct_sum_mulVec {p q N : ℕ} (v : DependentVector K p) (x : DependentVector K q)
    (M : Fin N → DependentMatrix K p q) :
    Matrix.dotProduct v ((∑ i, M i).mulVec x) = ∑ i, Matrix.dotProduct v ((M i).mulVec x) := by
  have h : ∀ s : Finset (Fin N), Matrix.dotProduct v ((∑ i in s, M i).mulVec x) =
      ∑ i in s, Matrix.dotProduct v ((M i).mulVec x) := by
    intro s
    induction s using Finset.induction_on with
    | empty => simp
    | insert hi ih =>
      rw [Finset.sum_insert hi, Finset.sum_insert hi, Matrix.add_mulVec, Matrix.dotProduct_add, ih]
  exact h Finset.univ

omit [LinearOrder T] in
/-- The quadratic form of `P - G * S * G^T`, for the weighted sums `P`, `S` and `C` of outer
products of deviations `d i` and `e i` and a gain `G` with `G * S * G^T = C * G^T`: it is the
weighted sum of the squares of `v . d i - (G^T v) . e i`. -/
theorem posterior_quadratic_form {p q N : ℕ} (wc : Fin N → K) (d : Fin N → DependentVector K p)
    (e : Fin N → DependentVector K q) (G : DependentMatrix K p q)
    (hG : G * (∑ i, Matrix.vecMulVec (wc i • e i) (e i)) * G.transpose =
      (∑ i, Matrix.vecMulVec (wc i • d i) (e i)) * G.transpose)
    (v : DependentVector K p) :
    Matrix.dotProduct v (((∑ i, Matrix.vecMulVec (wc i • d i) (d i)) -
        G * (∑ i, Matrix.vecMulVec (wc i • e i) (e i)) * G.transpose).mulVec v) =
      ∑ i, wc i * (Matrix.dotProduct v (d i) -
        Matrix.dotProduct (G.transpose.mulVec v) (e i)) ^ 2 := by
  have hP : Matrix.dotProduct v ((∑ i, Matrix.vecMulVec (wc i • d i) (d i)).mulVec v) =
      ∑ i, wc i * Matrix.dotProduct v (d i) ^ 2 := by
    rw [dotProduct_sum_mulVec]
    apply Finset.sum_congr rfl
    intro i _
    rw [dotProduct_vecMulVec_mulVec, Matrix.dotProduct_smul, Matrix.dotProduct_comm (d i) v,
      smul_eq_mul]
    ring
  have hC : Matrix.dotProduct v (((∑ i, Matrix.vecMulVec (wc i • d i) (e i)) *
      G.transpose).mulVec v) =
      ∑ i, wc i * (Matrix.dotProduct v (d i) *
        Matrix.dotProduct (G.transpose.mulVec v) (e i)) := by
    rw [← Matrix.mulVec_mulVec, dotProduct_sum_mulVec]
    apply Finset.sum_congr rfl
    intro i _
    rw [dotProduct_vecMulVec_mulVec, Matrix.dotProduct_smul,
      Matrix.dotProduct_comm (e i) (G.transpose.mulVec v), smul_eq_mul]
    ring
  have hS : Matrix.dotProduct v ((G * (∑ i, Matrix.vecMulVec (wc i • e i) (e i)) *
      G.transpose).mulVec v) =
      ∑ i, wc i * Matrix.dotProduct (G.transpose.mulVec v) (e i) ^ 2 := by
    rw [← Matrix.mulVec_mulVec, ← Matrix.mulVec_mulVec, Matrix.dotProduct_mulVec,
      ← Matrix.mulVec_transpose, dotProduct_sum_mulVec]
    apply Finset.sum_congr rfl
    intro i _
    rw [dotProduct_vecMulVec_mulVec, Matrix.dotProduct_smul,
      Matrix.dotProduct_comm (e i) (G.transpose.mulVec v), smul_eq_mul]
    ring
  have hSC : ∑ i, wc i * Matrix.dotProduct (G.transpose.mulVec v) (e i) ^ 2 =
      ∑ i, wc i * (Matrix.dotProduct v (d i) *
        Matrix.dotProduct (G.transpose.mulVec v) (e i)) := by
    rw [← hS, ← hC, hG]
  rw [Matrix.sub_mulVec, Matrix.dotProduct_sub, hP, hS]
  have hexp : ∑ i, wc i * (Matrix.dotProduct v (d i) -
      Matrix.dotProduct (G.transpose.mulVec v) (e i)) ^ 2 =
      ∑ i, wc i * Matrix.dotProduct v (d i) ^ 2 -
        2 * ∑ i, wc i * (Matrix.dotProduct v (d i) *
          Matrix.dotProduct (G.transpose.mulVec v) (e i)) +
        ∑ i, wc i * Matrix.dotProduct (G.transpose.mulVec v) (e i) ^ 2 := by
    rw [Finset.mul_sum, ← Finset.sum_sub_distrib, ← Finset.sum_add_distrib]
    apply Finset.sum_congr rfl
    intro i _
    ring
  rw [hexp, ← hSC]
  ring

omit [LinearOrder T] in
/-- The inverse of an invertible innovation matrix gives the gain `G = C * inverse S` with
`G * S * G^T = C * G^T`. -/
theorem gain_mul_invertible_innovation {p q : ℕ} (C : DependentMatrix K p q)
    (S : DependentMatrix K q q) (hS : IsUnit S.det) :
    C * inverse S * S * (C * inverse S).transpose = C * (C * inverse S).transpose := by
  have hdet : S.det ≠ 0 := hS.ne_zero
  have hone : inverse S * S = 1 := by
    unfold inverse
    rw [Matrix.smul_mul, Matrix.adjugate_mul, smul_smul, inv_mul_cancel₀ hdet, one_smul]
  rw [Matrix.mul_assoc C, hone, Matrix.mul_one]

omit [LinearOrder T] in
/-- The sum of squares of `2 L` numbers is at least their squared sum over `2 L`. -/
theorem sq_sum_two_families (L : ℕ) (a b : Fin L → K) :
    (∑ j, a j + ∑ j, b j) ^ 2 ≤ 2 * (L : K) * (∑ j, a j ^ 2 + ∑ j, b j ^ 2) := by
  have ha : (∑ j, a j) ^ 2 ≤ (L : K) * ∑ j, a j ^ 2 := by
    have h := sq_sum_le_card_mul_sum_sq (s := (Finset.univ : Finset (Fin L))) (f := a)
    simpa using h
  have hb : (∑ j, b j) ^ 2 ≤ (L : K) * ∑ j, b j ^ 2 := by
    have h := sq_sum_le_card_mul_sum_sq (s := (Finset.univ : Finset (Fin L))) (f := b)
    simpa using h
  nlinarith [sq_nonneg (∑ j, a j - ∑ j, b j)]

omit [LinearOrder T] in
/-- The covariance-weighted sum of squares of numbers whose mean-weighted sum vanishes is not
negative, for the weights `w0, c, ..., c` and `w0 + δ, c, ..., c` with `c > 0`,
`w0 + 2 L c = 1` and `w0 + δ (1 - w0) >= 0`. -/
theorem weighted_squares_nonneg (L : ℕ) (w0 c δ W0 : K) (a b : Fin L → K) (hc : 0 < c)
    (hone : w0 + 2 * (L : K) * c = 1) (hδ : 0 ≤ w0 + δ * (1 - w0))
    (hsum : w0 * W0 + c * (∑ j, a j + ∑ j, b j) = 0) :
    0 ≤ (w0 + δ) * W0 ^ 2 + c * (∑ j, a j ^ 2 + ∑ j, b j ^ 2) := by
  have hcs := sq_sum_two_families L a b
  have hQ : 0 ≤ ∑ j, a j ^ 2 + ∑ j, b j ^ 2 :=
    add_nonneg (Finset.sum_nonneg fun j _ => sq_nonneg _) (Finset.sum_nonneg fun j _ => sq_nonneg _)
  rcases Nat.eq_zero_or_pos L with hL | hL
  · subst hL
    have hw0 : w0 = 1 := by simpa using hone
    have hW0 : W0 = 0 := by
      subst hw0
      simpa using hsum
    subst hW0
    simp
  · have hLpos : (0 : K) < (L : K) := by exact_mod_cast hL
    have h2Lc : 0 < 2 * (L : K) * c := by positivity
    have hT : c * (∑ j, a j + ∑ j, b j) = -(w0 * W0) := by linarith
    have hkey : 2 * (L : K) * c * ((w0 + δ) * W0 ^ 2 + c * (∑ j, a j ^ 2 + ∑ j, b j ^ 2)) ≥
        (w0 + δ * (1 - w0)) * W0 ^ 2 := by
      have h1 : (c * (∑ j, a j + ∑ j, b j)) ^ 2 ≤
          c ^ 2 * (2 * (L : K) * (∑ j, a j ^ 2 + ∑ j, b j ^ 2)) := by
        rw [mul_pow]
        exact mul_le_mul_of_nonneg_left hcs (sq_nonneg c)
      rw [hT] at h1
      have h2 : 2 * (L : K) * c = 1 - w0 := by linarith
      have h3 : 2 * (L : K) * c * ((w0 + δ) * W0 ^ 2 + c * (∑ j, a j ^ 2 + ∑ j, b j ^ 2)) =
          (1 - w0) * (w0 + δ) * W0 ^ 2 +
            c ^ 2 * (2 * (L : K) * (∑ j, a j ^ 2 + ∑ j, b j ^ 2)) := by
        rw [← h2]
        ring
      rw [h3]
      nlinarith
    have hnn : 0 ≤ 2 * (L : K) * c * ((w0 + δ) * W0 ^ 2 +
        c * (∑ j, a j ^ 2 + ∑ j, b j ^ 2)) :=
      le_trans (mul_nonneg hδ (sq_nonneg W0)) hkey
    exact nonneg_of_mul_nonneg_right hnn h2Lc

end PositiveSemiDefiniteTheorems

section PosteriorCovarianceTheorems

variable {K T : Type} [LinearOrderedField K] [LinearOrder T] {n m : ℕ}

omit [LinearOrder T] in
/-- The dot product with a sum of vectors is the sum of the dot products. -/
theorem dotProduct_sum_right {p N : ℕ} (v : DependentVector K p)
    (x : Fin N → DependentVector K p) :
    Matrix.dotProduct v (∑ i, x i) = ∑ i, Matrix.dotProduct v (x i) := by
  have h : ∀ s : Finset (Fin N), Matrix.dotProduct v (∑ i in s, x i) =
      ∑ i in s, Matrix.dotProduct v (x i) := by
    intro s
    induction s using Finset.induction_on with
    | empty => simp
    | insert hi ih => rw [Finset.sum_insert hi, Finset.sum_insert hi, Matrix.dotProduct_add, ih]
  exact h Finset.univ

omit [LinearOrder T] in
/-- A sum over the sigma indices weighted by `w0, c, ..., c`. -/
theorem sum_weights_mul (w0 c : K) (Φ : Fin (numberOfSigmaPoints n m) → K) :
    ∑ i, (w0 :: List.replicate (2 * augmentedStateDimension n m) c).getD i.val 0 * Φ i =
      w0 * Φ ⟨0, by unfold numberOfSigmaPoints; omega⟩ +
      c * (∑ j : Fin (augmentedStateDimension n m),
          Φ ⟨j.val + 1, by have := j.isLt; unfold numberOfSigmaPoints; omega⟩ +
        ∑ j : Fin (augmentedStateDimension n m),
          Φ ⟨augmentedStateDimension n m + j.val + 1, by
            have := j.isLt; unfold numberOfSigmaPoints; omega⟩) := by
  rw [sum_sigma_indices]
  have h0 : (w0 :: List.replicate (2 * augmentedStateDimension n m) c).getD 0 0 = w0 := rfl
  have h1 : ∀ j : Fin (augmentedStateDimension n m),
      (w0 :: List.replicate (2 * augmentedStateDimension n m) c).getD (j.val + 1) 0 = c := by
    intro j
    rw [getD_weights _ _ _ _ (by have := j.isLt; omega)]
    simp
  have h2 : ∀ j : Fin (augmentedStateDimension n m),
      (w0 :: List.replicate (2 * augmentedStateDimension n m) c).getD
        (augmentedStateDimension n m + j.val + 1) 0 = c := by
    intro j
    rw [getD_weights _ _ _ _ (by have := j.isLt; omega)]
    simp
  simp only [h0, h1, h2, Finset.mul_sum, mul_add]
  ring

omit [LinearOrder T] in
/-- The correction of an a-priori covariance `P-` to `P- - G S G^T`, with `P-`, the
innovation `S` and the cross-correlation `C` the weighted sums over the sigma indices of an
`updateFilter` call and a gain `G = C * inverse S` with `G * S * G^T = C * G^T`, is positive
semi-definite when `L + lambda > 0` and `L (1 - alpha^2 + beta) + lambda >= 0`, for weights
generated by `generateEstimationWeights`. -/
theorem corrected_covariance_positive_semi_definite
    (f : UnscentedKalmanFilter n m K T)
    (y : Fin (numberOfSigmaPoints n m) → DependentVector K n)
    (ζ : Fin (numberOfSigmaPoints n m) → DependentVector K m)
    (xPrior : DependentVector K n) (PPrior : DependentMatrix K n n)
    (zPredicted : DependentVector K m) (innovation : DependentMatrix K m m)
    (crossCorrelation : DependentMatrix K n m)
    (hw : f.stateEstimationWeights_ = (generateEstimationWeights n m f.constantParameters_ []).1)
    (hwc : f.covarianceEstimationWeights_ =
      (generateEstimationWeights n m f.constantParameters_ []).2)
    (hpos : 0 < (augmentedStateDimension n m : K) + f.constantParameters_ lambda_index)
    (hcond : 0 ≤ (augmentedStateDimension n m : K) *
        (1 - f.constantParameters_ alpha_index * f.constantParameters_ alpha_index +
          f.constantParameters_ beta_index) + f.constantParameters_ lambda_index)
    (hx : xPrior = ∑ i, f.stateEstimationWeights_.getD i.val 0 • y i)
    (hP : PPrior = ∑ i, Matrix.vecMulVec
      (f.covarianceEstimationWeights_.getD i.val 0 • (y i - xPrior)) (y i - xPrior))
    (hz : zPredicted = ∑ i, f.stateEstimationWeights_.getD i.val 0 • ζ i)
    (hS : innovation = ∑ i, Matrix.vecMulVec
      (f.covarianceEstimationWeights_.getD i.val 0 • (ζ i - zPredicted)) (ζ i - zPredicted))
    (hC : crossCorrelation = ∑ i, Matrix.vecMulVec
      (f.covarianceEstimationWeights_.getD i.val 0 • (y i - xPrior)) (ζ i - zPredicted))
    (hG : crossCorrelation * inverse innovation * innovation *
        (crossCorrelation * inverse innovation).transpose =
      crossCorrelation * (crossCorrelation * inverse innovation).transpose) :
    IsPositiveSemiDefinite (PPrior - crossCorrelation * inverse innovation * innovation *
      (crossCorrelation * inverse innovation).transpose) := by
  rw [hw, generateEstimationWeights_fst] at hx hz
  rw [hwc, generateEstimationWeights_snd] at hP hS hC
  generalize hw0 : f.constantParameters_ lambda_index /
    ((augmentedStateDimension n m : K) + f.constantParameters_ lambda_index) = w0 at hx hz hP hS hC
  generalize hc : 1 / (2 * ((augmentedStateDimension n m : K) +
    f.constantParameters_ lambda_index)) = c at hx hz hP hS hC
  generalize hδ : 1 - f.constantParameters_ alpha_index * f.constantParameters_ alpha_index +
    f.constantParameters_ beta_index = δ at hP hS hC hcond
  have hne : (augmentedStateDimension n m : K) + f.constantParameters_ lambda_index ≠ 0 :=
    hpos.ne'
  have hcpos : 0 < c := by
    rw [← hc]
    positivity
  have hone : w0 + 2 * (augmentedStateDimension n m : K) * c = 1 := by
    rw [← hw0, ← hc]
    field_simp
    ring
  have hdelta : 0 ≤ w0 + δ * (1 - w0) := by
    have h1 : w0 + δ * (1 - w0) = ((augmentedStateDimension n m : K) * δ +
        f.constantParameters_ lambda_index) /
        ((augmentedStateDimension n m : K) + f.constantParameters_ lambda_index) := by
      rw [← hw0]
      field_simp
      ring
    rw [h1]
    exact div_nonneg hcond hpos.le
  have hsumw : ∑ i : Fin (numberOfSigmaPoints n m),
      (w0 :: List.replicate (2 * augmentedStateDimension n m) c).getD i.val 0 = 1 := by
    have h := sum_weights_mul (n := n) (m := m) w0 c (fun _ => 1)
    simp only [mul_one, Finset.sum_const, Finset.card_univ, Fintype.card_fin, nsmul_eq_mul] at h
    rw [h]
    linarith
  have hPs : PPrior.IsSymm := by
    rw [hP]
    ext r s
    simp only [Matrix.transpose_apply, Matrix.sum_apply, Matrix.vecMulVec_apply, Pi.smul_apply,
      Pi.sub_apply, smul_eq_mul]
    apply Finset.sum_congr rfl
    intro i _
    ring
  have hSs : innovation.IsSymm := by
    rw [hS]
    ext r s
    simp only [Matrix.transpose_apply, Matrix.sum_apply, Matrix.vecMulVec_apply, Pi.smul_apply,
      Pi.sub_apply, smul_eq_mul]
    apply Finset.sum_congr rfl
    intro i _
    ring
  refine ⟨Matrix.IsSymm.sub hPs (isSymm_mul_mul_transpose _ innovation hSs), ?_⟩
  intro v
  have hform := posterior_quadratic_form
    (fun i : Fin (numberOfSigmaPoints n m) =>
      ((w0 + δ) :: List.replicate (2 * augmentedStateDimension n m) c).getD i.val 0)
    (fun i => y i - xPrior) (fun i => ζ i - zPredicted) (crossCorrelation * inverse innovation)
    (by rw [← hS, ← hC]; exact hG) v
  rw [← hP, ← hS] at hform
  rw [hform]
  generalize (crossCorrelation * inverse innovation).transpose.mulVec v = g
  have hmean : ∑ i : Fin (numberOfSigmaPoints n m),
      (w0 :: List.replicate (2 * augmentedStateDimension n m) c).getD i.val 0 *
        (Matrix.dotProduct v (y i - xPrior) - Matrix.dotProduct g (ζ i - zPredicted)) = 0 := by
    have h1 : ∑ i : Fin (numberOfSigmaPoints n m),
        (w0 :: List.replicate (2 * augmentedStateDimension n m) c).getD i.val 0 *
          Matrix.dotProduct v (y i - xPrior) = 0 := by
      have h2 : ∑ i : Fin (numberOfSigmaPoints n m),
          (w0 :: List.replicate (2 * augmentedStateDimension n m) c).getD i.val 0 *
            Matrix.dotProduct v (y i - xPrior) =
          Matrix.dotProduct v (∑ i : Fin (numberOfSigmaPoints n m),
            (w0 :: List.replicate (2 * augmentedStateDimension n m) c).getD i.val 0 • y i) -
          (∑ i : Fin (numberOfSigmaPoints n m),
            (w0 :: List.replicate (2 * augmentedStateDimension n m) c).getD i.val 0) *
            Matrix.dotProduct v xPrior := by
        rw [dotProduct_sum_right, Finset.sum_mul, ← Finset.sum_sub_distrib]
        apply Finset.sum_congr rfl
        intro i _
        rw [Matrix.dotProduct_sub, Matrix.dotProduct_smul, smul_eq_mul]
        ring
      rw [h2, ← hx, hsumw]
      ring
    have h3 : ∑ i : Fin (numberOfSigmaPoints n m),
        (w0 :: List.replicate (2 * augmentedStateDimension n m) c).getD i.val 0 *
          Matrix.dotProduct g (ζ i - zPredicted) = 0 := by
      have h2 : ∑ i : Fin (numberOfSigmaPoints n m),
          (w0 :: List.replicate (2 * augmentedStateDimension n m) c).getD i.val 0 *
            Matrix.dotProduct g (ζ i - zPredicted) =
          Matrix.dotProduct g (∑ i : Fin (numberOfSigmaPoints n m),
            (w0 :: List.replicate (2 * augmentedStateDimension n m) c).getD i.val 0 • ζ i) -
          (∑ i : Fin (numberOfSigmaPoints n m),
            (w0 :: List.replicate (2 * augmentedStateDimension n m) c).getD i.val 0) *
            Matrix.dotProduct g zPredicted := by
        rw [dotProduct_sum_right, Finset.sum_mul, ← Finset.sum_sub_distrib]
        apply Finset.sum_congr rfl
        intro i _
        rw [Matrix.dotProduct_sub, Matrix.dotProduct_smul, smul_eq_mul]
        ring
      rw [h2, ← hz, hsumw]
      ring
    simp only [mul_sub, Finset.sum_sub_distrib, h1, h3, sub_zero]
  rw [sum_weights_mul] at hmean
  rw [sum_weights_mul (n := n) (m := m) (w0 + δ) c
    (fun i => (Matrix.dotProduct v (y i - xPrior) - Matrix.dotProduct g (ζ i - zPredicted)) ^ 2)]
  exact weighted_squares_nonneg (augmentedStateDimension n m) w0 c δ _ _ _ hcpos hone hdelta hmean

end PosteriorCovarianceTheorems

section StretchedScenarioTheorems

/-- The constant parameters of the stretched scenario are those set by
`setConstantParameterValues` in custom mode with alpha = 2 and kappa = -11/4. -/
theorem stretchedParameters_set :
    setConstantParameterValues 1 1 (0 : ℚ) Rat.sqrt initialConstantParameters
      custom_parameters (2, -11 / 4) = .ok stretchedParameters := by
  have h1 : (((2 : ℚ), (-11 / 4 : ℚ)).1 == (0 : ℚ) || ((2 : ℚ), (-11 / 4 : ℚ)).2 == (0 : ℚ)) =
      false := by norm_num
  have hs : Rat.sqrt 1 = 1 := by
    rw [show (1 : ℚ) = 1 * 1 by norm_num, Rat.sqrt_eq]
    norm_num
  simp only [setConstantParameterValues, setAlphaAndKappa, h1]
  simp only [Bool.false_eq_true, if_false]
  congr 1
  funext i
  cases i <;> simp [Function.update, stretchedParameters, augmentedStateDimension,
    initialConstantParameters] <;> norm_num [hs]

/-- The stretched scenario object is the one the constructor returns. -/
theorem stretchedFilter_created :
    UnscentedKalmanFilter.create (0 : ℚ) Rat.sqrt quadraticSystemFunction
      quadraticMeasurementFunction !![16] !![1] (0 : ℚ) ![0] !![1] none
      custom_parameters (2, -11 / 4) = .ok stretchedFilter := by
  unfold UnscentedKalmanFilter.create
  simp only [stretchedParameters_set]
  unfold stretchedFilter
  congr 2
  · simp [generateEstimationWeights, pushBackLoop_eq, numberOfSigmaPoints,
      augmentedStateDimension, stretchedParameters, List.replicate]
    norm_num
  · simp [generateEstimationWeights, pushBackLoop_eq, numberOfSigmaPoints,
      augmentedStateDimension, stretchedParameters, List.replicate]
    norm_num
  · apply vec3_ext <;> simp
  · ext i j
    fin_cases i <;> fin_cases j <;> simp [setBlock]

/-- The sigma points of the stretched scenario around a state `x` with covariance `a * a`,
the noise blocks of the augmented covariance being 16 and 1. -/
theorem stretched_sigma_points (x p a : ℚ) (ha : 0 ≤ a) (hp : p = a * a)
    (f : UnscentedKalmanFilter 1 1 ℚ ℚ)
    (hmap : f.mapOfSigmaPoints_ = [] ∨
      mapKeys f.mapOfSigmaPoints_ = List.range (numberOfSigmaPoints 1 1))
    (hvec : ∀ i : Fin 3, i ≠ 0 → f.augmentedStateVector_ i = 0)
    (hcov : ∀ i j : Fin 3, (i ≠ 0 ∨ j ≠ 0) →
      f.augmentedCovarianceMatrix_ i j = (!![0, 0, 0; 0, 16, 0; 0, 0, 1] : Matrix _ _ ℚ) i j)
    (hgamma : f.constantParameters_ gamma_index = 1) :
    (computeSigmaPoints diagonalSqrt f ![x] !![p]).mapOfSigmaPoints_ =
      [(0, ![x, 0, 0]), (1, ![x + a, 0, 0]), (2, ![x, 4, 0]), (3, ![x, 0, 1]),
        (4, ![x - a, 0, 0]), (5, ![x, -4, 0]), (6, ![x, 0, -1])] := by
  have haug : (computeSigmaPoints diagonalSqrt f ![x] !![p]).augmentedStateVector_
      = ![x, 0, 0] := by
    funext i
    fin_cases i
    · simp [computeSigmaPoints, setSegment]
    · simpa [computeSigmaPoints, setSegment] using hvec 1 (by decide)
    · simpa [computeSigmaPoints, setSegment] using hvec 2 (by decide)
  have hc : (computeSigmaPoints diagonalSqrt f ![x] !![p]).augmentedCovarianceMatrix_
      = !![a * a, 0, 0; 0, 4 * 4, 0; 0, 0, 1 * 1] := by
    ext i j
    fin_cases i <;> fin_cases j
    · simp [computeSigmaPoints, setBlock, hp]
    · simpa [computeSigmaPoints, setBlock] using hcov 0 1 (by decide)
    · simpa [computeSigmaPoints, setBlock] using hcov 0 2 (by decide)
    · simpa [computeSigmaPoints, setBlock] using hcov 1 0 (by decide)
    · have := hcov 1 1 (by decide)
      simp [computeSigmaPoints, setBlock] at this ⊢
      rw [this]; norm_num
    · simpa [computeSigmaPoints, setBlock] using hcov 1 2 (by decide)
    · simpa [computeSigmaPoints, setBlock] using hcov 2 0 (by decide)
    · simpa [computeSigmaPoints, setBlock] using hcov 2 1 (by decide)
    · simpa [computeSigmaPoints, setBlock] using hcov 2 2 (by decide)
  rw [computeSigmaPoints_mapOfSigmaPoints _ _ _ _ hmap, haug, hc,
    diagonalSqrt_diagonal a 4 1 ha (by norm_num) (by norm_num),
    finRange_numberOfSigmaPoints_one_one, hgamma]
  simp only [List.map_cons, List.map_nil]
  refine congrArg₂ _ (congrArg _ ?_) (congrArg₂ _ (congrArg _ ?_) (congrArg₂ _ (congrArg _ ?_)
    (congrArg₂ _ (congrArg _ ?_) (congrArg₂ _ (congrArg _ ?_) (congrArg₂ _ (congrArg _ ?_)
    (congrArg₂ _ (congrArg _ ?_) rfl))))))
  all_goals
    apply vec3_ext <;> simp [sigmaPoint, augmentedStateDimension] <;> rfl

/-- The mean-weighted average of seven scalar estimates. -/
theorem seven_weighted_average_vector (w0 w1 w2 w3 w4 w5 w6 a0 a1 a2 a3 a4 a5 a6 : ℚ) :
    computeWeightedAverageFromSigmaPointEstimatesVector [w0, w1, w2, w3, w4, w5, w6]
      [(0, ![a0]), (1, ![a1]), (2, ![a2]), (3, ![a3]), (4, ![a4]), (5, ![a5]), (6, ![a6])] 0 =
      .ok ![w0 * a0 + w1 * a1 + w2 * a2 + w3 * a3 + w4 * a4 + w5 * a5 + w6 * a6] := by
  simp only [computeWeightedAverageFromSigmaPointEstimatesVector]
  simp

/-- The covariance-weighted average of seven scalar estimates. -/
theorem seven_weighted_average_matrix (w0 w1 w2 w3 w4 w5 w6 r a0 a1 a2 a3 a4 a5 a6 : ℚ) :
    computeWeightedAverageFromSigmaPointEstimatesMatrix [w0, w1, w2, w3, w4, w5, w6] ![r]
      [(0, ![a0]), (1, ![a1]), (2, ![a2]), (3, ![a3]), (4, ![a4]), (5, ![a5]), (6, ![a6])] 0 =
      .ok !![w0 * (a0 - r) * (a0 - r) + w1 * (a1 - r) * (a1 - r) + w2 * (a2 - r) * (a2 - r) +
        w3 * (a3 - r) * (a3 - r) + w4 * (a4 - r) * (a4 - r) + w5 * (a5 - r) * (a5 - r) +
        w6 * (a6 - r) * (a6 - r)] := by
  simp only [computeWeightedAverageFromSigmaPointEstimatesMatrix]
  simp
  apply mat1_ext
  simp [Matrix.vecMulVec_apply]

/-- The cross-correlation of seven scalar state and measurement estimates. -/
theorem seven_cross_correlation
    (w0 w1 w2 w3 w4 w5 w6 r s a0 a1 a2 a3 a4 a5 a6 b0 b1 b2 b3 b4 b5 b6 : ℚ) :
    crossCorrelationLoop [w0, w1, w2, w3, w4, w5, w6] ![r]
      [(0, ![b0]), (1, ![b1]), (2, ![b2]), (3, ![b3]), (4, ![b4]), (5, ![b5]), (6, ![b6])] ![s]
      [(0, ![a0]), (1, ![a1]), (2, ![a2]), (3, ![a3]), (4, ![a4]), (5, ![a5]), (6, ![a6])] 0 =
      .ok !![w0 * (a0 - r) * (b0 - s) + w1 * (a1 - r) * (b1 - s) + w2 * (a2 - r) * (b2 - s) +
        w3 * (a3 - r) * (b3 - s) + w4 * (a4 - r) * (b4 - s) + w5 * (a5 - r) * (b5 - s) +
        w6 * (a6 - r) * (b6 - s)] := by
  simp only [crossCorrelationLoop]
  simp [mapFind]
  apply mat1_ext
  simp [Matrix.vecMulVec_apply]

/-- The sigma points generated from the a-posteriori estimate in the call
`updateFilter( 1, [], [0] )` on the stretched scenario object. -/
theorem stretched_first_sigma_points :
    (computeSigmaPoints diagonalSqrt stretchedFilter stretchedFilter.aPosterioriStateEstimate_
      stretchedFilter.aPosterioriCovarianceEstimate_).mapOfSigmaPoints_ =
      [(0, ![0, 0, 0]), (1, ![0 + 1, 0, 0]), (2, ![0, 4, 0]), (3, ![0, 0, 1]),
        (4, ![0 - 1, 0, 0]), (5, ![0, -4, 0]), (6, ![0, 0, -1])] :=
  stretched_sigma_points 0 1 1 (by norm_num) (by norm_num) stretchedFilter (Or.inl rfl)
    (by intro i hi; fin_cases i <;> simp_all [stretchedFilter])
    (by intro i j _; rfl) rfl

/-- The prediction loop of the call `updateFilter( 1, [], [0] )` on the stretched scenario
object. -/
theorem stretched_prediction :
    predictionLoop (1 : ℚ) []
      (computeSigmaPoints diagonalSqrt stretchedFilter stretchedFilter.aPosterioriStateEstimate_
        stretchedFilter.aPosterioriCovarianceEstimate_).mapOfSigmaPoints_
      { computeSigmaPoints diagonalSqrt stretchedFilter stretchedFilter.aPosterioriStateEstimate_
          stretchedFilter.aPosterioriCovarianceEstimate_ with
        mapOfMapOfSigmaPoints_ := mapAssign stretchedFilter.mapOfMapOfSigmaPoints_ 1
          (computeSigmaPoints diagonalSqrt stretchedFilter
            stretchedFilter.aPosterioriStateEstimate_
            stretchedFilter.aPosterioriCovarianceEstimate_).mapOfSigmaPoints_ } [] =
      (.ok [(0, ![3]), (1, ![3]), (2, ![7]), (3, ![3]), (4, ![-3]), (5, ![-1]), (6, ![3])],
        { computeSigmaPoints diagonalSqrt stretchedFilter
            stretchedFilter.aPosterioriStateEstimate_
            stretchedFilter.aPosterioriCovarianceEstimate_ with
          mapOfMapOfSigmaPoints_ := mapAssign stretchedFilter.mapOfMapOfSigmaPoints_ 1
            (computeSigmaPoints diagonalSqrt stretchedFilter
              stretchedFilter.aPosterioriStateEstimate_
              stretchedFilter.aPosterioriCovarianceEstimate_).mapOfSigmaPoints_
          currentSigmaPoint_ := 6 }) := by
  have hl1 := stretched_first_sigma_points
  have h6 : ∀ c0 : ℕ, List.foldl (fun _ (e : ℕ × DependentVector ℚ (augmentedStateDimension 1 1))
      => e.1) c0 (computeSigmaPoints diagonalSqrt stretchedFilter
        stretchedFilter.aPosterioriStateEstimate_
        stretchedFilter.aPosterioriCovarianceEstimate_).mapOfSigmaPoints_ = 6 := by
    intro c0
    rw [hl1]
    rfl
  have hest : List.foldl (fun acc (e : ℕ × DependentVector ℚ (augmentedStateDimension 1 1)) =>
        mapAssign acc e.1
          ((fun x : DependentVector ℚ 1 => (![3 * x 0 + 3 - 3 * (x 0 * x 0)] : DependentVector ℚ 1))
              (segment e.2 0 1 (by unfold augmentedStateDimension; omega)) +
            segment e.2 1 1 (by unfold augmentedStateDimension; omega))) []
      (computeSigmaPoints diagonalSqrt stretchedFilter stretchedFilter.aPosterioriStateEstimate_
        stretchedFilter.aPosterioriCovarianceEstimate_).mapOfSigmaPoints_ =
      [(0, ![3]), (1, ![3]), (2, ![7]), (3, ![3]), (4, ![-3]), (5, ![-1]), (6, ![3])] := by
    rw [hl1]
    simp only [List.foldl_cons, List.foldl_nil]
    simp [mapAssign]
    repeat' apply And.intro
    all_goals
      apply vec1_ext
      simp [segment, Matrix.vecHead]
      try norm_num
  rw [predictionLoop_eq_ok (1 : ℚ) []
    (fun x : DependentVector ℚ 1 => (![3 * x 0 + 3 - 3 * (x 0 * x 0)] : DependentVector ℚ 1))
    _ _ [] rfl (fun x => rfl)
    (by
      apply mapFind_of_mem
      show mapOrdered (computeSigmaPoints diagonalSqrt stretchedFilter
        stretchedFilter.aPosterioriStateEstimate_
        stretchedFilter.aPosterioriCovarianceEstimate_).mapOfSigmaPoints_
      rw [hl1]
      simp [mapOrdered, mapKeys])]
  refine Prod.ext ?_ ?_
  · exact congrArg Except.ok hest
  · simp only [h6]

/-- The sigma points regenerated around the a-priori estimate `x = 0`, `P = 16` in the call
`updateFilter( 1, [], [0] )` on the stretched scenario object. -/
theorem stretched_second_sigma_points :
    (computeSigmaPoints diagonalSqrt
      { computeSigmaPoints diagonalSqrt stretchedFilter stretchedFilter.aPosterioriStateEstimate_
          stretchedFilter.aPosterioriCovarianceEstimate_ with
        mapOfMapOfSigmaPoints_ := mapAssign stretchedFilter.mapOfMapOfSigmaPoints_ 1
          (computeSigmaPoints diagonalSqrt stretchedFilter
            stretchedFilter.aPosterioriStateEstimate_
            stretchedFilter.aPosterioriCovarianceEstimate_).mapOfSigmaPoints_
        currentSigmaPoint_ := 6 } ![0] !![16]).mapOfSigmaPoints_ =
      [(0, ![0, 0, 0]), (1, ![0 + 4, 0, 0]), (2, ![0, 4, 0]), (3, ![0, 0, 1]),
        (4, ![0 - 4, 0, 0]), (5, ![0, -4, 0]), (6, ![0, 0, -1])] :=
  stretched_sigma_points 0 16 4 (by norm_num) (by norm_num)
    { computeSigmaPoints diagonalSqrt stretchedFilter stretchedFilter.aPosterioriStateEstimate_
        stretchedFilter.aPosterioriCovarianceEstimate_ with
      mapOfMapOfSigmaPoints_ := mapAssign stretchedFilter.mapOfMapOfSigmaPoints_ 1
        (computeSigmaPoints diagonalSqrt stretchedFilter
          stretchedFilter.aPosterioriStateEstimate_
          stretchedFilter.aPosterioriCovarianceEstimate_).mapOfSigmaPoints_
      currentSigmaPoint_ := 6 }
    (Or.inr (by
      show mapKeys (computeSigmaPoints diagonalSqrt stretchedFilter
        stretchedFilter.aPosterioriStateEstimate_
        stretchedFilter.aPosterioriCovarianceEstimate_).mapOfSigmaPoints_ = _
      rw [stretched_first_sigma_points]
      decide))
    (by
      intro i hi
      fin_cases i <;> simp_all [computeSigmaPoints, setSegment, stretchedFilter])
    (by
      intro i j hij
      fin_cases i <;> fin_cases j <;>
        simp_all [computeSigmaPoints, setBlock, stretchedFilter])
    rfl

/-- The measurement loop of the call `updateFilter( 1, [], [0] )` on the stretched scenario
object. -/
theorem stretched_measurement :
    measurementLoop (1 : ℚ)
      (computeSigmaPoints diagonalSqrt
        { computeSigmaPoints diagonalSqrt stretchedFilter
            stretchedFilter.aPosterioriStateEstimate_
            stretchedFilter.aPosterioriCovarianceEstimate_ with
          mapOfMapOfSigmaPoints_ := mapAssign stretchedFilter.mapOfMapOfSigmaPoints_ 1
            (computeSigmaPoints diagonalSqrt stretchedFilter
              stretchedFilter.aPosterioriStateEstimate_
              stretchedFilter.aPosterioriCovarianceEstimate_).mapOfSigmaPoints_
          currentSigmaPoint_ := 6 } ![0] !![16]).mapOfSigmaPoints_
      (computeSigmaPoints diagonalSqrt
        { computeSigmaPoints diagonalSqrt stretchedFilter
            stretchedFilter.aPosterioriStateEstimate_
            stretchedFilter.aPosterioriCovarianceEstimate_ with
          mapOfMapOfSigmaPoints_ := mapAssign stretchedFilter.mapOfMapOfSigmaPoints_ 1
            (computeSigmaPoints diagonalSqrt stretchedFilter
              stretchedFilter.aPosterioriStateEstimate_
              stretchedFilter.aPosterioriCovarianceEstimate_).mapOfSigmaPoints_
          currentSigmaPoint_ := 6 } ![0] !![16]) [] =
      (.ok [(0, ![-3]), (1, ![4]), (2, ![-3]), (3, ![-2]), (4, ![-4]), (5, ![-3]), (6, ![-4])],
        { computeSigmaPoints diagonalSqrt
            { computeSigmaPoints diagonalSqrt stretchedFilter
                stretchedFilter.aPosterioriStateEstimate_
                stretchedFilter.aPosterioriCovarianceEstimate_ with
              mapOfMapOfSigmaPoints_ := mapAssign stretchedFilter.mapOfMapOfSigmaPoints_ 1
                (computeSigmaPoints diagonalSqrt stretchedFilter
                  stretchedFilter.aPosterioriStateEstimate_
                  stretchedFilter.aPosterioriCovarianceEstimate_).mapOfSigmaPoints_
              currentSigmaPoint_ := 6 } ![0] !![16] with
          currentSigmaPoint_ := 6 }) := by
  have hl2 := stretched_second_sigma_points
  have h6 : ∀ c0 : ℕ, List.foldl (fun _ (e : ℕ × DependentVector ℚ (augmentedStateDimension 1 1))
      => e.1) c0 (computeSigmaPoints diagonalSqrt
        { computeSigmaPoints diagonalSqrt stretchedFilter
            stretchedFilter.aPosterioriStateEstimate_
            stretchedFilter.aPosterioriCovarianceEstimate_ with
          mapOfMapOfSigmaPoints_ := mapAssign stretchedFilter.mapOfMapOfSigmaPoints_ 1
            (computeSigmaPoints diagonalSqrt stretchedFilter
              stretchedFilter.aPosterioriStateEstimate_
              stretchedFilter.aPosterioriCovarianceEstimate_).mapOfSigmaPoints_
          currentSigmaPoint_ := 6 } ![0] !![16]).mapOfSigmaPoints_ = 6 := by
    intro c0
    rw [hl2]
    rfl
  have hest : List.foldl (fun acc (e : ℕ × DependentVector ℚ (augmentedStateDimension 1 1)) =>
        mapAssign acc e.1
          ((fun x : DependentVector ℚ 1 =>
                (![x 0 - 3 + 3 / 16 * (x 0 * x 0)] : DependentVector ℚ 1))
              (segment e.2 0 1 (by unfold augmentedStateDimension; omega)) +
            segment e.2 (2 * 1) 1 (by unfold augmentedStateDimension; omega))) []
      (computeSigmaPoints diagonalSqrt
        { computeSigmaPoints diagonalSqrt stretchedFilter
            stretchedFilter.aPosterioriStateEstimate_
            stretchedFilter.aPosterioriCovarianceEstimate_ with
          mapOfMapOfSigmaPoints_ := mapAssign stretchedFilter.mapOfMapOfSigmaPoints_ 1
            (computeSigmaPoints diagonalSqrt stretchedFilter
              stretchedFilter.aPosterioriStateEstimate_
              stretchedFilter.aPosterioriCovarianceEstimate_).mapOfSigmaPoints_
          currentSigmaPoint_ := 6 } ![0] !![16]).mapOfSigmaPoints_ =
      [(0, ![-3]), (1, ![4]), (2, ![-3]), (3, ![-2]), (4, ![-4]), (5, ![-3]), (6, ![-4])] := by
    rw [hl2]
    simp only [List.foldl_cons, List.foldl_nil]
    simp [mapAssign]
    repeat' apply And.intro
    all_goals
      apply vec1_ext
      simp [segment, Matrix.vecHead]
      try norm_num
  rw [measurementLoop_eq_ok (1 : ℚ)
    (fun x : DependentVector ℚ 1 => (![x 0 - 3 + 3 / 16 * (x 0 * x 0)] : DependentVector ℚ 1))
    _ _ [] (fun x => rfl)
    (by
      apply mapFind_of_mem
      rw [hl2]
      simp [mapOrdered, mapKeys])]
  refine Prod.ext ?_ ?_
  · exact congrArg Except.ok hest
  · simp only [h6]

/-- The call `updateFilter( 1, [], [0] )` on the stretched scenario object returns, with
a-priori state 0 and covariance 16, predicted measurement 0, innovation 8 and
cross-correlation 21; the object left is the regenerated one after the two corrections. -/
theorem stretched_updateFilter :
    updateFilter diagonalSqrt stretchedFilter 1 [] ![0] = (.ok (),
      correctCovariance
        (correctState
          { computeSigmaPoints diagonalSqrt
              { computeSigmaPoints diagonalSqrt stretchedFilter stretchedFilter.aPosterioriStateEstimate_
                  stretchedFilter.aPosterioriCovarianceEstimate_ with
                mapOfMapOfSigmaPoints_ := mapAssign stretchedFilter.mapOfMapOfSigmaPoints_ 1
                  (computeSigmaPoints diagonalSqrt stretchedFilter
                    stretchedFilter.aPosterioriStateEstimate_
                    stretchedFilter.aPosterioriCovarianceEstimate_).mapOfSigmaPoints_
                currentSigmaPoint_ := 6 } ![0] !![16] with
            currentSigmaPoint_ := 6 }
          1 ![0] ![0] ![0] (!![21] * inverse !![8]))
        1 !![16] !![8] (!![21] * inverse !![8])) := by
  refine updateFilter_eq_ok diagonalSqrt stretchedFilter _ _ 1 [] ![0] _ ![0] !![16] _ ![0]
    !![8] !![21] stretched_prediction ?_ ?_ stretched_measurement ?_ ?_ ?_
  · refine (seven_weighted_average_vector (-2) (1 / 2) (1 / 2) (1 / 2) (1 / 2) (1 / 2) (1 / 2)
      3 3 7 3 (-3) (-1) 3).trans ?_
    norm_num
  · refine (seven_weighted_average_matrix (-3) (1 / 2) (1 / 2) (1 / 2) (1 / 2) (1 / 2) (1 / 2)
      0 3 3 7 3 (-3) (-1) 3).trans ?_
    norm_num
  · refine (seven_weighted_average_vector (-2) (1 / 2) (1 / 2) (1 / 2) (1 / 2) (1 / 2) (1 / 2)
      (-3) 4 (-3) (-2) (-4) (-3) (-4)).trans ?_
    norm_num
  · refine (seven_weighted_average_matrix (-3) (1 / 2) (1 / 2) (1 / 2) (1 / 2) (1 / 2) (1 / 2)
      0 (-3) 4 (-3) (-2) (-4) (-3) (-4)).trans ?_
    norm_num
  · refine (seven_cross_correlation (-3) (1 / 2) (1 / 2) (1 / 2) (1 / 2) (1 / 2) (1 / 2)
      0 0 3 3 7 3 (-3) (-1) 3 (-3) 4 (-3) (-2) (-4) (-3) (-4)).trans ?_
    norm_num

/-- The object left by the call `updateFilter( 1, [], [26] )` on the scenario object: the one
regenerated around the a-priori state 0 and covariance 25, after the two corrections. -/
theorem scenario_updateFilter_object :
    updateFilter diagonalSqrt scenarioFilter 1 [] ![26] = (.ok (),
      correctCovariance
        (correctState
          { computeSigmaPoints diagonalSqrt
              { computeSigmaPoints diagonalSqrt scenarioFilter scenarioFilter.aPosterioriStateEstimate_
                  scenarioFilter.aPosterioriCovarianceEstimate_ with
                mapOfMapOfSigmaPoints_ := mapAssign scenarioFilter.mapOfMapOfSigmaPoints_ 1
                  (computeSigmaPoints diagonalSqrt scenarioFilter
                    scenarioFilter.aPosterioriStateEstimate_
                    scenarioFilter.aPosterioriCovarianceEstimate_).mapOfSigmaPoints_
                currentSigmaPoint_ := 6 } ![0] !![25] with
            currentSigmaPoint_ := 6 }
          1 ![0] ![26] ![0] (!![15] * inverse !![26]))
        1 !![25] !![26] (!![15] * inverse !![26])) := by
  refine updateFilter_eq_ok diagonalSqrt scenarioFilter _ _ 1 [] ![26] _ ![0] !![25] _ ![0]
    !![26] !![15] scenario_prediction ?_ ?_ scenario_measurement ?_ ?_ ?_
  · refine (scenario_weighted_average_vector 0 6 8 0 (-6) (-8) 0).trans ?_
    norm_num
  · refine (scenario_weighted_average_matrix 0 0 6 8 0 (-6) (-8) 0).trans ?_
    norm_num
  · refine (scenario_weighted_average_vector 0 10 0 2 (-10) 0 (-2)).trans ?_
    norm_num
  · refine (scenario_weighted_average_matrix 0 0 10 0 2 (-10) 0 (-2)).trans ?_
    norm_num
  · refine (scenario_cross_correlation 0 0 0 6 8 0 (-6) (-8) 0 0 10 0 2 (-10) 0 (-2)).trans ?_
    norm_num

end StretchedScenarioTheorems

section PosteriorCovarianceClaim

variable {K T : Type} [LinearOrderedField K] [LinearOrder T] {n m : ℕ}

omit [LinearOrder T] in
/-- The three literature presets satisfy, for all dimensions `n >= 1`, `m >= 1`, the two
conditions on the constant parameters under which the a-posteriori covariance stays positive
semi-definite: `L + lambda > 0` and `L (1 - alpha^2 + beta) + lambda >= 0`. -/
theorem preset_parameters_keep_covariance (n m : ℕ) (hn : 1 ≤ n) (hm : 1 ≤ m)
    (TUDAT_NAN : K) (sqrt : K → K) (constantParameters_ : ConstantParameterIndices → K)
    (customConstantParameters : K × K) (constantValueReference : ConstantParameterReferences)
    (hpreset : constantValueReference ≠ custom_parameters) :
    ∃ p, setConstantParameterValues n m TUDAT_NAN sqrt constantParameters_
        constantValueReference customConstantParameters = .ok p ∧
      0 < (augmentedStateDimension n m : K) + p lambda_index ∧
      0 ≤ (augmentedStateDimension n m : K) *
        (1 - p alpha_index * p alpha_index + p beta_index) + p lambda_index := by
  have hn' : (1 : K) ≤ (n : K) := by exact_mod_cast hn
  have hm' : (1 : K) ≤ (m : K) := by exact_mod_cast hm
  have hL : (augmentedStateDimension n m : K) = 2 * (n : K) + (m : K) := by
    simp [augmentedStateDimension]
  cases constantValueReference
  case custom_parameters => exact absurd rfl hpreset
  all_goals
    refine ⟨_, rfl, ?_⟩
    simp only [Function.update, ne_eq, reduceCtorEq, not_false_eq_true, dite_false, dite_true,
      eq_rec_constant, Nat.cast_ofNat, Nat.cast_zero, Nat.cast_one]
    rw [hL]
    constructor <;> nlinarith

/-- C26 (as amended): for every `updateFilter` call that returns, made on a filter reached by
construction and any number of earlier calls, started from a symmetric positive
semi-definite a-posteriori covariance, with positive semi-definite `Q` and `R` and arbitrary
(possibly nonlinear) system and measurement functions, the new a-posteriori covariance is
symmetric positive semi-definite, provided the constant parameters satisfy `L + lambda > 0`
and `L (1 - alpha^2 + beta) + lambda >= 0` (as the three literature presets do), the matrix
square root returns square roots of the two augmented covariances of the call, and the
innovation matrix, the covariance-weighted sum of the outer products of the deviations of the
measurement estimates `measurementEstimates i` of the regenerated sigma points from their
mean-weighted sum, is invertible.  The arithmetic is exact.  The hypotheses on the
covariances, the square roots and the innovation matrix delimit the calls in which Eigen's
`sqrt( )` and `inverse( )` have the values they have here; the proof rests on the two
conditions on the parameters and on the invertible innovation matrix. -/
theorem updateFilter_covariance_positive_semi_definite [BEq K] (TUDAT_NAN : K) (sqrt : K → K)
    (matrixSqrt : DependentMatrix K (augmentedStateDimension n m) (augmentedStateDimension n m) →
      DependentMatrix K (augmentedStateDimension n m) (augmentedStateDimension n m))
    (Q : DependentMatrix K n n) (R : DependentMatrix K m m)
    (f : UnscentedKalmanFilter n m K T)
    (last : Option (DependentVector K n × DependentMatrix K n n))
    (hreach : Reachable TUDAT_NAN sqrt matrixSqrt Q R f last)
    (t : T) (u : ControlVector K) (z : DependentVector K m)
    (measurementEstimates : Fin (numberOfSigmaPoints n m) → DependentVector K m)
    (hP : IsPositiveSemiDefinite f.aPosterioriCovarianceEstimate_)
    (hQ : IsPositiveSemiDefinite Q) (hR : IsPositiveSemiDefinite R)
    (hpos : 0 < (augmentedStateDimension n m : K) + f.constantParameters_ lambda_index)
    (hcond : 0 ≤ (augmentedStateDimension n m : K) *
        (1 - f.constantParameters_ alpha_index * f.constantParameters_ alpha_index +
          f.constantParameters_ beta_index) + f.constantParameters_ lambda_index)
    (hok : (updateFilter matrixSqrt f t u z).1 = .ok ())
    (hroot : matrixSqrt (computeSigmaPoints matrixSqrt f f.aPosterioriStateEstimate_
          f.aPosterioriCovarianceEstimate_).augmentedCovarianceMatrix_ *
        (matrixSqrt (computeSigmaPoints matrixSqrt f f.aPosterioriStateEstimate_
          f.aPosterioriCovarianceEstimate_).augmentedCovarianceMatrix_).transpose =
      (computeSigmaPoints matrixSqrt f f.aPosterioriStateEstimate_
        f.aPosterioriCovarianceEstimate_).augmentedCovarianceMatrix_)
    (hregenerated : matrixSqrt (updateFilter matrixSqrt f t u z).2.augmentedCovarianceMatrix_ *
        (matrixSqrt (updateFilter matrixSqrt f t u z).2.augmentedCovarianceMatrix_).transpose =
      (updateFilter matrixSqrt f t u z).2.augmentedCovarianceMatrix_)
    (hmeasurement : ∀ i : Fin (numberOfSigmaPoints n m), ∃ point value,
      mapFind (updateFilter matrixSqrt f t u z).2.mapOfSigmaPoints_ i.val = some point ∧
      f.inputMeasurementFunction_ t
        (segment point 0 n (by unfold augmentedStateDimension; omega)) = .ok value ∧
      measurementEstimates i =
        value + segment point (2 * n) m (by unfold augmentedStateDimension; omega))
    (hinnovation : IsUnit (∑ i, f.covarianceEstimationWeights_.getD i.val 0 •
      Matrix.vecMulVec
        (measurementEstimates i -
          ∑ j, f.stateEstimationWeights_.getD j.val 0 • measurementEstimates j)
        (measurementEstimates i -
          ∑ j, f.stateEstimationWeights_.getD j.val 0 • measurementEstimates j)).det) :
    IsPositiveSemiDefinite (updateFilter matrixSqrt f t u z).2.aPosterioriCovarianceEstimate_ := by
  have hinv := reachable_invariants TUDAT_NAN sqrt matrixSqrt Q R f last hreach
  have hw := hinv.2.2.2.2.1
  have hwc := hinv.2.2.2.2.2.1
  have hlen := generateEstimationWeights_lengths (n := n) (m := m) f.constantParameters_
  obtain ⟨-, y, ζ, xPrior, PPrior, zPredicted, innovation, crossCorrelation, -, -, -, -, -, hx,
    -, hPe, -, -, -, hmeas, hz, hS, hC, -, hcov⟩ :=
    updateFilter_returning_call matrixSqrt f t u z hinv.2.2.2.1 (by rw [hw]; exact hlen.1)
      (by rw [hwc]; exact hlen.2) hok
  have hζ : measurementEstimates = ζ := by
    funext i
    obtain ⟨point, value, h1, h2, h3⟩ := hmeas i
    obtain ⟨point', value', k1, k2, k3⟩ := hmeasurement i
    rw [h1] at k1
    cases Option.some.inj k1
    rw [h2] at k2
    cases Except.ok.inj k2
    rw [h3, k3]
  subst hζ
  have hunit : IsUnit innovation.det := by
    have hsum : innovation = ∑ i, f.covarianceEstimationWeights_.getD i.val 0 •
        Matrix.vecMulVec
          (measurementEstimates i -
            ∑ j, f.stateEstimationWeights_.getD j.val 0 • measurementEstimates j)
          (measurementEstimates i -
            ∑ j, f.stateEstimationWeights_.getD j.val 0 • measurementEstimates j) := by
      rw [hS, hz]
      apply Finset.sum_congr rfl
      intro i _
      exact vecMulVec_smul_left _ _ _
    rw [hsum]
    exact hinnovation
  rw [hcov]
  exact corrected_covariance_positive_semi_definite f y measurementEstimates xPrior PPrior
    zPredicted innovation crossCorrelation hw hwc hpos hcond hx hPe hz hS hC
    (gain_mul_invertible_innovation crossCorrelation innovation hunit)

end PosteriorCovarianceClaim

section PosteriorCovarianceScenarios

/-- The augmented covariance of the first `computeSigmaPoints` call on the stretched scenario
object, with the diagonal 1, 16, 1, and the one held after the call
`updateFilter( 1, [], [0] )`, with the diagonal 16, 16, 1. -/
theorem stretched_augmented_covariances :
    (computeSigmaPoints diagonalSqrt stretchedFilter stretchedFilter.aPosterioriStateEstimate_
      stretchedFilter.aPosterioriCovarianceEstimate_).augmentedCovarianceMatrix_ =
      !![1 * 1, 0, 0; 0, 4 * 4, 0; 0, 0, 1 * 1] ∧
    (updateFilter diagonalSqrt stretchedFilter 1 [] ![0]).2.augmentedCovarianceMatrix_ =
      !![4 * 4, 0, 0; 0, 4 * 4, 0; 0, 0, 1 * 1] := by
  constructor
  · ext i j
    fin_cases i <;> fin_cases j <;>
      simp [computeSigmaPoints, stretchedFilter, setBlock] <;> norm_num
  · rw [stretched_updateFilter]
    ext i j
    fin_cases i <;> fin_cases j <;>
      simp [correctCovariance, correctState, computeSigmaPoints, stretchedFilter, setBlock] <;>
        norm_num

/-- The augmented covariance held after the call `updateFilter( 1, [], [26] )` on the scenario
object, with the diagonal 25, 16, 1, and the sigma points regenerated around it. -/
theorem scenario_updated_members :
    (updateFilter diagonalSqrt scenarioFilter 1 [] ![26]).2.augmentedCovarianceMatrix_ =
      !![5 * 5, 0, 0; 0, 4 * 4, 0; 0, 0, 1 * 1] ∧
    (updateFilter diagonalSqrt scenarioFilter 1 [] ![26]).2.mapOfSigmaPoints_ =
      [(0, ![0, 0, 0]), (1, ![10, 0, 0]), (2, ![0, 8, 0]), (3, ![0, 0, 2]),
        (4, ![-10, 0, 0]), (5, ![0, -8, 0]), (6, ![0, 0, -2])] := by
  constructor
  · rw [scenario_updateFilter_object]
    ext i j
    fin_cases i <;> fin_cases j <;>
      simp [correctCovariance, correctState, computeSigmaPoints, scenarioFilter, setBlock] <;>
        norm_num
  · rw [scenario_updateFilter_object]
    exact scenario_regenerated_sigma_points

end PosteriorCovarianceScenarios

section PosteriorCovarianceWitnesses

/-- A matrix with one entry, which is not negative, is positive semi-definite. -/
theorem positive_semi_definite_one_by_one (a : ℚ) (ha : 0 ≤ a) :
    IsPositiveSemiDefinite (!![a] : DependentMatrix ℚ 1 1) := by
  refine ⟨?_, ?_⟩
  · ext i j
    fin_cases i
    fin_cases j
    rfl
  · intro v
    have hval : Matrix.dotProduct v ((!![a] : DependentMatrix ℚ 1 1).mulVec v) =
        a * (v 0 * v 0) := by
      simp [Matrix.mulVec, Matrix.dotProduct]
      ring
    rw [hval]
    exact mul_nonneg ha (mul_self_nonneg _)

/-- A matrix with one entry, which is negative, is not positive semi-definite. -/
theorem not_positive_semi_definite_one_by_one (a : ℚ) (ha : a < 0) :
    ¬ IsPositiveSemiDefinite (!![a] : DependentMatrix ℚ 1 1) := by
  rintro ⟨_, hpos⟩
  have h1 := hpos ![1]
  have hval : Matrix.dotProduct (![1] : Fin 1 → ℚ)
      ((!![a] : DependentMatrix ℚ 1 1).mulVec ![1]) = a := by
    simp [Matrix.mulVec, Matrix.dotProduct]
  rw [hval] at h1
  exact absurd ha (not_lt.2 h1)

/-- The product of a diagonal matrix of size three with its transpose. -/
theorem diagonal_mul_transpose (a b c : ℚ) :
    (!![a, 0, 0; 0, b, 0; 0, 0, c] : DependentMatrix ℚ 3 3) *
        (!![a, 0, 0; 0, b, 0; 0, 0, c] : DependentMatrix ℚ 3 3).transpose =
      !![a * a, 0, 0; 0, b * b, 0; 0, 0, c * c] := by
  ext i j
  fin_cases i <;> fin_cases j <;> simp [Matrix.mul_apply, Fin.sum_univ_three] <;>
    first | rfl | exact Or.inr rfl | exact Or.inl rfl

/-- The diagonal square root of a diagonal matrix of squares is a square root of it. -/
theorem diagonalSqrt_mul_transpose (a b c : ℚ) (ha : 0 ≤ a) (hb : 0 ≤ b) (hc : 0 ≤ c) :
    diagonalSqrt (!![a * a, 0, 0; 0, b * b, 0; 0, 0, c * c] : DependentMatrix ℚ 3 3) *
        (diagonalSqrt (!![a * a, 0, 0; 0, b * b, 0; 0, 0, c * c] :
          DependentMatrix ℚ 3 3)).transpose =
      !![a * a, 0, 0; 0, b * b, 0; 0, 0, c * c] := by
  rw [diagonalSqrt_diagonal a b c ha hb hc]
  exact diagonal_mul_transpose a b c

/-- Counterexample for C26: the filter constructed in custom mode with alpha = 2 and
kappa = -11/4 (so `L + lambda = 1` and `L (1 - alpha^2 + beta) + lambda = -5`) for the scalar
system `x -> 3 x + 3 - 3 x^2` measured by `x -> x - 3 + (3/16) x^2`, with `P = 1`, `Q = 16`
and `R = 1`, all positive definite.  The matrix square root returns the principal roots
`diag (1, 4, 1)` and `diag (4, 4, 1)` of the two augmented covariances of the call, and the
innovation matrix 8 is invertible.  The call `updateFilter( 1, [], [0] )` returns with the
a-priori covariance 16, the innovation 8 and the cross-correlation 21, and leaves the
a-posteriori covariance `16 - (21/8) * 8 * (21/8) = -313/8`, which is not positive
semi-definite. -/
theorem updateFilter_stretched_parameters_negative_covariance :
    UnscentedKalmanFilter.create (0 : ℚ) Rat.sqrt quadraticSystemFunction
      quadraticMeasurementFunction !![16] !![1] (0 : ℚ) ![0] !![1] none
      custom_parameters (2, -11 / 4) = .ok stretchedFilter ∧
    IsPositiveSemiDefinite stretchedFilter.aPosterioriCovarianceEstimate_ ∧
    IsPositiveSemiDefinite stretchedFilter.systemUncertainty_ ∧
    IsPositiveSemiDefinite stretchedFilter.measurementUncertainty_ ∧
    0 < (augmentedStateDimension 1 1 : ℚ) + stretchedFilter.constantParameters_ lambda_index ∧
    (augmentedStateDimension 1 1 : ℚ) *
        (1 - stretchedFilter.constantParameters_ alpha_index *
          stretchedFilter.constantParameters_ alpha_index +
          stretchedFilter.constantParameters_ beta_index) +
        stretchedFilter.constantParameters_ lambda_index < 0 ∧
    diagonalSqrt (computeSigmaPoints diagonalSqrt stretchedFilter
          stretchedFilter.aPosterioriStateEstimate_
          stretchedFilter.aPosterioriCovarianceEstimate_).augmentedCovarianceMatrix_ *
        (diagonalSqrt (computeSigmaPoints diagonalSqrt stretchedFilter
          stretchedFilter.aPosterioriStateEstimate_
          stretchedFilter.aPosterioriCovarianceEstimate_).augmentedCovarianceMatrix_).transpose =
      (computeSigmaPoints diagonalSqrt stretchedFilter stretchedFilter.aPosterioriStateEstimate_
        stretchedFilter.aPosterioriCovarianceEstimate_).augmentedCovarianceMatrix_ ∧
    diagonalSqrt (updateFilter diagonalSqrt stretchedFilter 1 [] ![0]).2.augmentedCovarianceMatrix_ *
        (diagonalSqrt
          (updateFilter diagonalSqrt stretchedFilter 1 [] ![0]).2.augmentedCovarianceMatrix_).transpose =
      (updateFilter diagonalSqrt stretchedFilter 1 [] ![0]).2.augmentedCovarianceMatrix_ ∧
    (∃ f5 : UnscentedKalmanFilter 1 1 ℚ ℚ,
      updateFilter diagonalSqrt stretchedFilter 1 [] ![0] = (.ok (),
        correctCovariance
          (correctState f5 1 ![0] ![0] ![0] (!![21] * inverse !![8]))
          1 !![16] !![8] (!![21] * inverse !![8]))) ∧
    IsUnit (!![8] : DependentMatrix ℚ 1 1).det ∧
    (updateFilter diagonalSqrt stretchedFilter 1 [] ![0]).1 = .ok () ∧
    (updateFilter diagonalSqrt stretchedFilter 1 [] ![0]).2.aPosterioriCovarianceEstimate_ =
      !![-313 / 8] ∧
    ¬ IsPositiveSemiDefinite
      (updateFilter diagonalSqrt stretchedFilter 1 [] ![0]).2.aPosterioriCovarianceEstimate_ := by
  have h := stretched_updateFilter
  have hcov : (updateFilter diagonalSqrt stretchedFilter 1 [] ![0]).2.aPosterioriCovarianceEstimate_
      = !![-313 / 8] := by
    rw [h]
    simp only [correctCovariance, correctState, inverse_one_by_one, mul_one_by_one,
      transpose_one_by_one, sub_one_by_one]
    norm_num
  refine ⟨stretchedFilter_created, positive_semi_definite_one_by_one 1 (by norm_num),
    positive_semi_definite_one_by_one 16 (by norm_num),
    positive_semi_definite_one_by_one 1 (by norm_num), ?_, ?_, ?_, ?_, ⟨_, h⟩, ?_, ?_, hcov, ?_⟩
  · simp [augmentedStateDimension, stretchedParameters, stretchedFilter]
    norm_num
  · simp [augmentedStateDimension, stretchedParameters, stretchedFilter]
    norm_num
  · rw [stretched_augmented_covariances.1]
    exact diagonalSqrt_mul_transpose 1 4 1 (by norm_num) (by norm_num) (by norm_num)
  · rw [stretched_augmented_covariances.2]
    exact diagonalSqrt_mul_transpose 4 4 1 (by norm_num) (by norm_num) (by norm_num)
  · rw [Matrix.det_fin_one]
    exact isUnit_iff_ne_zero.2 (by norm_num)
  · rw [h]
  · rw [hcov]
    exact not_positive_semi_definite_one_by_one (-313 / 8) (by norm_num)

/-- In the scenario `L + lambda = 4` is positive. -/
theorem scenarioFilter_scaling_positive :
    0 < (augmentedStateDimension 1 1 : ℚ) + scenarioFilter.constantParameters_ lambda_index := by
  simp [augmentedStateDimension, scenarioParameters, scenarioFilter]
  norm_num

/-- In the scenario `L (1 - alpha^2 + beta) + lambda = 7` is not negative. -/
theorem scenarioFilter_covariance_condition :
    0 ≤ (augmentedStateDimension 1 1 : ℚ) *
        (1 - scenarioFilter.constantParameters_ alpha_index *
          scenarioFilter.constantParameters_ alpha_index +
          scenarioFilter.constantParameters_ beta_index) +
        scenarioFilter.constantParameters_ lambda_index := by
  simp [augmentedStateDimension, scenarioParameters, scenarioFilter]
  norm_num

/-- The measurement estimates of the call `updateFilter( 1, [], [26] )` on the scenario
object: the measurements 0, 10, 0, 2, -10, 0, -2 of the regenerated sigma points. -/
theorem scenario_measurement_estimates :
    ∀ i : Fin (numberOfSigmaPoints 1 1), ∃ point value,
      mapFind (updateFilter diagonalSqrt scenarioFilter 1 [] ![26]).2.mapOfSigmaPoints_ i.val =
        some point ∧
      scenarioFilter.inputMeasurementFunction_ 1
        (segment point 0 1 (by unfold augmentedStateDimension; omega)) = .ok value ∧
      scenarioMeasurements i =
        value + segment point (2 * 1) 1 (by unfold augmentedStateDimension; omega) := by
  intro i
  simp only [scenario_updated_members.2]
  fin_cases i
  · refine ⟨![0, 0, 0], ![0], rfl, ?_, ?_⟩
    · simp only [scenarioFilter, linearMeasurementFunction]
      congr 1
      apply vec1_ext
      simp [segment, Matrix.mulVec, Matrix.dotProduct, Matrix.vecHead]
    · apply vec1_ext
      simp [scenarioMeasurements, segment, Matrix.vecHead]
  · refine ⟨![10, 0, 0], ![10], rfl, ?_, ?_⟩
    · simp only [scenarioFilter, linearMeasurementFunction]
      congr 1
      apply vec1_ext
      simp [segment, Matrix.mulVec, Matrix.dotProduct, Matrix.vecHead]
    · apply vec1_ext
      simp [scenarioMeasurements, segment, Matrix.vecHead]
  · refine ⟨![0, 8, 0], ![0], rfl, ?_, ?_⟩
    · simp only [scenarioFilter, linearMeasurementFunction]
      congr 1
      apply vec1_ext
      simp [segment, Matrix.mulVec, Matrix.dotProduct, Matrix.vecHead]
    · apply vec1_ext
      simp [scenarioMeasurements, segment, Matrix.vecHead]
  · refine ⟨![0, 0, 2], ![0], rfl, ?_, ?_⟩
    · simp only [scenarioFilter, linearMeasurementFunction]
      congr 1
      apply vec1_ext
      simp [segment, Matrix.mulVec, Matrix.dotProduct, Matrix.vecHead]
    · apply vec1_ext
      simp [scenarioMeasurements, segment, Matrix.vecHead]
  · refine ⟨![-10, 0, 0], ![-10], rfl, ?_, ?_⟩
    · simp only [scenarioFilter, linearMeasurementFunction]
      congr 1
      apply vec1_ext
      simp [segment, Matrix.mulVec, Matrix.dotProduct, Matrix.vecHead]
    · apply vec1_ext
      simp [scenarioMeasurements, segment, Matrix.vecHead]
  · refine ⟨![0, -8, 0], ![0], rfl, ?_, ?_⟩
    · simp only [scenarioFilter, linearMeasurementFunction]
      congr 1
      apply vec1_ext
      simp [segment, Matrix.mulVec, Matrix.dotProduct, Matrix.vecHead]
    · apply vec1_ext
      simp [scenarioMeasurements, segment, Matrix.vecHead]
  · refine ⟨![0, 0, -2], ![0], rfl, ?_, ?_⟩
    · simp only [scenarioFilter, linearMeasurementFunction]
      congr 1
      apply vec1_ext
      simp [segment, Matrix.mulVec, Matrix.dotProduct, Matrix.vecHead]
    · apply vec1_ext
      simp [scenarioMeasurements, segment, Matrix.vecHead]

/-- A sum over the seven sigma indices of the scalar scenarios, written out. -/
theorem sum_seven_sigma_indices {M : Type} [AddCommMonoid M]
    (g : Fin (numberOfSigmaPoints 1 1) → M) :
    ∑ i, g i = g ⟨0, by decide⟩ + g ⟨1, by decide⟩ + g ⟨2, by decide⟩ + g ⟨3, by decide⟩ +
      g ⟨4, by decide⟩ + g ⟨5, by decide⟩ + g ⟨6, by decide⟩ :=
  Fin.sum_univ_seven g

/-- The innovation matrix of the call `updateFilter( 1, [], [26] )` on the scenario object is
26, which is invertible. -/
theorem scenario_innovation_invertible :
    IsUnit (∑ i : Fin (numberOfSigmaPoints 1 1), scenarioFilter.covarianceEstimationWeights_.getD i.val 0 •
      Matrix.vecMulVec
        (scenarioMeasurements i -
          ∑ j : Fin (numberOfSigmaPoints 1 1), scenarioFilter.stateEstimationWeights_.getD j.val 0 •
            scenarioMeasurements j)
        (scenarioMeasurements i -
          ∑ j : Fin (numberOfSigmaPoints 1 1), scenarioFilter.stateEstimationWeights_.getD j.val 0 •
            scenarioMeasurements j)).det := by
  have hmean : ∑ j : Fin (numberOfSigmaPoints 1 1), scenarioFilter.stateEstimationWeights_.getD j.val 0 •
      scenarioMeasurements j = ![0] := by
    apply vec1_ext
    rw [sum_seven_sigma_indices]
    simp [scenarioFilter, scenarioMeasurements]
  have hsum : ∑ i : Fin (numberOfSigmaPoints 1 1), scenarioFilter.covarianceEstimationWeights_.getD i.val 0 •
      Matrix.vecMulVec
        (scenarioMeasurements i - ![0])
        (scenarioMeasurements i - ![0])
      = !![26] := by
    apply mat1_ext
    rw [sum_seven_sigma_indices]
    simp [scenarioFilter, scenarioMeasurements, Matrix.vecMulVec_apply]
    norm_num
  rw [hmean, hsum, Matrix.det_fin_one]
  exact isUnit_iff_ne_zero.2 (by norm_num)

/-- Witness for C26: the call `updateFilter( 1, [], [26] )` on the scenario object, with
`P = 9`, `Q = 16`, `R = 1`, parameters alpha = kappa = 1 (so `L + lambda = 4` and
`L (1 - alpha^2 + beta) + lambda = 7`), the square roots `diag (3, 4, 1)` and
`diag (5, 4, 1)` and the innovation 26. -/
theorem updateFilter_covariance_positive_semi_definite_witness :
    Reachable (0 : ℚ) Rat.sqrt diagonalSqrt !![16] !![1] scenarioFilter none ∧
    IsPositiveSemiDefinite scenarioFilter.aPosterioriCovarianceEstimate_ ∧
    IsPositiveSemiDefinite (!![16] : DependentMatrix ℚ 1 1) ∧
    IsPositiveSemiDefinite (!![1] : DependentMatrix ℚ 1 1) ∧
    0 < (augmentedStateDimension 1 1 : ℚ) + scenarioFilter.constantParameters_ lambda_index ∧
    0 ≤ (augmentedStateDimension 1 1 : ℚ) *
        (1 - scenarioFilter.constantParameters_ alpha_index *
          scenarioFilter.constantParameters_ alpha_index +
          scenarioFilter.constantParameters_ beta_index) +
        scenarioFilter.constantParameters_ lambda_index ∧
    (updateFilter diagonalSqrt scenarioFilter 1 [] ![26]).1 = .ok () ∧
    diagonalSqrt (computeSigmaPoints diagonalSqrt scenarioFilter
          scenarioFilter.aPosterioriStateEstimate_
          scenarioFilter.aPosterioriCovarianceEstimate_).augmentedCovarianceMatrix_ *
        (diagonalSqrt (computeSigmaPoints diagonalSqrt scenarioFilter
          scenarioFilter.aPosterioriStateEstimate_
          scenarioFilter.aPosterioriCovarianceEstimate_).augmentedCovarianceMatrix_).transpose =
      (computeSigmaPoints diagonalSqrt scenarioFilter scenarioFilter.aPosterioriStateEstimate_
        scenarioFilter.aPosterioriCovarianceEstimate_).augmentedCovarianceMatrix_ ∧
    diagonalSqrt (updateFilter diagonalSqrt scenarioFilter 1 [] ![26]).2.augmentedCovarianceMatrix_ *
        (diagonalSqrt
          (updateFilter diagonalSqrt scenarioFilter 1 [] ![26]).2.augmentedCovarianceMatrix_).transpose =
      (updateFilter diagonalSqrt scenarioFilter 1 [] ![26]).2.augmentedCovarianceMatrix_ ∧
    IsPositiveSemiDefinite
      (updateFilter diagonalSqrt scenarioFilter 1 [] ![26]).2.aPosterioriCovarianceEstimate_ := by
  have hP : IsPositiveSemiDefinite scenarioFilter.aPosterioriCovarianceEstimate_ :=
    positive_semi_definite_one_by_one 9 (by norm_num)
  have hQ := positive_semi_definite_one_by_one 16 (by norm_num)
  have hR := positive_semi_definite_one_by_one 1 (by norm_num)
  have hroot : diagonalSqrt (computeSigmaPoints diagonalSqrt scenarioFilter
          scenarioFilter.aPosterioriStateEstimate_
          scenarioFilter.aPosterioriCovarianceEstimate_).augmentedCovarianceMatrix_ *
        (diagonalSqrt (computeSigmaPoints diagonalSqrt scenarioFilter
          scenarioFilter.aPosterioriStateEstimate_
          scenarioFilter.aPosterioriCovarianceEstimate_).augmentedCovarianceMatrix_).transpose =
      (computeSigmaPoints diagonalSqrt scenarioFilter scenarioFilter.aPosterioriStateEstimate_
        scenarioFilter.aPosterioriCovarianceEstimate_).augmentedCovarianceMatrix_ := by
    have h1 := scenario_first_square_root.1
    rw [show (computeSigmaPoints diagonalSqrt scenarioFilter
      scenarioFilter.aPosterioriStateEstimate_
      scenarioFilter.aPosterioriCovarianceEstimate_).augmentedCovarianceMatrix_ =
      !![3 * 3, 0, 0; 0, 4 * 4, 0; 0, 0, 1 * 1] from h1]
    exact diagonalSqrt_mul_transpose 3 4 1 (by norm_num) (by norm_num) (by norm_num)
  have hregenerated : diagonalSqrt
        (updateFilter diagonalSqrt scenarioFilter 1 [] ![26]).2.augmentedCovarianceMatrix_ *
        (diagonalSqrt
          (updateFilter diagonalSqrt scenarioFilter 1 [] ![26]).2.augmentedCovarianceMatrix_).transpose =
      (updateFilter diagonalSqrt scenarioFilter 1 [] ![26]).2.augmentedCovarianceMatrix_ := by
    rw [scenario_updated_members.1]
    exact diagonalSqrt_mul_transpose 5 4 1 (by norm_num) (by norm_num) (by norm_num)
  have h := updateFilter_covariance_positive_semi_definite (0 : ℚ) Rat.sqrt diagonalSqrt !![16]
    !![1] scenarioFilter none scenario_reachable 1 [] ![26] scenarioMeasurements
    (by with_reducible exact hP) (by with_reducible exact hQ) (by with_reducible exact hR)
    scenarioFilter_scaling_positive scenarioFilter_covariance_condition
    scenario_updateFilter_returns (by with_reducible exact hroot)
    (by with_reducible exact hregenerated)
    (by with_reducible exact scenario_measurement_estimates)
    (by with_reducible exact scenario_innovation_invertible)
  refine ⟨scenario_reachable, hP, hQ, hR, scenarioFilter_scaling_positive,
    scenarioFilter_covariance_condition, scenario_updateFilter_returns, hroot, hregenerated, ?_⟩
  with_reducible exact h

end PosteriorCovarianceWitnesses

section SigmaCovarianceWitnesses

/-- The covariance weights stored in the scenario object are those the constructor generates. -/
theorem scenarioFilter_covariance_weights :
    scenarioFilter.covarianceEstimationWeights_ =
      (generateEstimationWeights 1 1 scenarioFilter.constantParameters_ []).2 :=
  (reachable_invariants (0 : ℚ) Rat.sqrt diagonalSqrt !![16] !![1] scenarioFilter none
    scenario_reachable).2.2.2.2.2.1

/-- In the scenario gamma squares to `L + lambda = 4`. -/
theorem scenarioFilter_gamma_squared :
    scenarioFilter.constantParameters_ gamma_index * scenarioFilter.constantParameters_ gamma_index =
      (augmentedStateDimension 1 1 : ℚ) + scenarioFilter.constantParameters_ lambda_index := by
  simp [scenarioFilter, scenarioParameters, augmentedStateDimension]
  norm_num

/-- Witness for C27: the sigma points generated by the scenario object around `x = 0`,
`P = 9`, where `L + lambda = 4` and gamma is 2. -/
theorem covariance_average_of_fresh_sigma_points_witness :
    (scenarioFilter.mapOfSigmaPoints_ = [] ∨
      mapKeys scenarioFilter.mapOfSigmaPoints_ = List.range (numberOfSigmaPoints 1 1)) ∧
    scenarioFilter.covarianceEstimationWeights_ =
      (generateEstimationWeights 1 1 scenarioFilter.constantParameters_ []).2 ∧
    ((augmentedStateDimension 1 1 : ℚ) + scenarioFilter.constantParameters_ lambda_index ≠ 0) ∧
    scenarioFilter.constantParameters_ gamma_index * scenarioFilter.constantParameters_ gamma_index =
      (augmentedStateDimension 1 1 : ℚ) + scenarioFilter.constantParameters_ lambda_index ∧
    computeWeightedAverageFromSigmaPointEstimatesMatrix
        (computeSigmaPoints diagonalSqrt scenarioFilter ![0] !![9]).covarianceEstimationWeights_
        (computeSigmaPoints diagonalSqrt scenarioFilter ![0] !![9]).augmentedStateVector_
        (computeSigmaPoints diagonalSqrt scenarioFilter ![0] !![9]).mapOfSigmaPoints_ 0 =
      .ok (diagonalSqrt
          (computeSigmaPoints diagonalSqrt scenarioFilter ![0] !![9]).augmentedCovarianceMatrix_ *
        (diagonalSqrt (computeSigmaPoints diagonalSqrt scenarioFilter ![0]
          !![9]).augmentedCovarianceMatrix_).transpose) :=
  ⟨Or.inl rfl, scenarioFilter_covariance_weights, scenarioFilter_scaling,
    scenarioFilter_gamma_squared,
    (covariance_average_of_fresh_sigma_points diagonalSqrt scenarioFilter ![0] !![9] (Or.inl rfl)
      scenarioFilter_covariance_weights scenarioFilter_scaling scenarioFilter_gamma_squared).1⟩

end SigmaCovarianceWitnesses

section PriorEstimateWitnesses

/-- Witness for C23: the call `updateFilter( 1, [], [26] )` on the scenario object. -/
theorem updateFilter_archived_sigma_points_witness :
    (scenarioFilter.mapOfSigmaPoints_ = [] ∨
      mapKeys scenarioFilter.mapOfSigmaPoints_ = List.range (numberOfSigmaPoints 1 1)) ∧
    (updateFilter diagonalSqrt scenarioFilter 1 [] ![26]).1 = .ok () ∧
    mapFind (updateFilter diagonalSqrt scenarioFilter 1 [] ![26]).2.mapOfMapOfSigmaPoints_ 1 =
      some (computeSigmaPoints diagonalSqrt scenarioFilter scenarioFilter.aPosterioriStateEstimate_
        scenarioFilter.aPosterioriCovarianceEstimate_).mapOfSigmaPoints_ :=
  ⟨Or.inl rfl, scenario_updateFilter_returns,
    (updateFilter_archived_sigma_points diagonalSqrt scenarioFilter 1 [] ![26] (Or.inl rfl)
      scenario_updateFilter_returns).1⟩

/-- Witness for C24: the scenario object after the call `updateFilter( 1, [], [26] )`, whose
archive holds one sigma-point set. -/
theorem getSigmaPointsHistory_matrices_witness :
    Reachable (0 : ℚ) Rat.sqrt diagonalSqrt !![16] !![1]
      (updateFilter diagonalSqrt scenarioFilter 1 [] ![26]).2
      (some (lastComputeSigmaPointsArguments diagonalSqrt scenarioFilter 1 [])) ∧
    ∃ history : StdMap ℚ (DependentMatrix ℚ (augmentedStateDimension 1 1)
        (numberOfSigmaPoints 1 1)),
      getSigmaPointsHistory (updateFilter diagonalSqrt scenarioFilter 1 [] ![26]).2 =
        (.ok history, (updateFilter diagonalSqrt scenarioFilter 1 [] ![26]).2) ∧
      mapKeys history =
        mapKeys (updateFilter diagonalSqrt scenarioFilter 1 [] ![26]).2.mapOfMapOfSigmaPoints_ :=
  ⟨scenario_updated_reachable,
    (getSigmaPointsHistory_matrices 0 Rat.sqrt diagonalSqrt !![16] !![1] _ _
      scenario_updated_reachable).imp (fun _ h => ⟨h.1, h.2.1⟩)⟩

end PriorEstimateWitnesses

section ReturningCallClaims

variable {K T : Type} [Field K] [LinearOrder T] {n m : ℕ}

/-- C19: on an object without integrator `updateFilter` returns whenever the user models
return at the time and control of the call, and in every call that returns, the prediction
loop has run over the sigma-point set generated from the a-posteriori estimate held before
the call, which is the set the call archives under its time: the propagated estimates are
keyed `0, ..., N-1`, the one filed under index `i` is the value the user system function
returned for entries `[0, n)` of sigma point `i` of that set, plus entries `[n, 2n)` of the
same sigma point, and their mean-weighted sum is the a-priori mean, which the object holds
after the call in entries `[0, n)` of `augmentedStateVector_`. -/
theorem updateFilter_prediction_loop_estimates
    (matrixSqrt : DependentMatrix K (augmentedStateDimension n m) (augmentedStateDimension n m) →
      DependentMatrix K (augmentedStateDimension n m) (augmentedStateDimension n m))
    (f : UnscentedKalmanFilter n m K T) (t : T) (u : ControlVector K) (z : DependentVector K m)
    (hint : f.integratorSettings_ = none)
    (hmap : f.mapOfSigmaPoints_ = [] ∨
      mapKeys f.mapOfSigmaPoints_ = List.range (numberOfSigmaPoints n m))
    (hw : f.stateEstimationWeights_.length = numberOfSigmaPoints n m)
    (hwc : f.covarianceEstimationWeights_.length = numberOfSigmaPoints n m) :
    ((∀ x, ∃ value, f.inputSystemFunction_ t x u = .ok value) →
      (∀ x, ∃ value, f.inputMeasurementFunction_ t x = .ok value) →
      (updateFilter matrixSqrt f t u z).1 = .ok ()) ∧
    ((updateFilter matrixSqrt f t u z).1 = .ok () →
      ∃ (stateEstimates : StdMap ℕ (DependentVector K n))
        (propagated : Fin (numberOfSigmaPoints n m) → DependentVector K n),
        mapFind (updateFilter matrixSqrt f t u z).2.mapOfMapOfSigmaPoints_ t =
          some (computeSigmaPoints matrixSqrt f f.aPosterioriStateEstimate_
            f.aPosterioriCovarianceEstimate_).mapOfSigmaPoints_ ∧
        (predictionLoop t u
          (computeSigmaPoints matrixSqrt f f.aPosterioriStateEstimate_
            f.aPosterioriCovarianceEstimate_).mapOfSigmaPoints_
          { computeSigmaPoints matrixSqrt f f.aPosterioriStateEstimate_
              f.aPosterioriCovarianceEstimate_ with
            mapOfMapOfSigmaPoints_ := mapAssign f.mapOfMapOfSigmaPoints_ t
              (computeSigmaPoints matrixSqrt f f.aPosterioriStateEstimate_
                f.aPosterioriCovarianceEstimate_).mapOfSigmaPoints_ } []).1 = .ok stateEstimates ∧
        mapKeys stateEstimates = List.range (numberOfSigmaPoints n m) ∧
        (∀ i : Fin (numberOfSigmaPoints n m), ∃ point value,
          mapFind (computeSigmaPoints matrixSqrt f f.aPosterioriStateEstimate_
            f.aPosterioriCovarianceEstimate_).mapOfSigmaPoints_ i.val = some point ∧
          f.inputSystemFunction_ t
            (segment point 0 n (by unfold augmentedStateDimension; omega)) u = .ok value ∧
          propagated i = value + segment point n n (by unfold augmentedStateDimension; omega) ∧
          mapFind stateEstimates i.val = some (propagated i)) ∧
        (updateFilter matrixSqrt f t u z).2.augmentedStateVector_ =
          setSegment f.augmentedStateVector_ 0
            (∑ i, f.stateEstimationWeights_.getD i.val 0 • propagated i)) := by
  constructor
  · intro hsys hmeas
    exact updateFilter_returns matrixSqrt f t u z hint hsys hmeas hmap hw hwc
  intro hok
  obtain ⟨est, y, ζ, xPrior, PPrior, zPredicted, innovation, crossCorrelation, harch, hp, hy, hsys,
    hx, hxe, hP, hPe, haug, hcov, hmp, hmeas, hze, hSe, hCe, hpost, hpostcov⟩ :=
    updateFilter_returning_call matrixSqrt f t u z hmap hw hwc hok
  refine ⟨est, y, harch, hp, ?_, ?_, ?_⟩
  · rw [hy]
    exact mapKeys_map_finRange _
  · intro i
    obtain ⟨point, value, h1, h2, h3⟩ := hsys hint i
    refine ⟨point, value, h1, h2, h3, ?_⟩
    rw [hy]
    exact mapFind_map_finRange _ i
  · rw [haug, hxe]

end ReturningCallClaims

section ReturningCallWitnesses

/-- Witness for C19: the call `updateFilter( 1, [], [26] )` on the scenario object. -/
theorem updateFilter_prediction_loop_estimates_witness :
    scenarioFilter.integratorSettings_ = none ∧
    (scenarioFilter.mapOfSigmaPoints_ = [] ∨
      mapKeys scenarioFilter.mapOfSigmaPoints_ = List.range (numberOfSigmaPoints 1 1)) ∧
    scenarioFilter.stateEstimationWeights_.length = numberOfSigmaPoints 1 1 ∧
    scenarioFilter.covarianceEstimationWeights_.length = numberOfSigmaPoints 1 1 ∧
    (updateFilter diagonalSqrt scenarioFilter 1 [] ![26]).1 = .ok () ∧
    (∃ (stateEstimates : StdMap ℕ (DependentVector ℚ 1))
        (propagated : Fin (numberOfSigmaPoints 1 1) → DependentVector ℚ 1),
        mapFind (updateFilter diagonalSqrt scenarioFilter 1 [] ![26]).2.mapOfMapOfSigmaPoints_ 1 =
          some (computeSigmaPoints diagonalSqrt scenarioFilter scenarioFilter.aPosterioriStateEstimate_
            scenarioFilter.aPosterioriCovarianceEstimate_).mapOfSigmaPoints_ ∧
        (predictionLoop (1 : ℚ) []
          (computeSigmaPoints diagonalSqrt scenarioFilter scenarioFilter.aPosterioriStateEstimate_
            scenarioFilter.aPosterioriCovarianceEstimate_).mapOfSigmaPoints_
          { computeSigmaPoints diagonalSqrt scenarioFilter scenarioFilter.aPosterioriStateEstimate_
              scenarioFilter.aPosterioriCovarianceEstimate_ with
            mapOfMapOfSigmaPoints_ := mapAssign scenarioFilter.mapOfMapOfSigmaPoints_ 1
              (computeSigmaPoints diagonalSqrt scenarioFilter scenarioFilter.aPosterioriStateEstimate_
                scenarioFilter.aPosterioriCovarianceEstimate_).mapOfSigmaPoints_ } []).1 = .ok stateEstimates ∧
        mapKeys stateEstimates = List.range (numberOfSigmaPoints 1 1) ∧
        (∀ i : Fin (numberOfSigmaPoints 1 1), ∃ point value,
          mapFind (computeSigmaPoints diagonalSqrt scenarioFilter scenarioFilter.aPosterioriStateEstimate_
            scenarioFilter.aPosterioriCovarianceEstimate_).mapOfSigmaPoints_ i.val = some point ∧
          scenarioFilter.inputSystemFunction_ 1
            (segment point 0 1 (by unfold augmentedStateDimension; omega)) [] = .ok value ∧
          propagated i = value + segment point 1 1 (by unfold augmentedStateDimension; omega) ∧
          mapFind stateEstimates i.val = some (propagated i)) ∧
        (updateFilter diagonalSqrt scenarioFilter 1 [] ![26]).2.augmentedStateVector_ =
          setSegment scenarioFilter.augmentedStateVector_ 0
            (∑ i, scenarioFilter.stateEstimationWeights_.getD i.val 0 • propagated i)) :=
  ⟨rfl, Or.inl rfl, rfl, rfl,
    (updateFilter_prediction_loop_estimates diagonalSqrt scenarioFilter 1 [] ![26] rfl (Or.inl rfl) rfl
      rfl).1 (fun _ => ⟨_, rfl⟩) (fun _ => ⟨_, rfl⟩),
    (updateFilter_prediction_loop_estimates diagonalSqrt scenarioFilter 1 [] ![26] rfl (Or.inl rfl) rfl
      rfl).2 scenario_updateFilter_returns⟩

end ReturningCallWitnesses

section SquareRootUseTheorems

variable {K T : Type} [Field K] {n m : ℕ}

/-- The deviation of the sigma point of index `j + 1` from the augmented mean is gamma times
column `j` of the square root. -/
theorem sigmaPoint_succ_sub (v : DependentVector K (augmentedStateDimension n m)) (gamma : K)
    (A : DependentMatrix K (augmentedStateDimension n m) (augmentedStateDimension n m))
    (j : Fin (augmentedStateDimension n m)) :
    sigmaPoint v gamma A ⟨j.val + 1, by have := j.isLt; unfold numberOfSigmaPoints; omega⟩ - v =
      gamma • (fun r => A r j) := by
  have hj := j.isLt
  funext r
  unfold sigmaPoint
  rw [dif_neg (by simp), dif_pos (by simp [hj])]
  simp

/-- C12 (as amended): `computeSigmaPoints` has no failure path and no check of definiteness:
for every covariance, positive semi-definite or not, it takes `A = matrixSqrt (augmented
covariance)`, Eigen's `sqrt( )`, of the augmented covariance with the given covariance in its
leading block, and leaves `N` sigma points built from the columns of `A`.  The outer products
of the deviations of the points `1, ..., L` from the augmented mean sum to
`gamma^2 * A * A^T`; for gamma not zero that is `gamma^2` times the augmented covariance
exactly when `A * A^T` is the augmented covariance. -/
theorem computeSigmaPoints_uses_matrix_square_root
    (matrixSqrt : DependentMatrix K (augmentedStateDimension n m) (augmentedStateDimension n m) →
      DependentMatrix K (augmentedStateDimension n m) (augmentedStateDimension n m))
    (f : UnscentedKalmanFilter n m K T) (x : DependentVector K n) (P : DependentMatrix K n n)
    (hmap : f.mapOfSigmaPoints_ = [] ∨
      mapKeys f.mapOfSigmaPoints_ = List.range (numberOfSigmaPoints n m)) :
    (computeSigmaPoints matrixSqrt f x P).augmentedCovarianceMatrix_ =
      setBlock f.augmentedCovarianceMatrix_ 0 0 P ∧
    (computeSigmaPoints matrixSqrt f x P).mapOfSigmaPoints_.length = numberOfSigmaPoints n m ∧
    (∀ i : Fin (numberOfSigmaPoints n m),
      mapFind (computeSigmaPoints matrixSqrt f x P).mapOfSigmaPoints_ i.val =
        some (sigmaPoint (computeSigmaPoints matrixSqrt f x P).augmentedStateVector_
          (f.constantParameters_ gamma_index)
          (matrixSqrt (computeSigmaPoints matrixSqrt f x P).augmentedCovarianceMatrix_) i)) ∧
    ∑ j : Fin (augmentedStateDimension n m), Matrix.vecMulVec
        (sigmaPoint (computeSigmaPoints matrixSqrt f x P).augmentedStateVector_
          (f.constantParameters_ gamma_index)
          (matrixSqrt (computeSigmaPoints matrixSqrt f x P).augmentedCovarianceMatrix_)
          ⟨j.val + 1, by have := j.isLt; unfold numberOfSigmaPoints; omega⟩ -
            (computeSigmaPoints matrixSqrt f x P).augmentedStateVector_)
        (sigmaPoint (computeSigmaPoints matrixSqrt f x P).augmentedStateVector_
          (f.constantParameters_ gamma_index)
          (matrixSqrt (computeSigmaPoints matrixSqrt f x P).augmentedCovarianceMatrix_)
          ⟨j.val + 1, by have := j.isLt; unfold numberOfSigmaPoints; omega⟩ -
            (computeSigmaPoints matrixSqrt f x P).augmentedStateVector_) =
      (f.constantParameters_ gamma_index * f.constantParameters_ gamma_index) •
        (matrixSqrt (computeSigmaPoints matrixSqrt f x P).augmentedCovarianceMatrix_ *
          (matrixSqrt
            (computeSigmaPoints matrixSqrt f x P).augmentedCovarianceMatrix_).transpose) ∧
    (f.constantParameters_ gamma_index ≠ 0 →
      ((f.constantParameters_ gamma_index * f.constantParameters_ gamma_index) •
          (matrixSqrt (computeSigmaPoints matrixSqrt f x P).augmentedCovarianceMatrix_ *
            (matrixSqrt
              (computeSigmaPoints matrixSqrt f x P).augmentedCovarianceMatrix_).transpose) =
        (f.constantParameters_ gamma_index * f.constantParameters_ gamma_index) •
          (computeSigmaPoints matrixSqrt f x P).augmentedCovarianceMatrix_ ↔
      matrixSqrt (computeSigmaPoints matrixSqrt f x P).augmentedCovarianceMatrix_ *
          (matrixSqrt
            (computeSigmaPoints matrixSqrt f x P).augmentedCovarianceMatrix_).transpose =
        (computeSigmaPoints matrixSqrt f x P).augmentedCovarianceMatrix_)) := by
  refine ⟨rfl, ?_, ?_, ?_, ?_⟩
  · rw [computeSigmaPoints_mapOfSigmaPoints matrixSqrt f x P hmap]
    simp
  · intro i
    rw [computeSigmaPoints_mapOfSigmaPoints matrixSqrt f x P hmap]
    exact mapFind_map_finRange _ i
  · simp only [sigmaPoint_succ_sub]
    rw [← sum_column_outer_products, Finset.smul_sum]
    apply Finset.sum_congr rfl
    intro j _
    ext r c
    simp only [Matrix.vecMulVec_apply, Pi.smul_apply, smul_eq_mul, Matrix.smul_apply]
    ring
  · intro hgamma
    constructor
    · intro h
      exact smul_right_injective _ (mul_ne_zero hgamma hgamma) h
    · intro h
      rw [h]

end SquareRootUseTheorems

section SquareRootUseWitnesses

/-- C12 (counterexample): on the object constructed with the initial covariance `-1`, the
augmented covariance that `computeSigmaPoints` takes the square root of is not positive
semi-definite, yet, whatever matrix the square root function returns for it,
`computeSigmaPoints` leaves 7 sigma points and the call `updateFilter( 1, [], [26] )`
returns without an error. -/
theorem computeSigmaPoints_indefinite_covariance_returns :
    UnscentedKalmanFilter.create (0 : ℚ) Rat.sqrt (linearSystemFunction !![1])
      (linearMeasurementFunction !![1]) !![16] !![1] (0 : ℚ) ![0] !![-1] none
      custom_parameters (1, 1) = .ok indefiniteFilter ∧
    ∀ matrixSqrt : DependentMatrix ℚ (augmentedStateDimension 1 1) (augmentedStateDimension 1 1) →
        DependentMatrix ℚ (augmentedStateDimension 1 1) (augmentedStateDimension 1 1),
      ¬ IsPositiveSemiDefinite (computeSigmaPoints matrixSqrt indefiniteFilter
        indefiniteFilter.aPosterioriStateEstimate_
        indefiniteFilter.aPosterioriCovarianceEstimate_).augmentedCovarianceMatrix_ ∧
      (computeSigmaPoints matrixSqrt indefiniteFilter indefiniteFilter.aPosterioriStateEstimate_
        indefiniteFilter.aPosterioriCovarianceEstimate_).mapOfSigmaPoints_.length = 7 ∧
      (updateFilter matrixSqrt indefiniteFilter 1 [] ![26]).1 = .ok () := by
  refine ⟨indefiniteFilter_created 0 (by norm_num), ?_⟩
  intro matrixSqrt
  refine ⟨?_, ?_, ?_⟩
  · refine not_positive_semi_definite_of_negative_entry _ ?_
    simp [computeSigmaPoints, indefiniteFilter, scenarioFilter, setBlock]
  · rw [computeSigmaPoints_mapOfSigmaPoints matrixSqrt indefiniteFilter _ _ (Or.inl rfl)]
    simp [numberOfSigmaPoints, augmentedStateDimension]
  · exact updateFilter_returns matrixSqrt indefiniteFilter 1 [] ![26] rfl
      (fun _ => ⟨_, rfl⟩) (fun _ => ⟨_, rfl⟩) (Or.inl rfl) rfl rfl

/-- Witness for C12 as amended: the first `computeSigmaPoints` call on the scenario object,
whose sigma-point map is empty, made with any square root function. -/
theorem computeSigmaPoints_uses_matrix_square_root_witness :
    (scenarioFilter.mapOfSigmaPoints_ = [] ∨
      mapKeys scenarioFilter.mapOfSigmaPoints_ = List.range (numberOfSigmaPoints 1 1)) ∧
    (computeSigmaPoints diagonalSqrt scenarioFilter ![0] !![9]).augmentedCovarianceMatrix_ =
      setBlock scenarioFilter.augmentedCovarianceMatrix_ 0 0 !![9] ∧
    (computeSigmaPoints diagonalSqrt scenarioFilter ![0] !![9]).mapOfSigmaPoints_.length =
      numberOfSigmaPoints 1 1 :=
  ⟨Or.inl rfl,
    (computeSigmaPoints_uses_matrix_square_root diagonalSqrt scenarioFilter ![0] !![9]
      (Or.inl rfl)).1,
    (computeSigmaPoints_uses_matrix_square_root diagonalSqrt scenarioFilter ![0] !![9]
      (Or.inl rfl)).2.1⟩

end SquareRootUseWitnesses

end filters

namespace basic_functions

open filters

/-- An `int` expression whose mathematical value is in the range of `int` has that value. -/
theorem wrapInt_eq (z : ℤ) (h1 : -2147483648 ≤ z) (h2 : z < 2147483648) : wrapInt z = z := by
  unfold wrapInt
  rw [Int.emod_eq_of_lt (by linarith) (by linarith)]
  ring

/-- A read at an index within the vector returns the coefficient. -/
theorem coefficient_ok {D : Type} {k : ℕ} (v : Vector D k) (i : ℕ) (h : i < k) :
    coefficient v (i : ℤ) = .ok (v ⟨i, h⟩) := by
  unfold coefficient
  have h' : 0 ≤ (i : ℤ) ∧ (i : ℤ) < (k : ℤ) := ⟨by omega, by omega⟩
  rw [dif_pos h']
  congr

/-- A read at a negative index is an error. -/
theorem coefficient_negative {D : Type} {k : ℕ} (v : Vector D k) (i : ℤ) (h : i < 0) :
    coefficient v i = .error indexOutOfRangeMessage := by
  unfold coefficient
  rw [dif_neg (by omega)]

/-- The loop of the binary search between two indices of a vector of at most `2^30 + 1`
rows, given enough iterations: it returns an index `i` with `left <= i < right`, and if the
comparison of the loop holds at `left` and fails at `right`, it holds at `i` and fails at
`i + 1`. -/
theorem binarySearchLoop_returns {D : Type} {k : ℕ} (ge : D → D → Bool) (v : Vector D k)
    (target : D) (asc : Bool) (hk : k ≤ 1073741825) (budget left right : ℕ)
    (hlr : left < right) (hr : right < k) (hb : right - left ≤ budget + 1) :
    ∃ i : ℕ, binarySearchLoop ge v target asc budget (left : ℤ) (right : ℤ) = .ok (i : ℤ) ∧
      left ≤ i ∧ i < right ∧
      ((∀ h : left < k, (ge target (v ⟨left, h⟩) == asc) = true) →
        (ge target (v ⟨right, hr⟩) == asc) = false →
        ∃ (h0 : i < k) (h1 : i + 1 < k), (ge target (v ⟨i, h0⟩) == asc) = true ∧
          (ge target (v ⟨i + 1, h1⟩) == asc) = false) := by
  induction budget generalizing left right with
  | zero =>
    have hd : right = left + 1 := by omega
    subst hd
    refine ⟨left, ?_, le_refl _, by omega, ?_⟩
    · rw [binarySearchLoop]
      rw [wrapInt_eq _ (by omega) (by omega), if_neg (by omega)]
    · intro h1 h2
      exact ⟨by omega, hr, h1 _, h2⟩
  | succ budget ih =>
    by_cases hd : right = left + 1
    · subst hd
      refine ⟨left, ?_, le_refl _, by omega, ?_⟩
      · rw [binarySearchLoop]
        rw [wrapInt_eq _ (by omega) (by omega), if_neg (by omega)]
      · intro h1 h2
        exact ⟨by omega, hr, h1 _, h2⟩
    · have hmid : wrapInt ((right : ℤ) + (left : ℤ)) >>> (1 : ℕ) = (((right + left) / 2 : ℕ) : ℤ) := by
        rw [wrapInt_eq _ (by omega) (by omega), Int.shiftRight_eq_div_pow]
        norm_num
      have hm1 : left < (right + left) / 2 := by omega
      have hm2 : (right + left) / 2 < right := by omega
      have hmk : (right + left) / 2 < k := by omega
      rw [binarySearchLoop]
      rw [wrapInt_eq _ (by omega) (by omega), if_pos (by omega)]
      simp only [hmid, coefficient_ok v _ hmk]
      by_cases hc : (ge target (v ⟨(right + left) / 2, hmk⟩) == asc) = true
      · rw [if_pos hc]
        obtain ⟨i, hi, h1, h2, h3⟩ := ih ((right + left) / 2) right hm2 hr (by omega)
        refine ⟨i, hi, by omega, h2, ?_⟩
        intro _ hright
        exact h3 (fun _ => hc) hright
      · rw [if_neg hc]
        obtain ⟨i, hi, h1, h2, h3⟩ := ih left ((right + left) / 2) hm1 hmk (by omega)
        refine ⟨i, hi, h1, by omega, ?_⟩
        intro hleft _
        exact h3 hleft (by simpa using hc)

/-- The vector overload on a vector of `2 <= k <= 2^30 + 1` rows: it returns an index `i`
with `0 <= i <= k - 2`, and if the comparison of the loop holds at the first coefficient and
fails at the last, it holds at `i` and fails at `i + 1`. -/
theorem computeNearestLeftNeighborUsingBinarySearch_returns {D : Type} {k : ℕ}
    (ge : D → D → Bool) (v : Vector D k) (target : D) (hk2 : 2 ≤ k) (hk : k ≤ 1073741825) :
    ∃ i : ℕ, computeNearestLeftNeighborUsingBinarySearch ge v target = .ok (i : ℤ) ∧
      i + 2 ≤ k ∧
      ((ge target (v ⟨0, by omega⟩) ==
          ge (v ⟨k - 1, by omega⟩) (v ⟨0, by omega⟩)) = true →
        (ge target (v ⟨k - 1, by omega⟩) ==
          ge (v ⟨k - 1, by omega⟩) (v ⟨0, by omega⟩)) = false →
        ∃ (h0 : i < k) (h1 : i + 1 < k),
          (ge target (v ⟨i, h0⟩) == ge (v ⟨k - 1, by omega⟩) (v ⟨0, by omega⟩)) = true ∧
          (ge target (v ⟨i + 1, h1⟩) == ge (v ⟨k - 1, by omega⟩) (v ⟨0, by omega⟩)) = false) := by
  have hright : wrapInt ((k : ℤ) - 1) = ((k - 1 : ℕ) : ℤ) := by
    rw [wrapInt_eq _ (by omega) (by omega)]
    omega
  obtain ⟨i, hi, h1, h2, h3⟩ := binarySearchLoop_returns ge v target
    (ge (v ⟨k - 1, by omega⟩) (v ⟨0, by omega⟩)) hk k 0 (k - 1) (by omega) (by omega) (by omega)
  refine ⟨i, ?_, by omega, ?_⟩
  · unfold computeNearestLeftNeighborUsingBinarySearch
    simp only [hright, coefficient_ok v (k - 1) (by omega)]
    have h0 : coefficient v (0 : ℤ) = .ok (v ⟨0, by omega⟩) := coefficient_ok v 0 (by omega)
    simp only [h0]
    exact hi
  · intro hfirst hlast
    exact h3 (fun _ => hfirst) hlast

/-- On a vector of `2^30 + 2` rows, with the comparison of the loop holding at every
coefficient but the last, the loop started with the left limit `2^30 - 2^j` and the right
limit `2^30 + 1` ends in a read at a negative index: when the limits are `2^30 - 1` and
`2^30 + 1` their sum is `2^31`, which as an `int` is `-2^31`. -/
theorem binarySearchLoop_overflow {D : Type} (ge : D → D → Bool) (v : Vector D 1073741826)
    (target : D) (asc : Bool)
    (hge : ∀ i : Fin 1073741826, i.val < 1073741825 → (ge target (v i) == asc) = true)
    (j : ℕ) (hj : j ≤ 30) (budget : ℕ) (hb : j < budget) :
    binarySearchLoop ge v target asc budget (1073741824 - 2 ^ j) 1073741825 =
      .error indexOutOfRangeMessage := by
  induction j generalizing budget with
  | zero =>
    obtain ⟨b, rfl⟩ : ∃ b, budget = b + 1 := ⟨budget - 1, by omega⟩
    rw [binarySearchLoop]
    have h1 : wrapInt ((1073741825 : ℤ) - (1073741824 - 2 ^ 0)) = 2 := by
      norm_num [wrapInt]
    have h2 : wrapInt ((1073741825 : ℤ) + (1073741824 - 2 ^ 0)) >>> (1 : ℕ) = -1073741824 := by
      norm_num [wrapInt, Int.shiftRight_eq_div_pow]
    rw [h1, if_pos (by norm_num)]
    simp only [h2, coefficient_negative v _ (by norm_num : (-1073741824 : ℤ) < 0)]
  | succ j ih =>
    obtain ⟨b, rfl⟩ : ∃ b, budget = b + 1 := ⟨budget - 1, by omega⟩
    have hq1 : (1 : ℤ) ≤ 2 ^ j := one_le_pow₀ (by norm_num)
    have hq2 : (2 : ℤ) ^ j ≤ 2 ^ 29 := pow_le_pow_right₀ (by norm_num) (by omega)
    have hq3 : (2 : ℤ) ^ (j + 1) = 2 * 2 ^ j := by ring
    norm_num at hq2
    generalize (2 : ℤ) ^ j = q at hq1 hq2 hq3 ih
    rw [binarySearchLoop]
    rw [hq3]
    have h1 : wrapInt ((1073741825 : ℤ) - (1073741824 - 2 * q)) = 1 + 2 * q := by
      rw [wrapInt_eq _ (by omega) (by omega)]
      ring
    have h2 : wrapInt ((1073741825 : ℤ) + (1073741824 - 2 * q)) >>> (1 : ℕ) = 1073741824 - q := by
      rw [wrapInt_eq _ (by omega) (by omega), Int.shiftRight_eq_div_pow]
      omega
    rw [h1, if_pos (by omega)]
    have h4 : (1073741824 - q).toNat < 1073741826 := by omega
    have h5 : coefficient v (1073741824 - q) = .ok (v ⟨(1073741824 - q).toNat, h4⟩) := by
      unfold coefficient
      rw [dif_pos (⟨by omega, by omega⟩ :
        0 ≤ (1073741824 : ℤ) - q ∧ (1073741824 : ℤ) - q < ((1073741826 : ℕ) : ℤ))]
    simp only [h2, h5]
    rw [if_pos (hge _ (by simp only; omega))]
    exact ih (by omega) b (by omega)

/-- On a vector of `2^30 + 2` rows, with the comparison of the loop holding at every
coefficient but the last, the vector overload ends in a read at a negative index. -/
theorem computeNearestLeftNeighborUsingBinarySearch_overflow {D : Type} (ge : D → D → Bool)
    (v : Vector D 1073741826) (target : D)
    (hge : ∀ i : Fin 1073741826, i.val < 1073741825 →
      (ge target (v i) == ge (v ⟨1073741825, by norm_num⟩) (v ⟨0, by norm_num⟩)) = true) :
    computeNearestLeftNeighborUsingBinarySearch ge v target = .error indexOutOfRangeMessage := by
  unfold computeNearestLeftNeighborUsingBinarySearch
  have hright : wrapInt (((1073741826 : ℕ) : ℤ) - 1) = ((1073741825 : ℕ) : ℤ) := by
    norm_num [wrapInt]
  have h0 : coefficient v (0 : ℤ) = .ok (v ⟨0, by norm_num⟩) :=
    coefficient_ok v 0 (by norm_num)
  simp only [hright, coefficient_ok v 1073741825 (by norm_num), h0]
  have h := binarySearchLoop_overflow ge v target _ hge 30 (le_refl _) 1073741826 (by norm_num)
  norm_num at h ⊢
  exact h

/-- C29: for every vector of `2 <= n <= 2^30 + 1` rows sorted in ascending order (duplicates
allowed) and every target with `v[0] <= target < v[n-1]`, the vector overload of
`computeNearestLeftNeighborUsingBinarySearch` returns an index `i` with
`v[i] <= target < v[i+1]`.  The scalars are in a linear order: a sorted vector and a target
within its range hold no NaN. -/
theorem computeNearestLeftNeighborUsingBinarySearch_ascending {D : Type} [LinearOrder D]
    {k : ℕ} (v : Vector D k) (target : D) (hk2 : 2 ≤ k) (hk : k ≤ 1073741825)
    (hsorted : Monotone v)
    (hfirst : v ⟨0, by omega⟩ ≤ target) (hlast : target < v ⟨k - 1, by omega⟩) :
    ∃ (i : ℕ) (h0 : i < k) (h1 : i + 1 < k),
      computeNearestLeftNeighborUsingBinarySearch (fun a b => decide (a ≥ b)) v target =
        .ok (i : ℤ) ∧
      v ⟨i, h0⟩ ≤ target ∧ target < v ⟨i + 1, h1⟩ := by
  have hasc : decide (v ⟨k - 1, by omega⟩ ≥ v ⟨0, by omega⟩) = true :=
    decide_eq_true (hsorted (show (⟨0, by omega⟩ : Fin k) ≤ ⟨k - 1, by omega⟩ from
      Nat.zero_le _))
  obtain ⟨i, hi, -, h3⟩ := computeNearestLeftNeighborUsingBinarySearch_returns
    (fun a b : D => decide (a ≥ b)) v target hk2 hk
  obtain ⟨h0, h1, ha, hb⟩ := h3
    (by simp only [hasc]; simpa using hfirst)
    (by simp only [hasc]; simpa using hlast)
  refine ⟨i, h0, h1, hi, ?_, ?_⟩
  · simp only [hasc] at ha
    simpa using ha
  · simp only [hasc] at hb
    simpa using hb

/-- Counterexample for C29: on the ascending vector of `2^30 + 2` rows, all 0 but the last,
which is 1, and the target 0, for which `v[0] <= target < v[n-1]`, the vector overload does
not return an index: it reads the vector at a negative index. -/
theorem computeNearestLeftNeighborUsingBinarySearch_long_ascending_vector :
    Monotone (fun i : Fin 1073741826 => if i.val = 1073741825 then (1 : ℚ) else 0) ∧
    (fun i : Fin 1073741826 => if i.val = 1073741825 then (1 : ℚ) else 0)
      ⟨0, by norm_num⟩ ≤ 0 ∧
    (0 : ℚ) < (fun i : Fin 1073741826 => if i.val = 1073741825 then (1 : ℚ) else 0)
      ⟨1073741825, by norm_num⟩ ∧
    computeNearestLeftNeighborUsingBinarySearch (fun a b : ℚ => decide (a ≥ b))
      (fun i : Fin 1073741826 => if i.val = 1073741825 then (1 : ℚ) else 0) 0 =
      .error indexOutOfRangeMessage := by
  refine ⟨?_, by norm_num, by norm_num, ?_⟩
  · intro a b hab
    have hab' : a.val ≤ b.val := hab
    have hb := b.isLt
    by_cases ha : a.val = 1073741825
    · have hb' : b.val = 1073741825 := by omega
      simp [ha, hb']
    · by_cases hb' : b.val = 1073741825
      · simp [ha, hb']
      · simp [ha, hb']
  · apply computeNearestLeftNeighborUsingBinarySearch_overflow
    intro i hi
    have hne : i.val ≠ 1073741825 := by omega
    simp [hne]

/-- C30: for every vector of `2 <= n <= 2^30 + 1` rows, sorted or not, every target value and
every outcome of the comparisons `>=` (so also for targets below the first or above the last
coefficient), the vector overload of `computeNearestLeftNeighborUsingBinarySearch` returns,
with an index `i`, `0 <= i <= n - 2`; it has read the vector only at indices within
`[0, n-1]`, since a read at any other index is an error. -/
theorem computeNearestLeftNeighborUsingBinarySearch_index_bounds {D : Type} {k : ℕ}
    (ge : D → D → Bool) (v : Vector D k) (target : D) (hk2 : 2 ≤ k) (hk : k ≤ 1073741825) :
    (∃ i : ℤ, computeNearestLeftNeighborUsingBinarySearch ge v target = .ok i ∧
      0 ≤ i ∧ i ≤ (k : ℤ) - 2) ∧
    ∀ j : ℤ, (j < 0 ∨ (k : ℤ) - 1 < j) → coefficient v j = .error indexOutOfRangeMessage := by
  constructor
  · obtain ⟨i, hi, h2, -⟩ := computeNearestLeftNeighborUsingBinarySearch_returns ge v target
      hk2 hk
    exact ⟨i, hi, by omega, by omega⟩
  · intro j hj
    unfold coefficient
    rw [dif_neg (by omega)]

/-- Counterexample for C30: on the vector of `2^30 + 2` zeros and the target 1, above the
last coefficient, the vector overload does not return an index: it reads the vector at a
negative index. -/
theorem computeNearestLeftNeighborUsingBinarySearch_long_vector :
    computeNearestLeftNeighborUsingBinarySearch (fun a b : ℚ => decide (a ≥ b))
      (fun _ : Fin 1073741826 => (0 : ℚ)) 1 = .error indexOutOfRangeMessage := by
  apply computeNearestLeftNeighborUsingBinarySearch_overflow
  intro i _
  norm_num

/-- Witness for C29: the vector `(1, 2, 2, 5)` and the target 3. -/
theorem computeNearestLeftNeighborUsingBinarySearch_ascending_witness :
    2 ≤ 4 ∧ 4 ≤ 1073741825 ∧ Monotone (![1, 2, 2, 5] : Vector ℚ 4) ∧
    (![1, 2, 2, 5] : Vector ℚ 4) ⟨0, by omega⟩ ≤ 3 ∧
    (3 : ℚ) < (![1, 2, 2, 5] : Vector ℚ 4) ⟨4 - 1, by omega⟩ ∧
    ∃ (i : ℕ) (h0 : i < 4) (h1 : i + 1 < 4),
      computeNearestLeftNeighborUsingBinarySearch (fun a b => decide (a ≥ b))
        (![1, 2, 2, 5] : Vector ℚ 4) 3 = .ok (i : ℤ) ∧
      (![1, 2, 2, 5] : Vector ℚ 4) ⟨i, h0⟩ ≤ 3 ∧ 3 < (![1, 2, 2, 5] : Vector ℚ 4) ⟨i + 1, h1⟩ :=
  have hsorted : Monotone (![1, 2, 2, 5] : Vector ℚ 4) := by
    intro a b hab
    fin_cases a <;> fin_cases b <;> simp at hab ⊢ <;> norm_num
  have hfirst : (![1, 2, 2, 5] : Vector ℚ 4) ⟨0, by omega⟩ ≤ 3 := by
    norm_num [Matrix.cons_val_zero]
  have hlast : (3 : ℚ) < (![1, 2, 2, 5] : Vector ℚ 4) ⟨4 - 1, by omega⟩ := by
    show (3 : ℚ) < (![1, 2, 2, 5] : Vector ℚ 4) 3
    norm_num [Matrix.cons_val_three]
  ⟨by norm_num, by norm_num, hsorted, hfirst, hlast,
    computeNearestLeftNeighborUsingBinarySearch_ascending (![1, 2, 2, 5] : Vector ℚ 4) 3
      (by norm_num) (by norm_num) hsorted hfirst hlast⟩

/-- Witness for C30: the unsorted vector `(4, 1, 3)` and the target 9, above every
coefficient. -/
theorem computeNearestLeftNeighborUsingBinarySearch_index_bounds_witness :
    2 ≤ 3 ∧ 3 ≤ 1073741825 ∧
    ∃ i : ℤ, computeNearestLeftNeighborUsingBinarySearch (fun a b : ℚ => decide (a ≥ b))
      (![4, 1, 3] : Vector ℚ 3) 9 = .ok i ∧ 0 ≤ i ∧ i ≤ ((3 : ℕ) : ℤ) - 2 :=
  ⟨by norm_num, by norm_num,
    (computeNearestLeftNeighborUsingBinarySearch_index_bounds (fun a b : ℚ => decide (a ≥ b))
      (![4, 1, 3] : Vector ℚ 3) 9 (by norm_num) (by norm_num)).1⟩

/-- The key at a position of a map is the coefficient of its vector of keys at that position;
outside the map both reads are errors. -/
theorem keyAtPosition_toOption {D V : Type} (mp : StdMap D V) (i : ℤ) :
    (keyAtPosition mp i).toOption = (coefficient (keysOfMap mp) i).toOption := by
  unfold keyAtPosition coefficient
  by_cases h : 0 ≤ i ∧ i < (mp.length : ℤ)
  · rw [dif_pos h, dif_pos h]
    rfl
  · rw [dif_neg h, dif_neg h]
    rfl

/-- The loops of the two overloads take the same steps when the vector overload runs on the
keys of the map with the flag `isVectorOfSortedDataAscending` set. -/
theorem binarySearchLoopOverMap_eq {D V : Type} (ge : D → D → Bool) (mp : StdMap D V)
    (target : D) (budget : ℕ) (left right : ℤ) :
    (binarySearchLoopOverMap ge mp target budget left right).toOption =
      (binarySearchLoop ge (keysOfMap mp) target true budget left right).toOption := by
  induction budget generalizing left right with
  | zero =>
    rw [binarySearchLoopOverMap, binarySearchLoop]
  | succ budget ih =>
    rw [binarySearchLoopOverMap, binarySearchLoop]
    split_ifs with hcond
    · have hkey := keyAtPosition_toOption mp (wrapInt (right + left) >>> (1 : ℕ))
      simp only []
      cases h1 : keyAtPosition mp (wrapInt (right + left) >>> (1 : ℕ)) with
      | error e =>
        cases h2 : coefficient (keysOfMap mp) (wrapInt (right + left) >>> (1 : ℕ)) with
        | error e' => rfl
        | ok x =>
          rw [h1, h2] at hkey
          cases hkey
      | ok key =>
        cases h2 : coefficient (keysOfMap mp) (wrapInt (right + left) >>> (1 : ℕ)) with
        | error e' =>
          rw [h1, h2] at hkey
          cases hkey
        | ok x =>
          rw [h1, h2] at hkey
          have hx : key = x := by
            simpa [Except.toOption] using hkey
          subst hx
          simp only [beq_true]
          by_cases hge : ge target key = true
          · simp only [hge, if_true]
            exact ih _ _
          · simp only [hge, if_false]
            exact ih _ _
    · rfl

/-- The loop of the vector overload stops at once when its limits are neighbours. -/
theorem binarySearchLoop_stop {D : Type} {k : ℕ} (ge : D → D → Bool) (v : Vector D k)
    (target : D) (asc : Bool) (budget : ℕ) (left right : ℤ)
    (h : wrapInt (right - left) ≤ 1) :
    binarySearchLoop ge v target asc budget left right = .ok left := by
  cases budget with
  | zero =>
    rw [binarySearchLoop, if_neg (by omega)]
  | succ b =>
    rw [binarySearchLoop, if_neg (by omega)]

/-- The loop of the map overload stops at once when its limits are neighbours. -/
theorem binarySearchLoopOverMap_stop {D V : Type} (ge : D → D → Bool) (mp : StdMap D V)
    (target : D) (budget : ℕ) (left right : ℤ) (h : wrapInt (right - left) ≤ 1) :
    binarySearchLoopOverMap ge mp target budget left right = .ok left := by
  cases budget with
  | zero =>
    rw [binarySearchLoopOverMap, if_neg (by omega)]
  | succ b =>
    rw [binarySearchLoopOverMap, if_neg (by omega)]

/-- The vector overload on a vector of one row returns 0. -/
theorem computeNearestLeftNeighborUsingBinarySearch_one_row {D : Type} {k : ℕ}
    (ge : D → D → Bool) (v : Vector D k) (target : D) (hk : k = 1) :
    computeNearestLeftNeighborUsingBinarySearch ge v target = .ok 0 := by
  subst hk
  unfold computeNearestLeftNeighborUsingBinarySearch
  have hright : wrapInt (((1 : ℕ) : ℤ) - 1) = ((0 : ℕ) : ℤ) := by
    norm_num [wrapInt]
  have h0 : coefficient v ((0 : ℕ) : ℤ) = .ok (v ⟨0, by norm_num⟩) :=
    coefficient_ok v 0 (by norm_num)
  simp only [hright, h0]
  have h0' : coefficient v (0 : ℤ) = .ok (v ⟨0, by norm_num⟩) := h0
  simp only [h0']
  exact binarySearchLoop_stop ge v target _ _ _ _ (by norm_num [wrapInt])

/-- The vector overload on a vector of more than `2^31` and at most `2^32` rows fails: the
right limit `rows( ) - 1` is negative as an `int`, and the first read is at that index. -/
theorem computeNearestLeftNeighborUsingBinarySearch_negative_limit {D : Type} {k : ℕ}
    (ge : D → D → Bool) (v : Vector D k) (target : D) (h : wrapInt ((k : ℤ) - 1) < 0) :
    computeNearestLeftNeighborUsingBinarySearch ge v target = .error indexOutOfRangeMessage := by
  unfold computeNearestLeftNeighborUsingBinarySearch
  simp only [coefficient_negative v _ h]

/-- The map overload returns 0 without reading a key when its right limit `size( ) - 1` is
at most 1 as an `int`. -/
theorem computeNearestLeftNeighborUsingBinarySearchOverMap_small_limit {D V : Type}
    (ge : D → D → Bool) (mp : StdMap D V) (target : D)
    (h : wrapInt ((mp.length : ℤ) - 1) ≤ 1) :
    computeNearestLeftNeighborUsingBinarySearchOverMap ge mp target = .ok 0 := by
  unfold computeNearestLeftNeighborUsingBinarySearchOverMap
  apply binarySearchLoopOverMap_stop
  have h1 : -2147483648 ≤ wrapInt ((mp.length : ℤ) - 1) := by
    unfold wrapInt
    omega
  rw [sub_zero, wrapInt_eq _ h1 (by omega)]
  exact h

/-- In a non-empty map the last key is at least the first. -/
theorem keysOfMap_first_le_last {D V : Type} [LinearOrder D] (mp : StdMap D V)
    (hord : mapOrdered mp) (hne : 0 < mp.length) :
    keysOfMap mp ⟨0, hne⟩ ≤ keysOfMap mp ⟨mp.length - 1, by omega⟩ := by
  by_cases h1 : mp.length - 1 = 0
  · have : (⟨mp.length - 1, by omega⟩ : Fin mp.length) = ⟨0, hne⟩ := Fin.ext h1
    rw [this]
  · apply le_of_lt
    unfold mapOrdered mapKeys at hord
    rw [List.pairwise_map] at hord
    have h := List.pairwise_iff_get.mp hord ⟨0, hne⟩ ⟨mp.length - 1, by omega⟩
      (by
        show 0 < mp.length - 1
        omega)
    exact h

/-- An outcome whose value is known is a return of that value. -/
theorem eq_ok_of_toOption {ε α : Type} (x : Except ε α) (a : α)
    (h : x.toOption = some a) : x = .ok a := by
  cases x with
  | error e => cases h
  | ok b =>
    have hb : b = a := by
      simpa [Except.toOption] using h
    rw [hb]

/-- The two overloads on a non-empty map of at most `2^31` entries: same outcome. -/
theorem computeNearestLeftNeighborUsingBinarySearchOverMap_toOption {D V : Type}
    [LinearOrder D] (mp : StdMap D V) (target : D) (hord : mapOrdered mp)
    (hne : 0 < mp.length) (hlen : mp.length ≤ 2147483648) :
    (computeNearestLeftNeighborUsingBinarySearchOverMap (fun a b => decide (a ≥ b)) mp
        target).toOption =
      (computeNearestLeftNeighborUsingBinarySearch (fun a b => decide (a ≥ b)) (keysOfMap mp)
        target).toOption := by
  unfold computeNearestLeftNeighborUsingBinarySearchOverMap
    computeNearestLeftNeighborUsingBinarySearch
  have hright : wrapInt ((mp.length : ℤ) - 1) = ((mp.length - 1 : ℕ) : ℤ) := by
    rw [wrapInt_eq _ (by omega) (by omega)]
    omega
  have h0 : coefficient (keysOfMap mp) (0 : ℤ) = .ok (keysOfMap mp ⟨0, hne⟩) :=
    coefficient_ok (keysOfMap mp) 0 hne
  have hasc : decide (keysOfMap mp ⟨mp.length - 1, by omega⟩ ≥ keysOfMap mp ⟨0, hne⟩) = true :=
    decide_eq_true (keysOfMap_first_le_last mp hord hne)
  simp only [hright, coefficient_ok (keysOfMap mp) (mp.length - 1) (by omega), h0, hasc]
  exact binarySearchLoopOverMap_eq _ mp target _ _ _

/-- C31: for every non-empty map of at most `2^31` entries with keys in a linear order and
every target, the map overload of `computeNearestLeftNeighborUsingBinarySearch` and the
vector overload applied to the keys of the map in ascending order have the same outcome,
and for a map of at most `2^30 + 1` entries both return, with the same index. -/
theorem computeNearestLeftNeighborUsingBinarySearchOverMap_eq_vector_overload {D V : Type}
    [LinearOrder D] (mp : StdMap D V) (target : D) (hord : mapOrdered mp)
    (hne : 0 < mp.length) (hlen : mp.length ≤ 2147483648) :
    (computeNearestLeftNeighborUsingBinarySearchOverMap (fun a b => decide (a ≥ b)) mp
        target).toOption =
      (computeNearestLeftNeighborUsingBinarySearch (fun a b => decide (a ≥ b)) (keysOfMap mp)
        target).toOption ∧
    (mp.length ≤ 1073741825 →
      ∃ i : ℕ, i < mp.length ∧
        computeNearestLeftNeighborUsingBinarySearchOverMap (fun a b => decide (a ≥ b)) mp
          target = .ok (i : ℤ) ∧
        computeNearestLeftNeighborUsingBinarySearch (fun a b => decide (a ≥ b))
          (keysOfMap mp) target = .ok (i : ℤ)) := by
  have hsame := computeNearestLeftNeighborUsingBinarySearchOverMap_toOption mp target hord hne
    hlen
  refine ⟨hsame, ?_⟩
  intro hsmall
  have hvec : ∃ i : ℕ, i < mp.length ∧
      computeNearestLeftNeighborUsingBinarySearch (fun a b => decide (a ≥ b))
        (keysOfMap mp) target = .ok (i : ℤ) := by
    by_cases h1 : mp.length = 1
    · exact ⟨0, hne, computeNearestLeftNeighborUsingBinarySearch_one_row _ _ target h1⟩
    · obtain ⟨i, hi, h2, -⟩ := computeNearestLeftNeighborUsingBinarySearch_returns
        (fun a b : D => decide (a ≥ b)) (keysOfMap mp) target (by omega) hsmall
      exact ⟨i, by omega, hi⟩
  obtain ⟨i, hi, hv⟩ := hvec
  refine ⟨i, hi, ?_, hv⟩
  apply eq_ok_of_toOption
  rw [hsame, hv]
  rfl

/-- Counterexample for C31: on the map with the `2^31 + 1` keys `0, 1, ..., 2^31` and the
target 5, the map overload returns 0, its right limit being `-2^31` as an `int`, while the
vector overload applied to the keys does not return an index: it reads the vector at the
index `-2^31`. -/
theorem computeNearestLeftNeighborUsingBinarySearchOverMap_long_map :
    0 < ((List.range 2147483649).map
      (fun i : ℕ => ((i : ℚ), (fun _ => 0 : Vector ℚ 1)))).length ∧
    mapOrdered ((List.range 2147483649).map (fun i : ℕ => ((i : ℚ), (fun _ => 0 : Vector ℚ 1)))) ∧
    computeNearestLeftNeighborUsingBinarySearchOverMap (fun a b : ℚ => decide (a ≥ b))
      ((List.range 2147483649).map (fun i : ℕ => ((i : ℚ), (fun _ => 0 : Vector ℚ 1)))) 5 =
      .ok 0 ∧
    computeNearestLeftNeighborUsingBinarySearch (fun a b : ℚ => decide (a ≥ b))
      (keysOfMap ((List.range 2147483649).map
        (fun i : ℕ => ((i : ℚ), (fun _ => 0 : Vector ℚ 1))))) 5 =
      .error indexOutOfRangeMessage := by
  have hlen : ((List.range 2147483649).map
      (fun i : ℕ => ((i : ℚ), (fun _ => 0 : Vector ℚ 1)))).length = 2147483649 := by
    simp only [List.length_map, List.length_range]
  have hlimit : wrapInt ((((List.range 2147483649).map
      (fun i : ℕ => ((i : ℚ), (fun _ => 0 : Vector ℚ 1)))).length : ℤ) - 1) = -2147483648 := by
    rw [hlen]
    norm_num [wrapInt]
  refine ⟨by rw [hlen]; norm_num, ?_, ?_, ?_⟩
  · unfold mapOrdered mapKeys
    rw [List.map_map, List.pairwise_map]
    exact (List.pairwise_lt_range 2147483649).imp (fun h => Nat.cast_lt.mpr h)
  · exact computeNearestLeftNeighborUsingBinarySearchOverMap_small_limit _ _ _
      (by rw [hlimit]; norm_num)
  · exact computeNearestLeftNeighborUsingBinarySearch_negative_limit _ _ _
      (by rw [hlimit]; norm_num)

/-- C32: for every vector of `2 <= n <= 2^30 + 1` rows in strictly descending order and every
target with `v[0] > target >= v[n-1]`, the vector overload of
`computeNearestLeftNeighborUsingBinarySearch` returns an index `i` with
`v[i] > target >= v[i+1]`, and for a target equal to a coefficient `v[j]`, `j >= 1`, the
index returned is `j - 1`. -/
theorem computeNearestLeftNeighborUsingBinarySearch_descending {D : Type} [LinearOrder D]
    {k : ℕ} (v : Vector D k) (target : D) (hk2 : 2 ≤ k) (hk : k ≤ 1073741825)
    (hdesc : StrictAnti v) (hfirst : target < v ⟨0, by omega⟩)
    (hlast : v ⟨k - 1, by omega⟩ ≤ target) :
    ∃ (i : ℕ) (h0 : i < k) (h1 : i + 1 < k),
      computeNearestLeftNeighborUsingBinarySearch (fun a b => decide (a ≥ b)) v target =
        .ok (i : ℤ) ∧
      target < v ⟨i, h0⟩ ∧ v ⟨i + 1, h1⟩ ≤ target ∧
      ∀ j : Fin k, 1 ≤ j.val → target = v j → i = j.val - 1 := by
  obtain ⟨i, hi, -, h3⟩ := computeNearestLeftNeighborUsingBinarySearch_returns
    (fun a b : D => decide (a ≥ b)) v target hk2 hk
  have hasc : decide (v ⟨k - 1, by omega⟩ ≥ v ⟨0, by omega⟩) = false :=
    decide_eq_false (not_le_of_lt (lt_of_le_of_lt hlast hfirst))
  obtain ⟨h0, h1, ha, hb⟩ := h3
    (by simp only [hasc]; simpa using hfirst)
    (by simp only [hasc]; simpa using hlast)
  simp only [hasc] at ha hb
  have ha' : target < v ⟨i, h0⟩ := by simpa using ha
  have hb' : v ⟨i + 1, h1⟩ ≤ target := by simpa using hb
  refine ⟨i, h0, h1, hi, ha', hb', ?_⟩
  intro j hj htarget
  rw [htarget] at ha' hb'
  have hij : (⟨i, h0⟩ : Fin k) < j := hdesc.lt_iff_lt.mp ha'
  have hji : j ≤ (⟨i + 1, h1⟩ : Fin k) := hdesc.le_iff_le.mp hb'
  have hij' : i < j.val := hij
  have hji' : j.val ≤ i + 1 := hji
  omega

/-- Counterexample for C32: on the strictly descending vector of `2^30 + 2` rows
`0, -1, ..., -(2^30 + 1)` and the target `-(2^30 + 1)`, its last coefficient, for which
`v[0] > target >= v[n-1]`, the vector overload does not return an index: it reads the vector
at a negative index. -/
theorem computeNearestLeftNeighborUsingBinarySearch_long_descending_vector :
    StrictAnti (fun i : Fin 1073741826 => -(i.val : ℚ)) ∧
    (-1073741825 : ℚ) < (fun i : Fin 1073741826 => -(i.val : ℚ)) ⟨0, by norm_num⟩ ∧
    (fun i : Fin 1073741826 => -(i.val : ℚ)) ⟨1073741825, by norm_num⟩ ≤ -1073741825 ∧
    computeNearestLeftNeighborUsingBinarySearch (fun a b : ℚ => decide (a ≥ b))
      (fun i : Fin 1073741826 => -(i.val : ℚ)) (-1073741825) =
      .error indexOutOfRangeMessage := by
  refine ⟨?_, by norm_num, by norm_num, ?_⟩
  · intro a b hab
    have hab' : a.val < b.val := hab
    have h : (a.val : ℚ) < (b.val : ℚ) := by exact_mod_cast hab'
    exact neg_lt_neg h
  · apply computeNearestLeftNeighborUsingBinarySearch_overflow
    intro i hi
    have h : (i.val : ℚ) < 1073741825 := by exact_mod_cast hi
    have h1 : ¬ ((-1073741825 : ℚ) ≥ -(i.val : ℚ)) := by
      intro hc
      have := neg_le_neg_iff.mp hc
      linarith
    have h2 : ¬ ((-(((⟨1073741825, by norm_num⟩ : Fin 1073741826).val : ℕ) : ℚ)) ≥
        -((((⟨0, by norm_num⟩ : Fin 1073741826).val : ℕ) : ℚ))) := by
      norm_num
    simp only [decide_eq_false h1, decide_eq_false h2]
    rfl

/-- Witness for C31: the map with the keys 1, 2, 4 and the target 3. -/
theorem computeNearestLeftNeighborUsingBinarySearchOverMap_eq_vector_overload_witness :
    mapOrdered ([(1, ![7]), (2, ![8]), (4, ![9])] : StdMap ℚ (Vector ℚ 1)) ∧
    0 < ([(1, ![7]), (2, ![8]), (4, ![9])] : StdMap ℚ (Vector ℚ 1)).length ∧
    ([(1, ![7]), (2, ![8]), (4, ![9])] : StdMap ℚ (Vector ℚ 1)).length ≤ 1073741825 ∧
    ∃ i : ℕ, i < ([(1, ![7]), (2, ![8]), (4, ![9])] : StdMap ℚ (Vector ℚ 1)).length ∧
      computeNearestLeftNeighborUsingBinarySearchOverMap (fun a b => decide (a ≥ b))
        ([(1, ![7]), (2, ![8]), (4, ![9])] : StdMap ℚ (Vector ℚ 1)) 3 = .ok (i : ℤ) ∧
      computeNearestLeftNeighborUsingBinarySearch (fun a b => decide (a ≥ b))
        (keysOfMap ([(1, ![7]), (2, ![8]), (4, ![9])] : StdMap ℚ (Vector ℚ 1))) 3 =
        .ok (i : ℤ) :=
  ⟨by norm_num [mapOrdered, mapKeys], by norm_num, by norm_num,
    (computeNearestLeftNeighborUsingBinarySearchOverMap_eq_vector_overload
      ([(1, ![7]), (2, ![8]), (4, ![9])] : StdMap ℚ (Vector ℚ 1)) 3
      (by norm_num [mapOrdered, mapKeys]) (by norm_num) (by norm_num)).2 (by norm_num)⟩

/-- Witness for C32: the vector `(5, 3, 2, 1)` and the target 3, its coefficient 1. -/
theorem computeNearestLeftNeighborUsingBinarySearch_descending_witness :
    2 ≤ 4 ∧ 4 ≤ 1073741825 ∧ StrictAnti (![5, 3, 2, 1] : Vector ℚ 4) ∧
    (3 : ℚ) < (![5, 3, 2, 1] : Vector ℚ 4) ⟨0, by omega⟩ ∧
    (![5, 3, 2, 1] : Vector ℚ 4) ⟨4 - 1, by omega⟩ ≤ 3 ∧
    ∃ (i : ℕ) (h0 : i < 4) (h1 : i + 1 < 4),
      computeNearestLeftNeighborUsingBinarySearch (fun a b => decide (a ≥ b))
        (![5, 3, 2, 1] : Vector ℚ 4) 3 = .ok (i : ℤ) ∧
      3 < (![5, 3, 2, 1] : Vector ℚ 4) ⟨i, h0⟩ ∧
      (![5, 3, 2, 1] : Vector ℚ 4) ⟨i + 1, h1⟩ ≤ 3 ∧
      ∀ j : Fin 4, 1 ≤ j.val → 3 = (![5, 3, 2, 1] : Vector ℚ 4) j → i = j.val - 1 :=
  have hdesc : StrictAnti (![5, 3, 2, 1] : Vector ℚ 4) := by
    intro a b hab
    fin_cases a <;> fin_cases b <;> simp at hab ⊢ <;> norm_num
  have hfirst : (3 : ℚ) < (![5, 3, 2, 1] : Vector ℚ 4) ⟨0, by omega⟩ := by
    norm_num [Matrix.cons_val_zero]
  have hlast : (![5, 3, 2, 1] : Vector ℚ 4) ⟨4 - 1, by omega⟩ ≤ 3 := by
    show (![5, 3, 2, 1] : Vector ℚ 4) 3 ≤ 3
    norm_num [Matrix.cons_val_three]
  ⟨by norm_num, by norm_num, hdesc, hfirst, hlast,
    computeNearestLeftNeighborUsingBinarySearch_descending (![5, 3, 2, 1] : Vector ℚ 4) 3
      (by norm_num) (by norm_num) hdesc hfirst hlast⟩

end basic_functions

namespace ephemerides

/-- C33: for every Julian date, over the reals, with the coordinate conversion of the core
library being the standard one from (radius, zenith, azimuth), a positive orbital radius
`r` (the semi-major axis converted to metres) and a non-negative gravitational parameter of
the Sun, the state returned by `getCartesianStateFromEphemeris` is
`(r cos L, r sin L, 0, -v sin L, v cos L, 0)` with `L` the mean longitude
`L0 + rate * ((julianDate - 2451545) / 36525)` converted to radians and
`v = sqrt (mu_sun / r)`: position and velocity have zero z-component, norms `r` and `v`, and
are orthogonal, and `v * v = mu_sun / r`. -/
theorem getCartesianStateFromEphemeris_circular_coplanar_orbit
    (convertDegreesToRadians convertAstronomicalUnitsToMeters : ℝ → ℝ)
    (convertSphericalToCartesian : (Fin 3 → ℝ) → (Fin 3 → ℝ))
    (sunGravitationalParameter : ℝ)
    (self : ApproximatePlanetPositionsCircularCoplanar ℝ) (julianDate : ℝ)
    (hconversion : ∀ radius zenith azimuth : ℝ,
      convertSphericalToCartesian ![radius, zenith, azimuth] =
        ![radius * Real.cos azimuth * Real.sin zenith,
          radius * Real.sin azimuth * Real.sin zenith,
          radius * Real.cos zenith])
    (hradius : 0 < convertAstronomicalUnitsToMeters
      self.approximatePlanetPositionsDataContainer_.semiMajorAxis_)
    (hmu : 0 ≤ sunGravitationalParameter) :
    ∃ L r v : ℝ,
      L = convertDegreesToRadians
        (self.approximatePlanetPositionsDataContainer_.meanLongitude_ +
          self.approximatePlanetPositionsDataContainer_.rateOfChangeOfMeanLongitude_ *
            ((julianDate - 2451545) / 36525)) ∧
      r = convertAstronomicalUnitsToMeters
        self.approximatePlanetPositionsDataContainer_.semiMajorAxis_ ∧
      v = Real.sqrt (sunGravitationalParameter / r) ∧
      v * v = sunGravitationalParameter / r ∧
      (getCartesianStateFromEphemeris Real.sin Real.cos Real.sqrt Real.pi
        convertDegreesToRadians convertAstronomicalUnitsToMeters convertSphericalToCartesian
        sunGravitationalParameter self julianDate).1 =
        ![r * Real.cos L, r * Real.sin L, 0, -Real.sin L * v, Real.cos L * v, 0] ∧
      Real.sqrt ((r * Real.cos L) ^ 2 + (r * Real.sin L) ^ 2 + 0 ^ 2) = r ∧
      Real.sqrt ((-Real.sin L * v) ^ 2 + (Real.cos L * v) ^ 2 + 0 ^ 2) = v ∧
      (r * Real.cos L) * (-Real.sin L * v) + (r * Real.sin L) * (Real.cos L * v) + 0 * 0 = 0 := by
  have hv : 0 ≤ Real.sqrt (sunGravitationalParameter / convertAstronomicalUnitsToMeters
      self.approximatePlanetPositionsDataContainer_.semiMajorAxis_) := Real.sqrt_nonneg _
  refine ⟨_, _, _, rfl, rfl, rfl, ?_, ?_, ?_, ?_, ?_⟩
  · exact Real.mul_self_sqrt (div_nonneg hmu hradius.le)
  · unfold getCartesianStateFromEphemeris
    simp only [hconversion]
    have hhalf : (0.5 : ℝ) * Real.pi = Real.pi / 2 := by
      norm_num
      ring
    rw [hhalf]
    simp [Real.sin_pi_div_two, Real.cos_pi_div_two]
  · have h : ∀ r L : ℝ, (r * Real.cos L) ^ 2 + (r * Real.sin L) ^ 2 + 0 ^ 2 = r ^ 2 := by
      intro r L
      have := Real.sin_sq_add_cos_sq L
      linear_combination r ^ 2 * this
    rw [h, Real.sqrt_sq hradius.le]
  · have h : ∀ v L : ℝ, (-Real.sin L * v) ^ 2 + (Real.cos L * v) ^ 2 + 0 ^ 2 = v ^ 2 := by
      intro v L
      have := Real.sin_sq_add_cos_sq L
      linear_combination v ^ 2 * this
    rw [h, Real.sqrt_sq hv]
  · ring

/-- Witness for C33: the planet with semi-major axis 1 astronomical unit at the Julian date
2451545, with degrees converted by `pi / 180` and astronomical units by 149597870691 m. -/
theorem getCartesianStateFromEphemeris_circular_coplanar_orbit_witness :
    (∀ radius zenith azimuth : ℝ,
      sphericalToCartesianOverReals ![radius, zenith, azimuth] =
        ![radius * Real.cos azimuth * Real.sin zenith,
          radius * Real.sin azimuth * Real.sin zenith,
          radius * Real.cos zenith]) ∧
    0 < (fun a : ℝ => a * 149597870691)
      unitOrbitEphemeris.approximatePlanetPositionsDataContainer_.semiMajorAxis_ ∧
    (0 : ℝ) ≤ 132712440018000000000 ∧
    ∃ L r v : ℝ,
      L = (fun d : ℝ => d * Real.pi / 180)
        (unitOrbitEphemeris.approximatePlanetPositionsDataContainer_.meanLongitude_ +
          unitOrbitEphemeris.approximatePlanetPositionsDataContainer_.rateOfChangeOfMeanLongitude_ *
            ((2451545 - 2451545) / 36525)) ∧
      r = (fun a : ℝ => a * 149597870691)
        unitOrbitEphemeris.approximatePlanetPositionsDataContainer_.semiMajorAxis_ ∧
      v = Real.sqrt (132712440018000000000 / r) ∧
      v * v = 132712440018000000000 / r ∧
      (getCartesianStateFromEphemeris Real.sin Real.cos Real.sqrt Real.pi
        (fun d : ℝ => d * Real.pi / 180) (fun a : ℝ => a * 149597870691)
        sphericalToCartesianOverReals 132712440018000000000 unitOrbitEphemeris 2451545).1 =
        ![r * Real.cos L, r * Real.sin L, 0, -Real.sin L * v, Real.cos L * v, 0] ∧
      Real.sqrt ((r * Real.cos L) ^ 2 + (r * Real.sin L) ^ 2 + 0 ^ 2) = r ∧
      Real.sqrt ((-Real.sin L * v) ^ 2 + (Real.cos L * v) ^ 2 + 0 ^ 2) = v ∧
      (r * Real.cos L) * (-Real.sin L * v) + (r * Real.sin L) * (Real.cos L * v) + 0 * 0 = 0 :=
  have hconversion : ∀ radius zenith azimuth : ℝ,
      sphericalToCartesianOverReals ![radius, zenith, azimuth] =
        ![radius * Real.cos azimuth * Real.sin zenith,
          radius * Real.sin azimuth * Real.sin zenith,
          radius * Real.cos zenith] := by
    intro radius zenith azimuth
    simp [sphericalToCartesianOverReals]
  have hradius : 0 < (fun a : ℝ => a * 149597870691)
      unitOrbitEphemeris.approximatePlanetPositionsDataContainer_.semiMajorAxis_ := by
    norm_num [unitOrbitEphemeris]
  ⟨hconversion, hradius, by norm_num,
    getCartesianStateFromEphemeris_circular_coplanar_orbit (fun d : ℝ => d * Real.pi / 180)
      (fun a : ℝ => a * 149597870691) sphericalToCartesianOverReals 132712440018000000000
      unitOrbitEphemeris 2451545 hconversion hradius (by norm_num)⟩

end ephemerides

end tudat
